import Mathlib

/-!
neofs-node: object placement, storage engine, shard, metabase locks, payload
ranges and the balance command.

Shallow embedding of

* `pkg/services/object/put/distributed.go` (`placementIterator.iterateNodesForObject`,
  `distributedTarget.Close`, `sendObject`, `decodeSignatures`),
* `pkg/local_object_storage/engine/{exists,put,list}.go` (`StorageEngine.exists`,
  `StorageEngine.Put`, `StorageEngine.ListWithCursor`),
* `pkg/local_object_storage/metabase/lock.go` (`DB.Lock`, `DB.FreeLockedBy`),
* `pkg/local_object_storage/shard/get.go` (`Shard.Get`),
* `pkg/local_object_storage/blobstor/internal/storagetest/get_range.go` (`TestGetRange`),
* `pkg/services/object/get/exec.go` (`execCtx.remoteClient`),
* `cmd/neofs-cli/modules/accounting/balance.go` (the balance command),

followed by the theorems that settle the claims about them.

Conventions.  Go `uint` values are natural numbers, the unsigned operations of
the source are written with an explicit reduction modulo `2^64`.  Collaborators
that live outside the embedded files (the send function `f`, the worker pool,
shards, the list codec of the metabase) are parameters.  Goroutines of one wave
are run one after another in the order in which the source starts them.
-/

set_option autoImplicit false

namespace PutSvc

/-! ## Unsigned machine arithmetic -/

/-- Number of values of a Go `uint` on the 64-bit targets of the node. -/
def uintSize : Nat := 2 ^ 64

/-- Unsigned subtraction `a - b` of two `uint`s (wraps around). -/
def usub (a b : Nat) : Nat := (a + uintSize - b % uintSize) % uintSize

/-- Unsigned increment `a++` of a `uint` (wraps around). -/
def uinc (a : Nat) : Nat := (a + 1) % uintSize

/-! ## Errors -/

/-- Concrete (dynamic) Go type of an error value.  `sync/atomic.Value.Store`
compares it: "All calls to Store for a given Value must use values of the same
concrete type. Store of an inconsistent type panics". -/
inductive DynType where
  | ext (tag : Nat)
  | errNotEnoughNodes
  | errIncompletePut
  | wrapError
  | wrapErrors
  deriving DecidableEq, Repr

/-- Error values that occur in `iterateNodesForObject`. -/
inductive Error where
  /-- an error produced by a collaborator (send function, worker pool, address
  decoding, node sorting); `tag` names its concrete Go type -/
  | ext (tag : Nat) (code : Nat)
  /-- `errNotEnoughNodes{listIndex, required, left}` -/
  | errNotEnoughNodes (listIndex : Nat) (required : Nat) (left : Nat)
  /-- `fmt.Errorf("%w (last node error: %w)", err, e)` -/
  | lastNodeError (err : Error) (e : Error)
  /-- `fmt.Errorf("%w (last node error: failed to decode network addresses: %w)", err, e)` -/
  | decodeAddresses (err : Error) (e : Error)
  /-- `errIncompletePut{singleErr}` -/
  | errIncompletePut (singleErr : Error)
  /-- `fmt.Errorf("sort container nodes for the object: %w", err)` -/
  | sortNodes (err : Error)
  deriving DecidableEq, Repr

/-- Concrete Go type of an error value. -/
def Error.dynType : Error → DynType
  | .ext tag _ => .ext tag
  | .errNotEnoughNodes _ _ _ => .errNotEnoughNodes
  | .lastNodeError _ _ => .wrapErrors
  | .decodeAddresses _ _ => .wrapErrors
  | .errIncompletePut _ => .errIncompletePut
  | .sortNodes _ => .wrapError

/-! ## Data model of the placement iterator -/

/-- Binary public key of a storage node (the map key `string(pk)`). -/
abbrev PubKey := Nat

/-- Node record of the network map: `netmap.NodeInfo`. -/
structure NetmapNodeInfo where
  publicKey : PubKey
  endpoints : List Nat
  deriving DecidableEq, Repr

/-- Decoded node record: `client.NodeInfo`. -/
structure ClientNodeInfo where
  addressGroup : List Nat
  publicKey : PubKey
  deriving DecidableEq, Repr

/-- Go type `nodeDesc`. -/
structure NodeDesc where
  isLocal : Bool
  info : ClientNodeInfo
  deriving DecidableEq, Repr

/-- Go type `nodeResult` local to `iterateNodesForObject`. -/
structure NodeResult where
  convertErr : Option Error
  desc : NodeDesc
  succeeded : Bool
  deriving DecidableEq, Repr

/-- Zero value of `nodeResult`, what a read of a missing map key yields. -/
def NodeResult.zero : NodeResult :=
  { convertErr := none, desc := { isLocal := false, info := { addressGroup := [], publicKey := 0 } },
    succeeded := false }

/-- One element of `nodesCounters`. -/
structure Counters where
  stored : Nat
  processed : Nat
  deriving DecidableEq, Repr

/-- Collaborators of the iterator.  `σ` is the state of the outside world
(remote nodes, local storage, worker pool). -/
structure Env (σ : Type) where
  /-- `x.neoFSNet.IsLocalNodePublicKey` -/
  isLocalNodePublicKey : PubKey → Bool
  /-- `network.AddressGroup.FromIterator(network.NodeEndpointsIterator(nodeInfo))` -/
  fromIterator : NetmapNodeInfo → Except Error (List Nat)
  /-- the send function `f` -/
  f : σ → NodeDesc → Option Error × σ
  /-- `x.remotePool.Submit`: `some err` when the pool rejects the job -/
  submit : σ → Option Error × σ
  /-- whether the worker pool recovers a panic of a job it runs (as `ants`
  does) instead of letting it end the process -/
  poolRecovers : Bool

/-- Go type `placementIterator`, request-dependent part. -/
structure PlacementIterator where
  /-- result of `x.containerNodes.SortForObject(obj)` -/
  sortForObject : Except Error (List (List NetmapNodeInfo))
  /-- result of `x.containerNodes.PrimaryCounts()` -/
  primaryCounts : List Nat
  linearReplNum : Nat
  broadcast : Bool

/-- Local variables of `iterateNodesForObject` together with the outside world.
`calls` is a ghost log of the invocations of `f` (key of the node, returned
error), oldest first. -/
structure IterState (σ : Type) where
  world : σ
  nodesCounters : List Counters
  nodeResults : List (PubKey × NodeResult)
  lastRespErr : Option Error
  calls : List (PubKey × Option Error)

/-- How a piece of the function body ends. -/
inductive Signal where
  /-- control reaches the end of the piece -/
  | next
  /-- `return err` -/
  | ret (err : Error)
  /-- a run-time panic -/
  | panic
  /-- `break broadcast` -/
  | brk
  /-- the step budget of the model is exhausted -/
  | outOfFuel
  deriving DecidableEq, Repr

/-- Result of a piece of the function body. -/
structure Flow (σ : Type) where
  sig : Signal
  st : IterState σ

/-- What a call of `iterateNodesForObject` does. -/
inductive Outcome where
  /-- the function returns `err` (`none` is `nil`) -/
  | returned (err : Option Error)
  /-- the function does not return: a goroutine panics -/
  | panicked
  /-- the step budget of the model is exhausted -/
  | outOfFuel
  deriving DecidableEq, Repr

/-- Result of a run: the outcome and the final state. -/
structure RunResult (σ : Type) where
  outcome : Outcome
  st : IterState σ

/-- `nodesCounters[i]`. -/
def counterAt (cs : List Counters) (i : Nat) : Counters := cs.getD i ⟨0, 0⟩

/-- `nodesCounters[i].stored++`. -/
def incStored (cs : List Counters) (i : Nat) : List Counters :=
  cs.set i { counterAt cs i with stored := uinc (counterAt cs i).stored }

/-- `nodesCounters[i].processed++`; only executed under the loop guard
`processed < listLen`, where it cannot wrap. -/
def incProcessed (cs : List Counters) (i : Nat) : List Counters :=
  cs.set i { counterAt cs i with processed := (counterAt cs i).processed + 1 }

/-- `x.convertNodeInfo`. -/
def convertNodeInfo {σ : Type} (env : Env σ) (nodeInfo : NetmapNodeInfo) :
    ClientNodeInfo × Option Error :=
  match env.fromIterator nodeInfo with
  | .error err => ({ addressGroup := [], publicKey := 0 }, some err)
  | .ok endpoints => ({ addressGroup := endpoints, publicKey := nodeInfo.publicKey }, none)

/-- The `nodeResult` built for a node met for the first time (lines 474-476 and
534-536): local flag, and for a remote node the decoded record. -/
def newNodeResult {σ : Type} (env : Env σ) (nodeInfo : NetmapNodeInfo) : NodeResult :=
  if env.isLocalNodePublicKey nodeInfo.publicKey then
    { NodeResult.zero with desc := { NodeResult.zero.desc with isLocal := true } }
  else
    { convertErr := (convertNodeInfo env nodeInfo).2,
      desc := { isLocal := false, info := (convertNodeInfo env nodeInfo).1 },
      succeeded := false }

/-- `lastRespErr.Store(err)`: the second component is `true` when the store
panics because the concrete type differs from the one stored first. -/
def storeLastRespErr (cell : Option Error) (err : Error) : Option Error × Bool :=
  match cell with
  | none => (some err, false)
  | some old => if old.dynType = err.dynType then (some err, false) else (cell, true)

/-- The closure `processNode` (lines 418-438).  `listInd = none` stands for the
`-1` of the broadcast phase.  The second component tells whether the goroutine
panics in `lastRespErr.Store`. -/
def processNode {σ : Type} (env : Env σ) (pubKeyStr : PubKey) (listInd : Option Nat)
    (nr : NodeResult) (st : IterState σ) : IterState σ × Bool :=
  let res := env.f st.world nr.desc
  let err := res.1
  let nr1 : NodeResult :=
    match listInd with
    | some _ => { nr with succeeded := err.isNone }
    | none => nr
  let cs : List Counters :=
    match listInd with
    | some i => if err.isNone then incStored st.nodesCounters i else st.nodesCounters
    | none => st.nodesCounters
  let st1 : IterState σ :=
    { world := res.2, nodesCounters := cs, nodeResults := (pubKeyStr, nr1) :: st.nodeResults,
      lastRespErr := st.lastRespErr, calls := st.calls ++ [(pubKeyStr, err)] }
  match err with
  | none => (st1, false)
  | some e =>
    ({ st1 with lastRespErr := (storeLastRespErr st.lastRespErr e).1 },
      (storeLastRespErr st.lastRespErr e).2)

/-- Start of `processNode` on a node: in its own goroutine for the local node,
through the worker pool for a remote one (lines 501-512 and 547-558).  The
result says whether the pool rejected the job. -/
def startNode {σ : Type} (env : Env σ) (pks : PubKey) (listInd : Option Nat) (nr : NodeResult)
    (st : IterState σ) : Flow σ × Bool :=
  if nr.desc.isLocal then
    let r := processNode env pks listInd nr st
    (⟨if r.2 then .panic else .next, r.1⟩, false)
  else
    match env.submit st.world with
    | (some _, w) => (⟨.next, { st with world := w }⟩, true)
    | (none, w) =>
      let r := processNode env pks listInd nr { st with world := w }
      (⟨if r.2 && !env.poolRecovers then .panic else .next, r.1⟩, false)

/-- The loop over `nextNodeGroupKeys` (lines 496-513) followed by `wg.Wait()`. -/
def dispatchWave {σ : Type} (env : Env σ) (listInd : Nat) :
    List PubKey → IterState σ → Flow σ
  | [], st => ⟨.next, st⟩
  | pks :: rest, st =>
    let nr := (st.nodeResults.lookup pks).getD NodeResult.zero
    let r := (startNode env pks (some listInd) nr st).1
    match r.sig with
    | .next => dispatchWave env listInd rest r.st
    | s => ⟨s, r.st⟩

/-- The selection loop (lines 460-495).  Returns the flow and
`nextNodeGroupKeys`. -/
def selectNodes {σ : Type} (env : Env σ) (listInd : Nat) (nodes : List NetmapNodeInfo) :
    Nat → IterState σ → Nat → List PubKey → Flow σ × List PubKey
  | 0, st, _, next => (⟨.outOfFuel, st⟩, next)
  | fuel + 1, st, replRem, next =>
    let listLen := nodes.length
    let j := (counterAt st.nodesCounters listInd).processed
    if j < listLen ∧ next.length < replRem then
      match nodes[j]? with
      | none => (⟨.panic, st⟩, next)
      | some node =>
        let pks := node.publicKey
        match st.nodeResults.lookup pks with
        | some nr =>
          if nr.succeeded then
            selectNodes env listInd nodes fuel
              { st with nodesCounters := incProcessed (incStored st.nodesCounters listInd) listInd }
              (usub replRem 1) next
          else
            selectNodes env listInd nodes fuel
              { st with nodesCounters := incProcessed st.nodesCounters listInd } replRem next
        | none =>
          let nr := newNodeResult env node
          let st1 : IterState σ := { st with nodeResults := (pks, nr) :: st.nodeResults }
          match nr.convertErr with
          | none =>
            selectNodes env listInd nodes fuel
              { st1 with nodesCounters := incProcessed st1.nodesCounters listInd } replRem
              (next ++ [pks])
          | some convertErr =>
            if usub (usub listLen j) 1 < replRem then
              (⟨.ret (.errIncompletePut (.decodeAddresses
                  (.errNotEnoughNodes listInd replRem (usub (usub listLen j) 1)) convertErr)), st1⟩,
                next)
            else
              selectNodes env listInd nodes fuel
                { st1 with nodesCounters := incProcessed st1.nodesCounters listInd } replRem next
    else (⟨.next, st⟩, next)

/-- The wave loop `for { ... }` of one node list (lines 446-515). -/
def waves {σ : Type} (env : Env σ) (replCounts : List Nat) (listInd : Nat)
    (nodes : List NetmapNodeInfo) : Nat → IterState σ → Flow σ
  | 0, st => ⟨.outOfFuel, st⟩
  | fuel + 1, st =>
    match replCounts[listInd]? with
    | none => ⟨.panic, st⟩
    | some replCount =>
      let replRem := usub replCount (counterAt st.nodesCounters listInd).stored
      if replRem = 0 then ⟨.next, st⟩
      else
        let listLen := nodes.length
        let left := usub listLen (counterAt st.nodesCounters listInd).processed
        if left < replRem then
          let err := Error.errNotEnoughNodes listInd replRem left
          match st.lastRespErr with
          | some e => ⟨.ret (.errIncompletePut (.lastNodeError err e)), st⟩
          | none => ⟨.ret (.errIncompletePut err), st⟩
        else if 2 ^ 63 ≤ replRem then ⟨.panic, st⟩ -- slices.Grow with a negative int
        else
          let sel := selectNodes env listInd nodes (listLen + 1) st replRem []
          match sel.1.sig with
          | .next =>
            let d := dispatchWave env listInd sel.2 sel.1.st
            match d.sig with
            | .next => waves env replCounts listInd nodes fuel d.st
            | s => ⟨s, d.st⟩
          | s => ⟨s, sel.1.st⟩

/-- The loop `for i := range nodeLists` (lines 444-516), entered at list
`listInd` with the lists from there on. -/
def mainLoop {σ : Type} (env : Env σ) (replCounts : List Nat) :
    List (List NetmapNodeInfo) → Nat → IterState σ → Flow σ
  | [], _, st => ⟨.next, st⟩
  | nodes :: rest, listInd, st =>
    let r := waves env replCounts listInd nodes (nodes.length + 1) st
    match r.sig with
    | .next => mainLoop env replCounts rest (listInd + 1) r.st
    | s => ⟨s, r.st⟩

/-- Inner loop of the broadcast phase over one node list (lines 525-559). -/
def broadcastList {σ : Type} (env : Env σ) : List NetmapNodeInfo → IterState σ → Flow σ
  | [], st => ⟨.next, st⟩
  | node :: rest, st =>
    let pks := node.publicKey
    match st.nodeResults.lookup pks with
    | some _ => broadcastList env rest st
    | none =>
      let nr := newNodeResult env node
      let st1 : IterState σ := { st with nodeResults := (pks, nr) :: st.nodeResults }
      match nr.convertErr with
      | some _ => broadcastList env rest st1
      | none =>
        let r := startNode env pks none nr st1
        if r.2 then ⟨.brk, r.1.st⟩
        else
          match r.1.sig with
          | .next => broadcastList env rest r.1.st
          | s => ⟨s, r.1.st⟩

/-- Outer loop of the broadcast phase (lines 523-560). -/
def broadcastLists {σ : Type} (env : Env σ) : List (List NetmapNodeInfo) → IterState σ → Flow σ
  | [], st => ⟨.next, st⟩
  | nodes :: rest, st =>
    let r := broadcastList env nodes st
    match r.sig with
    | .next => broadcastLists env rest r.st
    | s => ⟨s, r.st⟩

/-- What follows the main loop (lines 517-562): the optional broadcast, then
`return nil`. -/
def finish {σ : Type} (env : Env σ) (broadcast : Bool) (nodeLists : List (List NetmapNodeInfo))
    (r : Flow σ) : RunResult σ :=
  match r.sig with
  | .ret err => ⟨.returned (some err), r.st⟩
  | .panic => ⟨.panicked, r.st⟩
  | .outOfFuel => ⟨.outOfFuel, r.st⟩
  | .brk => ⟨.returned none, r.st⟩
  | .next =>
    if !broadcast then ⟨.returned none, r.st⟩
    else
      let b := broadcastLists env nodeLists r.st
      match b.sig with
      | .panic => ⟨.panicked, b.st⟩
      | .outOfFuel => ⟨.outOfFuel, b.st⟩
      | _ => ⟨.returned none, b.st⟩

/-- Node lists and replica numbers the loops work on (lines 395-401). -/
def effectiveLists (x : PlacementIterator) (nodeLists : List (List NetmapNodeInfo)) :
    List (List NetmapNodeInfo) × List Nat :=
  if x.linearReplNum > 0 then ([nodeLists.flatten], [x.linearReplNum])
  else (nodeLists, x.primaryCounts)

/-- State at the entry of the main loop (lines 402-416). -/
def initState {σ : Type} (w : σ) (nodeLists : List (List NetmapNodeInfo)) : IterState σ :=
  { world := w, nodesCounters := List.replicate nodeLists.length ⟨0, 0⟩, nodeResults := [],
    lastRespErr := none, calls := [] }

/-- The method `placementIterator.iterateNodesForObject` (lines 388-563), run
in the world `w`. -/
def iterateNodesForObject {σ : Type} (env : Env σ) (x : PlacementIterator) (w : σ) :
    RunResult σ :=
  match x.sortForObject with
  | .error err => ⟨.returned (some (.sortNodes err)), initState w []⟩
  | .ok nodeLists =>
    let eff := effectiveLists x nodeLists
    finish env x.broadcast eff.1 (mainLoop env eff.2 eff.1 0 (initState w eff.1))

end PutSvc

namespace Engine

/-! ## Storage engine: `exists` and `Put`

Shards, their worker pools and the ordering `sortedShards` live outside the
embedded files; a shard is represented by what it answers.  Every call made to
a shard or a pool is logged, in order. -/

/-- Address of an object. -/
abbrev Address := Nat

/-- Identifier of a shard. -/
abbrev ShardID := Nat

/-- An error returned by `Shard.Exists`, described by the predicates the engine
applies to it. -/
structure ShardError where
  /-- `shard.IsErrRemoved(err)` -/
  isRemoved : Bool
  /-- `errors.As(err, &siErr)` with `siErr *objectSDK.SplitInfoError` -/
  isSplitInfo : Bool
  /-- `shard.IsErrObjectExpired(err)` -/
  isExpired : Bool
  /-- `shard.IsErrNotFound(err)` -/
  isNotFound : Bool
  code : Nat
  deriving DecidableEq, Repr

/-- Result of `Shard.Exists`. -/
inductive ExistsRes where
  | found (res : Bool)
  | failed (err : ShardError)
  deriving DecidableEq, Repr

/-- An error returned by `Shard.Put`; `isCapacity` is the disjunction of
`errors.Is` with `shard.ErrReadOnlyMode`, `blobstor.ErrNoPlaceFound`,
`common.ErrReadOnly` and `common.ErrNoSpace`. -/
structure PutError where
  isCapacity : Bool
  code : Nat
  deriving DecidableEq, Repr

/-- An error returned by `pool.Submit`; `isOverload` is
`errors.Is(err, ants.ErrPoolOverload)`. -/
structure PoolError where
  isOverload : Bool
  code : Nat
  deriving DecidableEq, Repr

/-- A shard as the engine sees it. -/
structure Shard where
  id : ShardID
  /-- `sh.Exists` for an address -/
  existsRes : Address → ExistsRes
  /-- `sh.Put` of the object with the given address; `none` is success -/
  putRes : Address → Option PutError
  /-- the entry of the shard in `e.shardPools`, if any: the answer of its
  `Submit` to the n-th job offered during the call; `none` is acceptance -/
  pool : Option (Nat → Option PoolError)

/-- Go type `StorageEngine`, the part read by `exists` and `Put`. -/
structure StorageEngine where
  blockErr : Option Nat
  /-- `e.sortedShards(addr)` -/
  sortedShards : Address → List Shard

/-- Calls made by the engine. -/
inductive Event where
  | shardExists (id : ShardID)
  | shardPut (id : ShardID)
  | shardToMoveIt (id : ShardID)
  | poolSubmit (id : ShardID)
  | reportShardError (id : ShardID)
  deriving DecidableEq, Repr

/-- Errors returned by the engine. -/
inductive EngineError where
  /-- `e.blockErr` -/
  | blocked (code : Nat)
  /-- `apistatus.ObjectAlreadyRemoved{}` -/
  | objectAlreadyRemoved
  /-- `errPutShard` -/
  | errPutShard
  deriving DecidableEq, Repr

/-- Result of `exists` with the calls it made. -/
structure ExistsResult where
  res : Bool
  err : Option EngineError
  trace : List Event
  deriving DecidableEq, Repr

/-- The loop of `StorageEngine.exists` over the sorted shards (lines 18-44 of
`exists.go`). -/
def existsLoop (addr : Address) : List Shard → ExistsResult
  | [] => ⟨false, none, []⟩
  | sh :: rest =>
    match sh.existsRes addr with
    | .failed err =>
      if err.isRemoved then ⟨false, some .objectAlreadyRemoved, [.shardExists sh.id]⟩
      else if err.isSplitInfo then ⟨false, none, [.shardExists sh.id]⟩
      else if err.isExpired then ⟨false, none, [.shardExists sh.id]⟩
      else
        let r := existsLoop addr rest
        if !err.isNotFound then
          { r with trace := .shardExists sh.id :: .reportShardError sh.id :: r.trace }
        else { r with trace := .shardExists sh.id :: r.trace }
    | .found res =>
      if res then ⟨true, none, [.shardExists sh.id]⟩
      else
        let r := existsLoop addr rest
        { r with trace := .shardExists sh.id :: r.trace }

/-- The method `StorageEngine.exists`. -/
def StorageEngine.exists (e : StorageEngine) (addr : Address) : ExistsResult :=
  existsLoop addr (e.sortedShards addr)

/-- Result of `putToShard` with the calls it made. -/
structure PutToShardResult where
  putSuccess : Bool
  alreadyExists : Bool
  overloaded : Bool
  trace : List Event
  deriving DecidableEq, Repr

/-- The method `StorageEngine.putToShard` (lines 87-167 of `put.go`) for the
shard `sh` with its pool `pool`; `attempt` numbers the jobs offered to the
pool. -/
def putToShard (sh : Shard) (ind : Nat) (pool : Nat → Option PoolError) (attempt : Nat)
    (addr : Address) : PutToShardResult :=
  match pool attempt with
  | some perr => ⟨false, false, perr.isOverload, [.poolSubmit sh.id]⟩
  | none =>
    match sh.existsRes addr with
    | .failed err => ⟨false, err.isExpired, false, [.poolSubmit sh.id, .shardExists sh.id]⟩
    | .found true =>
      ⟨false, true, false,
        [.poolSubmit sh.id, .shardExists sh.id] ++
          (if ind ≠ 0 then [.shardToMoveIt sh.id] else [])⟩
    | .found false =>
      match sh.putRes addr with
      | some err =>
        ⟨false, false, false,
          [.poolSubmit sh.id, .shardExists sh.id, .shardPut sh.id] ++
            (if err.isCapacity then [] else [.reportShardError sh.id])⟩
      | none => ⟨true, false, false, [.poolSubmit sh.id, .shardExists sh.id, .shardPut sh.id]⟩

/-- The method `StorageEngine.putToShardWithDeadLine` (lines 169-193).  `ticks`
is the number of ticks of the 100 ms ticker that are served before the 30 s
timer. -/
def putToShardWithDeadLine (sh : Shard) (ind : Nat) (pool : Nat → Option PoolError)
    (addr : Address) : Nat → Nat → Bool × List Event
  | 0, _ => (false, [])
  | ticks + 1, attempt =>
    let r := putToShard sh ind pool attempt addr
    if r.overloaded then
      let d := putToShardWithDeadLine sh ind pool addr ticks (attempt + 1)
      (d.1, r.trace ++ d.2)
    else (r.putSuccess || r.alreadyExists, r.trace)

/-- Result of the loop of `Put` over the sorted shards. -/
structure PutLoopResult where
  done : Bool
  /-- `bestShard` with `bestPool` -/
  best : Option (Shard × (Nat → Option PoolError))
  trace : List Event

/-- The loop of `Put` over the sorted shards (lines 54-71). -/
def putLoop (addr : Address) :
    List Shard → Nat → Option (Shard × (Nat → Option PoolError)) → PutLoopResult
  | [], _, best => ⟨false, best, []⟩
  | sh :: rest, i, best =>
    match sh.pool with
    | none => putLoop addr rest (i + 1) best
    | some pool =>
      let best1 := match best with
        | none => some (sh, pool)
        | some b => some b
      let r := putToShard sh i pool 0 addr
      if r.putSuccess || r.alreadyExists then ⟨true, best1, r.trace⟩
      else
        let l := putLoop addr rest (i + 1) best1
        { l with trace := r.trace ++ l.trace }

/-- What a call of `Put` does. -/
inductive PutOutcome where
  | returned (err : Option EngineError)
  /-- nil pool: no sorted shard has a pool -/
  | panicked
  deriving DecidableEq, Repr

/-- Result of `Put` with the calls it made. -/
structure PutResult where
  outcome : PutOutcome
  trace : List Event
  deriving DecidableEq, Repr

/-- The method `StorageEngine.Put` (lines 30-81) for the object with address
`addr`.  The boolean returned by `e.exists` is dropped, as in the source
(`_, err := e.exists(addr)`). -/
def StorageEngine.Put (e : StorageEngine) (addr : Address) (ticks : Nat) : PutResult :=
  match e.blockErr with
  | some code => ⟨.returned (some (.blocked code)), []⟩
  | none =>
    let ex := e.exists addr
    match ex.err with
    | some err => ⟨.returned (some err), ex.trace⟩
    | none =>
      let l := putLoop addr (e.sortedShards addr) 0 none
      if l.done then ⟨.returned none, ex.trace ++ l.trace⟩
      else
        match l.best with
        | none => ⟨.panicked, ex.trace ++ l.trace⟩
        | some (bestShard, bestPool) =>
          let d := putToShardWithDeadLine bestShard 0 bestPool addr ticks 1
          ⟨.returned (if d.1 then none else some .errPutShard), ex.trace ++ l.trace ++ d.2⟩

/-- An error of `Shard.Exists` that is a plain not-found. -/
def ShardError.notFoundOnly (err : ShardError) : Bool :=
  !err.isRemoved && !err.isSplitInfo && !err.isExpired && err.isNotFound

/-- An error of `Shard.Exists` that is none of removed, split-info, expired and
not-found. -/
def ShardError.isOther (err : ShardError) : Bool :=
  !err.isRemoved && !err.isSplitInfo && !err.isExpired && !err.isNotFound

/-- The shard reports neither existence nor removal of the address and lets the
scan of `exists` go on: non-existence, or an error that is not removed,
split-info or expired. -/
def Shard.passes (sh : Shard) (addr : Address) : Bool :=
  match sh.existsRes addr with
  | .found res => !res
  | .failed err => !err.isRemoved && !err.isSplitInfo && !err.isExpired

/-- The shard reports not-found or non-existence of the address. -/
def Shard.misses (sh : Shard) (addr : Address) : Bool :=
  match sh.existsRes addr with
  | .found res => !res
  | .failed err => err.notFoundOnly

/-- A shard with fixed answers whose pool accepts every job. -/
def shardOf (id : ShardID) (ex : ExistsRes) (put : Option PutError) : Shard :=
  { id := id, existsRes := fun _ => ex, putRes := fun _ => put, pool := some (fun _ => none) }

/-- An engine that is not blocked, with a fixed order of shards. -/
def engineOf (shards : List Shard) : StorageEngine :=
  { blockErr := none, sortedShards := fun _ => shards }

end Engine

namespace Meta

/-! ## Metabase: `DB.Lock`

The bbolt store is a sorted key-value list per bucket.  The list codec
(`encodeList`, `decodeList`) and `fetchTypeForID` live outside the embedded
file and are parameters. -/

/-- Container identifier. -/
abbrev CID := Nat

/-- Object identifier, also its 32-byte bucket key `objectKey(id, ...)`. -/
abbrev OID := Nat

/-- Stored value. -/
abbrev Bytes := List Nat

/-- Object types. -/
inductive ObjType where
  | regular
  | tombstone
  | storageGroup
  | lock
  | link
  deriving DecidableEq, Repr

/-- Result of `fetchTypeForID`. -/
inductive TypeRes where
  | ok (typ : ObjType)
  /-- `errObjTypeNotFound` -/
  | notFound
  /-- any other error (inconsistent DB) -/
  | failed (code : Nat)
  deriving DecidableEq, Repr

/-- Errors returned by `Lock`. -/
inductive LockError where
  | errDegradedMode
  | errReadOnlyMode
  /-- `logicerr.Wrap(apistatus.LockNonRegularObject{})` -/
  | lockNonRegularObject
  /-- "decode list of object lockers: %w" -/
  | decodeLockers (code : Nat)
  /-- "encode list of object lockers: %w" -/
  | encodeLockers (code : Nat)
  /-- "update list of object lockers: %w" -/
  | updateLockers (code : Nat)
  deriving DecidableEq, Repr

/-- The list codec of the metabase and the limits of the store. -/
structure Codec where
  encodeList : List OID → Except Nat Bytes
  decodeList : Bytes → Except Nat (List OID)
  /-- error of `Bucket.Put` for a value, if any (bbolt refuses too large values) -/
  putErr : Bytes → Option Nat

/-- `decodeList` inverts `encodeList`. -/
def Codec.RoundTrip (c : Codec) : Prop :=
  ∀ l b, c.encodeList l = .ok b → c.decodeList b = .ok l

/-- A bbolt bucket: keys in ascending order with their values. -/
abbrev Bucket (β : Type) := List (Nat × β)

/-- `Bucket.Get`. -/
def Bucket.get {β : Type} (b : Bucket β) (k : Nat) : Option β := List.lookup k b

/-- `Bucket.Put`: replaces the value of an existing key, inserts a new key at
its place in the order. -/
def Bucket.put {β : Type} (k : Nat) (v : β) : Bucket β → Bucket β
  | [] => [(k, v)]
  | (k1, v1) :: rest =>
    if k = k1 then (k, v) :: rest
    else if k < k1 then (k, v) :: (k1, v1) :: rest
    else (k1, v1) :: Bucket.put k v rest

/-- Mode of the metabase. -/
structure Mode where
  noMetabase : Bool
  readOnly : Bool
  deriving DecidableEq, Repr

/-- Go type `DB`, the part `Lock` works on. -/
structure DB where
  mode : Mode
  /-- the meta bucket of a container, if it exists, as the function
  `fetchTypeForID` computes on it -/
  metaBucket : CID → Option (OID → TypeRes)
  /-- the bucket `bucketNameLocked`, if it exists: one bucket per container,
  mapping a locked object to the encoded list of its lockers -/
  lockedBucket : Option (Bucket (Bucket Bytes))

/-- What a call of `Lock` does. -/
inductive LockOutcome where
  | returned (err : Option LockError)
  | panicked
  deriving DecidableEq, Repr

/-- The check that all objects are regular (lines 53-70): `true` when an
object of another type is met. -/
def hasNonRegular (typeOf : OID → TypeRes) : List OID → Bool
  | [] => false
  | id :: rest =>
    match typeOf id with
    | .ok typ => if typ ≠ .regular then true else hasNonRegular typeOf rest
    | .notFound => hasNonRegular typeOf rest
    | .failed _ => hasNonRegular typeOf rest

/-- The loop over `bucketKeysLocked` (lines 84-110) on the container bucket. -/
def lockLoop (c : Codec) (keyLocker : OID) : List OID → Bucket Bytes → Except LockError (Bucket Bytes)
  | [], bkt => .ok bkt
  | key :: rest, bkt =>
    match c.decodeList ((bkt.get key).getD []) with
    | .error code => .error (.decodeLockers code)
    | .ok exLockers =>
      if exLockers.contains keyLocker then lockLoop c keyLocker rest bkt
      else
        match c.encodeList (exLockers ++ [keyLocker]) with
        | .error code => .error (.encodeLockers code)
        | .ok updLockers =>
          match c.putErr updLockers with
          | some code => .error (.updateLockers code)
          | none => lockLoop c keyLocker rest (Bucket.put key updLockers bkt)

/-- The method `DB.Lock` (lines 25-114): the outcome and the state of the DB
after the call.  A transaction that returns an error is rolled back; the commit
of a transaction that returns nil is taken to succeed.
`CreateBucketIfNotExists` cannot fail here: its key is a container id, not
empty, and the bucket of locks holds nothing but buckets. -/
def DB.Lock (c : Codec) (db : DB) (cnr : CID) (locker : OID) (locked : List OID) :
    LockOutcome × DB :=
  if db.mode.noMetabase then (.returned (some .errDegradedMode), db)
  else if db.mode.readOnly then (.returned (some .errReadOnlyMode), db)
  else if locked.length = 0 then (.panicked, db)
  else
    let nonRegular :=
      match db.metaBucket cnr with
      | some typeOf => hasNonRegular typeOf locked
      | none => false
    if nonRegular then (.returned (some .lockNonRegularObject), db)
    else
      match db.lockedBucket with
      | none => (.panicked, db) -- method call on the nil bucket
      | some bucketLocked =>
        let bucketLockedContainer := (Bucket.get bucketLocked cnr).getD []
        match lockLoop c locker locked bucketLockedContainer with
        | .error err => (.returned (some err), db)
        | .ok bkt =>
          (.returned none, { db with lockedBucket := some (Bucket.put cnr bkt bucketLocked) })

/-- A codec that stores a list as it is. -/
def plainCodec : Codec :=
  { encodeList := fun l => .ok l, decodeList := fun b => .ok b, putErr := fun _ => none }

/-- A writable DB without objects and locks. -/
def emptyDB : DB :=
  { mode := ⟨false, false⟩, metaBucket := fun _ => none, lockedBucket := some [] }

end Meta

namespace ShardPkg

/-! ## Shard: `Get` and `fetchObjectData`

The metabase, the write-cache and the blobstor live outside the embedded file;
a shard is represented by what they answer.  Every read of them is logged, in
order. -/

/-- Address of an object. -/
abbrev Address := Nat

/-- An object, as returned by a storage. -/
abbrev Object := Nat

/-- An error returned by the metabase, the write-cache or the blobstor,
described by the predicates the shard applies to it.  These packages are
imported by the shard package and cannot refer to its `ErrMetaWithNoObject`. -/
structure BaseError where
  /-- `IsErrOutOfRange(err)` -/
  isOutOfRange : Bool
  /-- `IsErrNotFound(err)` -/
  isNotFound : Bool
  code : Nat
  deriving DecidableEq, Repr

/-- Errors returned by `Get` and `fetchObjectData`. -/
inductive GetError where
  /-- an error of the metabase, the write-cache or the blobstor, as it is -/
  | ext (err : BaseError)
  /-- `logicerr.Wrap(apistatus.ObjectNotFound{})` -/
  | objectNotFound
  /-- `fmt.Errorf("%w, %w", err, ErrMetaWithNoObject)` -/
  | withNoObject (err : GetError)
  deriving DecidableEq, Repr

/-- `errors.Is(err, ErrMetaWithNoObject)`. -/
def GetError.wrapsMetaWithNoObject : GetError → Bool
  | .ext _ => false
  | .objectNotFound => false
  | .withNoObject _ => true

/-- `errors.Is(err, target)` for an error `target` of a collaborator. -/
def GetError.wrapsBase (target : BaseError) : GetError → Bool
  | .ext err => err == target
  | .objectNotFound => false
  | .withNoObject err => err.wrapsBase target

/-- Go type `Shard`, the part `Get` reads. -/
structure Shard where
  /-- `s.info.Mode.NoMetabase()` -/
  noMetabase : Bool
  /-- `s.metaBase.Exists(addr, false)` -/
  metaExists : Address → Bool × Option BaseError
  /-- the write-cache, if the shard has one: its `Get` -/
  writeCache : Option (Address → Except BaseError Object)
  /-- `Get` of the blobstor -/
  blobStor : Address → Except BaseError Object

/-- Reads made by the shard. -/
inductive Event where
  | metaExists
  | writeCacheGet
  | blobStorGet
  deriving DecidableEq, Repr

/-- Result of `fetchObjectData`: the two returned values, the variables
captured by the callbacks, and the reads made. -/
structure FetchResult (ρ : Type) where
  gotMeta : Bool
  err : Option GetError
  captured : ρ
  trace : List Event

/-- The method `Shard.fetchObjectData` (lines 64-108 of `get.go`).  The
callbacks get the storage they read and the variables they capture (`ρ`). -/
def Shard.fetchObjectData {ρ : Type} (s : Shard) (addr : Address) (skipMeta : Bool)
    (storageFunc : (Address → Except BaseError Object) → ρ → Option BaseError × ρ)
    (wc : (Address → Except BaseError Object) → ρ → Option BaseError × ρ) (r : ρ) :
    FetchResult ρ :=
  let m : Bool × Option BaseError := if !skipMeta then s.metaExists addr else (false, none)
  let t0 : List Event := if !skipMeta then [.metaExists] else []
  if !skipMeta && m.2.isSome && !s.noMetabase then ⟨false, m.2.map .ext, r, t0⟩
  else
    let viaBlobStor (r1 : ρ) (t1 : List Event) : FetchResult ρ :=
      if skipMeta || m.2.isSome then
        let b := storageFunc s.blobStor r1
        ⟨false, b.1.map .ext, b.2, t1 ++ [.blobStorGet]⟩
      else if !m.1 then ⟨false, some .objectNotFound, r1, t1⟩
      else
        let b := storageFunc s.blobStor r1
        ⟨true, b.1.map .ext, b.2, t1 ++ [.blobStorGet]⟩
    match s.writeCache with
    | some cache =>
      let c := wc cache r
      match c.1 with
      | none => ⟨m.1, none, c.2, t0 ++ [.writeCacheGet]⟩
      | some err =>
        if err.isOutOfRange then ⟨m.1, some (.ext err), c.2, t0 ++ [.writeCacheGet]⟩
        else viaBlobStor c.2 (t0 ++ [.writeCacheGet])
    | none => viaBlobStor r t0

/-- The callbacks `cb` and `wc` of `Get` (lines 34-50): read the object at
`addr` and keep it in `res`. -/
def getCallback (addr : Address) (stor : Address → Except BaseError Object)
    (res : Option Object) : Option BaseError × Option Object :=
  match stor addr with
  | .error err => (some err, res)
  | .ok obj => (none, some obj)

/-- Result of `Get` with the reads made. -/
structure GetResult where
  res : Option Object
  err : Option GetError
  trace : List Event
  deriving DecidableEq, Repr

/-- The method `Shard.Get` (lines 28-59). -/
def Shard.Get (s : Shard) (addr : Address) (skipMeta : Bool) : GetResult :=
  let skipMeta1 := skipMeta || s.noMetabase
  let f := s.fetchObjectData addr skipMeta1 (getCallback addr) (getCallback addr) none
  match f.err with
  | some err =>
    if f.gotMeta then ⟨f.captured, some (.withNoObject err), f.trace⟩
    else ⟨f.captured, some err, f.trace⟩
  | none => ⟨f.captured, none, f.trace⟩

/-- A shard with a metabase, fixed answers for every address. -/
def fixedShard (metaExists : Bool × Option BaseError)
    (writeCache : Option (Except BaseError Object)) (blobStor : Except BaseError Object) :
    Shard :=
  { noMetabase := false, metaExists := fun _ => metaExists,
    writeCache := writeCache.map (fun r _ => r), blobStor := fun _ => blobStor }

end ShardPkg

namespace ShardPkg

/-- `errors.Is(err, ErrMetaWithNoObject)` for a returned error that may be
nil. -/
def marked (err : Option GetError) : Bool :=
  match err with
  | some e => e.wrapsMetaWithNoObject
  | none => false

/-- Error of the read of the blobstor at `addr`, if it fails. -/
def Shard.blobStorError (s : Shard) (addr : Address) : Option BaseError :=
  match s.blobStor addr with
  | .error err => some err
  | .ok _ => none

/-- Error in which the payload reads of `Get` end, if any: the out-of-range
error of the write-cache, or the error of the blobstor when the shard has no
write-cache or its write-cache fails with another error. -/
def Shard.payloadError (s : Shard) (addr : Address) : Option BaseError :=
  match s.writeCache with
  | none => s.blobStorError addr
  | some cache =>
    match cache addr with
    | .ok _ => none
    | .error err => if err.isOutOfRange then some err else s.blobStorError addr

end ShardPkg

namespace PutSvc

/-! ## Specification vocabulary for the placement iterator -/

/-- The send function was invoked on the node with key `k` and returned nil. -/
def okCalled (calls : List (PubKey × Option Error)) (k : PubKey) : Bool :=
  decide ((k, (none : Option Error)) ∈ calls)

/-- Number of distinct public keys of `nodes` on which the send function was
invoked and returned nil. -/
def storedOn (calls : List (PubKey × Option Error)) (nodes : List NetmapNodeInfo) : Nat :=
  (((nodes.map (fun n => n.publicKey)).dedup).filter (okCalled calls)).length

/-- Invariant of the loops of `iterateNodesForObject` over the node lists `L`:
a node recorded as succeeded was sent to with a nil result, every node sent to
is recorded, no key was sent to twice, and the `stored` counter of a list counts
only processed positions of the list whose node was sent to with a nil result;
there is one pair of counters per list. -/
structure Inv {σ : Type} (L : List (List NetmapNodeInfo)) (st : IterState σ) : Prop where
  succ_called : ∀ k nr, st.nodeResults.lookup k = some nr → nr.succeeded = true →
    (k, (none : Option Error)) ∈ st.calls
  called_rec : ∀ c ∈ st.calls, (st.nodeResults.lookup c.1).isSome = true
  calls_nodup : (st.calls.map Prod.fst).Nodup
  stored_le : ∀ j, (counterAt st.nodesCounters j).stored ≤
    ((L.getD j []).take (counterAt st.nodesCounters j).processed).countP
      (fun n => okCalled st.calls n.publicKey)
  stored_lt : ∀ j, (counterAt st.nodesCounters j).stored < uintSize
  counters_len : st.nodesCounters.length = L.length

/-- Condition on the keys selected for the current wave of list `i`: they are
pairwise different, recorded, not yet sent to, and belong to processed positions
of the list. -/
structure NextOK {σ : Type} (L : List (List NetmapNodeInfo)) (i : Nat) (st : IterState σ)
    (next : List PubKey) : Prop where
  nodup : next.Nodup
  fresh : ∀ k ∈ next, k ∉ st.calls.map Prod.fst
  recorded : ∀ k ∈ next, (st.nodeResults.lookup k).isSome = true
  inList : ∀ k ∈ next, ∃ n ∈ (L.getD i []).take (counterAt st.nodesCounters i).processed,
    n.publicKey = k

/-- Relation between the states before and after the start of `processNode` on
the node with key `k`: the log of calls only grows, and only by calls on `k`;
recorded nodes stay recorded; the `processed` counters do not move. -/
structure Sent {σ : Type} (k : PubKey) (st st1 : IterState σ) : Prop where
  calls_sub : ∀ c ∈ st.calls, c ∈ st1.calls
  calls_keys : ∀ c ∈ st1.calls, c ∈ st.calls ∨ c.1 = k
  rec_mono : ∀ k1, (st.nodeResults.lookup k1).isSome = true →
    (st1.nodeResults.lookup k1).isSome = true
  processed_eq : ∀ j, (counterAt st1.nodesCounters j).processed =
    (counterAt st.nodesCounters j).processed

/-- Bounds on the counters over the node lists `L`: one pair of counters per
list, and no list has more processed nodes than nodes. -/
structure Bounded {σ : Type} (L : List (List NetmapNodeInfo)) (st : IterState σ) : Prop where
  counters_len : st.nodesCounters.length = L.length
  proc_le : ∀ j, (counterAt st.nodesCounters j).processed ≤ (L.getD j []).length

end PutSvc

namespace PutSvc

/-! ## Concrete inputs of the placement iterator -/

/-- A node of the network map with key `k`. -/
def nodeOf (k : PubKey) : NetmapNodeInfo := { publicKey := k, endpoints := [k] }

/-- A placement iterator in non-linear mode over the lists of keys `lists`. -/
def iterOf (lists : List (List PubKey)) (counts : List Nat) (broadcast : Bool) :
    PlacementIterator :=
  { sortForObject := .ok (lists.map (fun l => l.map nodeOf)),
    primaryCounts := counts, linearReplNum := 0, broadcast := broadcast }

/-- An environment without outside state: the node with key `loc` is the local
one, endpoints always decode, the pool accepts every job and recovers panics of
its jobs, and `f` fails exactly on the remote nodes listed in `remoteFails` (with
an error of the listed concrete type) and, when `localFails = some tag`, on the
local node. -/
def envOf (loc : PubKey) (remoteFails : List (PubKey × Nat)) (localFails : Option Nat) :
    Env Unit :=
  { isLocalNodePublicKey := fun k => k == loc,
    fromIterator := fun n => .ok n.endpoints,
    f := fun w d =>
      (if d.isLocal then localFails.map (fun tag => Error.ext tag 0)
       else (remoteFails.lookup d.info.publicKey).map (fun tag => Error.ext tag 0), w),
    submit := fun w => (none, w),
    poolRecovers := true }

end PutSvc

namespace Meta

/-- The object `key` has a stored, decodable list of lockers that contains
`locker`. -/
def LockedBy (c : Codec) (locker : OID) (bkt : Bucket Bytes) (key : OID) : Prop :=
  ∃ l, c.decodeList ((Bucket.get bkt key).getD []) = .ok l ∧ l.contains locker = true

end Meta

namespace PutSvc

/-! ## Vocabulary for the exact behaviour under well-behaved collaborators -/

/-- Assumptions on the collaborators over the node lists `L`: every node's
endpoints convert, the worker pool accepts every job, the outcome of `f` on the
descriptor of a node is decided by the node's key alone (`ok` tells on which
keys `f` succeeds), and all errors `f` returns have one concrete type. -/
structure Good {σ : Type} (env : Env σ) (L : List (List NetmapNodeInfo)) (ok : PubKey → Bool) :
    Prop where
  conv : ∀ l ∈ L, ∀ n ∈ l, ∃ eps, env.fromIterator n = .ok eps
  pool : ∀ w, (env.submit w).1 = none
  fok : ∀ w, ∀ l ∈ L, ∀ n ∈ l,
    ((env.f w (newNodeResult env n).desc).1).isNone = ok n.publicKey
  ftype : ∀ w w1 d d1 e e1, (env.f w d).1 = some e → (env.f w1 d1).1 = some e1 →
    e.dynType = e1.dynType

/-- Well-formed input: no key twice inside a list, list lengths are Go slice
lengths, replica numbers are `uint`s, one per list. -/
structure WellFormed (L : List (List NetmapNodeInfo)) (replCounts : List Nat) : Prop where
  nodup : ∀ l ∈ L, (l.map (fun n => n.publicKey)).Nodup
  lens : ∀ l ∈ L, l.length < 2 ^ 63
  counts : ∀ c ∈ replCounts, c < uintSize
  len_eq : replCounts.length = L.length

/-- Exact invariant of the loops under `Good` collaborators, while list `i` is
worked on and the keys `pending` are selected but not yet sent to: every
recorded node carries the descriptor of a node of the lists and, unless
pending, the outcome of `f` on it; `stored` counts exactly the processed
positions on whose node `f` succeeds, the pending ones left out. -/
structure Exact {σ : Type} (env : Env σ) (L : List (List NetmapNodeInfo)) (ok : PubKey → Bool)
    (i : Nat) (pending : List PubKey) (st : IterState σ) : Prop where
  rec_desc : ∀ k nr, st.nodeResults.lookup k = some nr →
    ∃ l ∈ L, ∃ n ∈ l, n.publicKey = k ∧ nr.desc = (newNodeResult env n).desc
  rec_done : ∀ k nr, st.nodeResults.lookup k = some nr → k ∉ pending → nr.succeeded = ok k
  pend_nodup : pending.Nodup
  pend_rec : ∀ k ∈ pending, (st.nodeResults.lookup k).isSome = true
  pend_in : ∀ k ∈ pending,
    ∃ n ∈ (L.getD i []).take (counterAt st.nodesCounters i).processed, n.publicKey = k
  cnt_cur : (counterAt st.nodesCounters i).stored + pending.countP ok =
    ((L.getD i []).take (counterAt st.nodesCounters i).processed).countP
      (fun n => ok n.publicKey)
  cnt_other : ∀ j, j ≠ i → (counterAt st.nodesCounters j).stored =
    ((L.getD j []).take (counterAt st.nodesCounters j).processed).countP
      (fun n => ok n.publicKey)
  proc_le : ∀ j, (counterAt st.nodesCounters j).processed ≤ (L.getD j []).length
  last_f : ∀ e, st.lastRespErr = some e → ∃ w d, (env.f w d).1 = some e
  counters_len : st.nodesCounters.length = L.length

end PutSvc

namespace Meta

/-! ## Metabase: `IsLocked` and `FreeLockedBy` -/

/-- Address of an object: container and object identifier. -/
abbrev Address := CID × OID

/-- The function `objectLocked` (lines 143-154): the object has a record in
the bucket of its container. -/
def objectLocked (db : DB) (idCnr : CID) (idObj : OID) : Bool :=
  match db.lockedBucket with
  | some bucketLocked =>
    match Bucket.get bucketLocked idCnr with
    | some bucketLockedContainer => (Bucket.get bucketLockedContainer idObj).isSome
    | none => false
  | none => false

/-- The method `DB.IsLocked` (lines 250-264).  The returned flag is the one
the read transaction has set: the call of `View` is evaluated before the
variable `locked` is read. -/
def DB.IsLocked (db : DB) (addr : Address) : Bool × Option LockError :=
  if db.mode.noMetabase then (false, some .errDegradedMode)
  else (objectLocked db addr.1 addr.2, none)

/-- Errors returned by `FreeLockedBy`. -/
inductive FreeError where
  | errDegradedMode
  /-- error of `Update` of a store opened read-only -/
  | updateReadOnly
  /-- "iterating lockers: decode list of lockers in locked bucket: %w" -/
  | decodeLockers (code : Nat)
  /-- "iterating lockers: decode unlocked object id error: %w" -/
  | decodeObjectID (code : Nat)
  /-- "iterating lockers: encode updated list of lockers: %w" -/
  | encodeLockers (code : Nat)
  /-- "update list of lockers: %w" -/
  | updateLockers (code : Nat)
  deriving DecidableEq, Repr

/-- Go type `kv`: a key with its new value, `none` for the nil value. -/
structure KV where
  k : Nat
  v : Option Bytes
  deriving DecidableEq, Repr

/-- `Bucket.Delete`: removes the key, if it is there. -/
def Bucket.delete {β : Type} (k : Nat) : Bucket β → Bucket β
  | [] => []
  | (k1, v1) :: rest => if k = k1 then rest else (k1, v1) :: Bucket.delete k rest

/-- The callback of `ForEach` in `freePotentialLocks` (lines 180-217) run over
the records of the container bucket in key order, on `unlocked` and
`bktChanges`.  `decodeID` is `oid.ID.Decode`; `encodeList` returns a non-nil
value. -/
def freeScan (c : Codec) (decodeID : Nat → Except Nat OID) (idCnr : CID) (keyLocker : OID) :
    List (Nat × Bytes) → List Address → List KV → Except FreeError (List Address × List KV)
  | [], unlocked, bktChanges => .ok (unlocked, bktChanges)
  | (k, v) :: rest, unlocked, bktChanges =>
    match c.decodeList v with
    | .error code => .error (.decodeLockers code)
    | .ok keyLockers =>
      if keyLockers.contains keyLocker then
        if keyLockers.length = 1 then
          match decodeID k with
          | .error code => .error (.decodeObjectID code)
          | .ok oID =>
            freeScan c decodeID idCnr keyLocker rest (unlocked ++ [(idCnr, oID)])
              (bktChanges ++ [⟨k, none⟩])
        else
          match c.encodeList (keyLockers.erase keyLocker) with
          | .error code => .error (.encodeLockers code)
          | .ok v1 =>
            freeScan c decodeID idCnr keyLocker rest unlocked (bktChanges ++ [⟨k, some v1⟩])
      else freeScan c decodeID idCnr keyLocker rest unlocked bktChanges

/-- The loop over `bktChanges` (lines 222-234). -/
def applyChanges (c : Codec) : List KV → Bucket Bytes → Except FreeError (Bucket Bytes)
  | [], bkt => .ok bkt
  | kv :: rest, bkt =>
    match kv.v with
    | none => applyChanges c rest (Bucket.delete kv.k bkt)
    | some v =>
      match c.putErr v with
      | some code => .error (.updateLockers code)
      | none => applyChanges c rest (Bucket.put kv.k v bkt)

/-- The function `freePotentialLocks` (lines 162-237) on the bucket of locks
of the transaction: the unlocked addresses and the bucket of locks after the
call. -/
def freePotentialLocks (c : Codec) (decodeID : Nat → Except Nat OID)
    (tx : Option (Bucket (Bucket Bytes))) (idCnr : CID) (locker : OID) :
    Except FreeError (List Address × Option (Bucket (Bucket Bytes))) :=
  match tx with
  | none => .ok ([], tx)
  | some bucketLocked =>
    match Bucket.get bucketLocked idCnr with
    | none => .ok ([], tx)
    | some bucketLockedContainer =>
      match freeScan c decodeID idCnr locker bucketLockedContainer [] [] with
      | .error err => .error err
      | .ok (unlocked, bktChanges) =>
        match applyChanges c bktChanges bucketLockedContainer with
        | .error err => .error err
        | .ok bkt => .ok (unlocked, some (Bucket.put idCnr bkt bucketLocked))

/-- The transaction of `FreeLockedBy` (lines 128-139): the loop over the
lockers, with the slice `unlocked` as it is when the transaction ends and the
error or the bucket of locks it ends with. -/
def freeLoop (c : Codec) (decodeID : Nat → Except Nat OID) :
    List Address → Option (Bucket (Bucket Bytes)) → List Address →
      List Address × Except FreeError (Option (Bucket (Bucket Bytes)))
  | [], tx, unlocked => (unlocked, .ok tx)
  | locker :: rest, tx, unlocked =>
    match freePotentialLocks c decodeID tx locker.1 locker.2 with
    | .error err => (unlocked, .error err)
    | .ok (uu, tx1) => freeLoop c decodeID rest tx1 (unlocked ++ uu)

/-- The method `DB.FreeLockedBy` (lines 118-140): the returned addresses and
error, and the state of the DB after the call.  The returned slice is the one
the transaction has built: the call of `Update` is evaluated before the
variable `unlocked` is read.  A transaction that returns an error is rolled
back; `Update` on a store opened read-only fails before the transaction
starts. -/
def DB.FreeLockedBy (c : Codec) (decodeID : Nat → Except Nat OID) (db : DB)
    (lockers : List Address) : (List Address × Option FreeError) × DB :=
  if db.mode.noMetabase then (([], some .errDegradedMode), db)
  else if db.mode.readOnly then (([], some .updateReadOnly), db)
  else
    match freeLoop c decodeID lockers db.lockedBucket [] with
    | (unlocked, .error err) => ((unlocked, some err), db)
    | (unlocked, .ok tx) => ((unlocked, none), { db with lockedBucket := tx })

/-- The list of lockers a container bucket records for an object: its decoded
record, empty when there is none. -/
def recordAt (c : Codec) (bkt : Bucket Bytes) (id : OID) : List OID :=
  match Bucket.get bkt id with
  | none => []
  | some v =>
    match c.decodeList v with
    | .ok l => l
    | .error _ => []

/-- The list of lockers recorded for an object of a container. -/
def lockersAt (c : Codec) (tx : Option (Bucket (Bucket Bytes))) (cnr : CID) (id : OID) :
    List OID :=
  match tx with
  | none => []
  | some bucketLocked =>
    match Bucket.get bucketLocked cnr with
    | none => []
    | some bkt => recordAt c bkt id

/-- The change `freePotentialLocks` plans for one record, if any. -/
def changeOf (c : Codec) (keyLocker : OID) (p : Nat × Bytes) : Option KV :=
  match c.decodeList p.2 with
  | .error _ => none
  | .ok keyLockers =>
    if keyLockers.contains keyLocker then
      if keyLockers.length = 1 then some ⟨p.1, none⟩
      else
        match c.encodeList (keyLockers.erase keyLocker) with
        | .error _ => none
        | .ok v1 => some ⟨p.1, some v1⟩
    else none

/-- The address `freePotentialLocks` reports for one record, if any. -/
def unlockedOf (c : Codec) (idCnr : CID) (keyLocker : OID) (p : Nat × Bytes) : Option Address :=
  match c.decodeList p.2 with
  | .error _ => none
  | .ok keyLockers =>
    if keyLockers.contains keyLocker then
      if keyLockers.length = 1 then some (idCnr, p.1) else none
    else none

/-- Keys in strictly ascending order. -/
def Bucket.Ordered {β : Type} (b : Bucket β) : Prop :=
  (b.map Prod.fst).Pairwise (· < ·)

/-- Every record of a container bucket decodes to a non-empty list of
lockers without repetition. -/
def GoodRecords (c : Codec) (bkt : Bucket Bytes) : Prop :=
  ∀ id v, Bucket.get bkt id = some v → ∃ l, c.decodeList v = .ok l ∧ l ≠ [] ∧ l.Nodup

/-- The bucket of locks as `Lock` builds it: it exists, buckets keep their
keys in ascending order, and every record decodes to a non-empty list of
lockers without repetition. -/
def WellLocked (c : Codec) (tx : Option (Bucket (Bucket Bytes))) : Prop :=
  ∃ bucketLocked, tx = some bucketLocked ∧ Bucket.Ordered bucketLocked ∧
    ∀ cnr bkt, Bucket.get bucketLocked cnr = some bkt → Bucket.Ordered bkt ∧ GoodRecords c bkt

/-- Every list of lockers can be encoded and stored. -/
def Codec.Total (c : Codec) : Prop :=
  ∀ l, ∃ b, c.encodeList l = .ok b ∧ c.putErr b = none

end Meta

namespace EngineList

/-! ## Storage engine: `ListWithCursor`

The listing of a shard lives outside the embedded file and is a field of the
shard.  Shard identifiers are ordered as their strings are. -/

/-- Listed item, `objectcore.AddressWithType`. -/
abbrev Addr := Nat

/-- Shard identifier. -/
abbrev ShardID := Nat

/-- Number of values of `uint32`. -/
def uint32Size : Nat := 2 ^ 32

/-- A shard as the listing sees it: `ListWithCursor` of the shard for a count
and an optional cursor of the shard, `none` when it returns an error
(`ErrEndOfListing` or any other), else the address list and the cursor of the
result. -/
structure Shard (κ : Type) where
  listWithCursor : Nat → Option κ → Option (List Addr × Option κ)

/-- Go type `Cursor`. -/
structure Cursor (κ : Type) where
  shardID : ShardID
  shardCursor : Option κ
  deriving DecidableEq, Repr

/-- The map `e.shards`: its keys in the order the iteration over the map
yields them, and the lookup of a key. -/
structure StorageEngine (κ : Type) where
  keys : List ShardID
  shards : ShardID → Option (Shard κ)

/-- The only error of `ListWithCursor`. -/
inductive ListError where
  | errEndOfListing
  deriving DecidableEq, Repr

/-- Step 3 of `ListWithCursor` (lines 53-85): the loop over the sorted shard
identifiers, on the collected result and the cursor object. -/
def listLoop {κ : Type} (e : StorageEngine κ) (count : Nat) :
    List ShardID → List Addr → Cursor κ → List Addr × Cursor κ
  | [], result, cursor => (result, cursor)
  | id :: rest, result, cursor =>
    if result.length ≥ count then (result, cursor)
    else if id < cursor.shardID then listLoop e count rest result cursor
    else
      match e.shards id with
      | none => listLoop e count rest result cursor
      | some shardInstance =>
        let count1 := (count - result.length) % uint32Size
        let shardCursor := if id = cursor.shardID then cursor.shardCursor else none
        match shardInstance.listWithCursor count1 shardCursor with
        | none => listLoop e count rest result cursor
        | some res => listLoop e count rest (result ++ res.1) ⟨id, res.2⟩

/-- What `ListWithCursor` returns; the nil list is the empty list. -/
structure ListResult (κ : Type) where
  result : List Addr
  cursor : Option (Cursor κ)
  err : Option ListError
  deriving DecidableEq, Repr

/-- The addresses the loop of `ListWithCursor` collects and the cursor it
ends with, when the engine has shards. -/
def StorageEngine.collect {κ : Type} (e : StorageEngine κ) (count : Nat)
    (cursor : Option (Cursor κ)) : List Addr × Cursor κ :=
  let shardIDs := e.keys.insertionSort (· ≤ ·)
  listLoop e count shardIDs [] (cursor.getD ⟨shardIDs.headD 0, none⟩)

/-- Step 2 of `ListWithCursor` (lines 45-51): the cursor object the loop
starts from, for the nil cursor the first of the sorted shard identifiers with
a nil shard cursor. -/
def StorageEngine.startCursor {κ : Type} (e : StorageEngine κ) (cursor : Option (Cursor κ)) :
    Cursor κ :=
  cursor.getD ⟨(e.keys.insertionSort (· ≤ ·)).headD 0, none⟩

/-- The method `StorageEngine.ListWithCursor` (lines 30-91) for a `count` of
type `uint32`. -/
def StorageEngine.ListWithCursor {κ : Type} (e : StorageEngine κ) (count : Nat)
    (cursor : Option (Cursor κ)) : ListResult κ :=
  if e.keys.length = 0 then ⟨[], none, some .errEndOfListing⟩
  else
    let out := e.collect count cursor
    if out.1.length = 0 then ⟨[], none, some .errEndOfListing⟩
    else ⟨out.1, some out.2, none⟩

/-- Calling `ListWithCursor` repeatedly with a fixed count, feeding back the
returned cursor until `ErrEndOfListing`: the addresses returned by all the
calls, in order; `none` when `fuel` calls do not reach the end. -/
def listAll {κ : Type} (e : StorageEngine κ) (count : Nat) :
    Nat → Option (Cursor κ) → List Addr → Option (List Addr)
  | 0, _, _ => none
  | fuel + 1, cursor, acc =>
    match (e.ListWithCursor count cursor).err with
    | some _ => some acc
    | none =>
      listAll e count fuel (e.ListWithCursor count cursor).cursor
        (acc ++ (e.ListWithCursor count cursor).result)

/-- Modelled from the spec: `ListWithCursor` of a shard, which is not among the
sources.  The shard holds a fixed sequence of addresses, its cursor is the
number of addresses already returned; a call returns the next `count`
addresses, fewer only when fewer are left, and fails with `ErrEndOfListing`
when none is left. -/
def pagedShard (addrs : List Addr) : Shard Nat :=
  { listWithCursor := fun count cursor =>
      let page := (addrs.drop (cursor.getD 0)).take count
      if page.length = 0 then none
      else some (page, some (cursor.getD 0 + page.length)) }

/-- A shard that pages through its sequence one address per call, whatever the
count: never more than the requested count, `ErrEndOfListing` when none is
left. -/
def singlePageShard (addrs : List Addr) : Shard Nat :=
  { listWithCursor := fun count cursor =>
      let page := (addrs.drop (cursor.getD 0)).take (min count 1)
      if page.length = 0 then none
      else some (page, some (cursor.getD 0 + page.length)) }

/-- An engine with the shards `ids`, each built by `mk` from its identifier. -/
def engineOfShards {κ : Type} (ids : List ShardID) (mk : ShardID → Shard κ) : StorageEngine κ :=
  { keys := ids, shards := fun id => if id ∈ ids then some (mk id) else none }

/-- The addresses still to list from a cursor on, over shards in ascending
order of identifier with the sequence each one holds. -/
def remaining (addrsOf : ShardID → List Addr) : List ShardID → Cursor Nat → List Addr
  | [], _ => []
  | id :: rest, cursor =>
    if id < cursor.shardID then remaining addrsOf rest cursor
    else if id = cursor.shardID then
      (addrsOf id).drop (cursor.shardCursor.getD 0) ++ remaining addrsOf rest cursor
    else addrsOf id ++ remaining addrsOf rest cursor

/-- Outcome of the loop described through the addresses that remain. -/
def LoopSpec (addrsOf : ShardID → List Addr) (ids : List ShardID) (k : Nat) (res : List Addr)
    (c : Cursor Nat) (out : List Addr × Cursor Nat) : Prop :=
  out.1 = res ++ (remaining addrsOf ids c).take k ∧
  (((remaining addrsOf ids c).take k = [] ∧ out.2 = c) ∨
   ((remaining addrsOf ids c).take k ≠ [] ∧ out.2.shardID ∈ ids ∧
     remaining addrsOf ids out.2 = (remaining addrsOf ids c).drop k))

end EngineList

namespace GetSvc

/-! ## Object GET service: `execCtx.remoteClient`

A method with a value receiver works on a copy of the value it is called on;
a method with a pointer receiver works on the value itself. -/

/-- Values of the constants `statusUndefined` ... `statusNotFound`. -/
def statusUndefined : Int := 0

/-- Constant `statusOK`. -/
def statusOK : Int := 1

/-- Constant `statusVIRTUAL`. -/
def statusVIRTUAL : Int := 2

/-- Constant `statusAPIResponse`. -/
def statusAPIResponse : Int := 3

/-- Constant `statusNotFound`. -/
def statusNotFound : Int := 4

/-- Go type `statusError`; `err = none` is the nil error. -/
structure StatusError where
  status : Int
  err : Option Nat
  deriving DecidableEq, Repr

/-- Go type `execCtx`.  A pointer or interface field holds the address of what
it refers to (`none` for nil); the embedded `statusError` and `prm`, `curOff`,
`head` are held by value. -/
structure ExecCtx where
  svc : Option Nat
  ctx : Option Nat
  prm : Nat
  prmRangeHash : Option Nat
  statusError : StatusError
  infoSplit : Option Nat
  log : Option Nat
  collectedObject : Option Nat
  curOff : Nat
  head : Bool
  deriving DecidableEq, Repr

/-- An execution context with the given status and error. -/
def execOf (status : Int) (err : Option Nat) : ExecCtx :=
  { svc := some 1, ctx := some 2, prm := 0, prmRangeHash := none,
    statusError := ⟨status, err⟩, infoSplit := none, log := some 3, collectedObject := none,
    curOff := 0, head := false }

/-- Node record `clientcore.NodeInfo`. -/
abbrev NodeInfo := Nat

/-- A constructed client, `getClient`. -/
abbrev GetClient := Nat

/-- What a method call leaves behind: the returned values, the receiver
variable of the method at its return, the value the method was called on after
the call, and the messages logged. -/
structure Call (ρ : Type) where
  ret : ρ
  receiver : ExecCtx
  caller : ExecCtx
  logged : List String

/-- Call of a method with a value receiver: the body runs on a copy. -/
def callByValue {ρ : Type} (body : ExecCtx → ρ × ExecCtx × List String) (exec : ExecCtx) :
    Call ρ :=
  { ret := (body exec).1, receiver := (body exec).2.1, caller := exec, logged := (body exec).2.2 }

/-- Call of a method with a pointer receiver: the body runs on the value. -/
def callByPointer {ρ : Type} (body : ExecCtx → ρ × ExecCtx × List String) (exec : ExecCtx) :
    Call ρ :=
  { ret := (body exec).1, receiver := (body exec).2.1, caller := (body exec).2.1,
    logged := (body exec).2.2 }

/-- Body of `remoteClient` (lines 244-256) on its receiver variable `exec`;
`get` is `exec.svc.clientCache.get`. -/
def remoteClientBody (get : NodeInfo → Except Nat GetClient) (info : NodeInfo) (exec : ExecCtx) :
    (Option GetClient × Bool) × ExecCtx × List String :=
  match get info with
  | .ok c => ((some c, true), exec, [])
  | .error err =>
    ((none, false),
      { exec with statusError := { status := statusUndefined, err := some err } },
      ["could not construct remote node client"])

/-- The method `execCtx.remoteClient` (line 243), declared with a value
receiver. -/
def ExecCtx.remoteClient (get : NodeInfo → Except Nat GetClient) (exec : ExecCtx)
    (info : NodeInfo) : Call (Option GetClient × Bool) :=
  callByValue (remoteClientBody get info) exec

end GetSvc

namespace CliAccounting

/-! ## neofs-cli: the command `accounting balance`

Key handling, decoding of addresses and the RPC client live outside the
embedded file and are parameters. -/

/-- Account identifier, `user.ID`. -/
abbrev UserID := Nat

/-- Private key returned by `key.GetOrGenerate`. -/
abbrev PrivateKey := Nat

/-- SDK client. -/
abbrev Client := Nat

/-- What the command line and the environment of a run provide. -/
structure Env where
  /-- `key.GetOrGenerate(cmd)` -/
  getOrGenerate : Except Nat PrivateKey
  /-- value of the flag `--owner`, empty when the flag is not given -/
  owner : String
  /-- `user.NewFromECDSAPublicKey(pk.PublicKey)` -/
  newFromECDSAPublicKey : PrivateKey → UserID
  /-- `idUser.DecodeString`: the decoded account, or the decoding error -/
  decodeString : String → Except Nat UserID
  /-- `internalclient.GetSDKClientByFlag(ctx, commonflags.RPC)` -/
  getSDKClientByFlag : Except Nat Client
  /-- `internalclient.BalanceOf` for an account: the balance or the error -/
  balanceOf : Client → UserID → Except Nat Int

/-- Errors returned by the command. -/
inductive CmdError where
  /-- error of `key.GetOrGenerate`, returned as it is -/
  | key (code : Nat)
  /-- `fmt.Errorf("can't decode owner ID wallet address: %w", err)`; `err` is
  the result of `DecodeString`, `none` when it is nil -/
  | decodeOwner (err : Option Nat)
  /-- error of `GetSDKClientByFlag`, returned as it is -/
  | client (code : Nat)
  /-- `fmt.Errorf("rpc error: %w", err)` -/
  | rpc (code : Nat)
  deriving DecidableEq, Repr

/-- What a run of the command does: the returned error (`none` is nil), the
accounts whose balance was requested, and the printed balances. -/
structure Run where
  err : Option CmdError
  requested : List UserID
  printed : List Int
  deriving DecidableEq, Repr

/-- The function `RunE` of `accountingBalanceCmd` (lines 28-62). -/
def RunE (env : Env) : Run :=
  match env.getOrGenerate with
  | .error err => ⟨some (.key err), [], []⟩
  | .ok pk =>
    if env.owner = "" then
      let idUser := env.newFromECDSAPublicKey pk
      match env.getSDKClientByFlag with
      | .error err => ⟨some (.client err), [], []⟩
      | .ok cli =>
        match env.balanceOf cli idUser with
        | .error err => ⟨some (.rpc err), [idUser], []⟩
        | .ok balance => ⟨none, [idUser], [balance]⟩
    else
      ⟨some (.decodeOwner
        (match env.decodeString env.owner with
          | .error err => some err
          | .ok _ => none)), [], []⟩

/-- A run with a key for account `1`, the given `--owner` flag, a decoder that
accepts exactly the address `"NbUgTSFvPmsRxmGeWpuuGeJUoRoi6PErcM"` as account
`7`, and a network that answers every balance request with `100`. -/
def envOf (owner : String) : Env :=
  { getOrGenerate := .ok 1, owner := owner, newFromECDSAPublicKey := fun pk => pk,
    decodeString := fun s => if s = "NbUgTSFvPmsRxmGeWpuuGeJUoRoi6PErcM" then .ok 7 else .error 2,
    getSDKClientByFlag := .ok 0, balanceOf := fun _ _ => .ok 100 }

end CliAccounting

namespace BlobStor

/-! ## Blob storage: `GetRange` and its conformance test

The implementations of `GetRange` are not among the embedded files; the
conformance test `storagetest.TestGetRange` is. -/

/-- Object address. -/
abbrev Address := Nat

/-- Payload bytes. -/
abbrev Payload := List Nat

/-- Number of values of `uint64`. -/
def uint64Size : Nat := 2 ^ 64

/-- Statuses the errors of `GetRange` are matched against. -/
inductive Status where
  /-- `apistatus.ObjectNotFound` -/
  | objectNotFound
  /-- `apistatus.ObjectOutOfRange` -/
  | objectOutOfRange
  /-- any other error -/
  | other (code : Nat)
  deriving DecidableEq, Repr

/-- Modelled from the spec: `GetRange(address, offset, length)` of a blob
storage, whose implementations (packed tier, tree tier) are not among the
sources, over the payloads `objects` the storage holds; `off` and `ln` are
`uint64` values.  An offset beyond the payload length, an offset plus length
beyond the payload length, a length that is negative when reinterpreted as
signed, and an offset plus length that overflows the unsigned width fail with
the out-of-range error; a zero length at a valid offset returns the rest of the
payload from that offset; a missing object is not found. -/
def GetRange (objects : Address → Option Payload) (addr : Address) (off ln : Nat) :
    Except Status Payload :=
  match objects addr with
  | none => .error .objectNotFound
  | some payload =>
    if 2 ^ 63 ≤ ln then .error .objectOutOfRange
    else if uint64Size ≤ off + ln then .error .objectOutOfRange
    else if payload.length < off then .error .objectOutOfRange
    else if payload.length < (off + ln) % uint64Size then .error .objectOutOfRange
    else if ln = 0 then .ok (payload.drop off)
    else .ok ((payload.drop off).take ln)

/-- An object prepared by the test: its address and `obj.Payload()`. -/
structure ObjectDesc where
  addr : Address
  payload : Payload
  deriving DecidableEq, Repr

/-- The pair `require.NoError(t, err)`, `require.Equal(t, expected, res)`. -/
def returnsPayload (r : Except Status Payload) (expected : Payload) : Bool :=
  match r with
  | .ok res => res == expected
  | .error _ => false

/-- The assertion `require.ErrorAs(t, err, new(apistatus.ObjectOutOfRange))`. -/
def failsOutOfRange (r : Except Status Payload) : Bool :=
  match r with
  | .error .objectOutOfRange => true
  | _ => false

/-- The assertion `require.ErrorAs(t, err, new(apistatus.ObjectNotFound))`. -/
def failsNotFound (r : Except Status Payload) : Bool :=
  match r with
  | .error .objectNotFound => true
  | _ => false

/-- The closure `testGetRange` of `TestGetRange` (lines 23-70) on a storage
`s`: whether all its assertions hold; `none` when it panics (no object, or the
first payload shorter than `stop = 100`). -/
def testGetRange (s : Address → Nat → Nat → Except Status Payload)
    (objects : List ObjectDesc) : Option Bool :=
  match objects with
  | [] => none
  | first :: _ =>
    let payload := first.payload
    if payload.length < 100 then none
    else
      some (
        returnsPayload (s first.addr 11 (100 - 11)) ((payload.drop 11).take (100 - 11)) &&
        failsOutOfRange (s first.addr ((payload.length + 10) % uint64Size) 10) &&
        failsOutOfRange (s first.addr 10 (payload.length % uint64Size)) &&
        failsOutOfRange (s first.addr 0 (2 ^ 63)) &&
        failsOutOfRange (s first.addr 10 (uint64Size - 1 - 2)) &&
        objects.all (fun o =>
          returnsPayload (s o.addr 0 0) o.payload &&
          (if o.payload.length / 2 > 0 then
            returnsPayload (s o.addr ((o.payload.length / 2) % uint64Size) 0)
              (o.payload.drop (o.payload.length / 2))
           else true)))

/-- The function `TestGetRange` (lines 12-74) on an opened storage `s`:
`missing` is the address drawn by `oidtest.Address()`, `single` and `batch`
are the objects `prepare` and `prepareBatch` have put. -/
def TestGetRange (s : Address → Nat → Nat → Except Status Payload) (missing : Address)
    (single batch : List ObjectDesc) : Option Bool :=
  match testGetRange s single, testGetRange s batch with
  | some a, some b => some (failsNotFound (s missing 0 1) && a && b)
  | _, _ => none

/-- A storage that holds the payload `[0, 1, ..., n - 1]` at address `1` and
nothing else. -/
def rampStorage (n : Nat) : Address → Option Payload :=
  fun addr => if addr = 1 then some (List.range n) else none

end BlobStor

namespace PutTarget

/-! ## Object PUT service: `distributedTarget`

`decodeSignature`, `decodeSignatures`, `writeObjectLocally`, `sendObject` and
`Close` of `pkg/services/object/put/distributed.go`.  The codec of
signatures, their verification, the transport, the local storage, the content
validator, the metadata encoder, the chain client and the notification of
the metadata service live outside the embedded file and are parameters.  Go
`int` has 64 bits. -/

/-- Byte string; every element stands for one byte. -/
abbrev Bytes := List Nat

/-- Object identifier; `0` is the zero value `oid.ID{}`. -/
abbrev OID := Nat

/-- Go type `neofscrypto.Signature`. -/
structure Signature where
  scheme : Nat
  publicKeyBytes : PutSvc.PubKey
  value : Bytes
  deriving DecidableEq, Repr

/-- `binary.LittleEndian.Uint32(b)` on the first four bytes of `b`. -/
def leUint32 (b : Bytes) : Nat :=
  b.getD 0 0 % 256 + 256 * (b.getD 1 0 % 256) + 65536 * (b.getD 2 0 % 256) +
    16777216 * (b.getD 3 0 % 256)

/-- The four bytes `binary.LittleEndian.PutUint32` writes for `uint32(n)`. -/
def putUint32 (n : Nat) : Bytes :=
  [n % 256, n / 256 % 256, n / 65536 % 256, n / 16777216 % 256]

/-- A length-prefixed record: the four-byte little-endian length of `body`,
then `body`. -/
def record (body : Bytes) : Bytes := putUint32 body.length ++ body

/-- The bounds of a slice expression `b[lo:hi]` are in range. -/
def InBounds (b : Bytes) (lo hi : Nat) : Prop := lo ≤ hi ∧ hi ≤ b.length

/-- Errors of `decodeSignature`. -/
inductive SigError where
  /-- "unexpected signature format: len: %d" -/
  | format (len : Nat)
  /-- "unexpected signature format: len: %d, len claimed: %d" -/
  | formatClaimed (len : Nat) (claimed : Nat)
  /-- "invalid signature: %w" -/
  | invalid (code : Nat)
  deriving DecidableEq, Repr

/-- Error of `decodeSignatures`: "decoding %d signature from proto message: %w". -/
inductive SigsError where
  | decoding (i : Nat) (err : SigError)
  deriving DecidableEq, Repr

/-- The function `decodeSignature` (lines 345-361); `unmarshal` is
`Signature.Unmarshal`.  The slices `b[:4]` and `b[4 : 4+l]` are taken after
the length checks. -/
def decodeSignature (unmarshal : Bytes → Except Nat Signature) (b : Bytes) :
    Except SigError (Signature × Nat) :=
  if b.length < 4 then .error (.format b.length)
  else
    let l := leUint32 (b.take 4)
    if b.length < 4 + l then .error (.formatClaimed b.length l)
    else
      match unmarshal ((b.drop 4).take l) with
      | .error code => .error (.invalid code)
      | .ok res => .ok (res, 4 + l)

/-- The loop of `decodeSignatures` from index `i` on, with `n` elements of
`res` still to fill. -/
def decodeSignaturesLoop (unmarshal : Bytes → Except Nat Signature) :
    Nat → Nat → Bytes → List Signature → Except SigsError (List Signature)
  | _, 0, _, res => .ok res
  | i, n + 1, b, res =>
    match decodeSignature unmarshal b with
    | .error err => .error (.decoding i err)
    | .ok (sig, offset) => decodeSignaturesLoop unmarshal (i + 1) n (b.drop offset) (res ++ [sig])

/-- The function `decodeSignatures` (lines 328-343). -/
def decodeSignatures (unmarshal : Bytes → Except Nat Signature) (b : Bytes) :
    Except SigsError (List Signature) :=
  decodeSignaturesLoop unmarshal 0 3 b []

/-- Go type `encodedObject`. -/
structure EncodedObject where
  b : Bytes
  hdrOff : Nat
  pldOff : Nat
  deriving DecidableEq, Repr

/-- Object types. -/
inductive ObjType where
  | regular
  | tombstone
  | storageGroup
  | lock
  | link
  deriving DecidableEq, Repr

/-- The object under construction, `t.obj`. -/
structure Object where
  id : OID
  typ : ObjType
  children : List OID
  payload : Bytes
  deriving DecidableEq, Repr

/-- Go type `distributedTarget`, the fields the embedded methods read or
write. -/
structure Target where
  placementIterator : PutSvc.PlacementIterator
  obj : Object
  objMeta : Nat
  metainfoConsistencyAttr : String
  objSharedMeta : Bytes
  collectedSignatures : List Bytes
  localNodeInContainer : Bool
  encodedObject : EncodedObject
  localOnly : Bool

/-- The target `t` differs from `t0` in the collected signatures at most. -/
def Target.SameBut (t0 t : Target) : Prop :=
  t.placementIterator = t0.placementIterator ∧ t.obj = t0.obj ∧ t.objMeta = t0.objMeta ∧
  t.metainfoConsistencyAttr = t0.metainfoConsistencyAttr ∧
  t.objSharedMeta = t0.objSharedMeta ∧ t.localNodeInContainer = t0.localNodeInContainer ∧
  t.encodedObject = t0.encodedObject ∧ t.localOnly = t0.localOnly

/-- Errors returned by `writeObjectLocally` and `sendObject`. -/
inductive SendError where
  /-- error of `putObjectLocally`, returned as it is -/
  | putLocally (code : Nat)
  /-- "failed to sign object metadata: %w" -/
  | signMeta (code : Nat)
  /-- "write object locally: %w" -/
  | writeLocally (err : SendError)
  /-- error of `t.relay`, returned as it is; `tag` names its concrete type -/
  | relay (tag : Nat) (code : Nat)
  /-- "could not close object stream: replicate object to remote node (key=%x): %w" -/
  | replicate (code : Nat)
  /-- "could not close object stream: %w" around the error of `putObjectToNode` -/
  | putToNode (code : Nat)
  /-- "failed to decode signatures: %w" -/
  | decodeSignatures (err : SigsError)
  /-- `errors.New("signatures were not found in object's metadata")` -/
  | signaturesNotFound
  deriving DecidableEq, Repr

/-- Collaborators of the target. -/
structure Env where
  /-- `Signature.Unmarshal` -/
  unmarshal : Bytes → Except Nat Signature
  /-- `sig.Verify(data)` -/
  verify : Signature → Bytes → Bool
  /-- `t.relay`, `none` when it is nil -/
  relay : Option (PutSvc.NodeDesc → Option (Nat × Nat))
  /-- `putObjectLocally(t.localStorage, t.obj, t.objMeta, &t.encodedObject)` -/
  putObjectLocally : Object → Option Nat
  /-- `t.metaSigner.Sign` -/
  metaSign : Bytes → Except Nat Bytes
  /-- `t.transport.SendReplicationRequestToNode`: the raw signatures -/
  sendReplicationRequestToNode : Bytes → PutSvc.ClientNodeInfo → Except Nat Bytes
  /-- `putObjectToNode` -/
  putObjectToNode : PutSvc.ClientNodeInfo → Object → Option Nat
  /-- `t.fmt.ValidateContent` -/
  validateContent : Object → Except Nat Nat
  /-- `t.encodeCurrentObjectMetadata()` -/
  encodeCurrentObjectMetadata : Object → Nat → Bytes
  /-- `t.cnrClient.SubmitObjectPut` -/
  submitObjectPut : Bytes → List Bytes → Option Nat
  /-- what the `select` of the strict mode receives first: `none` the
  notification of acceptance, `some err` the end of the operation context with
  `t.opCtx.Err()` -/
  awaitInterrupted : Option Nat
  /-- `x.neoFSNet.IsLocalNodePublicKey` -/
  isLocalNodePublicKey : PutSvc.PubKey → Bool
  /-- decoding of the endpoints of a node -/
  fromIterator : PutSvc.NetmapNodeInfo → Except PutSvc.Error (List Nat)
  /-- error of `x.remotePool.Submit`, `none` when the pool accepts jobs -/
  poolSubmit : Option PutSvc.Error
  /-- whether the worker pool recovers a panic of a job -/
  poolRecovers : Bool

/-- The method `writeObjectLocally` (lines 309-326). -/
def writeObjectLocally (env : Env) (t : Target) : Option SendError × Target :=
  match env.putObjectLocally t.obj with
  | some code => (some (.putLocally code), t)
  | none =>
    if t.localNodeInContainer && t.metainfoConsistencyAttr != "" then
      match env.metaSign t.objSharedMeta with
      | .error code => (some (.signMeta code), t)
      | .ok sig => (none, { t with collectedSignatures := t.collectedSignatures ++ [sig] })
    else (none, t)

/-- The transmission to a remote node in `sendObject` (lines 261-273): the
raw signatures `sigsRaw` the node answered with, nil after `putObjectToNode`. -/
def transmit (env : Env) (t : Target) (node : PutSvc.NodeDesc) : Except SendError Bytes :=
  if t.encodedObject.hdrOff > 0 then
    match env.sendReplicationRequestToNode t.encodedObject.b node.info with
    | .error code => .error (.replicate code)
    | .ok sigsRaw => .ok sigsRaw
  else
    match env.putObjectToNode node.info t.obj with
    | some code => .error (.putToNode code)
    | none => .ok []

/-- The loop over the decoded signatures in `sendObject` (lines 286-301): the
first signature of the node's key that verifies against `objSharedMeta`. -/
def acceptSignature (env : Env) (t : Target) (node : PutSvc.NodeDesc) :
    List Signature → Option Signature
  | [] => none
  | sig :: rest =>
    if sig.publicKeyBytes ≠ node.info.publicKey then acceptSignature env t node rest
    else if !env.verify sig t.objSharedMeta then acceptSignature env t node rest
    else some sig

/-- The method `sendObject` (lines 249-307). -/
def sendObject (env : Env) (t : Target) (node : PutSvc.NodeDesc) : Option SendError × Target :=
  if node.isLocal then
    match writeObjectLocally env t with
    | (some err, t1) => (some (.writeLocally err), t1)
    | (none, t1) => (none, t1)
  else
    match env.relay with
    | some relay => ((relay node).map (fun e => .relay e.1 e.2), t)
    | none =>
      match transmit env t node with
      | .error err => (some err, t)
      | .ok sigsRaw =>
        if t.localNodeInContainer && t.metainfoConsistencyAttr != "" then
          match decodeSignatures env.unmarshal sigsRaw with
          | .error err => (some (.decodeSignatures err), t)
          | .ok sigs =>
            match acceptSignature env t node sigs with
            | some sig =>
              (none, { t with collectedSignatures := t.collectedSignatures ++ [sig.value] })
            | none => (some .signaturesNotFound, t)
        else (none, t)

/-- The error value `sendObject` hands to the placement iterator: errors built
by `fmt.Errorf` share one concrete type, `errors.New` gives another, the relay
may return any. -/
def SendError.toError : SendError → PutSvc.Error
  | .putLocally code => .ext 2 code
  | .signMeta code => .ext 0 code
  | .writeLocally _ => .ext 0 1
  | .relay tag code => .ext (tag + 3) code
  | .replicate code => .ext 0 (code + 2)
  | .putToNode code => .ext 0 (code + 2)
  | .decodeSignatures _ => .ext 0 0
  | .signaturesNotFound => .ext 1 0

/-- The collaborators of the placement iterator when it drives `sendObject`;
the state it threads is the target. -/
def iteratorEnv (env : Env) : PutSvc.Env Target :=
  { isLocalNodePublicKey := env.isLocalNodePublicKey,
    fromIterator := env.fromIterator,
    f := fun t node => ((sendObject env t node).1.map SendError.toError, (sendObject env t node).2),
    submit := fun t => (env.poolSubmit, t),
    poolRecovers := env.poolRecovers }

/-- Errors returned by `Close`. -/
inductive CloseError where
  /-- "could not validate payload content: %w" -/
  | validate (code : Nat)
  /-- `errIncompletePut` around `errNotEnoughNodes{required: 1}` and the error of
  the local write -/
  | incompleteLocal (err : SendError)
  /-- error of `iterateNodesForObject`, returned as it is -/
  | placement (err : PutSvc.Error)
  /-- "skip metadata chain submit for %s object: no signatures were collected" -/
  | noSignatures
  /-- "failed to submit %s object meta information: %w" -/
  | submit (code : Nat)
  /-- "interrupted awaiting for %s object meta information: %w" -/
  | interrupted (code : Nat)
  deriving DecidableEq, Repr

/-- Calls to the chain client and to the metadata service. -/
inductive Event where
  | notifyObjectSuccess
  | submitObjectPut (sharedMeta : Bytes) (signatures : List Bytes)
  | unsubscribeFromObject
  deriving DecidableEq, Repr

/-- What a piece of `Close` ends with. -/
inductive CloseOutcome where
  /-- `return id, err` -/
  | returned (id : OID) (err : Option CloseError)
  /-- a run-time panic, or a panic inside the placement iterator -/
  | panicked
  deriving DecidableEq, Repr

/-- Lines 132-156 of `Close`: payload, extra broadcast, validation, shared
metadata.  `none` stands for the panic of the slice expression
`b[pldOff:]`. -/
def prepare (env : Env) (t : Target) : Option (Except CloseError Target) :=
  if t.encodedObject.pldOff > t.encodedObject.b.length then none
  else
    let obj : Object := { t.obj with payload := t.encodedObject.b.drop t.encodedObject.pldOff }
    let tombOrLink : Bool := obj.typ = .link || obj.typ = .tombstone
    let it : PutSvc.PlacementIterator :=
      if (!t.placementIterator.broadcast && obj.children.length > 0) || tombOrLink then
        { t.placementIterator with broadcast := true }
      else t.placementIterator
    let t1 : Target := { t with obj := obj, placementIterator := it }
    let validated : Except CloseError Target :=
      if !tombOrLink || t1.localNodeInContainer then
        match env.validateContent obj with
        | .error code => .error (.validate code)
        | .ok objMeta => .ok { t1 with objMeta := objMeta }
      else .ok t1
    match validated with
    | .error err => some (.error err)
    | .ok t2 =>
      if t2.localNodeInContainer && t2.metainfoConsistencyAttr != "" then
        some (.ok { t2 with objSharedMeta := env.encodeCurrentObjectMetadata t2.obj t2.objMeta })
      else some (.ok t2)

/-- Lines 158-172 of `Close`: the local write or the iteration over the
placement with `sendObject`; `none` when the iteration does not return. -/
def store (env : Env) (t : Target) : Option (Option CloseError) × Target :=
  if t.localOnly then
    match writeObjectLocally env t with
    | (some err, t1) => (some (some (.incompleteLocal err)), t1)
    | (none, t1) => (some none, t1)
  else
    let r := PutSvc.iterateNodesForObject (iteratorEnv env) t.placementIterator t
    match r.outcome with
    | .returned (some err) => (some (some (.placement err)), r.st.world)
    | .returned none => (some none, r.st.world)
    | .panicked => (none, r.st.world)
    | .outOfFuel => (none, r.st.world)

/-- Lines 174-220 of `Close`: submission of the collected signatures to the
chain. -/
def submitMeta (env : Env) (t : Target) : CloseOutcome × List Event :=
  if t.localNodeInContainer && t.metainfoConsistencyAttr != "" then
    if t.collectedSignatures.length = 0 then (.returned 0 (some .noSignatures), [])
    else
      let mode : Option Bool :=
        if t.metainfoConsistencyAttr = "strict" then some true
        else if t.metainfoConsistencyAttr = "optimistic" then some false
        else none
      match mode with
      | none => (.returned t.obj.id none, [])
      | some await =>
        let ev0 : List Event := if await then [.notifyObjectSuccess] else []
        let ev1 := ev0 ++ [.submitObjectPut t.objSharedMeta t.collectedSignatures]
        match env.submitObjectPut t.objSharedMeta t.collectedSignatures with
        | some code =>
          (.returned 0 (some (.submit code)),
            if await then ev1 ++ [.unsubscribeFromObject] else ev1)
        | none =>
          if await then
            match env.awaitInterrupted with
            | some code => (.returned 0 (some (.interrupted code)), ev1 ++ [.unsubscribeFromObject])
            | none => (.returned t.obj.id none, ev1)
          else (.returned t.obj.id none, ev1)
  else (.returned t.obj.id none, [])

/-- Result of `Close`: what it returns, the target after the deferred
cleanup, and the calls to the chain client and the metadata service. -/
structure CloseResult where
  outcome : CloseOutcome
  target : Target
  events : List Event

/-- The deferred function of `Close` (lines 126-130). -/
def cleanup (t : Target) : Target :=
  { t with encodedObject := { t.encodedObject with b := [] }, collectedSignatures := [] }

/-- The method `Close` (lines 125-221). -/
def Close (env : Env) (t : Target) : CloseResult :=
  match prepare env t with
  | none => ⟨.panicked, cleanup t, []⟩
  | some (.error err) => ⟨.returned 0 (some err), cleanup t, []⟩
  | some (.ok t1) =>
    match store env t1 with
    | (none, t2) => ⟨.panicked, cleanup t2, []⟩
    | (some (some err), t2) => ⟨.returned 0 (some err), cleanup t2, []⟩
    | (some none, t2) => ⟨(submitMeta env t2).1, cleanup t2, (submitMeta env t2).2⟩

/-- A marshalling of signatures: scheme, key, then value. -/
def plainMarshal (s : Signature) : Bytes := s.scheme :: s.publicKeyBytes :: s.value

/-- The unmarshalling that inverts `plainMarshal`. -/
def plainUnmarshal (b : Bytes) : Except Nat Signature :=
  match b with
  | scheme :: k :: v => .ok ⟨scheme, k, v⟩
  | _ => .error 1

/-- Collaborators that always succeed, with the node of key `1` as the local
node: the local signer returns `[7]`, a remote node answers with the raw
signatures `sigsRaw`, signatures are marshalled by `plainMarshal`, every
signature verifies, and the chain client answers `submit`. -/
def envOf (sigsRaw : Bytes) (submit : Option Nat) : Env :=
  { unmarshal := plainUnmarshal,
    verify := fun _ _ => true,
    relay := none,
    putObjectLocally := fun _ => none,
    metaSign := fun _ => .ok [7],
    sendReplicationRequestToNode := fun _ _ => .ok sigsRaw,
    putObjectToNode := fun _ _ => none,
    validateContent := fun _ => .ok 0,
    encodeCurrentObjectMetadata := fun _ _ => [42],
    submitObjectPut := fun _ _ => submit,
    awaitInterrupted := none,
    isLocalNodePublicKey := fun k => k == 1,
    fromIterator := fun n => .ok n.endpoints,
    poolSubmit := none,
    poolRecovers := true }

/-- A target of a node that belongs to the container, for the regular object
`5` with the payload `[9]`, the placement `lists` with the replica numbers
`counts`, and the given metadata-consistency attribute. -/
def targetOf (attr : String) (lists : List (List PutSvc.PubKey)) (counts : List Nat) : Target :=
  { placementIterator := PutSvc.iterOf lists counts false,
    obj := ⟨5, .regular, [], []⟩, objMeta := 0, metainfoConsistencyAttr := attr,
    objSharedMeta := [], collectedSignatures := [], localNodeInContainer := true,
    encodedObject := ⟨[0, 0, 9], 1, 2⟩, localOnly := false }

end PutTarget

namespace PutSvc

/-! ## Vocabulary for the bounds on the counters -/

/-- The counters stay within their ranges over the node lists `L` with the
replica numbers `rc`: one pair of counters per list, no list has more processed
nodes than nodes, and no list has more stored replicas than it requires. -/
structure Capped {σ : Type} (L : List (List NetmapNodeInfo)) (rc : List Nat)
    (st : IterState σ) : Prop where
  counters_len : st.nodesCounters.length = L.length
  proc_le : ∀ j, (counterAt st.nodesCounters j).processed ≤ (L.getD j []).length
  stored_le : ∀ j, (counterAt st.nodesCounters j).stored ≤ rc.getD j 0

/-- An environment without outside state in which no node is local, the
endpoints of the nodes listed in `undecodable` do not decode, the pool accepts
every job and `f` succeeds on every node. -/
def envUndecodable (undecodable : List PubKey) : Env Unit :=
  { isLocalNodePublicKey := fun _ => false,
    fromIterator := fun n =>
      if undecodable.contains n.publicKey then .error (.ext 9 0) else .ok n.endpoints,
    f := fun w _ => (none, w),
    submit := fun w => (none, w),
    poolRecovers := true }

end PutSvc

namespace PutSvc

/-! ## Counters -/

theorem counterAt_set (cs : List Counters) (i j : Nat) (c : Counters) :
    counterAt (cs.set i c) j = if j = i ∧ i < cs.length then c else counterAt cs j := by
  unfold counterAt
  simp only [List.getD_eq_getElem?_getD, List.getElem?_set]
  by_cases hji : j = i
  · subst hji
    by_cases hlt : j < cs.length
    · simp [hlt]
    · simp [hlt, List.getElem?_eq_none (Nat.le_of_not_lt hlt)]
  · have : ¬ i = j := fun h => hji h.symm
    simp [hji, this]

theorem incStored_processed (cs : List Counters) (i j : Nat) :
    (counterAt (incStored cs i) j).processed = (counterAt cs j).processed := by
  unfold incStored
  rw [counterAt_set]
  split
  · next h => rw [h.1]
  · rfl

theorem incStored_stored_le (cs : List Counters) (i j : Nat) :
    (counterAt (incStored cs i) j).stored ≤ (counterAt cs j).stored + 1 := by
  unfold incStored
  rw [counterAt_set]
  split
  · next h =>
    rw [h.1]
    exact Nat.mod_le _ _
  · exact Nat.le_succ _

theorem incStored_stored_ne (cs : List Counters) (i j : Nat) (h : j ≠ i) :
    (counterAt (incStored cs i) j).stored = (counterAt cs j).stored := by
  unfold incStored
  rw [counterAt_set]
  simp [h]

theorem incStored_stored_lt (cs : List Counters) (i j : Nat)
    (h : (counterAt cs j).stored < uintSize) :
    (counterAt (incStored cs i) j).stored < uintSize := by
  unfold incStored
  rw [counterAt_set]
  split
  · exact Nat.mod_lt _ (by unfold uintSize; positivity)
  · exact h

theorem incProcessed_stored (cs : List Counters) (i j : Nat) :
    (counterAt (incProcessed cs i) j).stored = (counterAt cs j).stored := by
  unfold incProcessed
  rw [counterAt_set]
  split
  · next h => rw [h.1]
  · rfl

theorem incProcessed_processed_ne (cs : List Counters) (i j : Nat) (h : j ≠ i) :
    (counterAt (incProcessed cs i) j).processed = (counterAt cs j).processed := by
  unfold incProcessed
  rw [counterAt_set]
  simp [h]

theorem incProcessed_processed_self (cs : List Counters) (i : Nat) :
    (counterAt (incProcessed cs i) i).processed = (counterAt cs i).processed ∨
    (counterAt (incProcessed cs i) i).processed = (counterAt cs i).processed + 1 := by
  unfold incProcessed
  rw [counterAt_set]
  split
  · right; rfl
  · left; rfl

theorem incProcessed_processed_ge (cs : List Counters) (i j : Nat) :
    (counterAt cs j).processed ≤ (counterAt (incProcessed cs i) j).processed := by
  by_cases h : j = i
  · subst h
    rcases incProcessed_processed_self cs j with h | h <;> omega
  · rw [incProcessed_processed_ne cs i j h]

theorem counterAt_incStored (cs : List Counters) (i j : Nat) :
    counterAt (incStored cs i) j =
      if j = i ∧ i < cs.length then
        { counterAt cs i with stored := uinc (counterAt cs i).stored }
      else counterAt cs j := by
  unfold incStored
  rw [counterAt_set]

theorem counterAt_incProcessed (cs : List Counters) (i j : Nat) :
    counterAt (incProcessed cs i) j =
      if j = i ∧ i < cs.length then
        { counterAt cs i with processed := (counterAt cs i).processed + 1 }
      else counterAt cs j := by
  unfold incProcessed
  rw [counterAt_set]

theorem incStored_length (cs : List Counters) (i : Nat) :
    (incStored cs i).length = cs.length := by
  unfold incStored
  simp

theorem incProcessed_length (cs : List Counters) (i : Nat) :
    (incProcessed cs i).length = cs.length := by
  unfold incProcessed
  simp

/-! ## Counting the nodes that took the object -/

theorem okCalled_mono {calls calls1 : List (PubKey × Option Error)}
    (h : ∀ c ∈ calls, c ∈ calls1) (k : PubKey) (hk : okCalled calls k = true) :
    okCalled calls1 k = true := by
  unfold okCalled at *
  simp only [decide_eq_true_eq] at *
  exact h _ hk

theorem countP_okCalled_mono {calls calls1 : List (PubKey × Option Error)}
    (h : ∀ c ∈ calls, c ∈ calls1) (l : List NetmapNodeInfo) :
    l.countP (fun n => okCalled calls n.publicKey) ≤
      l.countP (fun n => okCalled calls1 n.publicKey) :=
  List.countP_mono_left (fun n _ hn => okCalled_mono h n.publicKey hn)

theorem countP_take_mono (q : NetmapNodeInfo → Bool) (l : List NetmapNodeInfo) {a b : Nat}
    (h : a ≤ b) : (l.take a).countP q ≤ (l.take b).countP q :=
  List.Sublist.countP_le q (List.take_sublist_take_left l h)

theorem countP_take_succ (q : NetmapNodeInfo → Bool) (l : List NetmapNodeInfo) (a : Nat)
    (n : NetmapNodeInfo) (hn : l[a]? = some n) (hq : q n = true) :
    (l.take (a + 1)).countP q = (l.take a).countP q + 1 := by
  rw [List.take_succ, hn]
  simp [List.countP_cons, hq]

theorem countP_strict {α : Type} (p q : α → Bool) (l : List α)
    (hpq : ∀ x ∈ l, p x = true → q x = true)
    (hx : ∃ x ∈ l, p x = false ∧ q x = true) : l.countP p + 1 ≤ l.countP q := by
  induction l with
  | nil => obtain ⟨x, hx, _⟩ := hx; cases hx
  | cons a l ih =>
    have hmono : l.countP p ≤ l.countP q :=
      List.countP_mono_left (fun x hx => hpq x (List.mem_cons_of_mem _ hx))
    obtain ⟨x, hxm, hpx, hqx⟩ := hx
    rcases List.mem_cons.1 hxm with rfl | hxl
    · simp only [List.countP_cons, hpx, hqx]
      simp
      omega
    · have ih1 := ih (fun y hy => hpq y (List.mem_cons_of_mem _ hy)) ⟨x, hxl, hpx, hqx⟩
      simp only [List.countP_cons]
      by_cases hpa : p a = true
      · have := hpq a (List.mem_cons_self _ _) hpa
        simp [hpa, this]
        omega
      · by_cases hqa : q a = true
        · simp [hpa, hqa]; omega
        · simp [hpa, hqa]; omega

/-! ## Preservation of the invariant by the elementary steps -/

theorem Inv.afterSkip {σ : Type} {L : List (List NetmapNodeInfo)} {st : IterState σ}
    (h : Inv L st) (i : Nat) :
    Inv L { st with nodesCounters := incProcessed st.nodesCounters i } where
  succ_called := h.succ_called
  called_rec := h.called_rec
  calls_nodup := h.calls_nodup
  stored_le := by
    intro j
    show (counterAt (incProcessed st.nodesCounters i) j).stored ≤ _
    rw [incProcessed_stored]
    exact le_trans (h.stored_le j)
      (countP_take_mono _ _ (incProcessed_processed_ge st.nodesCounters i j))
  stored_lt := by
    intro j
    show (counterAt (incProcessed st.nodesCounters i) j).stored < _
    rw [incProcessed_stored]
    exact h.stored_lt j
  counters_len := (incProcessed_length _ _).trans h.counters_len

theorem Inv.afterReuse {σ : Type} {L : List (List NetmapNodeInfo)} {st : IterState σ}
    (h : Inv L st) (i : Nat) (node : NetmapNodeInfo)
    (hnode : (L.getD i [])[(counterAt st.nodesCounters i).processed]? = some node)
    (hok : okCalled st.calls node.publicKey = true) :
    Inv L { st with nodesCounters := incProcessed (incStored st.nodesCounters i) i } where
  succ_called := h.succ_called
  called_rec := h.called_rec
  calls_nodup := h.calls_nodup
  stored_le := by
    intro j
    show (counterAt (incProcessed (incStored st.nodesCounters i) i) j).stored ≤
      ((L.getD j []).take
        (counterAt (incProcessed (incStored st.nodesCounters i) i) j).processed).countP _
    rw [counterAt_incProcessed, incStored_length, counterAt_incStored]
    by_cases hc : j = i ∧ i < st.nodesCounters.length
    · obtain ⟨rfl, hlt⟩ := hc
      simp only [hlt, and_self, if_true]
      rw [countP_take_succ _ _ _ node hnode hok]
      have := h.stored_le j
      have h2 : uinc (counterAt st.nodesCounters j).stored ≤
          (counterAt st.nodesCounters j).stored + 1 := Nat.mod_le _ _
      omega
    · simp only [hc, if_false]
      rw [counterAt_incStored]
      simp only [hc, if_false]
      exact h.stored_le j
  stored_lt := by
    intro j
    show (counterAt (incProcessed (incStored st.nodesCounters i) i) j).stored < _
    rw [incProcessed_stored]
    exact incStored_stored_lt _ _ _ (h.stored_lt j)
  counters_len :=
    (incProcessed_length _ _).trans ((incStored_length _ _).trans h.counters_len)

theorem lookup_cons_isSome (m : List (PubKey × NodeResult)) (k k1 : PubKey) (nr : NodeResult)
    (h : (m.lookup k).isSome = true) : (((k1, nr) :: m).lookup k).isSome = true := by
  rw [List.lookup_cons]
  split
  · rfl
  · exact h

theorem Inv.afterRecord {σ : Type} {L : List (List NetmapNodeInfo)} {st : IterState σ}
    (h : Inv L st) (k : PubKey) (nr : NodeResult) (hnr : nr.succeeded = false) :
    Inv L { st with nodeResults := (k, nr) :: st.nodeResults } where
  succ_called := by
    intro k1 nr1 hl hs
    change ((k, nr) :: st.nodeResults).lookup k1 = some nr1 at hl
    rw [List.lookup_cons] at hl
    split at hl
    · cases hl
      rw [hnr] at hs
      cases hs
    · exact h.succ_called k1 nr1 hl hs
  called_rec := fun c hc => lookup_cons_isSome _ _ _ _ (h.called_rec c hc)
  calls_nodup := h.calls_nodup
  stored_le := h.stored_le
  stored_lt := h.stored_lt
  counters_len := h.counters_len

theorem newNodeResult_succeeded {σ : Type} (env : Env σ) (node : NetmapNodeInfo) :
    (newNodeResult env node).succeeded = false := by
  unfold newNodeResult
  split <;> rfl

/-! ## The goroutine `processNode` -/

theorem processNode_calls {σ : Type} (env : Env σ) (k : PubKey) (li : Option Nat)
    (nr : NodeResult) (st : IterState σ) :
    (processNode env k li nr st).1.calls = st.calls ++ [(k, (env.f st.world nr.desc).1)] := by
  unfold processNode
  cases h : (env.f st.world nr.desc).1 <;> simp [h]

theorem processNode_world {σ : Type} (env : Env σ) (k : PubKey) (li : Option Nat)
    (nr : NodeResult) (st : IterState σ) :
    (processNode env k li nr st).1.world = (env.f st.world nr.desc).2 := by
  unfold processNode
  cases h : (env.f st.world nr.desc).1 <;> simp [h]

theorem processNode_nodeResults {σ : Type} (env : Env σ) (k : PubKey) (li : Option Nat)
    (nr : NodeResult) (st : IterState σ) :
    (processNode env k li nr st).1.nodeResults =
      (k, match li with
          | some _ => { nr with succeeded := ((env.f st.world nr.desc).1).isNone }
          | none => nr) :: st.nodeResults := by
  unfold processNode
  cases h : (env.f st.world nr.desc).1 <;> simp [h]

theorem processNode_nodesCounters {σ : Type} (env : Env σ) (k : PubKey) (li : Option Nat)
    (nr : NodeResult) (st : IterState σ) :
    (processNode env k li nr st).1.nodesCounters =
      match li with
      | some i =>
        if ((env.f st.world nr.desc).1).isNone then incStored st.nodesCounters i
        else st.nodesCounters
      | none => st.nodesCounters := by
  unfold processNode
  cases h : (env.f st.world nr.desc).1 <;> simp [h]

theorem okCalled_of_not_called (calls : List (PubKey × Option Error)) (k : PubKey)
    (hk : k ∉ calls.map Prod.fst) : okCalled calls k = false := by
  unfold okCalled
  simp only [decide_eq_false_iff_not]
  intro hmem
  exact hk (List.mem_map.2 ⟨_, hmem, rfl⟩)

theorem Inv.afterProcess {σ : Type} {L : List (List NetmapNodeInfo)} {st : IterState σ}
    (h : Inv L st) (env : Env σ) (k : PubKey) (li : Option Nat) (nr : NodeResult)
    (hk : k ∉ st.calls.map Prod.fst)
    (hnone : li = none → nr.succeeded = false)
    (hin : ∀ i, li = some i →
      ∃ n ∈ (L.getD i []).take (counterAt st.nodesCounters i).processed, n.publicKey = k) :
    Inv L (processNode env k li nr st).1 := by
  have hsub : ∀ c ∈ st.calls, c ∈ (processNode env k li nr st).1.calls := by
    intro c hc
    rw [processNode_calls]
    exact List.mem_append_left _ hc
  constructor
  · intro k1 nr1 hl hs
    rw [processNode_nodeResults, List.lookup_cons] at hl
    rw [processNode_calls]
    split at hl
    · next heq =>
      have hk1 : k1 = k := by simpa using heq
      cases hl
      subst hk1
      cases li with
      | none => rw [hnone rfl] at hs; cases hs
      | some i =>
        simp only [Option.isNone_iff_eq_none] at hs
        rw [hs]
        exact List.mem_append_right _ (List.mem_singleton_self _)
    · exact List.mem_append_left _ (h.succ_called k1 nr1 hl hs)
  · intro c hc
    rw [processNode_calls] at hc
    rw [processNode_nodeResults]
    rcases List.mem_append.1 hc with hc | hc
    · exact lookup_cons_isSome _ _ _ _ (h.called_rec c hc)
    · rw [List.mem_singleton.1 hc, List.lookup_cons]
      simp
  · rw [processNode_calls, List.map_append]
    refine List.Nodup.append h.calls_nodup (List.nodup_singleton _) ?_
    intro a ha hb
    simp only [List.map_cons, List.map_nil, List.mem_singleton] at hb
    exact hk (hb ▸ ha)
  · intro j
    rw [processNode_nodesCounters]
    have hmono : (counterAt st.nodesCounters j).stored ≤
        ((L.getD j []).take (counterAt st.nodesCounters j).processed).countP
          (fun n => okCalled (processNode env k li nr st).1.calls n.publicKey) :=
      le_trans (h.stored_le j) (countP_okCalled_mono hsub _)
    cases li with
    | none => exact hmono
    | some i =>
      by_cases herr : ((env.f st.world nr.desc).1).isNone = true
      · simp only [herr, if_true]
        rw [counterAt_incStored]
        by_cases hc : j = i ∧ i < st.nodesCounters.length
        · obtain ⟨rfl, hlt⟩ := hc
          simp only [hlt, and_self, if_true]
          obtain ⟨n, hn, hnk⟩ := hin j rfl
          have hstrict := countP_strict (fun n => okCalled st.calls n.publicKey)
            (fun n => okCalled (processNode env k (some j) nr st).1.calls n.publicKey)
            ((L.getD j []).take (counterAt st.nodesCounters j).processed)
            (fun x _ hx => okCalled_mono hsub _ hx)
            ⟨n, hn, by show okCalled st.calls n.publicKey = false
                       rw [hnk]; exact okCalled_of_not_called _ _ hk, by
              show okCalled (processNode env k (some j) nr st).1.calls n.publicKey = true
              rw [hnk, processNode_calls]
              unfold okCalled
              simp only [decide_eq_true_eq]
              rw [Option.isNone_iff_eq_none.1 herr]
              exact List.mem_append_right _ (List.mem_singleton_self _)⟩
          have h1 := h.stored_le j
          have h2 : uinc (counterAt st.nodesCounters j).stored ≤
              (counterAt st.nodesCounters j).stored + 1 := Nat.mod_le _ _
          omega
        · simp only [hc, if_false]
          exact hmono
      · simp only [herr]
        exact hmono
  · intro j
    rw [processNode_nodesCounters]
    cases li with
    | none => exact h.stored_lt j
    | some i =>
      by_cases herr : ((env.f st.world nr.desc).1).isNone = true
      · simp only [herr, if_true]
        exact incStored_stored_lt _ _ _ (h.stored_lt j)
      · simp only [herr]
        exact h.stored_lt j
  · rw [processNode_nodesCounters]
    cases li with
    | none => exact h.counters_len
    | some i =>
      by_cases herr : ((env.f st.world nr.desc).1).isNone = true
      · simp only [herr, if_true]
        exact (incStored_length _ _).trans h.counters_len
      · simp only [herr]
        exact h.counters_len

theorem processNode_sent {σ : Type} (env : Env σ) (k : PubKey) (li : Option Nat)
    (nr : NodeResult) (st : IterState σ) : Sent k st (processNode env k li nr st).1 where
  calls_sub := by
    intro c hc
    rw [processNode_calls]
    exact List.mem_append_left _ hc
  calls_keys := by
    intro c hc
    rw [processNode_calls] at hc
    rcases List.mem_append.1 hc with hc | hc
    · exact Or.inl hc
    · right
      rw [List.mem_singleton.1 hc]
  rec_mono := by
    intro k1 hk1
    rw [processNode_nodeResults]
    exact lookup_cons_isSome _ _ _ _ hk1
  processed_eq := by
    intro j
    rw [processNode_nodesCounters]
    cases li with
    | none => rfl
    | some i =>
      by_cases herr : ((env.f st.world nr.desc).1).isNone = true
      · simp only [herr, if_true]
        exact incStored_processed _ _ _
      · simp only [herr]
        rfl

theorem startNode_cases {σ : Type} (env : Env σ) (k : PubKey) (li : Option Nat)
    (nr : NodeResult) (st : IterState σ) :
    (∃ w, (startNode env k li nr st).1.st = { st with world := w }) ∨
    (∃ w, (startNode env k li nr st).1.st = (processNode env k li nr { st with world := w }).1) := by
  unfold startNode
  split
  · exact Or.inr ⟨st.world, rfl⟩
  · split
    · next w _ => exact Or.inl ⟨w, rfl⟩
    · next w _ => exact Or.inr ⟨w, rfl⟩

theorem startNode_inv_sent {σ : Type} (env : Env σ) (k : PubKey) (li : Option Nat)
    (nr : NodeResult) (st : IterState σ) : Sent k st (startNode env k li nr st).1.st := by
  rcases startNode_cases env k li nr st with ⟨w, hst⟩ | ⟨w, hst⟩
  · rw [hst]
    exact ⟨fun _ hc => hc, fun _ hc => Or.inl hc, fun _ hk1 => hk1, fun _ => rfl⟩
  · rw [hst]
    have hp := processNode_sent env k li nr { st with world := w }
    exact ⟨hp.calls_sub, hp.calls_keys, hp.rec_mono, hp.processed_eq⟩

theorem startNode_inv {σ : Type} {L : List (List NetmapNodeInfo)} {st : IterState σ}
    (h : Inv L st) (env : Env σ) (k : PubKey) (li : Option Nat) (nr : NodeResult)
    (hk : k ∉ st.calls.map Prod.fst)
    (hnone : li = none → nr.succeeded = false)
    (hin : ∀ i, li = some i →
      ∃ n ∈ (L.getD i []).take (counterAt st.nodesCounters i).processed, n.publicKey = k) :
    Inv L (startNode env k li nr st).1.st ∧ Sent k st (startNode env k li nr st).1.st := by
  have hw : ∀ w, Inv L ({ st with world := w } : IterState σ) := fun w =>
    ⟨h.succ_called, h.called_rec, h.calls_nodup, h.stored_le, h.stored_lt, h.counters_len⟩
  rcases startNode_cases env k li nr st with ⟨w, hst⟩ | ⟨w, hst⟩
  · rw [hst]
    exact ⟨hw w, ⟨fun _ hc => hc, fun _ hc => Or.inl hc, fun _ hk1 => hk1, fun _ => rfl⟩⟩
  · rw [hst]
    have hp := processNode_sent env k li nr { st with world := w }
    exact ⟨(hw w).afterProcess env k li nr hk hnone hin,
      ⟨hp.calls_sub, hp.calls_keys, hp.rec_mono, hp.processed_eq⟩⟩

theorem NextOK.afterSent {σ : Type} {L : List (List NetmapNodeInfo)} {i : Nat}
    {st st1 : IterState σ} {k : PubKey} {rest : List PubKey}
    (h : NextOK L i st (k :: rest)) (hs : Sent k st st1) : NextOK L i st1 rest where
  nodup := (List.nodup_cons.1 h.nodup).2
  fresh := by
    intro k1 hk1 hmem
    obtain ⟨c, hc, hck⟩ := List.mem_map.1 hmem
    rcases hs.calls_keys c hc with hc | hc
    · exact h.fresh k1 (List.mem_cons_of_mem _ hk1) (List.mem_map.2 ⟨c, hc, hck⟩)
    · have : k1 = k := by rw [← hck, hc]
      exact (List.nodup_cons.1 h.nodup).1 (this ▸ hk1)
  recorded := fun k1 hk1 => hs.rec_mono k1 (h.recorded k1 (List.mem_cons_of_mem _ hk1))
  inList := by
    intro k1 hk1
    rw [hs.processed_eq]
    exact h.inList k1 (List.mem_cons_of_mem _ hk1)

theorem dispatchWave_inv {σ : Type} (env : Env σ) (L : List (List NetmapNodeInfo)) (i : Nat) :
    ∀ (next : List PubKey) (st : IterState σ), Inv L st → NextOK L i st next →
      Inv L (dispatchWave env i next st).st ∧
      (∀ c ∈ st.calls, c ∈ (dispatchWave env i next st).st.calls)
  | [], st, h, _ => ⟨h, fun _ hc => hc⟩
  | k :: rest, st, h, hn => by
    have hs := startNode_inv h env k (some i)
      ((st.nodeResults.lookup k).getD NodeResult.zero)
      (hn.fresh k (List.mem_cons_self _ _)) (fun hli => by cases hli)
      (fun i1 hi1 => by cases hi1; exact hn.inList k (List.mem_cons_self _ _))
    have ih := dispatchWave_inv env L i rest _ hs.1 (hn.afterSent hs.2)
    unfold dispatchWave
    dsimp only
    split
    · exact ⟨ih.1, fun c hc => ih.2 c (hs.2.calls_sub c hc)⟩
    · exact ⟨hs.1, hs.2.calls_sub⟩

/-! ## The selection loop -/

theorem NextOK.mono {σ : Type} {L : List (List NetmapNodeInfo)} {i : Nat}
    {st st1 : IterState σ} {next : List PubKey} (h : NextOK L i st next)
    (hcalls : st1.calls = st.calls)
    (hrec : ∀ k, (st.nodeResults.lookup k).isSome = true →
      (st1.nodeResults.lookup k).isSome = true)
    (hproc : (counterAt st.nodesCounters i).processed ≤
      (counterAt st1.nodesCounters i).processed) : NextOK L i st1 next where
  nodup := h.nodup
  fresh := by rw [hcalls]; exact h.fresh
  recorded := fun k hk => hrec k (h.recorded k hk)
  inList := by
    intro k hk
    obtain ⟨n, hn, hnk⟩ := h.inList k hk
    exact ⟨n, (List.take_sublist_take_left _ hproc).subset hn, hnk⟩

theorem NextOK.push {σ : Type} {L : List (List NetmapNodeInfo)} {i : Nat}
    {st : IterState σ} {next : List PubKey} (h : NextOK L i st next) (hinv : Inv L st)
    (hi : i < L.length) (node : NetmapNodeInfo) (nr : NodeResult)
    (hnode : (L.getD i [])[(counterAt st.nodesCounters i).processed]? = some node)
    (hnew : st.nodeResults.lookup node.publicKey = none) :
    NextOK L i
      { st with nodeResults := (node.publicKey, nr) :: st.nodeResults,
                nodesCounters := incProcessed st.nodesCounters i }
      (next ++ [node.publicKey]) where
  nodup := by
    refine List.Nodup.append h.nodup (List.nodup_singleton _) ?_
    intro a ha hb
    rw [List.mem_singleton.1 hb] at ha
    have := h.recorded _ ha
    rw [hnew] at this
    cases this
  fresh := by
    intro k hk hmem
    rcases List.mem_append.1 hk with hk | hk
    · exact h.fresh k hk hmem
    · rw [List.mem_singleton.1 hk] at hmem
      obtain ⟨c, hc, hck⟩ := List.mem_map.1 hmem
      have := hinv.called_rec c hc
      rw [hck, hnew] at this
      cases this
  recorded := by
    intro k hk
    rcases List.mem_append.1 hk with hk | hk
    · exact lookup_cons_isSome _ _ _ _ (h.recorded k hk)
    · rw [List.mem_singleton.1 hk]
      show (((node.publicKey, nr) :: st.nodeResults).lookup node.publicKey).isSome = true
      rw [List.lookup_cons]
      simp
  inList := by
    intro k hk
    show ∃ n ∈ (L.getD i []).take (counterAt (incProcessed st.nodesCounters i) i).processed,
      n.publicKey = k
    rw [counterAt_incProcessed]
    have hlt : i < st.nodesCounters.length := by rw [hinv.counters_len]; exact hi
    simp only [hlt, and_self, if_true]
    rcases List.mem_append.1 hk with hk | hk
    · obtain ⟨n, hn, hnk⟩ := h.inList k hk
      exact ⟨n, (List.take_sublist_take_left _ (Nat.le_succ _)).subset hn, hnk⟩
    · refine ⟨node, ?_, (List.mem_singleton.1 hk).symm⟩
      rw [List.take_succ, hnode]
      simp

theorem okCalled_of_mem {calls : List (PubKey × Option Error)} {k : PubKey}
    (h : (k, (none : Option Error)) ∈ calls) : okCalled calls k = true := by
  unfold okCalled
  simpa using h

theorem selectNodes_inv {σ : Type} (env : Env σ) (L : List (List NetmapNodeInfo)) (i : Nat)
    (hi : i < L.length) :
    ∀ (fuel : Nat) (st : IterState σ) (replRem : Nat) (next : List PubKey),
      Inv L st → NextOK L i st next →
      Inv L (selectNodes env i (L.getD i []) fuel st replRem next).1.st ∧
      NextOK L i (selectNodes env i (L.getD i []) fuel st replRem next).1.st
        (selectNodes env i (L.getD i []) fuel st replRem next).2 ∧
      (selectNodes env i (L.getD i []) fuel st replRem next).1.st.calls = st.calls
  | 0, st, replRem, next, h, hn => ⟨h, hn, rfl⟩
  | fuel + 1, st, replRem, next, h, hn => by
    unfold selectNodes
    dsimp only
    split
    · split
      · exact ⟨h, hn, rfl⟩
      · next node hnode =>
        split
        · next nr hnr =>
          split
          · next hsucc =>
            have hinv := h.afterReuse i node hnode
              (okCalled_of_mem (h.succ_called _ _ hnr hsucc))
            have hnx : NextOK L i
                ({ st with nodesCounters :=
                    incProcessed (incStored st.nodesCounters i) i } : IterState σ) next :=
              hn.mono rfl (fun _ hk => hk) (by
                show _ ≤ (counterAt (incProcessed (incStored st.nodesCounters i) i) i).processed
                refine le_trans (le_of_eq ?_) (incProcessed_processed_ge _ _ _)
                rw [incStored_processed])
            exact selectNodes_inv env L i hi fuel _ _ _ hinv hnx
          · have hinv := h.afterSkip i
            have hnx : NextOK L i
                ({ st with nodesCounters := incProcessed st.nodesCounters i } : IterState σ)
                next :=
              hn.mono rfl (fun _ hk => hk) (incProcessed_processed_ge _ _ _)
            exact selectNodes_inv env L i hi fuel _ _ _ hinv hnx
        · next hnew =>
          have hrec := h.afterRecord node.publicKey (newNodeResult env node)
            (newNodeResult_succeeded env node)
          split
          · have hinv := hrec.afterSkip i
            have hnx := hn.push h hi node (newNodeResult env node) hnode hnew
            exact selectNodes_inv env L i hi fuel _ _ _ hinv hnx
          · have hnx0 : NextOK L i
                ({ st with nodeResults :=
                    (node.publicKey, newNodeResult env node) :: st.nodeResults } : IterState σ)
                next :=
              hn.mono rfl (fun _ hk => lookup_cons_isSome _ _ _ _ hk) (le_refl _)
            split
            · exact ⟨hrec, hnx0, rfl⟩
            · have hinv := hrec.afterSkip i
              have hnx : NextOK L i ({ st with
                  nodeResults := (node.publicKey, newNodeResult env node) :: st.nodeResults,
                  nodesCounters := incProcessed st.nodesCounters i } : IterState σ) next :=
                hnx0.mono rfl (fun _ hk => hk) (incProcessed_processed_ge _ _ _)
              exact selectNodes_inv env L i hi fuel _ _ _ hinv hnx
    · exact ⟨h, hn, rfl⟩

/-! ## Waves, lists and the broadcast phase -/

theorem usub_eq_zero {a b : Nat} (ha : a < uintSize) (hb : b < uintSize) (h : usub a b = 0) :
    a = b := by
  unfold usub uintSize at *
  omega

theorem usub_eq_sub {a b : Nat} (ha : a < uintSize) (hb : b ≤ a) : usub a b = a - b := by
  unfold usub uintSize at *
  omega

theorem NextOK.nil {σ : Type} (L : List (List NetmapNodeInfo)) (i : Nat) (st : IterState σ) :
    NextOK L i st [] where
  nodup := List.nodup_nil
  fresh := fun _ hk => by cases hk
  recorded := fun _ hk => by cases hk
  inList := fun _ hk => by cases hk

theorem waves_inv {σ : Type} (env : Env σ) (replCounts : List Nat)
    (L : List (List NetmapNodeInfo)) (i : Nat) (hi : i < L.length) :
    ∀ (fuel : Nat) (st : IterState σ), Inv L st →
      Inv L (waves env replCounts i (L.getD i []) fuel st).st ∧
      (∀ c ∈ st.calls, c ∈ (waves env replCounts i (L.getD i []) fuel st).st.calls) ∧
      ((waves env replCounts i (L.getD i []) fuel st).sig = .next →
        ∀ R, replCounts[i]? = some R → R < uintSize →
          R ≤ (L.getD i []).countP
            (fun n => okCalled (waves env replCounts i (L.getD i []) fuel st).st.calls
              n.publicKey))
  | 0, st, h => ⟨h, fun _ hc => hc, fun hsig => by cases hsig⟩
  | fuel + 1, st, h => by
    unfold waves
    dsimp only
    split
    · exact ⟨h, fun _ hc => hc, fun hsig => by cases hsig⟩
    · next replCount hrc =>
      split
      · next hzero =>
        refine ⟨h, fun _ hc => hc, fun _ R hR hlt => ?_⟩
        rw [hrc] at hR
        cases hR
        have := usub_eq_zero hlt (h.stored_lt i) hzero
        rw [this]
        exact le_trans (h.stored_le i) (List.Sublist.countP_le _ (List.take_sublist _ _))
      · split
        · split
          · exact ⟨h, fun _ hc => hc, fun hsig => by cases hsig⟩
          · exact ⟨h, fun _ hc => hc, fun hsig => by cases hsig⟩
        · split
          · exact ⟨h, fun _ hc => hc, fun hsig => by cases hsig⟩
          · have hsel := selectNodes_inv env L i hi ((L.getD i []).length + 1) st
              (usub replCount (counterAt st.nodesCounters i).stored) [] h (NextOK.nil L i st)
            split
            · have hd := dispatchWave_inv env L i _ _ hsel.1 hsel.2.1
              split
              · have ih := waves_inv env replCounts L i hi fuel _ hd.1
                refine ⟨ih.1, fun c hc => ih.2.1 c (hd.2 c ?_), ih.2.2⟩
                rw [hsel.2.2]
                exact hc
              · next hns =>
                refine ⟨hd.1, fun c hc => hd.2 c ?_, fun hsig => absurd hsig ?_⟩
                · rw [hsel.2.2]
                  exact hc
                · intro hsig
                  exact hns (by rw [← hsig])
            · next hns =>
              refine ⟨hsel.1, fun c hc => ?_, fun hsig => absurd hsig ?_⟩
              · rw [hsel.2.2]
                exact hc
              · intro hsig
                exact hns (by rw [← hsig])

theorem mainLoop_inv {σ : Type} (env : Env σ) (replCounts : List Nat)
    (L : List (List NetmapNodeInfo)) :
    ∀ (lists : List (List NetmapNodeInfo)) (i : Nat) (st : IterState σ),
      L.drop i = lists → Inv L st →
      Inv L (mainLoop env replCounts lists i st).st ∧
      (∀ c ∈ st.calls, c ∈ (mainLoop env replCounts lists i st).st.calls) ∧
      ((mainLoop env replCounts lists i st).sig = .next →
        ∀ j, i ≤ j → j < L.length → ∀ R, replCounts[j]? = some R → R < uintSize →
          R ≤ (L.getD j []).countP
            (fun n => okCalled (mainLoop env replCounts lists i st).st.calls n.publicKey))
  | [], i, st, hdrop, h => by
    refine ⟨h, fun _ hc => hc, fun _ j hij hj => ?_⟩
    have := List.drop_eq_nil_iff.1 hdrop
    omega
  | nodes :: rest, i, st, hdrop, h => by
    have hi : i < L.length := by
      by_contra hge
      rw [List.drop_eq_nil_of_le (Nat.le_of_not_lt hge)] at hdrop
      cases hdrop
    have hcons := List.drop_eq_getElem_cons hi
    rw [hdrop] at hcons
    have hnodes : L.getD i [] = nodes := by
      rw [List.getD_eq_getElem?_getD, List.getElem?_eq_getElem hi]
      exact (List.cons.inj hcons).1.symm
    have hrest : L.drop (i + 1) = rest := (List.cons.inj hcons).2.symm
    have hw := waves_inv env replCounts L i hi (nodes.length + 1) st h
    rw [hnodes] at hw
    unfold mainLoop
    dsimp only
    split
    · next hsig =>
      have ih := mainLoop_inv env replCounts L rest (i + 1) _ hrest hw.1
      refine ⟨ih.1, fun c hc => ih.2.1 c (hw.2.1 c hc), fun hs j hij hj R hR hlt => ?_⟩
      by_cases hji : j = i
      · subst hji
        have := hw.2.2 hsig R hR hlt
        rw [hnodes]
        exact le_trans this (countP_okCalled_mono ih.2.1 _)
      · exact ih.2.2 hs j (by omega) hj R hR hlt
    · next hns =>
      refine ⟨hw.1, hw.2.1, fun hsig => absurd hsig ?_⟩
      intro hsig
      exact hns (by rw [← hsig])

theorem broadcastList_inv {σ : Type} (env : Env σ) (L : List (List NetmapNodeInfo)) :
    ∀ (nodes : List NetmapNodeInfo) (st : IterState σ), Inv L st →
      Inv L (broadcastList env nodes st).st ∧
      (∀ c ∈ st.calls, c ∈ (broadcastList env nodes st).st.calls)
  | [], st, h => ⟨h, fun _ hc => hc⟩
  | node :: rest, st, h => by
    unfold broadcastList
    dsimp only
    split
    · exact broadcastList_inv env L rest st h
    · next hnew =>
      have hrec := h.afterRecord node.publicKey (newNodeResult env node)
        (newNodeResult_succeeded env node)
      split
      · exact broadcastList_inv env L rest _ hrec
      · have hfresh : node.publicKey ∉ st.calls.map Prod.fst := by
          intro hmem
          obtain ⟨c, hc, hck⟩ := List.mem_map.1 hmem
          have := h.called_rec c hc
          rw [hck, hnew] at this
          cases this
        have hs := startNode_inv hrec env node.publicKey none (newNodeResult env node)
          hfresh (fun _ => newNodeResult_succeeded env node) (fun i1 hi1 => by cases hi1)
        split
        · exact ⟨hs.1, hs.2.calls_sub⟩
        · split
          · have ih := broadcastList_inv env L rest _ hs.1
            exact ⟨ih.1, fun c hc => ih.2 c (hs.2.calls_sub c hc)⟩
          · exact ⟨hs.1, hs.2.calls_sub⟩

theorem broadcastLists_inv {σ : Type} (env : Env σ) (L : List (List NetmapNodeInfo)) :
    ∀ (lists : List (List NetmapNodeInfo)) (st : IterState σ), Inv L st →
      Inv L (broadcastLists env lists st).st ∧
      (∀ c ∈ st.calls, c ∈ (broadcastLists env lists st).st.calls)
  | [], st, h => ⟨h, fun _ hc => hc⟩
  | nodes :: rest, st, h => by
    have hb := broadcastList_inv env L nodes st h
    unfold broadcastLists
    dsimp only
    split
    · have ih := broadcastLists_inv env L rest _ hb.1
      exact ⟨ih.1, fun c hc => ih.2 c (hb.2 c hc)⟩
    · exact hb

theorem finish_inv {σ : Type} (env : Env σ) (broadcast : Bool)
    (L lists : List (List NetmapNodeInfo)) (r : Flow σ) (h : Inv L r.st) :
    Inv L (finish env broadcast lists r).st ∧
    (∀ c ∈ r.st.calls, c ∈ (finish env broadcast lists r).st.calls) ∧
    ((finish env broadcast lists r).outcome = .returned none → r.sig = .next ∨ r.sig = .brk) := by
  have hb := broadcastLists_inv env L lists r.st h
  unfold finish
  split
  · exact ⟨h, fun _ hc => hc, fun ho => by cases ho⟩
  · exact ⟨h, fun _ hc => hc, fun ho => by cases ho⟩
  · exact ⟨h, fun _ hc => hc, fun ho => by cases ho⟩
  · next hs => exact ⟨h, fun _ hc => hc, fun _ => Or.inr hs⟩
  · next hs =>
    split
    · exact ⟨h, fun _ hc => hc, fun _ => Or.inl hs⟩
    · dsimp only
      split
      · exact ⟨hb.1, hb.2, fun _ => Or.inl hs⟩
      · exact ⟨hb.1, hb.2, fun _ => Or.inl hs⟩
      · exact ⟨hb.1, hb.2, fun _ => Or.inl hs⟩

theorem initState_inv {σ : Type} (w : σ) (L : List (List NetmapNodeInfo)) :
    Inv L (initState w L) where
  succ_called := fun _ _ hl => by cases hl
  called_rec := fun _ hc => by cases hc
  calls_nodup := List.nodup_nil
  stored_le := by
    intro j
    have : (counterAt (initState w L).nodesCounters j).stored = 0 := by
      unfold initState counterAt
      simp only [List.getD_eq_getElem?_getD]
      by_cases hj : j < L.length
      · simp [List.getElem?_replicate, hj]
      · simp [List.getElem?_replicate, hj]
    rw [this]
    exact Nat.zero_le _
  stored_lt := by
    intro j
    have : (counterAt (initState w L).nodesCounters j).stored = 0 := by
      unfold initState counterAt
      simp only [List.getD_eq_getElem?_getD]
      by_cases hj : j < L.length
      · simp [List.getElem?_replicate, hj]
      · simp [List.getElem?_replicate, hj]
    rw [this]
    unfold uintSize
    positivity
  counters_len := by
    unfold initState
    simp

/-! ## The main phase never leaves by `break broadcast` -/

theorem startNode_sig {σ : Type} (env : Env σ) (k : PubKey) (li : Option Nat)
    (nr : NodeResult) (st : IterState σ) :
    (startNode env k li nr st).1.sig = .next ∨ (startNode env k li nr st).1.sig = .panic := by
  unfold startNode
  split
  · dsimp only
    split
    · exact Or.inr rfl
    · exact Or.inl rfl
  · split
    · exact Or.inl rfl
    · dsimp only
      split
      · exact Or.inr rfl
      · exact Or.inl rfl

theorem dispatchWave_sig {σ : Type} (env : Env σ) (i : Nat) :
    ∀ (next : List PubKey) (st : IterState σ), (dispatchWave env i next st).sig ≠ .brk
  | [], _ => by simp [dispatchWave]
  | k :: rest, st => by
    unfold dispatchWave
    dsimp only
    split
    · exact dispatchWave_sig env i rest _
    · rcases startNode_sig env k (some i)
        ((st.nodeResults.lookup k).getD NodeResult.zero) st with h | h
      · rw [h]; simp
      · rw [h]; simp

theorem selectNodes_sig {σ : Type} (env : Env σ) (i : Nat) (nodes : List NetmapNodeInfo) :
    ∀ (fuel : Nat) (st : IterState σ) (replRem : Nat) (next : List PubKey),
      (selectNodes env i nodes fuel st replRem next).1.sig ≠ .brk
  | 0, _, _, _ => by simp [selectNodes]
  | fuel + 1, st, replRem, next => by
    unfold selectNodes
    dsimp only
    split
    · split
      · simp
      · split
        · split
          · exact selectNodes_sig env i nodes fuel _ _ _
          · exact selectNodes_sig env i nodes fuel _ _ _
        · split
          · exact selectNodes_sig env i nodes fuel _ _ _
          · split
            · simp
            · exact selectNodes_sig env i nodes fuel _ _ _
    · simp

theorem waves_sig {σ : Type} (env : Env σ) (replCounts : List Nat) (i : Nat)
    (nodes : List NetmapNodeInfo) :
    ∀ (fuel : Nat) (st : IterState σ), (waves env replCounts i nodes fuel st).sig ≠ .brk
  | 0, _ => by simp [waves]
  | fuel + 1, st => by
    unfold waves
    dsimp only
    split
    · simp
    · split
      · simp
      · split
        · split <;> simp
        · split
          · simp
          · split
            · split
              · exact waves_sig env replCounts i nodes fuel _
              · exact dispatchWave_sig env i _ _
            · exact selectNodes_sig env i nodes _ _ _ _

theorem mainLoop_sig {σ : Type} (env : Env σ) (replCounts : List Nat) :
    ∀ (lists : List (List NetmapNodeInfo)) (i : Nat) (st : IterState σ),
      (mainLoop env replCounts lists i st).sig ≠ .brk
  | [], _, _ => by simp [mainLoop]
  | nodes :: rest, i, st => by
    unfold mainLoop
    dsimp only
    split
    · exact mainLoop_sig env replCounts rest _ _
    · exact waves_sig env replCounts i nodes _ _

/-! ## Claims about `iterateNodesForObject` -/

theorem storedOn_eq_countP (calls : List (PubKey × Option Error)) (nodes : List NetmapNodeInfo)
    (h : (nodes.map (fun n => n.publicKey)).Nodup) :
    storedOn calls nodes = nodes.countP (fun n => okCalled calls n.publicKey) := by
  unfold storedOn
  rw [List.Nodup.dedup h, ← List.countP_eq_length_filter, List.countP_map]
  rfl

theorem iterate_inv {σ : Type} (env : Env σ) (x : PlacementIterator) (w : σ)
    (L : List (List NetmapNodeInfo)) (hsort : x.sortForObject = .ok L) :
    Inv (effectiveLists x L).1 (iterateNodesForObject env x w).st ∧
    ((iterateNodesForObject env x w).outcome = .returned none →
      ∀ j, j < (effectiveLists x L).1.length →
        ∀ R, (effectiveLists x L).2[j]? = some R → R < uintSize →
          R ≤ ((effectiveLists x L).1.getD j []).countP
            (fun n => okCalled (iterateNodesForObject env x w).st.calls n.publicKey)) := by
  unfold iterateNodesForObject
  rw [hsort]
  dsimp only
  have hm := mainLoop_inv env (effectiveLists x L).2 (effectiveLists x L).1
    (effectiveLists x L).1 0 (initState w (effectiveLists x L).1) rfl (initState_inv w _)
  have hf := finish_inv env x.broadcast (effectiveLists x L).1 (effectiveLists x L).1 _ hm.1
  refine ⟨hf.1, fun hnil j hj R hR hlt => ?_⟩
  have hsig := (hf.2.2 hnil).resolve_right (mainLoop_sig env _ _ _ _)
  exact le_trans (hm.2.2 hsig j (Nat.zero_le _) hj R hR hlt) (countP_okCalled_mono hf.2.1 _)

/-! ## What the broadcast phase can change -/

theorem broadcastList_sig {σ : Type} (env : Env σ) :
    ∀ (nodes : List NetmapNodeInfo) (st : IterState σ),
      (broadcastList env nodes st).sig = .next ∨ (broadcastList env nodes st).sig = .brk ∨
      (broadcastList env nodes st).sig = .panic
  | [], _ => Or.inl rfl
  | node :: rest, st => by
    unfold broadcastList
    dsimp only
    split
    · exact broadcastList_sig env rest st
    · split
      · exact broadcastList_sig env rest _
      · split
        · exact Or.inr (Or.inl rfl)
        · split
          · exact broadcastList_sig env rest _
          · rcases startNode_sig env node.publicKey none (newNodeResult env node)
              { st with nodeResults := (node.publicKey, newNodeResult env node) :: st.nodeResults }
              with h | h
            · exact Or.inl h
            · exact Or.inr (Or.inr h)

theorem broadcastLists_sig {σ : Type} (env : Env σ) :
    ∀ (lists : List (List NetmapNodeInfo)) (st : IterState σ),
      (broadcastLists env lists st).sig = .next ∨ (broadcastLists env lists st).sig = .brk ∨
      (broadcastLists env lists st).sig = .panic
  | [], _ => Or.inl rfl
  | nodes :: rest, st => by
    unfold broadcastLists
    dsimp only
    split
    · exact broadcastLists_sig env rest _
    · exact broadcastList_sig env nodes st

theorem finish_broadcast {σ : Type} (env : Env σ) (lists : List (List NetmapNodeInfo))
    (r : Flow σ) :
    (finish env true lists r).outcome = (finish env false lists r).outcome ∨
    ((finish env false lists r).outcome = .returned none ∧
      (finish env true lists r).outcome = .panicked) := by
  unfold finish
  cases hs : r.sig with
  | next =>
    dsimp only
    rcases broadcastLists_sig env lists r.st with h | h | h
    · left; simp [h]
    · left; simp [h]
    · right; simp [h]
  | ret err => exact Or.inl rfl
  | panic => exact Or.inl rfl
  | brk => exact Or.inl rfl
  | outOfFuel => exact Or.inl rfl

/-- The broadcast phase changes the outcome of a call in one way only: a call
that returns nil without broadcast may panic with it. -/
theorem broadcast_outcome {σ : Type} (env : Env σ) (x : PlacementIterator) (w : σ) :
    (iterateNodesForObject env { x with broadcast := true } w).outcome =
      (iterateNodesForObject env { x with broadcast := false } w).outcome ∨
    ((iterateNodesForObject env { x with broadcast := false } w).outcome = .returned none ∧
      (iterateNodesForObject env { x with broadcast := true } w).outcome = .panicked) := by
  unfold iterateNodesForObject
  dsimp only
  cases hsort : x.sortForObject with
  | error err => exact Or.inl rfl
  | ok L =>
    exact finish_broadcast env (effectiveLists x L).1
      (mainLoop env (effectiveLists x L).2 (effectiveLists x L).1 0
        (initState w (effectiveLists x L).1))

end PutSvc

namespace Engine

/-! ## The scan of `exists` -/

theorem existsLoop_append_misses (addr : Address) (rest : List Shard) :
    ∀ (pre : List Shard), (∀ p ∈ pre, p.misses addr = true) →
      existsLoop addr (pre ++ rest) =
        { existsLoop addr rest with
          trace := pre.map (fun sh => Event.shardExists sh.id) ++ (existsLoop addr rest).trace }
  | [], _ => rfl
  | p :: pre, h => by
    have ih := existsLoop_append_misses addr rest pre
      (fun q hq => h q (List.mem_cons_of_mem _ hq))
    have hp := h p (List.mem_cons_self _ _)
    unfold Shard.misses at hp
    rw [List.cons_append, existsLoop]
    cases hex : p.existsRes addr with
    | found res =>
      rw [hex] at hp
      have hres : res = false := by simpa using hp
      subst hres
      simp [ih]
    | failed err =>
      rw [hex] at hp
      unfold ShardError.notFoundOnly at hp
      simp only [Bool.and_eq_true, Bool.not_eq_true'] at hp
      obtain ⟨⟨⟨h1, h2⟩, h3⟩, h4⟩ := hp
      simp [h1, h2, h3, h4, ih]

theorem existsLoop_append_passes (addr : Address) (rest : List Shard) :
    ∀ (pre : List Shard), (∀ p ∈ pre, p.passes addr = true) →
      (existsLoop addr (pre ++ rest)).res = (existsLoop addr rest).res ∧
      (existsLoop addr (pre ++ rest)).err = (existsLoop addr rest).err ∧
      ∃ evs, (existsLoop addr (pre ++ rest)).trace = evs ++ (existsLoop addr rest).trace
  | [], _ => ⟨rfl, rfl, [], rfl⟩
  | p :: pre, h => by
    have ih := existsLoop_append_passes addr rest pre
      (fun q hq => h q (List.mem_cons_of_mem _ hq))
    obtain ⟨ih1, ih2, evs, ih3⟩ := ih
    have hp := h p (List.mem_cons_self _ _)
    unfold Shard.passes at hp
    rw [List.cons_append, existsLoop]
    cases hex : p.existsRes addr with
    | found res =>
      rw [hex] at hp
      have hres : res = false := by simpa using hp
      subst hres
      exact ⟨ih1, ih2, Event.shardExists p.id :: evs, by simp [ih3]⟩
    | failed err =>
      rw [hex] at hp
      simp only [Bool.and_eq_true, Bool.not_eq_true'] at hp
      obtain ⟨⟨h1, h2⟩, h3⟩ := hp
      cases h4 : err.isNotFound
      · exact ⟨by simp [h1, h2, h3, h4, ih1], by simp [h1, h2, h3, h4, ih2],
          Event.shardExists p.id :: Event.reportShardError p.id :: evs,
          by simp [h1, h2, h3, h4, ih3]⟩
      · exact ⟨by simp [h1, h2, h3, h4, ih1], by simp [h1, h2, h3, h4, ih2],
          Event.shardExists p.id :: evs, by simp [h1, h2, h3, h4, ih3]⟩

theorem existsLoop_cut (addr : Address) (s : Shard) (post : List Shard)
    (hs : s.passes addr = false) :
    ∀ (pre : List Shard), existsLoop addr (pre ++ s :: post) = existsLoop addr (pre ++ [s])
  | [] => by
    unfold Shard.passes at hs
    rw [List.nil_append, List.nil_append, existsLoop, existsLoop]
    cases hex : s.existsRes addr with
    | found res =>
      rw [hex] at hs
      have hres : res = true := by simpa using hs
      subst hres
      simp
    | failed err =>
      rw [hex] at hs
      cases h1 : err.isRemoved
      · cases h2 : err.isSplitInfo
        · cases h3 : err.isExpired
          · simp [h1, h2, h3] at hs
          · simp [h1, h2, h3]
        · simp [h1, h2]
      · simp [h1]
  | p :: pre => by
    have ih := existsLoop_cut addr s post hs pre
    rw [List.cons_append, List.cons_append, existsLoop, existsLoop, ih]

theorem existsLoop_err (addr : Address) :
    ∀ (shards : List Shard), (existsLoop addr shards).err = none ∨
      (existsLoop addr shards).err = some .objectAlreadyRemoved
  | [] => Or.inl rfl
  | s :: rest => by
    have ih := existsLoop_err addr rest
    rw [existsLoop]
    split
    · split
      · exact Or.inr rfl
      · split
        · exact Or.inl rfl
        · split
          · exact Or.inl rfl
          · dsimp only
            split <;> exact ih
    · split
      · exact Or.inl rfl
      · exact ih

theorem existsLoop_neither (addr : Address) :
    ∀ (shards : List Shard),
      (∀ sh ∈ shards, sh.existsRes addr ≠ .found true ∧
        ∀ err, sh.existsRes addr = .failed err → err.isRemoved = false) →
      (existsLoop addr shards).res = false ∧ (existsLoop addr shards).err = none
  | [], _ => ⟨rfl, rfl⟩
  | s :: rest, h => by
    have ih := existsLoop_neither addr rest (fun q hq => h q (List.mem_cons_of_mem _ hq))
    have hs := h s (List.mem_cons_self _ _)
    rw [existsLoop]
    cases hex : s.existsRes addr with
    | found res =>
      cases res with
      | true => exact absurd hex hs.1
      | false => simpa using ih
    | failed err =>
      have h1 := hs.2 err hex
      cases h2 : err.isSplitInfo
      · cases h3 : err.isExpired
        · cases h4 : err.isNotFound <;> simpa [h1, h2, h3, h4] using ih
        · simp [h1, h2, h3]
      · simp [h1, h2]

/-! ## `Put` calls `Shard.Put` only where the object is absent -/

theorem putToShard_shardPut (sh : Shard) (ind : Nat) (pool : Nat → Option PoolError)
    (attempt : Nat) (addr : Address) (id : ShardID)
    (h : Event.shardPut id ∈ (putToShard sh ind pool attempt addr).trace) :
    sh.id = id ∧ sh.existsRes addr = .found false := by
  unfold putToShard at h
  split at h
  · simp at h
  · split at h
    · simp at h
    · next hex =>
      split at h <;> simp at h
    · next hex =>
      split at h
      · split at h
        · simp at h
          exact ⟨h.symm, hex⟩
        · simp at h
          exact ⟨h.symm, hex⟩
      · simp at h
        exact ⟨h.symm, hex⟩

theorem deadline_shardPut (sh : Shard) (ind : Nat) (pool : Nat → Option PoolError)
    (addr : Address) (id : ShardID) :
    ∀ (ticks attempt : Nat),
      Event.shardPut id ∈ (putToShardWithDeadLine sh ind pool addr ticks attempt).2 →
      sh.id = id ∧ sh.existsRes addr = .found false
  | 0, _, h => by simp [putToShardWithDeadLine] at h
  | ticks + 1, attempt, h => by
    unfold putToShardWithDeadLine at h
    dsimp only at h
    split at h
    · rcases List.mem_append.1 h with h | h
      · exact putToShard_shardPut _ _ _ _ _ _ h
      · exact deadline_shardPut sh ind pool addr id ticks _ h
    · exact putToShard_shardPut _ _ _ _ _ _ h

theorem putLoop_shardPut (addr : Address) (id : ShardID) :
    ∀ (shards : List Shard) (i : Nat) (best : Option (Shard × (Nat → Option PoolError))),
      Event.shardPut id ∈ (putLoop addr shards i best).trace →
      ∃ sh ∈ shards, sh.id = id ∧ sh.existsRes addr = .found false
  | [], _, _, h => by simp [putLoop] at h
  | s :: rest, i, best, h => by
    unfold putLoop at h
    split at h
    · obtain ⟨sh, hm, hsh⟩ := putLoop_shardPut addr id rest _ _ h
      exact ⟨sh, List.mem_cons_of_mem _ hm, hsh⟩
    · dsimp only at h
      split at h
      · exact ⟨s, List.mem_cons_self _ _, putToShard_shardPut _ _ _ _ _ _ h⟩
      · rcases List.mem_append.1 h with h | h
        · exact ⟨s, List.mem_cons_self _ _, putToShard_shardPut _ _ _ _ _ _ h⟩
        · obtain ⟨sh, hm, hsh⟩ := putLoop_shardPut addr id rest _ _ h
          exact ⟨sh, List.mem_cons_of_mem _ hm, hsh⟩

theorem putLoop_best (addr : Address) :
    ∀ (shards : List Shard) (i : Nat) (best : Option (Shard × (Nat → Option PoolError))),
      ∀ b, (putLoop addr shards i best).best = some b → best = some b ∨ b.1 ∈ shards
  | [], _, best, b, h => by
    simp only [putLoop] at h
    exact Or.inl h
  | s :: rest, i, best, b, h => by
    unfold putLoop at h
    split at h
    · rcases putLoop_best addr rest _ best b h with h | h
      · exact Or.inl h
      · exact Or.inr (List.mem_cons_of_mem _ h)
    · next pool hpool =>
      dsimp only at h
      cases best with
      | none =>
        split at h
        · simp only [Option.some.injEq] at h
          rw [← h]
          exact Or.inr (List.mem_cons_self _ _)
        · rcases putLoop_best addr rest _ (some (s, pool)) b h
            with h | h
          · simp only [Option.some.injEq] at h
            rw [← h]
            exact Or.inr (List.mem_cons_self _ _)
          · exact Or.inr (List.mem_cons_of_mem _ h)
      | some b0 =>
        split at h
        · exact Or.inl h
        · rcases putLoop_best addr rest _ (some b0) b h with h | h
          · exact Or.inl h
          · exact Or.inr (List.mem_cons_of_mem _ h)

theorem existsLoop_no_shardPut (addr : Address) (id : ShardID) :
    ∀ (shards : List Shard), Event.shardPut id ∉ (existsLoop addr shards).trace
  | [] => by simp [existsLoop]
  | s :: rest => by
    have ih := existsLoop_no_shardPut addr id rest
    rw [existsLoop]
    split
    · split
      · simp
      · split
        · simp
        · split
          · simp
          · dsimp only
            split <;> simp [ih]
    · split
      · simp
      · simp [ih]

end Engine

namespace Meta

/-! ## Buckets -/

theorem Bucket.get_put_self {β : Type} (k : Nat) (v : β) :
    ∀ (b : Bucket β), Bucket.get (Bucket.put k v b) k = some v
  | [] => by simp [Bucket.put, Bucket.get, List.lookup]
  | (k1, v1) :: rest => by
    have ih := Bucket.get_put_self k v rest
    unfold Bucket.get at ih ⊢
    unfold Bucket.put
    by_cases h : k = k1
    · simp [h, List.lookup]
    · by_cases h2 : k < k1
      · simp [h, h2, List.lookup]
      · simp only [h, h2, if_false]
        rw [List.lookup_cons]
        have : (k == k1) = false := by simpa using h
        rw [this]
        exact ih

theorem Bucket.get_put_ne {β : Type} (k k2 : Nat) (v : β) (hne : k2 ≠ k) :
    ∀ (b : Bucket β), Bucket.get (Bucket.put k v b) k2 = Bucket.get b k2
  | [] => by
    have : (k2 == k) = false := by simpa using hne
    simp [Bucket.put, Bucket.get, List.lookup, this]
  | (k1, v1) :: rest => by
    have ih := Bucket.get_put_ne k k2 v hne rest
    have hk : (k2 == k) = false := by simpa using hne
    unfold Bucket.get at ih ⊢
    unfold Bucket.put
    by_cases h : k = k1
    · subst h
      simp [List.lookup_cons, hk]
    · by_cases h2 : k < k1
      · simp only [h, h2, if_false, if_true]
        rw [List.lookup_cons, hk]
      · simp only [h, h2, if_false]
        rw [List.lookup_cons, List.lookup_cons, ih]

theorem Bucket.put_put {β : Type} (k : Nat) (v : β) :
    ∀ (b : Bucket β), Bucket.put k v (Bucket.put k v b) = Bucket.put k v b
  | [] => by simp [Bucket.put]
  | (k1, v1) :: rest => by
    have ih := Bucket.put_put k v rest
    by_cases h : k = k1
    · simp [Bucket.put, h]
    · by_cases h2 : k < k1
      · simp [Bucket.put, h, h2]
      · simp [Bucket.put, h, h2, ih]

/-! ## The loop of `Lock` -/

theorem lockLoop_locks (c : Codec) (hc : c.RoundTrip) (locker : OID) :
    ∀ (keys : List OID) (bkt bkt1 : Bucket Bytes), lockLoop c locker keys bkt = .ok bkt1 →
      (∀ key ∈ keys, LockedBy c locker bkt1 key) ∧
      (∀ key, LockedBy c locker bkt key → LockedBy c locker bkt1 key)
  | [], bkt, bkt1, h => by
    simp only [lockLoop, Except.ok.injEq] at h
    subst h
    exact ⟨fun _ hk => (by cases hk), fun _ hk => hk⟩
  | key :: rest, bkt, bkt1, h => by
    unfold lockLoop at h
    split at h
    · cases h
    · next exLockers hdec =>
      split at h
      · next hcont =>
        obtain ⟨ih1, ih2⟩ := lockLoop_locks c hc locker rest bkt bkt1 h
        refine ⟨fun k hk => ?_, ih2⟩
        rcases List.mem_cons.1 hk with rfl | hk
        · exact ih2 _ ⟨exLockers, hdec, hcont⟩
        · exact ih1 k hk
      · split at h
        · cases h
        · next updLockers henc =>
          split at h
          · cases h
          · obtain ⟨ih1, ih2⟩ := lockLoop_locks c hc locker rest _ bkt1 h
            have hkey : LockedBy c locker (Bucket.put key updLockers bkt) key := by
              refine ⟨exLockers ++ [locker], ?_, ?_⟩
              · rw [Bucket.get_put_self]
                exact hc _ _ henc
              · simp
            refine ⟨fun k hk => ?_, fun k hk => ?_⟩
            · rcases List.mem_cons.1 hk with rfl | hk
              · exact ih2 _ hkey
              · exact ih1 k hk
            · by_cases hkk : k = key
              · subst hkk
                exact ih2 _ hkey
              · apply ih2
                obtain ⟨l, hl, hlc⟩ := hk
                exact ⟨l, by rw [Bucket.get_put_ne _ _ _ hkk]; exact hl, hlc⟩

theorem lockLoop_fixed (c : Codec) (locker : OID) :
    ∀ (keys : List OID) (bkt : Bucket Bytes), (∀ key ∈ keys, LockedBy c locker bkt key) →
      lockLoop c locker keys bkt = .ok bkt
  | [], _, _ => rfl
  | key :: rest, bkt, h => by
    obtain ⟨l, hl, hlc⟩ := h key (List.mem_cons_self _ _)
    unfold lockLoop
    rw [hl]
    simp only [hlc, if_true]
    exact lockLoop_fixed c locker rest bkt (fun k hk => h k (List.mem_cons_of_mem _ hk))

theorem lock_success (c : Codec) (db : DB) (cnr : CID) (locker : OID) (locked : List OID)
    (h : (DB.Lock c db cnr locker locked).1 = .returned none) :
    db.mode.noMetabase = false ∧ db.mode.readOnly = false ∧ locked.length ≠ 0 ∧
    (match db.metaBucket cnr with
      | some typeOf => hasNonRegular typeOf locked
      | none => false) = false ∧
    ∃ root bkt, db.lockedBucket = some root ∧
      lockLoop c locker locked ((Bucket.get root cnr).getD []) = .ok bkt ∧
      (DB.Lock c db cnr locker locked).2 =
        { db with lockedBucket := some (Bucket.put cnr bkt root) } := by
  unfold DB.Lock at h ⊢
  cases h1 : db.mode.noMetabase
  · cases h2 : db.mode.readOnly
    · by_cases h3 : locked.length = 0
      · simp [h1, h2, h3] at h
      · cases h4 : (match db.metaBucket cnr with
          | some typeOf => hasNonRegular typeOf locked
          | none => false)
        · cases h5 : db.lockedBucket with
          | none => simp [h1, h2, h3, h4, h5] at h
          | some root =>
            cases h6 : lockLoop c locker locked ((Bucket.get root cnr).getD []) with
            | error err => simp [h1, h2, h3, h4, h5, h6] at h
            | ok bkt =>
              refine ⟨rfl, rfl, h3, rfl, root, bkt, rfl, h6, ?_⟩
              simp [h3, h4, h6]
        · simp [h1, h2, h3, h4] at h
    · simp [h1, h2] at h
  · simp [h1] at h

end Meta

namespace PutSvc

/-! ## Exact behaviour under well-behaved collaborators -/

theorem getD_mem_or_nil (L : List (List NetmapNodeInfo)) (j : Nat) :
    L.getD j [] ∈ L ∨ L.getD j [] = [] := by
  by_cases hj : j < L.length
  · left
    rw [List.getD_eq_getElem?_getD, List.getElem?_eq_getElem hj]
    exact List.getElem_mem _
  · right
    rw [List.getD_eq_getElem?_getD, List.getElem?_eq_none (Nat.le_of_not_lt hj)]
    rfl

theorem WellFormed.len_lt {L : List (List NetmapNodeInfo)} {rc : List Nat}
    (h : WellFormed L rc) (j : Nat) : (L.getD j []).length < 2 ^ 63 := by
  rcases getD_mem_or_nil L j with hm | hm
  · exact h.lens _ hm
  · rw [hm]
    simp

theorem WellFormed.nodup_at {L : List (List NetmapNodeInfo)} {rc : List Nat}
    (h : WellFormed L rc) (j : Nat) : ((L.getD j []).map (fun n => n.publicKey)).Nodup := by
  rcases getD_mem_or_nil L j with hm | hm
  · exact h.nodup _ hm
  · rw [hm]
    exact List.nodup_nil

theorem countP_take_le (q : NetmapNodeInfo → Bool) (l : List NetmapNodeInfo) (p : Nat) :
    (l.take p).countP q ≤ l.length :=
  le_trans (List.Sublist.countP_le q (List.take_sublist p l)) (List.countP_le_length q)

theorem uinc_eq {a : Nat} (h : a + 1 < 2 ^ 63) : uinc a = a + 1 := by
  unfold uinc uintSize
  omega

theorem newNodeResult_convertErr {σ : Type} {env : Env σ} {L : List (List NetmapNodeInfo)}
    {ok : PubKey → Bool} (hg : Good env L ok) (l : List NetmapNodeInfo) (hl : l ∈ L)
    (n : NetmapNodeInfo) (hn : n ∈ l) : (newNodeResult env n).convertErr = none := by
  obtain ⟨eps, he⟩ := hg.conv l hl n hn
  unfold newNodeResult convertNodeInfo
  split
  · rfl
  · simp [he]

theorem key_not_in_take (l : List NetmapNodeInfo) (p : Nat) (node : NetmapNodeInfo)
    (hnd : (l.map (fun n => n.publicKey)).Nodup) (hnode : l[p]? = some node) :
    ∀ n ∈ l.take p, n.publicKey ≠ node.publicKey := by
  intro n hn heq
  have hp : p < l.length := by
    by_contra hge
    rw [List.getElem?_eq_none (Nat.le_of_not_lt hge)] at hnode
    cases hnode
  have hsplit : l = l.take p ++ node :: l.drop (p + 1) := by
    have h1 := List.take_append_drop p l
    rw [List.drop_eq_getElem_cons hp] at h1
    have h2 : l[p] = node := by
      rw [List.getElem?_eq_getElem hp] at hnode
      exact Option.some.inj hnode
    rw [h2] at h1
    exact h1.symm
  rw [hsplit, List.map_append, List.map_cons] at hnd
  have hdis := (List.nodup_append.1 hnd).2.2
  exact hdis (List.mem_map.2 ⟨n, hn, rfl⟩) (by rw [heq]; exact List.mem_cons_self _ _)

theorem Exact.setWorld {σ : Type} {env : Env σ} {L : List (List NetmapNodeInfo)}
    {ok : PubKey → Bool} {i : Nat} {pending : List PubKey} {st : IterState σ}
    (h : Exact env L ok i pending st) (w : σ) :
    Exact env L ok i pending { st with world := w } :=
  ⟨h.rec_desc, h.rec_done, h.pend_nodup, h.pend_rec, h.pend_in, h.cnt_cur, h.cnt_other,
    h.proc_le, h.last_f, h.counters_len⟩

theorem storeLastRespErr_ok {σ : Type} {env : Env σ} {L : List (List NetmapNodeInfo)}
    {ok : PubKey → Bool} (hg : Good env L ok) (cell : Option Error)
    (hcell : ∀ e, cell = some e → ∃ w d, (env.f w d).1 = some e) (w : σ) (d : NodeDesc)
    (e : Error) (he : (env.f w d).1 = some e) :
    storeLastRespErr cell e = (some e, false) := by
  unfold storeLastRespErr
  cases cell with
  | none => rfl
  | some old =>
    obtain ⟨w1, d1, h1⟩ := hcell old rfl
    simp [hg.ftype w1 w d1 d old e h1 he]

theorem processNode_panics {σ : Type} (env : Env σ) (k : PubKey) (li : Option Nat)
    (nr : NodeResult) (st : IterState σ) :
    (processNode env k li nr st).2 =
      match (env.f st.world nr.desc).1 with
      | none => false
      | some e => (storeLastRespErr st.lastRespErr e).2 := by
  unfold processNode
  cases h : (env.f st.world nr.desc).1 <;> simp [h]

theorem processNode_cell {σ : Type} (env : Env σ) (k : PubKey) (li : Option Nat)
    (nr : NodeResult) (st : IterState σ) :
    (processNode env k li nr st).1.lastRespErr =
      match (env.f st.world nr.desc).1 with
      | none => st.lastRespErr
      | some e => (storeLastRespErr st.lastRespErr e).1 := by
  unfold processNode
  cases h : (env.f st.world nr.desc).1 <;> simp [h]

theorem processNode_lastRespErr {σ : Type} {env : Env σ} {L : List (List NetmapNodeInfo)}
    {ok : PubKey → Bool} (hg : Good env L ok) (k : PubKey) (li : Option Nat) (nr : NodeResult)
    (st : IterState σ) (hcell : ∀ e, st.lastRespErr = some e → ∃ w d, (env.f w d).1 = some e) :
    (processNode env k li nr st).2 = false ∧
    ∀ e, (processNode env k li nr st).1.lastRespErr = some e → ∃ w d, (env.f w d).1 = some e := by
  rw [processNode_panics, processNode_cell]
  cases h : (env.f st.world nr.desc).1 with
  | none => exact ⟨rfl, hcell⟩
  | some err =>
    have hs := storeLastRespErr_ok hg st.lastRespErr hcell st.world nr.desc err h
    dsimp only
    rw [hs]
    refine ⟨rfl, fun e he => ?_⟩
    cases he
    exact ⟨st.world, nr.desc, h⟩

theorem processNode_exact {σ : Type} {env : Env σ} {L : List (List NetmapNodeInfo)}
    {rc : List Nat} {ok : PubKey → Bool} (hg : Good env L ok) (hw : WellFormed L rc) (i : Nat)
    (hi : i < L.length) (k : PubKey) (rest : List PubKey) (nr : NodeResult) (st : IterState σ)
    (h : Exact env L ok i (k :: rest) st) (hnr : st.nodeResults.lookup k = some nr) :
    (processNode env k (some i) nr st).2 = false ∧
    Exact env L ok i rest (processNode env k (some i) nr st).1 := by
  have hlast := processNode_lastRespErr hg k (some i) nr st h.last_f
  refine ⟨hlast.1, ?_⟩
  obtain ⟨l, hl, n, hn, hnk, hdesc⟩ := h.rec_desc k nr hnr
  have hfok : ((env.f st.world nr.desc).1).isNone = ok k := by
    rw [hdesc, ← hnk]
    exact hg.fok st.world l hl n hn
  have hlt : i < st.nodesCounters.length := by rw [h.counters_len]; exact hi
  have hcnt := h.cnt_cur
  rw [List.countP_cons] at hcnt
  have hlen := hw.len_lt i
  have hcl : ((L.getD i []).take (counterAt st.nodesCounters i).processed).countP
      (fun n => ok n.publicKey) ≤ (L.getD i []).length :=
    countP_take_le _ _ _
  constructor
  · intro k1 nr1 hl1
    rw [processNode_nodeResults, List.lookup_cons] at hl1
    split at hl1
    · next heq =>
      have hk1 : k1 = k := by simpa using heq
      cases hl1
      exact ⟨l, hl, n, hn, hnk.trans hk1.symm, hdesc⟩
    · exact h.rec_desc k1 nr1 hl1
  · intro k1 nr1 hl1 hnot
    rw [processNode_nodeResults, List.lookup_cons] at hl1
    split at hl1
    · next heq =>
      have hk1 : k1 = k := by simpa using heq
      cases hl1
      rw [hk1]
      exact hfok
    · next hne =>
      have hk1 : k1 ≠ k := by simpa using hne
      refine h.rec_done k1 nr1 hl1 ?_
      intro hmem
      rcases List.mem_cons.1 hmem with hm | hm
      · exact hk1 hm
      · exact hnot hm
  · exact (List.nodup_cons.1 h.pend_nodup).2
  · intro k1 hk1
    rw [processNode_nodeResults]
    exact lookup_cons_isSome _ _ _ _ (h.pend_rec k1 (List.mem_cons_of_mem _ hk1))
  · intro k1 hk1
    rw [(processNode_sent env k (some i) nr st).processed_eq]
    exact h.pend_in k1 (List.mem_cons_of_mem _ hk1)
  · rw [(processNode_sent env k (some i) nr st).processed_eq, processNode_nodesCounters]
    dsimp only
    rw [hfok]
    cases hok : ok k
    · simp only [Bool.false_eq_true, if_false]
      simp only [hok, Bool.false_eq_true, if_false] at hcnt
      omega
    · simp only [if_true]
      simp only [hok, if_true] at hcnt
      rw [counterAt_incStored]
      simp only [hlt, and_self, if_true]
      rw [uinc_eq (by omega)]
      omega
  · intro j hj
    rw [(processNode_sent env k (some i) nr st).processed_eq, processNode_nodesCounters]
    dsimp only
    split
    · rw [incStored_stored_ne _ _ _ hj]
      exact h.cnt_other j hj
    · exact h.cnt_other j hj
  · intro j
    rw [(processNode_sent env k (some i) nr st).processed_eq]
    exact h.proc_le j
  · exact hlast.2
  · rw [processNode_nodesCounters]
    dsimp only
    split
    · exact (incStored_length _ _).trans h.counters_len
    · exact h.counters_len

theorem startNode_exact {σ : Type} {env : Env σ} {L : List (List NetmapNodeInfo)}
    {rc : List Nat} {ok : PubKey → Bool} (hg : Good env L ok) (hw : WellFormed L rc) (i : Nat)
    (hi : i < L.length) (k : PubKey) (rest : List PubKey) (nr : NodeResult) (st : IterState σ)
    (h : Exact env L ok i (k :: rest) st) (hnr : st.nodeResults.lookup k = some nr) :
    (startNode env k (some i) nr st).1.sig = .next ∧
    Exact env L ok i rest (startNode env k (some i) nr st).1.st := by
  unfold startNode
  split
  · have hp := processNode_exact hg hw i hi k rest nr st h hnr
    dsimp only
    rw [hp.1]
    exact ⟨rfl, hp.2⟩
  · have hpool := hg.pool st.world
    split
    · next e w heq =>
      rw [heq] at hpool
      cases hpool
    · next w heq =>
      have hp := processNode_exact hg hw i hi k rest nr { st with world := w } (h.setWorld w) hnr
      dsimp only
      rw [hp.1]
      exact ⟨rfl, hp.2⟩

theorem dispatchWave_exact {σ : Type} {env : Env σ} {L : List (List NetmapNodeInfo)}
    {rc : List Nat} {ok : PubKey → Bool} (hg : Good env L ok) (hw : WellFormed L rc) (i : Nat)
    (hi : i < L.length) :
    ∀ (pending : List PubKey) (st : IterState σ), Exact env L ok i pending st →
      (dispatchWave env i pending st).sig = .next ∧
      Exact env L ok i [] (dispatchWave env i pending st).st ∧
      (counterAt (dispatchWave env i pending st).st.nodesCounters i).processed =
        (counterAt st.nodesCounters i).processed
  | [], st, h => ⟨rfl, h, rfl⟩
  | k :: rest, st, h => by
    have hsome := h.pend_rec k (List.mem_cons_self _ _)
    obtain ⟨nr, hnr⟩ := Option.isSome_iff_exists.1 hsome
    have hs := startNode_exact hg hw i hi k rest nr st h hnr
    have hsent := (startNode_inv_sent env k (some i) nr st).processed_eq i
    unfold dispatchWave
    dsimp only
    rw [hnr, Option.getD_some, hs.1]
    dsimp only
    have ih := dispatchWave_exact hg hw i hi rest _ hs.2
    exact ⟨ih.1, ih.2.1, ih.2.2.trans hsent⟩

theorem countP_take_succ_ite (q : NetmapNodeInfo → Bool) (l : List NetmapNodeInfo) (a : Nat)
    (n : NetmapNodeInfo) (hn : l[a]? = some n) :
    (l.take (a + 1)).countP q = (l.take a).countP q + if q n = true then 1 else 0 := by
  rw [List.take_succ, hn]
  simp [List.countP_cons]

theorem getElem?_lt {α : Type} (l : List α) (p : Nat) (a : α) (h : l[p]? = some a) :
    p < l.length := by
  by_contra hge
  rw [List.getElem?_eq_none (Nat.le_of_not_lt hge)] at h
  cases h

theorem Exact.afterMove {σ : Type} {env : Env σ} {L : List (List NetmapNodeInfo)}
    {ok : PubKey → Bool} {i : Nat} {next : List PubKey} {st : IterState σ}
    (h : Exact env L ok i next st) (hi : i < L.length) (node : NetmapNodeInfo)
    (hnode : (L.getD i [])[(counterAt st.nodesCounters i).processed]? = some node)
    (cs : List Counters) (hcs : cs.length = st.nodesCounters.length)
    (hself : counterAt cs i =
      ⟨(counterAt st.nodesCounters i).stored + (if ok node.publicKey = true then 1 else 0),
        (counterAt st.nodesCounters i).processed + 1⟩)
    (hother : ∀ j, j ≠ i → counterAt cs j = counterAt st.nodesCounters j) :
    Exact env L ok i next { st with nodesCounters := cs } where
  rec_desc := h.rec_desc
  rec_done := h.rec_done
  pend_nodup := h.pend_nodup
  pend_rec := h.pend_rec
  pend_in := by
    intro k hk
    show ∃ n ∈ (L.getD i []).take (counterAt cs i).processed, n.publicKey = k
    rw [hself]
    obtain ⟨n, hn, hnk⟩ := h.pend_in k hk
    exact ⟨n, (List.take_sublist_take_left _ (Nat.le_succ _)).subset hn, hnk⟩
  cnt_cur := by
    show (counterAt cs i).stored + _ = ((L.getD i []).take (counterAt cs i).processed).countP _
    rw [hself]
    dsimp only
    rw [countP_take_succ_ite _ _ _ node hnode]
    have := h.cnt_cur
    omega
  cnt_other := by
    intro j hj
    show (counterAt cs j).stored = ((L.getD j []).take (counterAt cs j).processed).countP _
    rw [hother j hj]
    exact h.cnt_other j hj
  proc_le := by
    intro j
    show (counterAt cs j).processed ≤ _
    by_cases hj : j = i
    · subst hj
      rw [hself]
      exact getElem?_lt _ _ _ hnode
    · rw [hother j hj]
      exact h.proc_le j
  last_f := h.last_f
  counters_len := hcs.trans h.counters_len

theorem Exact.afterPush {σ : Type} {env : Env σ} {L : List (List NetmapNodeInfo)}
    {ok : PubKey → Bool} {i : Nat} {next : List PubKey} {st : IterState σ}
    (h : Exact env L ok i next st) (l : List NetmapNodeInfo) (hl : l ∈ L)
    (node : NetmapNodeInfo) (hn : node ∈ l)
    (hnode : (L.getD i [])[(counterAt st.nodesCounters i).processed]? = some node)
    (hnew : st.nodeResults.lookup node.publicKey = none)
    (cs : List Counters) (hcs : cs.length = st.nodesCounters.length)
    (hself : counterAt cs i =
      ⟨(counterAt st.nodesCounters i).stored, (counterAt st.nodesCounters i).processed + 1⟩)
    (hother : ∀ j, j ≠ i → counterAt cs j = counterAt st.nodesCounters j) :
    Exact env L ok i (next ++ [node.publicKey])
      { st with nodeResults := (node.publicKey, newNodeResult env node) :: st.nodeResults,
                nodesCounters := cs } where
  rec_desc := by
    intro k nr hk
    change ((node.publicKey, newNodeResult env node) :: st.nodeResults).lookup k = some nr at hk
    rw [List.lookup_cons] at hk
    split at hk
    · next heq =>
      have hk1 : k = node.publicKey := by simpa using heq
      cases hk
      exact ⟨l, hl, node, hn, hk1.symm, rfl⟩
    · exact h.rec_desc k nr hk
  rec_done := by
    intro k nr hk hnot
    change ((node.publicKey, newNodeResult env node) :: st.nodeResults).lookup k = some nr at hk
    rw [List.lookup_cons] at hk
    split at hk
    · next heq =>
      have hk1 : k = node.publicKey := by simpa using heq
      exact absurd (List.mem_append_right _ (List.mem_singleton.2 hk1)) hnot
    · exact h.rec_done k nr hk (fun hm => hnot (List.mem_append_left _ hm))
  pend_nodup := by
    refine List.Nodup.append h.pend_nodup (List.nodup_singleton _) ?_
    intro a ha hb
    rw [List.mem_singleton.1 hb] at ha
    have := h.pend_rec _ ha
    rw [hnew] at this
    cases this
  pend_rec := by
    intro k hk
    rcases List.mem_append.1 hk with hk | hk
    · exact lookup_cons_isSome _ _ _ _ (h.pend_rec k hk)
    · rw [List.mem_singleton.1 hk]
      show (((node.publicKey, newNodeResult env node) :: st.nodeResults).lookup
        node.publicKey).isSome = true
      rw [List.lookup_cons]
      simp
  pend_in := by
    intro k hk
    show ∃ n ∈ (L.getD i []).take (counterAt cs i).processed, n.publicKey = k
    rw [hself]
    rcases List.mem_append.1 hk with hk | hk
    · obtain ⟨n, hn1, hnk⟩ := h.pend_in k hk
      exact ⟨n, (List.take_sublist_take_left _ (Nat.le_succ _)).subset hn1, hnk⟩
    · refine ⟨node, ?_, (List.mem_singleton.1 hk).symm⟩
      dsimp only
      rw [List.take_succ, hnode]
      simp
  cnt_cur := by
    show (counterAt cs i).stored + _ = ((L.getD i []).take (counterAt cs i).processed).countP _
    rw [hself]
    dsimp only
    rw [countP_take_succ_ite _ _ _ node hnode, List.countP_append, List.countP_cons,
      List.countP_nil]
    have := h.cnt_cur
    omega
  cnt_other := by
    intro j hj
    show (counterAt cs j).stored = ((L.getD j []).take (counterAt cs j).processed).countP _
    rw [hother j hj]
    exact h.cnt_other j hj
  proc_le := by
    intro j
    show (counterAt cs j).processed ≤ _
    by_cases hj : j = i
    · subst hj
      rw [hself]
      exact getElem?_lt _ _ _ hnode
    · rw [hother j hj]
      exact h.proc_le j
  last_f := h.last_f
  counters_len := hcs.trans h.counters_len

theorem selectNodes_exact {σ : Type} {env : Env σ} {L : List (List NetmapNodeInfo)}
    {rc : List Nat} {ok : PubKey → Bool} (hg : Good env L ok) (hw : WellFormed L rc) (i : Nat)
    (hi : i < L.length) (R : Nat) (hR : R < uintSize) :
    ∀ (fuel : Nat) (st : IterState σ) (replRem : Nat) (next : List PubKey),
      Exact env L ok i next st →
      (L.getD i []).length - (counterAt st.nodesCounters i).processed < fuel →
      (counterAt st.nodesCounters i).stored + replRem = R → next.length ≤ replRem →
      (selectNodes env i (L.getD i []) fuel st replRem next).1.sig = .next ∧
      Exact env L ok i (selectNodes env i (L.getD i []) fuel st replRem next).2
        (selectNodes env i (L.getD i []) fuel st replRem next).1.st ∧
      (counterAt st.nodesCounters i).processed ≤
        (counterAt (selectNodes env i (L.getD i []) fuel st replRem next).1.st.nodesCounters
          i).processed ∧
      ((counterAt st.nodesCounters i).processed < (L.getD i []).length →
        next.length < replRem →
        (counterAt st.nodesCounters i).processed <
          (counterAt (selectNodes env i (L.getD i []) fuel st replRem
            next).1.st.nodesCounters i).processed) ∧
      (counterAt (selectNodes env i (L.getD i []) fuel st replRem next).1.st.nodesCounters
          i).stored + (selectNodes env i (L.getD i []) fuel st replRem next).2.length ≤ R
  | 0, st, replRem, next, h, hfuel, _, _ => by omega
  | fuel + 1, st, replRem, next, h, hfuel, hrem, hnext => by
    have hlt : i < st.nodesCounters.length := by rw [h.counters_len]; exact hi
    unfold selectNodes
    dsimp only
    split
    · next hguard =>
      split
      · next hnone =>
        rw [List.getElem?_eq_none_iff] at hnone
        omega
      · next node hnode =>
        have hmemL : L.getD i [] ∈ L := by
          rcases getD_mem_or_nil L i with hm | hm
          · exact hm
          · rw [hm] at hguard
            simp at hguard
        have hnodeIn : node ∈ L.getD i [] := List.getElem?_mem hnode
        have hnotin : node.publicKey ∉ next := by
          intro hmem
          obtain ⟨n, hn, hnk⟩ := h.pend_in _ hmem
          exact key_not_in_take _ _ node (hw.nodup_at i) hnode n hn hnk
        have hcl := countP_take_le (fun n => ok n.publicKey) (L.getD i [])
          ((counterAt st.nodesCounters i).processed + 1)
        have hcs := countP_take_succ_ite (fun n => ok n.publicKey) (L.getD i [])
          (counterAt st.nodesCounters i).processed node hnode
        have hlen := hw.len_lt i
        have hcur := h.cnt_cur
        have hother1 : ∀ j, j ≠ i →
            counterAt (incProcessed st.nodesCounters i) j = counterAt st.nodesCounters j := by
          intro j hj
          rw [counterAt_incProcessed]
          simp [hj]
        have hself1 : counterAt (incProcessed st.nodesCounters i) i =
            ⟨(counterAt st.nodesCounters i).stored,
              (counterAt st.nodesCounters i).processed + 1⟩ := by
          rw [counterAt_incProcessed]
          simp [hlt]
        split
        · next nr hnr =>
          have hdone := h.rec_done _ nr hnr hnotin
          split
          · next hsucc =>
            have hok : ok node.publicKey = true := by rw [← hdone]; exact hsucc
            simp only [hok, if_true] at hcs
            have hself2 : counterAt (incProcessed (incStored st.nodesCounters i) i) i =
                ⟨(counterAt st.nodesCounters i).stored + 1,
                  (counterAt st.nodesCounters i).processed + 1⟩ := by
              rw [counterAt_incProcessed, incStored_length, counterAt_incStored]
              simp only [hlt, and_self, if_true]
              rw [uinc_eq (by omega)]
            have hex : Exact env L ok i next
                ({ st with nodesCounters :=
                    incProcessed (incStored st.nodesCounters i) i } : IterState σ) := by
              refine h.afterMove hi node hnode _
                ((incProcessed_length _ _).trans (incStored_length _ _)) ?_ ?_
              · rw [hself2]
                simp [hok]
              · intro j hj
                rw [counterAt_incProcessed, counterAt_incStored]
                simp only [hj, false_and, if_false]
                rw [counterAt_incStored]
                simp [hj]
            have hu : usub replRem 1 = replRem - 1 :=
              usub_eq_sub (by omega) (by omega)
            have ih := selectNodes_exact hg hw i hi R hR fuel _ (usub replRem 1) next hex
              (by
                show _ - (counterAt (incProcessed (incStored st.nodesCounters i) i) i).processed
                  < _
                rw [hself2]
                dsimp only
                omega)
              (by
                show (counterAt (incProcessed (incStored st.nodesCounters i) i) i).stored + _ = _
                rw [hself2, hu]
                dsimp only
                omega)
              (by rw [hu]; omega)
            refine ⟨ih.1, ih.2.1, ?_, fun _ _ => ?_, ih.2.2.2.2⟩
            · refine le_trans ?_ ih.2.2.1
              show _ ≤ (counterAt (incProcessed (incStored st.nodesCounters i) i) i).processed
              rw [hself2]
              exact Nat.le_succ _
            · refine lt_of_lt_of_le ?_ ih.2.2.1
              show _ < (counterAt (incProcessed (incStored st.nodesCounters i) i) i).processed
              rw [hself2]
              exact Nat.lt_succ_self _
          · next hsucc =>
            have hok : ok node.publicKey = false := by
              rw [← hdone]
              simpa using hsucc
            have hex : Exact env L ok i next
                ({ st with nodesCounters := incProcessed st.nodesCounters i } : IterState σ) := by
              refine h.afterMove hi node hnode _ (incProcessed_length _ _) ?_ hother1
              rw [hself1]
              simp [hok]
            have ih := selectNodes_exact hg hw i hi R hR fuel _ replRem next hex
              (by
                show _ - (counterAt (incProcessed st.nodesCounters i) i).processed < _
                rw [hself1]
                dsimp only
                omega)
              (by
                show (counterAt (incProcessed st.nodesCounters i) i).stored + _ = _
                rw [hself1]
                exact hrem)
              hnext
            refine ⟨ih.1, ih.2.1, ?_, fun _ _ => ?_, ih.2.2.2.2⟩
            · refine le_trans ?_ ih.2.2.1
              show _ ≤ (counterAt (incProcessed st.nodesCounters i) i).processed
              rw [hself1]
              exact Nat.le_succ _
            · refine lt_of_lt_of_le ?_ ih.2.2.1
              show _ < (counterAt (incProcessed st.nodesCounters i) i).processed
              rw [hself1]
              exact Nat.lt_succ_self _
        · next hnew =>
          have hconv := newNodeResult_convertErr hg _ hmemL node hnodeIn
          rw [hconv]
          dsimp only
          have hex : Exact env L ok i (next ++ [node.publicKey])
              ({ st with nodeResults := (node.publicKey, newNodeResult env node) :: st.nodeResults,
                         nodesCounters := incProcessed st.nodesCounters i } : IterState σ) :=
            h.afterPush _ hmemL node hnodeIn hnode hnew _ (incProcessed_length _ _) hself1
              hother1
          have ih := selectNodes_exact hg hw i hi R hR fuel _ replRem (next ++ [node.publicKey])
            hex
            (by
              show _ - (counterAt (incProcessed st.nodesCounters i) i).processed < _
              rw [hself1]
              dsimp only
              omega)
            (by
              show (counterAt (incProcessed st.nodesCounters i) i).stored + _ = _
              rw [hself1]
              exact hrem)
            (by
              rw [List.length_append, List.length_singleton]
              omega)
          refine ⟨ih.1, ih.2.1, ?_, fun _ _ => ?_, ih.2.2.2.2⟩
          · refine le_trans ?_ ih.2.2.1
            show _ ≤ (counterAt (incProcessed st.nodesCounters i) i).processed
            rw [hself1]
            exact Nat.le_succ _
          · refine lt_of_lt_of_le ?_ ih.2.2.1
            show _ < (counterAt (incProcessed st.nodesCounters i) i).processed
            rw [hself1]
            exact Nat.lt_succ_self _
    · next hguard =>
      refine ⟨rfl, h, le_refl _, fun h1 h2 => absurd ⟨h1, h2⟩ hguard, ?_⟩
      show (counterAt st.nodesCounters i).stored + next.length ≤ R
      omega

/-! ### Work on one list leaves the counters of the other lists alone -/

theorem counterAt_incStored_ne (cs : List Counters) (i j : Nat) (h : j ≠ i) :
    counterAt (incStored cs i) j = counterAt cs j := by
  rw [counterAt_incStored]
  simp [h]

theorem counterAt_incProcessed_ne (cs : List Counters) (i j : Nat) (h : j ≠ i) :
    counterAt (incProcessed cs i) j = counterAt cs j := by
  rw [counterAt_incProcessed]
  simp [h]

theorem processNode_frame {σ : Type} (env : Env σ) (k : PubKey) (i : Nat) (nr : NodeResult)
    (st : IterState σ) (j : Nat) (hj : j ≠ i) :
    counterAt (processNode env k (some i) nr st).1.nodesCounters j =
      counterAt st.nodesCounters j := by
  rw [processNode_nodesCounters]
  dsimp only
  split
  · exact counterAt_incStored_ne _ _ _ hj
  · rfl

theorem startNode_frame {σ : Type} (env : Env σ) (k : PubKey) (i : Nat) (nr : NodeResult)
    (st : IterState σ) (j : Nat) (hj : j ≠ i) :
    counterAt (startNode env k (some i) nr st).1.st.nodesCounters j =
      counterAt st.nodesCounters j := by
  rcases startNode_cases env k (some i) nr st with ⟨w, hst⟩ | ⟨w, hst⟩
  · rw [hst]
  · rw [hst]
    exact processNode_frame env k i nr _ j hj

theorem dispatchWave_frame {σ : Type} (env : Env σ) (i j : Nat) (hj : j ≠ i) :
    ∀ (pending : List PubKey) (st : IterState σ),
      counterAt (dispatchWave env i pending st).st.nodesCounters j =
        counterAt st.nodesCounters j
  | [], _ => rfl
  | k :: rest, st => by
    have hs := startNode_frame env k i ((st.nodeResults.lookup k).getD NodeResult.zero) st j hj
    unfold dispatchWave
    dsimp only
    split
    · exact (dispatchWave_frame env i j hj rest _).trans hs
    · exact hs

theorem selectNodes_frame {σ : Type} (env : Env σ) (i j : Nat) (hj : j ≠ i)
    (nodes : List NetmapNodeInfo) :
    ∀ (fuel : Nat) (st : IterState σ) (replRem : Nat) (next : List PubKey),
      counterAt (selectNodes env i nodes fuel st replRem next).1.st.nodesCounters j =
        counterAt st.nodesCounters j
  | 0, _, _, _ => rfl
  | fuel + 1, st, replRem, next => by
    unfold selectNodes
    dsimp only
    split
    · split
      · rfl
      · split
        · split
          · refine (selectNodes_frame env i j hj nodes fuel _ _ _).trans ?_
            exact (counterAt_incProcessed_ne _ _ _ hj).trans (counterAt_incStored_ne _ _ _ hj)
          · refine (selectNodes_frame env i j hj nodes fuel _ _ _).trans ?_
            exact counterAt_incProcessed_ne _ _ _ hj
        · split
          · refine (selectNodes_frame env i j hj nodes fuel _ _ _).trans ?_
            exact counterAt_incProcessed_ne _ _ _ hj
          · split
            · rfl
            · refine (selectNodes_frame env i j hj nodes fuel _ _ _).trans ?_
              exact counterAt_incProcessed_ne _ _ _ hj
    · rfl

theorem selectNodes_processed_mono {σ : Type} (env : Env σ) (i : Nat)
    (nodes : List NetmapNodeInfo) :
    ∀ (fuel : Nat) (st : IterState σ) (replRem : Nat) (next : List PubKey) (p : Nat),
      p ≤ (counterAt st.nodesCounters i).processed →
      p ≤ (counterAt (selectNodes env i nodes fuel st replRem next).1.st.nodesCounters
          i).processed
  | 0, _, _, _, _, hp => hp
  | fuel + 1, st, replRem, next, p, hp => by
    have h1 : p ≤ (counterAt (incProcessed st.nodesCounters i) i).processed :=
      le_trans hp (incProcessed_processed_ge _ _ _)
    have h2 : p ≤ (counterAt (incProcessed (incStored st.nodesCounters i) i) i).processed := by
      refine le_trans hp (le_trans (le_of_eq ?_) (incProcessed_processed_ge _ _ _))
      rw [incStored_processed]
    unfold selectNodes
    dsimp only
    split
    · split
      · exact hp
      · split
        · split
          · exact selectNodes_processed_mono env i nodes fuel _ _ _ p h2
          · exact selectNodes_processed_mono env i nodes fuel _ _ _ p h1
        · split
          · exact selectNodes_processed_mono env i nodes fuel _ _ _ p h1
          · split
            · exact hp
            · exact selectNodes_processed_mono env i nodes fuel _ _ _ p h1
    · exact hp

theorem waves_frame {σ : Type} (env : Env σ) (rc : List Nat) (i j : Nat) (hj : j ≠ i)
    (nodes : List NetmapNodeInfo) :
    ∀ (fuel : Nat) (st : IterState σ),
      counterAt (waves env rc i nodes fuel st).st.nodesCounters j =
        counterAt st.nodesCounters j
  | 0, _ => rfl
  | fuel + 1, st => by
    have hsel := selectNodes_frame env i j hj nodes (nodes.length + 1) st
    unfold waves
    dsimp only
    split
    · rfl
    · split
      · rfl
      · split
        · split <;> rfl
        · split
          · rfl
          · split
            · have hd := dispatchWave_frame env i j hj
              split
              · exact (waves_frame env rc i j hj nodes fuel _).trans
                  ((hd _ _).trans (hsel _ _))
              · exact (hd _ _).trans (hsel _ _)
            · exact hsel _ _

/-! ### Waves and lists -/

theorem countP_split (q : NetmapNodeInfo → Bool) (l : List NetmapNodeInfo) (p : Nat) :
    l.countP q ≤ (l.take p).countP q + (l.length - p) := by
  have h1 : l.countP q = (l.take p).countP q + (l.drop p).countP q := by
    rw [← List.countP_append, List.take_append_drop]
  have h2 : (l.drop p).countP q ≤ l.length - p := by
    refine le_trans (List.countP_le_length q) ?_
    simp
  omega

theorem waves_exact {σ : Type} {env : Env σ} {L : List (List NetmapNodeInfo)}
    {rc : List Nat} {ok : PubKey → Bool} (hg : Good env L ok) (hw : WellFormed L rc) (i : Nat)
    (hi : i < L.length) (R : Nat) (hR : rc[i]? = some R) :
    ∀ (fuel : Nat) (st : IterState σ), Exact env L ok i [] st →
      (L.getD i []).length - (counterAt st.nodesCounters i).processed < fuel →
      (counterAt st.nodesCounters i).stored ≤ R →
      Exact env L ok i [] (waves env rc i (L.getD i []) fuel st).st ∧
      (((waves env rc i (L.getD i []) fuel st).sig = .next ∧
          R ≤ (L.getD i []).countP (fun n => ok n.publicKey)) ∨
        ((∃ err, (waves env rc i (L.getD i []) fuel st).sig = .ret err) ∧
          (L.getD i []).countP (fun n => ok n.publicKey) < R))
  | 0, st, _, hfuel, _ => by omega
  | fuel + 1, st, h, hfuel, hst => by
    have hRlt : R < uintSize := hw.counts R (List.getElem?_mem hR)
    have hlen := hw.len_lt i
    have hple := h.proc_le i
    have hcur := h.cnt_cur
    simp only [List.countP_nil, Nat.add_zero] at hcur
    have hu1 : usub R (counterAt st.nodesCounters i).stored =
        R - (counterAt st.nodesCounters i).stored := usub_eq_sub hRlt hst
    have hu2 : usub (L.getD i []).length (counterAt st.nodesCounters i).processed =
        (L.getD i []).length - (counterAt st.nodesCounters i).processed :=
      usub_eq_sub (by unfold uintSize; omega) hple
    have hsplit := countP_split (fun n => ok n.publicKey) (L.getD i [])
      (counterAt st.nodesCounters i).processed
    have htake := List.Sublist.countP_le (fun n => ok n.publicKey)
      (List.take_sublist (counterAt st.nodesCounters i).processed (L.getD i []))
    unfold waves
    rw [hR]
    dsimp only
    rw [hu1, hu2]
    split
    · next hzero =>
      refine ⟨h, Or.inl ⟨rfl, ?_⟩⟩
      omega
    · next hpos =>
      split
      · next hleft =>
        have hc : (L.getD i []).countP (fun n => ok n.publicKey) < R := by omega
        split
        · exact ⟨h, Or.inr ⟨⟨_, rfl⟩, hc⟩⟩
        · exact ⟨h, Or.inr ⟨⟨_, rfl⟩, hc⟩⟩
      · next hleft =>
        split
        · next hbig => omega
        · have hsel := selectNodes_exact hg hw i hi R hRlt ((L.getD i []).length + 1) st
            (R - (counterAt st.nodesCounters i).stored) [] h (by omega) (by omega)
            (Nat.zero_le _)
          obtain ⟨hs1, hs2, _, hs4, hs5⟩ := hsel
          have hprog := hs4 (by omega) (by
            show 0 < _
            omega)
          have hd := dispatchWave_exact hg hw i hi _ _ hs2
          obtain ⟨hd1, hd2, hd3⟩ := hd
          rw [hs1]
          dsimp only
          rw [hd1]
          dsimp only
          have hc1 := hs2.cnt_cur
          have hc2 := hd2.cnt_cur
          simp only [List.countP_nil, Nat.add_zero] at hc2
          rw [hd3] at hc2
          have hcp : List.countP ok
              (selectNodes env i (L.getD i []) ((L.getD i []).length + 1) st
                (R - (counterAt st.nodesCounters i).stored) []).2 ≤
              (selectNodes env i (L.getD i []) ((L.getD i []).length + 1) st
                (R - (counterAt st.nodesCounters i).stored) []).2.length :=
            List.countP_le_length ok
          exact waves_exact hg hw i hi R hR fuel _ hd2 (by rw [hd3]; omega) (by omega)

theorem Exact.shift {σ : Type} {env : Env σ} {L : List (List NetmapNodeInfo)}
    {ok : PubKey → Bool} {i : Nat} {st : IterState σ} (h : Exact env L ok i [] st) (i1 : Nat) :
    Exact env L ok i1 [] st where
  rec_desc := h.rec_desc
  rec_done := h.rec_done
  pend_nodup := List.nodup_nil
  pend_rec := fun _ hk => by cases hk
  pend_in := fun _ hk => by cases hk
  cnt_cur := by
    simp only [List.countP_nil, Nat.add_zero]
    by_cases hii : i1 = i
    · subst hii
      simpa using h.cnt_cur
    · exact h.cnt_other i1 hii
  cnt_other := by
    intro j _
    by_cases hji : j = i
    · subst hji
      simpa using h.cnt_cur
    · exact h.cnt_other j hji
  proc_le := h.proc_le
  last_f := h.last_f
  counters_len := h.counters_len

theorem counterAt_initState {σ : Type} (w : σ) (L : List (List NetmapNodeInfo)) (j : Nat) :
    counterAt (initState w L).nodesCounters j = ⟨0, 0⟩ := by
  unfold initState counterAt
  simp only [List.getD_eq_getElem?_getD]
  by_cases hj : j < L.length
  · simp [List.getElem?_replicate, hj]
  · simp [List.getElem?_replicate, hj]

theorem initState_exact {σ : Type} (env : Env σ) (L : List (List NetmapNodeInfo))
    (ok : PubKey → Bool) (w : σ) (i : Nat) : Exact env L ok i [] (initState w L) where
  rec_desc := fun _ _ hk => by cases hk
  rec_done := fun _ _ hk => by cases hk
  pend_nodup := List.nodup_nil
  pend_rec := fun _ hk => by cases hk
  pend_in := fun _ hk => by cases hk
  cnt_cur := by
    rw [counterAt_initState]
    simp
  cnt_other := by
    intro j _
    rw [counterAt_initState]
    simp
  proc_le := by
    intro j
    rw [counterAt_initState]
    exact Nat.zero_le _
  last_f := fun _ he => by cases he
  counters_len := by
    unfold initState
    simp

theorem mainLoop_exact {σ : Type} {env : Env σ} {L : List (List NetmapNodeInfo)}
    {rc : List Nat} {ok : PubKey → Bool} (hg : Good env L ok) (hw : WellFormed L rc) :
    ∀ (lists : List (List NetmapNodeInfo)) (i : Nat) (st : IterState σ),
      L.drop i = lists → Exact env L ok i [] st →
      (∀ j, i ≤ j → counterAt st.nodesCounters j = ⟨0, 0⟩) →
      (∀ e, (mainLoop env rc lists i st).st.lastRespErr = some e →
        ∃ w d, (env.f w d).1 = some e) ∧
      (((mainLoop env rc lists i st).sig = .next ∧
          ∀ j, i ≤ j → j < L.length →
            rc.getD j 0 ≤ (L.getD j []).countP (fun n => ok n.publicKey)) ∨
        ((∃ err, (mainLoop env rc lists i st).sig = .ret err) ∧
          ∃ j, i ≤ j ∧ j < L.length ∧
            (L.getD j []).countP (fun n => ok n.publicKey) < rc.getD j 0))
  | [], i, st, hdrop, h, _ => by
    refine ⟨h.last_f, Or.inl ⟨rfl, fun j hij hj => ?_⟩⟩
    have := List.drop_eq_nil_iff.1 hdrop
    omega
  | nodes :: rest, i, st, hdrop, h, hzero => by
    have hi : i < L.length := by
      by_contra hge
      rw [List.drop_eq_nil_of_le (Nat.le_of_not_lt hge)] at hdrop
      cases hdrop
    have hcons := List.drop_eq_getElem_cons hi
    rw [hdrop] at hcons
    have hnodes : L.getD i [] = nodes := by
      rw [List.getD_eq_getElem?_getD, List.getElem?_eq_getElem hi]
      exact (List.cons.inj hcons).1.symm
    have hrest : L.drop (i + 1) = rest := (List.cons.inj hcons).2.symm
    have hi2 : i < rc.length := by rw [hw.len_eq]; exact hi
    have hR : rc[i]? = some (rc.getD i 0) := by
      rw [List.getD_eq_getElem?_getD, List.getElem?_eq_getElem hi2]
      rfl
    have hz := hzero i (le_refl _)
    have hwv := waves_exact hg hw i hi (rc.getD i 0) hR (nodes.length + 1) st h
      (by rw [hnodes]; omega) (by rw [hz]; exact Nat.zero_le _)
    rw [hnodes] at hwv
    obtain ⟨hex, hcase⟩ := hwv
    unfold mainLoop
    dsimp only
    rcases hcase with ⟨hsig, hcnt⟩ | ⟨⟨err, hsig⟩, hcnt⟩
    · rw [hsig]
      dsimp only
      have ih := mainLoop_exact hg hw rest (i + 1) _ hrest (hex.shift (i + 1)) (by
        intro j hj
        rw [waves_frame env rc i j (by omega) nodes]
        exact hzero j (by omega))
      refine ⟨ih.1, ?_⟩
      rcases ih.2 with ⟨hs, hall⟩ | ⟨hs, j, hj1, hj2, hj3⟩
      · refine Or.inl ⟨hs, fun j hij hj => ?_⟩
        by_cases hji : j = i
        · subst hji
          rw [hnodes]
          exact hcnt
        · exact hall j (by omega) hj
      · exact Or.inr ⟨hs, j, by omega, hj2, hj3⟩
    · rw [hsig]
      dsimp only
      exact ⟨hex.last_f, Or.inr ⟨⟨err, rfl⟩, i, le_refl _, hi, by rw [hnodes]; exact hcnt⟩⟩

theorem startNode_good {σ : Type} {env : Env σ} {L : List (List NetmapNodeInfo)}
    {ok : PubKey → Bool} (hg : Good env L ok) (k : PubKey) (li : Option Nat) (nr : NodeResult)
    (st : IterState σ) (hcell : ∀ e, st.lastRespErr = some e → ∃ w d, (env.f w d).1 = some e) :
    (startNode env k li nr st).1.sig = .next ∧
    ∀ e, (startNode env k li nr st).1.st.lastRespErr = some e →
      ∃ w d, (env.f w d).1 = some e := by
  unfold startNode
  split
  · have hp := processNode_lastRespErr hg k li nr st hcell
    dsimp only
    rw [hp.1]
    exact ⟨rfl, hp.2⟩
  · split
    · exact ⟨rfl, hcell⟩
    · next w _ =>
      have hp := processNode_lastRespErr hg k li nr { st with world := w } hcell
      dsimp only
      rw [hp.1]
      exact ⟨rfl, hp.2⟩

theorem broadcastList_good {σ : Type} {env : Env σ} {L : List (List NetmapNodeInfo)}
    {ok : PubKey → Bool} (hg : Good env L ok) :
    ∀ (nodes : List NetmapNodeInfo) (st : IterState σ),
      (∀ e, st.lastRespErr = some e → ∃ w d, (env.f w d).1 = some e) →
      (broadcastList env nodes st).sig ≠ .panic ∧
      ∀ e, (broadcastList env nodes st).st.lastRespErr = some e →
        ∃ w d, (env.f w d).1 = some e
  | [], st, h => ⟨by simp [broadcastList], h⟩
  | node :: rest, st, h => by
    unfold broadcastList
    dsimp only
    split
    · exact broadcastList_good hg rest st h
    · split
      · exact broadcastList_good hg rest _ h
      · have hs := startNode_good hg node.publicKey none (newNodeResult env node)
          { st with nodeResults := (node.publicKey, newNodeResult env node) :: st.nodeResults } h
        split
        · exact ⟨by simp, hs.2⟩
        · rw [hs.1]
          dsimp only
          exact broadcastList_good hg rest _ hs.2

theorem broadcastLists_good {σ : Type} {env : Env σ} {L : List (List NetmapNodeInfo)}
    {ok : PubKey → Bool} (hg : Good env L ok) :
    ∀ (lists : List (List NetmapNodeInfo)) (st : IterState σ),
      (∀ e, st.lastRespErr = some e → ∃ w d, (env.f w d).1 = some e) →
      (broadcastLists env lists st).sig ≠ .panic
  | [], st, _ => by simp [broadcastLists]
  | nodes :: rest, st, h => by
    have hb := broadcastList_good hg nodes st h
    unfold broadcastLists
    dsimp only
    split
    · exact broadcastLists_good hg rest _ hb.2
    · exact hb.1

/-- Back-fill, exactly: in non-linear mode, on well-formed node lists and with
collaborators that are `Good` (endpoints convert, the pool accepts every job,
the outcome of `f` depends on the node only, and all errors of `f` have one
concrete type), `iterateNodesForObject` returns nil if and only if every list
`i` has at least `replCounts[i]` nodes on which `f` succeeds. -/
theorem iterate_nil_iff {σ : Type} (env : Env σ) (x : PlacementIterator) (w : σ)
    (L : List (List NetmapNodeInfo)) (ok : PubKey → Bool) (hsort : x.sortForObject = .ok L)
    (hlin : x.linearReplNum = 0) (hg : Good env L ok) (hw : WellFormed L x.primaryCounts) :
    (iterateNodesForObject env x w).outcome = .returned none ↔
      ∀ j, j < L.length →
        x.primaryCounts.getD j 0 ≤ (L.getD j []).countP (fun n => ok n.publicKey) := by
  have heff : effectiveLists x L = (L, x.primaryCounts) := by
    unfold effectiveLists
    simp [hlin]
  have hm := mainLoop_exact hg hw L 0 (initState w L) rfl (initState_exact env L ok w 0)
    (fun j _ => counterAt_initState w L j)
  unfold iterateNodesForObject
  rw [hsort]
  dsimp only
  rw [heff]
  dsimp only
  obtain ⟨hlast, hcase⟩ := hm
  rcases hcase with ⟨hsig, hall⟩ | ⟨⟨err, hsig⟩, j, _, hj, hlt⟩
  · have hnil : (finish env x.broadcast L
        (mainLoop env x.primaryCounts L 0 (initState w L))).outcome = .returned none := by
      unfold finish
      rw [hsig]
      dsimp only
      split
      · rfl
      · have hb := broadcastLists_good hg L _ hlast
        rcases broadcastLists_sig env L
          (mainLoop env x.primaryCounts L 0 (initState w L)).st with h | h | h
        · simp [h]
        · simp [h]
        · exact absurd h hb
    exact ⟨fun _ j hj => hall j (Nat.zero_le _) hj, fun _ => hnil⟩
  · have hne : (finish env x.broadcast L
        (mainLoop env x.primaryCounts L 0 (initState w L))).outcome ≠ .returned none := by
      unfold finish
      rw [hsig]
      simp
    exact ⟨fun h => absurd h hne, fun h => absurd (h j hj) (by omega)⟩

/-- The example of the specification, with errors of one concrete type:
replica numbers `[2, 1]`, lists `[1, 2, 3]` and `[4]`.  When node `1` fails the
call returns nil, nodes `2` and `3` serving the first list; when nodes `1` and
`2` fail it returns the not-enough-nodes error of list 0 (2 required, 1 left),
wrapped with the last node error. -/
theorem backfill_example :
    (iterateNodesForObject (envOf 0 [(1, 0)] none) (iterOf [[1, 2, 3], [4]] [2, 1] false)
      ()).outcome = .returned none ∧
    (iterateNodesForObject (envOf 0 [(1, 0), (2, 0)] none)
      (iterOf [[1, 2, 3], [4]] [2, 1] false) ()).outcome =
      .returned (some (.errIncompletePut
        (.lastNodeError (.errNotEnoughNodes 0 2 1) (.ext 0 0)))) := by
  decide

end PutSvc

namespace PutSvc

/-! ## The step budget of the model is never exhausted -/

theorem Bounded.afterNode {σ : Type} {L : List (List NetmapNodeInfo)} {st : IterState σ}
    (h : Bounded L st) (env : Env σ) (k : PubKey) (li : Option Nat) (nr : NodeResult) :
    Bounded L (processNode env k li nr st).1 where
  counters_len := by
    rw [processNode_nodesCounters]
    cases li with
    | none => exact h.counters_len
    | some i =>
      dsimp only
      split
      · exact (incStored_length _ _).trans h.counters_len
      · exact h.counters_len
  proc_le := by
    intro j
    rw [(processNode_sent env k li nr st).processed_eq]
    exact h.proc_le j

theorem Bounded.afterStart {σ : Type} {L : List (List NetmapNodeInfo)} {st : IterState σ}
    (h : Bounded L st) (env : Env σ) (k : PubKey) (li : Option Nat) (nr : NodeResult) :
    Bounded L (startNode env k li nr st).1.st := by
  rcases startNode_cases env k li nr st with ⟨w, hst⟩ | ⟨w, hst⟩
  · rw [hst]
    exact ⟨h.counters_len, h.proc_le⟩
  · rw [hst]
    have hb : Bounded L ({ st with world := w } : IterState σ) := ⟨h.counters_len, h.proc_le⟩
    exact hb.afterNode env k li nr

theorem dispatchWave_fuel {σ : Type} (env : Env σ) (L : List (List NetmapNodeInfo)) (i : Nat) :
    ∀ (pending : List PubKey) (st : IterState σ), Bounded L st →
      (dispatchWave env i pending st).sig ≠ .outOfFuel ∧
      Bounded L (dispatchWave env i pending st).st ∧
      (counterAt (dispatchWave env i pending st).st.nodesCounters i).processed =
        (counterAt st.nodesCounters i).processed
  | [], st, h => ⟨by simp [dispatchWave], h, rfl⟩
  | k :: rest, st, h => by
    have hb := h.afterStart env k (some i) ((st.nodeResults.lookup k).getD NodeResult.zero)
    have hp := (startNode_inv_sent env k (some i)
      ((st.nodeResults.lookup k).getD NodeResult.zero) st).processed_eq i
    unfold dispatchWave
    dsimp only
    split
    · have ih := dispatchWave_fuel env L i rest _ hb
      exact ⟨ih.1, ih.2.1, ih.2.2.trans hp⟩
    · refine ⟨?_, hb, hp⟩
      rcases startNode_sig env k (some i)
        ((st.nodeResults.lookup k).getD NodeResult.zero) st with hs | hs
      · rw [hs]; simp
      · rw [hs]; simp

theorem Bounded.afterStep {σ : Type} {L : List (List NetmapNodeInfo)} {st : IterState σ}
    (h : Bounded L st) (i : Nat)
    (hguard : (counterAt st.nodesCounters i).processed < (L.getD i []).length)
    (cs : List Counters) (hcs : cs.length = st.nodesCounters.length)
    (hp : ∀ j, (counterAt cs j).processed = (counterAt st.nodesCounters j).processed)
    (m : List (PubKey × NodeResult)) :
    Bounded L { st with nodeResults := m, nodesCounters := incProcessed cs i } where
  counters_len := (incProcessed_length _ _).trans (hcs.trans h.counters_len)
  proc_le := by
    intro j
    show (counterAt (incProcessed cs i) j).processed ≤ _
    rw [counterAt_incProcessed]
    split
    · next hji =>
      rw [hji.1]
      dsimp only
      rw [hp i]
      exact hguard
    · rw [hp j]
      exact h.proc_le j

theorem selectNodes_fuel {σ : Type} (env : Env σ) (L : List (List NetmapNodeInfo)) (i : Nat)
    (hi : i < L.length) :
    ∀ (fuel : Nat) (st : IterState σ) (replRem : Nat) (next : List PubKey), Bounded L st →
      (L.getD i []).length - (counterAt st.nodesCounters i).processed < fuel →
      (selectNodes env i (L.getD i []) fuel st replRem next).1.sig ≠ .outOfFuel ∧
      Bounded L (selectNodes env i (L.getD i []) fuel st replRem next).1.st ∧
      ((counterAt st.nodesCounters i).processed < (L.getD i []).length →
        next.length < replRem →
        (selectNodes env i (L.getD i []) fuel st replRem next).1.sig = .next →
        (counterAt st.nodesCounters i).processed <
          (counterAt (selectNodes env i (L.getD i []) fuel st replRem
            next).1.st.nodesCounters i).processed)
  | 0, st, replRem, next, h, hfuel => by omega
  | fuel + 1, st, replRem, next, h, hfuel => by
    have hlt : i < st.nodesCounters.length := by rw [h.counters_len]; exact hi
    have key : ∀ (cs : List Counters) (m : List (PubKey × NodeResult)) (rr : Nat)
        (nx : List PubKey), cs.length = st.nodesCounters.length →
        (∀ j, (counterAt cs j).processed = (counterAt st.nodesCounters j).processed) →
        (counterAt st.nodesCounters i).processed < (L.getD i []).length →
        (selectNodes env i (L.getD i []) fuel
          { st with nodeResults := m, nodesCounters := incProcessed cs i } rr nx).1.sig ≠
            .outOfFuel ∧
        Bounded L (selectNodes env i (L.getD i []) fuel
          { st with nodeResults := m, nodesCounters := incProcessed cs i } rr nx).1.st ∧
        ((counterAt st.nodesCounters i).processed < (L.getD i []).length →
          next.length < replRem →
          (selectNodes env i (L.getD i []) fuel
            { st with nodeResults := m, nodesCounters := incProcessed cs i } rr nx).1.sig =
              .next →
          (counterAt st.nodesCounters i).processed <
            (counterAt (selectNodes env i (L.getD i []) fuel
              { st with nodeResults := m, nodesCounters := incProcessed cs i } rr
                nx).1.st.nodesCounters i).processed) := by
      intro cs m rr nx hcs hp hg
      have hb := h.afterStep i hg cs hcs hp m
      have hp1 : (counterAt (incProcessed cs i) i).processed =
          (counterAt st.nodesCounters i).processed + 1 := by
        rw [counterAt_incProcessed]
        simp [hcs, hlt, hp i]
      have ih := selectNodes_fuel env L i hi fuel
        { st with nodeResults := m, nodesCounters := incProcessed cs i } rr nx hb (by
          show _ - (counterAt (incProcessed cs i) i).processed < _
          rw [hp1]
          omega)
      refine ⟨ih.1, ih.2.1, fun _ _ _ => ?_⟩
      have hmono1 : (counterAt (incProcessed cs i) i).processed ≤
          (counterAt (selectNodes env i (L.getD i []) fuel
            { st with nodeResults := m, nodesCounters := incProcessed cs i } rr
              nx).1.st.nodesCounters i).processed :=
        selectNodes_processed_mono env i (L.getD i []) fuel _ rr nx _ (le_refl _)
      omega
    unfold selectNodes
    dsimp only
    split
    · next hguard =>
      split
      · exact ⟨by simp, h, fun _ _ hs => by cases hs⟩
      · split
        · split
          · exact key (incStored st.nodesCounters i) st.nodeResults _ _
              (incStored_length _ _) (fun j => incStored_processed _ _ _) hguard.1
          · exact key st.nodesCounters st.nodeResults _ _ rfl (fun _ => rfl) hguard.1
        · split
          · exact key st.nodesCounters _ _ _ rfl (fun _ => rfl) hguard.1
          · split
            · exact ⟨by simp, ⟨h.counters_len, h.proc_le⟩, fun _ _ hs => by cases hs⟩
            · exact key st.nodesCounters _ _ _ rfl (fun _ => rfl) hguard.1
    · next hguard =>
      exact ⟨by simp, h, fun h1 h2 _ => absurd ⟨h1, h2⟩ hguard⟩

theorem waves_fuel {σ : Type} (env : Env σ) (rc : List Nat) (L : List (List NetmapNodeInfo))
    (i : Nat) (hi : i < L.length) (hlen : (L.getD i []).length < uintSize) :
    ∀ (fuel : Nat) (st : IterState σ), Bounded L st →
      (L.getD i []).length - (counterAt st.nodesCounters i).processed < fuel →
      (waves env rc i (L.getD i []) fuel st).sig ≠ .outOfFuel ∧
      Bounded L (waves env rc i (L.getD i []) fuel st).st
  | 0, st, _, hfuel => by omega
  | fuel + 1, st, h, hfuel => by
    have hple := h.proc_le i
    have hu : usub (L.getD i []).length (counterAt st.nodesCounters i).processed =
        (L.getD i []).length - (counterAt st.nodesCounters i).processed :=
      usub_eq_sub hlen hple
    unfold waves
    dsimp only
    split
    · exact ⟨by simp, h⟩
    · next replCount _ =>
      split
      · exact ⟨by simp, h⟩
      · next hpos =>
        split
        · split
          · exact ⟨by simp, h⟩
          · exact ⟨by simp, h⟩
        · next hleft =>
          split
          · exact ⟨by simp, h⟩
          · have hsel := selectNodes_fuel env L i hi ((L.getD i []).length + 1) st
              (usub replCount (counterAt st.nodesCounters i).stored) [] h (by omega)
            obtain ⟨hs1, hs2, hs3⟩ := hsel
            split
            · next hnext =>
              have hprog := hs3 (by rw [hu] at hleft; omega) (by
                show 0 < _
                omega) hnext
              have hd := dispatchWave_fuel env L i
                (selectNodes env i (L.getD i []) ((L.getD i []).length + 1) st
                  (usub replCount (counterAt st.nodesCounters i).stored) []).2 _ hs2
              obtain ⟨hd1, hd2, hd3⟩ := hd
              split
              · exact waves_fuel env rc L i hi hlen fuel _ hd2 (by rw [hd3]; omega)
              · next hns =>
                refine ⟨?_, hd2⟩
                intro heq
                exact hd1 heq
            · next hns =>
              refine ⟨?_, hs2⟩
              intro heq
              exact hs1 heq

theorem mainLoop_fuel {σ : Type} (env : Env σ) (rc : List Nat) (L : List (List NetmapNodeInfo))
    (hlens : ∀ l ∈ L, l.length < uintSize) :
    ∀ (lists : List (List NetmapNodeInfo)) (i : Nat) (st : IterState σ),
      L.drop i = lists → Bounded L st →
      (mainLoop env rc lists i st).sig ≠ .outOfFuel
  | [], _, _, _, _ => by simp [mainLoop]
  | nodes :: rest, i, st, hdrop, h => by
    have hi : i < L.length := by
      by_contra hge
      rw [List.drop_eq_nil_of_le (Nat.le_of_not_lt hge)] at hdrop
      cases hdrop
    have hcons := List.drop_eq_getElem_cons hi
    rw [hdrop] at hcons
    have hnodes : L.getD i [] = nodes := by
      rw [List.getD_eq_getElem?_getD, List.getElem?_eq_getElem hi]
      exact (List.cons.inj hcons).1.symm
    have hrest : L.drop (i + 1) = rest := (List.cons.inj hcons).2.symm
    have hmem : L.getD i [] ∈ L := by
      rw [List.getD_eq_getElem?_getD, List.getElem?_eq_getElem hi]
      exact List.getElem_mem _
    have hw := waves_fuel env rc L i hi (hlens _ hmem) (nodes.length + 1) st h
      (by rw [hnodes]; omega)
    rw [hnodes] at hw
    unfold mainLoop
    dsimp only
    split
    · exact mainLoop_fuel env rc L hlens rest (i + 1) _ hrest hw.2
    · exact hw.1

theorem initState_bounded {σ : Type} (w : σ) (L : List (List NetmapNodeInfo)) :
    Bounded L (initState w L) where
  counters_len := by
    unfold initState
    simp
  proc_le := by
    intro j
    rw [counterAt_initState]
    exact Nat.zero_le _

/-- The step budget of the model suffices: a call of `iterateNodesForObject`
on node lists of Go slice length returns or panics, the loops of the function
terminate. -/
theorem iterate_terminates {σ : Type} (env : Env σ) (x : PlacementIterator) (w : σ)
    (hlens : ∀ L, x.sortForObject = .ok L →
      ∀ l ∈ (effectiveLists x L).1, l.length < uintSize) :
    (iterateNodesForObject env x w).outcome ≠ .outOfFuel := by
  unfold iterateNodesForObject
  cases hsort : x.sortForObject with
  | error err => simp
  | ok L =>
    dsimp only
    have hm := mainLoop_fuel env (effectiveLists x L).2 (effectiveLists x L).1
      (hlens L hsort) (effectiveLists x L).1 0 (initState w (effectiveLists x L).1) rfl
      (initState_bounded w _)
    unfold finish
    split
    · simp
    · simp
    · next hs => exact absurd hs hm
    · simp
    · split
      · simp
      · dsimp only
        rcases broadcastLists_sig env (effectiveLists x L).1
          (mainLoop env (effectiveLists x L).2 (effectiveLists x L).1 0
            (initState w (effectiveLists x L).1)).st with h | h | h
        · simp [h]
        · simp [h]
        · simp [h]

end PutSvc

namespace ShardPkg

/-! ## `Shard.Get` -/

theorem fetch_meta_error {ρ : Type} (s : Shard) (addr : Address)
    (storageFunc wc : (Address → Except BaseError Object) → ρ → Option BaseError × ρ) (r : ρ)
    (e : BaseError) (hmode : s.noMetabase = false) (hm : (s.metaExists addr).2 = some e) :
    s.fetchObjectData addr false storageFunc wc r = ⟨false, some (.ext e), r, [.metaExists]⟩ := by
  unfold Shard.fetchObjectData
  simp [hmode, hm]

theorem get_skip (s : Shard) (addr : Address) (skipMeta : Bool)
    (h : (skipMeta || s.noMetabase) = true) : marked (s.Get addr skipMeta).err = false := by
  unfold Shard.Get Shard.fetchObjectData
  simp only [h]
  cases hwc : s.writeCache with
  | none =>
    cases hb : s.blobStor addr <;> simp [getCallback, hb, marked, GetError.wrapsMetaWithNoObject]
  | some cache =>
    cases hc : cache addr with
    | ok obj => simp [getCallback, hc, marked]
    | error e =>
      cases ho : e.isOutOfRange
      · cases hb : s.blobStor addr <;>
          simp [getCallback, hc, ho, hb, marked, GetError.wrapsMetaWithNoObject]
      · simp [getCallback, hc, ho, marked, GetError.wrapsMetaWithNoObject]

theorem get_meta_error_unmarked (s : Shard) (addr : Address) (e : BaseError)
    (hmode : s.noMetabase = false) (hm : (s.metaExists addr).2 = some e) :
    marked (s.Get addr false).err = false := by
  unfold Shard.Get
  simp only [hmode, Bool.or_false]
  rw [fetch_meta_error s addr _ _ none e hmode hm]
  simp [marked, GetError.wrapsMetaWithNoObject]

theorem get_with_meta (s : Shard) (addr : Address) (ex : Bool) (hmode : s.noMetabase = false)
    (hm : s.metaExists addr = (ex, none)) :
    (ex = true → (s.Get addr false).err = (s.payloadError addr).map (fun e => .withNoObject (.ext e))) ∧
    (ex = false → marked (s.Get addr false).err = false) := by
  unfold Shard.Get Shard.fetchObjectData Shard.payloadError Shard.blobStorError
  simp only [hmode, hm, Bool.or_false]
  cases hwc : s.writeCache with
  | none =>
    cases ex <;> cases hb : s.blobStor addr <;>
      simp [getCallback, hb, marked, GetError.wrapsMetaWithNoObject]
  | some cache =>
    cases hc : cache addr with
    | ok obj => cases ex <;> simp [getCallback, hc, marked]
    | error e =>
      cases ho : e.isOutOfRange
      · cases ex <;> cases hb : s.blobStor addr <;>
          simp [getCallback, hc, ho, hb, marked, GetError.wrapsMetaWithNoObject]
      · cases ex <;> simp [getCallback, hc, ho, marked, GetError.wrapsMetaWithNoObject]

end ShardPkg

namespace Meta

/-! ## `Lock`: types of the locked objects, presence of the records -/

theorem hasNonRegular_iff (typeOf : OID → TypeRes) :
    ∀ (l : List OID), hasNonRegular typeOf l = true ↔
      ∃ id ∈ l, ∃ typ, typeOf id = .ok typ ∧ typ ≠ .regular
  | [] => by simp [hasNonRegular]
  | id :: rest => by
    have ih := hasNonRegular_iff typeOf rest
    unfold hasNonRegular
    cases h : typeOf id with
    | ok typ =>
      by_cases ht : typ = .regular
      · simp only [ht, ne_eq, not_true_eq_false, if_false, ih, List.mem_cons, exists_eq_or_imp, h,
          TypeRes.ok.injEq, exists_eq_left', false_or]
      · simp only [ne_eq, ht, not_false_eq_true, if_true, List.mem_cons, exists_eq_or_imp, h,
          TypeRes.ok.injEq, exists_eq_left', true_or]
    | notFound => simp [ih, h]
    | failed code => simp [ih, h]

theorem lockLoop_error_kind (c : Codec) (locker : OID) :
    ∀ (keys : List OID) (bkt : Bucket Bytes) (err : LockError),
      lockLoop c locker keys bkt = .error err → err ≠ .lockNonRegularObject
  | [], bkt, err, h => by simp [lockLoop] at h
  | key :: rest, bkt, err, h => by
    unfold lockLoop at h
    split at h
    · cases h
      simp
    · split at h
      · exact lockLoop_error_kind c locker rest bkt err h
      · split at h
        · cases h
          simp
        · split at h
          · cases h
            simp
          · exact lockLoop_error_kind c locker rest _ err h

theorem lockLoop_present (c : Codec) (hdec : c.decodeList [] = .ok []) (locker : OID) :
    ∀ (keys : List OID) (bkt bkt1 : Bucket Bytes), lockLoop c locker keys bkt = .ok bkt1 →
      (∀ key ∈ keys, (Bucket.get bkt1 key).isSome = true) ∧
      (∀ key, (Bucket.get bkt key).isSome = true → (Bucket.get bkt1 key).isSome = true) ∧
      (∀ key, key ∉ keys → Bucket.get bkt1 key = Bucket.get bkt key)
  | [], bkt, bkt1, h => by
    simp only [lockLoop, Except.ok.injEq] at h
    subst h
    exact ⟨fun _ hk => (by cases hk), fun _ hk => hk, fun _ _ => rfl⟩
  | key :: rest, bkt, bkt1, h => by
    unfold lockLoop at h
    split at h
    · cases h
    · next exLockers hd =>
      split at h
      · next hcont =>
        obtain ⟨ih1, ih2, ih3⟩ := lockLoop_present c hdec locker rest bkt bkt1 h
        refine ⟨fun k hk => ?_, ih2, fun k hk => ih3 k (fun hm => hk (List.mem_cons_of_mem _ hm))⟩
        rcases List.mem_cons.1 hk with rfl | hk
        · apply ih2
          cases hg : Bucket.get bkt k with
          | some v => rfl
          | none =>
            rw [hg, Option.getD_none, hdec] at hd
            cases hd
            simp at hcont
        · exact ih1 k hk
      · split at h
        · cases h
        · next updLockers henc =>
          split at h
          · cases h
          · obtain ⟨ih1, ih2, ih3⟩ := lockLoop_present c hdec locker rest _ bkt1 h
            have hkey : (Bucket.get (Bucket.put key updLockers bkt) key).isSome = true := by
              rw [Bucket.get_put_self]
              rfl
            refine ⟨fun k hk => ?_, fun k hk => ?_, fun k hk => ?_⟩
            · rcases List.mem_cons.1 hk with rfl | hk
              · exact ih2 _ hkey
              · exact ih1 k hk
            · by_cases hkk : k = key
              · subst hkk
                exact ih2 _ hkey
              · apply ih2
                rw [Bucket.get_put_ne _ _ _ hkk]
                exact hk
            · have hne : k ≠ key := fun he => hk (he ▸ List.mem_cons_self _ _)
              rw [ih3 k (fun hm => hk (List.mem_cons_of_mem _ hm)), Bucket.get_put_ne _ _ _ hne]

end Meta

namespace EngineList

/-! ## `ListWithCursor` over shards that fill their pages -/

theorem take_page_append (D R : List Addr) (k : Nat) :
    (D ++ R).take k = D.take k ++ R.take (k - (D.take k).length) := by
  rw [List.take_append_eq_append_take]
  congr 2
  rw [List.length_take]
  omega

theorem drop_page_stop (D R : List Addr) (k : Nat)
    (h : R.take (k - (D.take k).length) = []) :
    D.drop (D.take k).length ++ R = (D ++ R).drop k := by
  rw [List.length_take] at h ⊢
  by_cases hk : k ≤ D.length
  · rw [Nat.min_eq_left hk, List.drop_append_of_le_length hk]
  · have hk2 : D.length ≤ k := by omega
    rw [Nat.min_eq_right hk2] at h ⊢
    rcases List.take_eq_nil_iff.1 h with h0 | h0
    · omega
    · subst h0
      simp [List.drop_of_length_le hk2]

theorem drop_page_next (D R : List Addr) (k : Nat)
    (h : R.take (k - (D.take k).length) ≠ []) :
    R.drop (k - (D.take k).length) = (D ++ R).drop k := by
  rw [List.length_take] at h ⊢
  have hk : D.length < k := by
    by_contra hc
    apply h
    have : k - min k D.length = 0 := by omega
    rw [this]
    rfl
  have hk2 : D.length ≤ k := by omega
  rw [Nat.min_eq_right hk2, List.drop_append_eq_append_drop, List.drop_of_length_le hk2]
  rfl

theorem remaining_fresh (addrsOf : ShardID → List Addr) (c : Cursor Nat) :
    ∀ (ids : List ShardID), (∀ id ∈ ids, c.shardID < id) →
      remaining addrsOf ids c = (ids.map addrsOf).flatten
  | [], _ => rfl
  | id :: rest, h => by
    have h1 : c.shardID < id := h id (List.mem_cons_self _ _)
    have ih := remaining_fresh addrsOf c rest (fun x hx => h x (List.mem_cons_of_mem _ hx))
    have h2 : ¬ id < c.shardID := Nat.lt_asymm h1
    have h3 : ¬ id = c.shardID := Nat.ne_of_gt h1
    simp [remaining, h2, h3, ih]

theorem remaining_skip (addrsOf : ShardID → List Addr) (c : Cursor Nat) (id : ShardID)
    (rest : List ShardID) (h : id < c.shardID) :
    remaining addrsOf (id :: rest) c = remaining addrsOf rest c := by
  simp [remaining, h]

theorem remaining_at (addrsOf : ShardID → List Addr) (c : Cursor Nat) (id : ShardID)
    (rest : List ShardID) (h : ¬ id < c.shardID) :
    remaining addrsOf (id :: rest) c =
      (addrsOf id).drop ((if id = c.shardID then c.shardCursor else none).getD 0) ++
        remaining addrsOf rest c := by
  by_cases he : id = c.shardID
  · simp [remaining, h, he]
  · simp [remaining, h, he]

theorem listLoop_stop {κ : Type} (e : StorageEngine κ) (count : Nat) (id : ShardID)
    (rest : List ShardID) (res : List Addr) (c : Cursor κ) (h : res.length ≥ count) :
    listLoop e count (id :: rest) res c = (res, c) := by
  rw [listLoop]
  simp [h]

theorem listLoop_skip {κ : Type} (e : StorageEngine κ) (count : Nat) (id : ShardID)
    (rest : List ShardID) (res : List Addr) (c : Cursor κ) (h : ¬ res.length ≥ count)
    (hlt : id < c.shardID) :
    listLoop e count (id :: rest) res c = listLoop e count rest res c := by
  rw [listLoop]
  simp only [h, hlt, if_false, if_true]

theorem listLoop_call {κ : Type} (e : StorageEngine κ) (count : Nat) (id : ShardID)
    (rest : List ShardID) (res : List Addr) (c : Cursor κ) (sh : Shard κ)
    (h : ¬ res.length ≥ count) (hlt : ¬ id < c.shardID) (hsh : e.shards id = some sh) :
    listLoop e count (id :: rest) res c =
      (match sh.listWithCursor ((count - res.length) % uint32Size)
          (if id = c.shardID then c.shardCursor else none) with
        | none => listLoop e count rest res c
        | some r => listLoop e count rest (res ++ r.1) ⟨id, r.2⟩) := by
  rw [listLoop]
  simp only [h, hlt, if_false, hsh]

theorem LoopSpec.lift (addrsOf : ShardID → List Addr) (id : ShardID) (rest : List ShardID)
    (hlt : ∀ x ∈ rest, id < x) (k : Nat) (res : List Addr) (c : Cursor Nat)
    (out : List Addr × Cursor Nat)
    (hrem : remaining addrsOf (id :: rest) c = remaining addrsOf rest c)
    (h : LoopSpec addrsOf rest k res c out) : LoopSpec addrsOf (id :: rest) k res c out := by
  obtain ⟨h1, h2⟩ := h
  refine ⟨by rw [hrem]; exact h1, ?_⟩
  rw [hrem]
  rcases h2 with ⟨h3, h4⟩ | ⟨h3, h4, h5⟩
  · exact Or.inl ⟨h3, h4⟩
  · refine Or.inr ⟨h3, List.mem_cons_of_mem _ h4, ?_⟩
    rw [remaining_skip addrsOf out.2 id rest (hlt _ h4)]
    exact h5

theorem listLoop_paged (allIds : List ShardID) (addrsOf : ShardID → List Addr) (count : Nat)
    (hcount : count < uint32Size) :
    ∀ (ids : List ShardID), (∀ id ∈ ids, id ∈ allIds) → ids.Pairwise (· < ·) →
      ∀ (res : List Addr) (c : Cursor Nat),
        LoopSpec addrsOf ids (count - res.length) res c
          (listLoop (engineOfShards allIds (fun id => pagedShard (addrsOf id))) count ids res c)
  | [], _, _, res, c => by
    simp [LoopSpec, listLoop, remaining]
  | id :: rest, hmem, hsorted, res, c => by
    have hlt : ∀ x ∈ rest, id < x := (List.pairwise_cons.1 hsorted).1
    have ih := listLoop_paged allIds addrsOf count hcount rest
      (fun x hx => hmem x (List.mem_cons_of_mem _ hx)) (List.pairwise_cons.1 hsorted).2
    by_cases hb : res.length ≥ count
    · rw [listLoop_stop _ _ _ _ _ _ hb]
      have hk : count - res.length = 0 := Nat.sub_eq_zero_of_le hb
      rw [hk]
      simp [LoopSpec]
    · by_cases hs : id < c.shardID
      · rw [listLoop_skip _ _ _ _ _ _ hb hs]
        exact LoopSpec.lift addrsOf id rest hlt _ res c _ (remaining_skip addrsOf c id rest hs)
          (ih res c)
      · have hsh : (engineOfShards allIds (fun id => pagedShard (addrsOf id))).shards id =
            some (pagedShard (addrsOf id)) := by
          simp [engineOfShards, hmem id (List.mem_cons_self _ _)]
        rw [listLoop_call _ _ _ _ _ _ _ hb hs hsh]
        have hkpos : 0 < count - res.length := by omega
        have hmod : (count - res.length) % uint32Size = count - res.length :=
          Nat.mod_eq_of_lt (by omega)
        rw [hmod]
        have hrem := remaining_at addrsOf c id rest hs
        generalize hp0 : (if id = c.shardID then c.shardCursor else none).getD 0 = p0 at hrem
        have hcall : (pagedShard (addrsOf id)).listWithCursor (count - res.length)
            (if id = c.shardID then c.shardCursor else none) =
            if (((addrsOf id).drop p0).take (count - res.length)).length = 0 then none
            else some (((addrsOf id).drop p0).take (count - res.length),
              some (p0 + (((addrsOf id).drop p0).take (count - res.length)).length)) := by
          simp only [pagedShard, hp0]
        rw [hcall]
        by_cases hpage : (((addrsOf id).drop p0).take (count - res.length)).length = 0
        · simp only [hpage, if_true]
          have hD : (addrsOf id).drop p0 = [] := by
            rcases List.take_eq_nil_iff.1 (List.length_eq_zero.1 hpage) with h0 | h0
            · omega
            · exact h0
          refine LoopSpec.lift addrsOf id rest hlt _ res c _ ?_ (ih res c)
          rw [hrem, hD, List.nil_append]
        · simp only [hpage, if_false]
          have hc1 : ∀ x ∈ rest, (⟨id, some (p0 + (((addrsOf id).drop p0).take
              (count - res.length)).length)⟩ : Cursor Nat).shardID < x := hlt
          have hcx : ∀ x ∈ rest, c.shardID < x := fun x hx =>
            Nat.lt_of_le_of_lt (Nat.le_of_not_lt hs) (hlt x hx)
          have hR1 := remaining_fresh addrsOf _ rest hc1
          have hR := remaining_fresh addrsOf c rest hcx
          have hih := ih (res ++ ((addrsOf id).drop p0).take (count - res.length))
            ⟨id, some (p0 + (((addrsOf id).drop p0).take (count - res.length)).length)⟩
          have hlen : count - (res ++ ((addrsOf id).drop p0).take (count - res.length)).length =
              count - res.length - (((addrsOf id).drop p0).take (count - res.length)).length := by
            rw [List.length_append]
            omega
          rw [hlen] at hih
          obtain ⟨g1, g2⟩ := hih
          rw [hR1, ← hR] at g1 g2
          have htake := take_page_append ((addrsOf id).drop p0) (remaining addrsOf rest c)
            (count - res.length)
          have hne : ((addrsOf id).drop p0 ++ remaining addrsOf rest c).take (count - res.length) ≠
              [] := by
            rw [htake]
            intro hnil
            rw [List.append_eq_nil] at hnil
            exact hpage (by rw [hnil.1]; rfl)
          refine ⟨?_, Or.inr ⟨?_, ?_, ?_⟩⟩
          · rw [g1, hrem, htake, List.append_assoc]
          · rw [hrem]
            exact hne
          · rcases g2 with ⟨-, g3⟩ | ⟨-, g3, -⟩
            · rw [g3]
              exact List.mem_cons_self _ _
            · exact List.mem_cons_of_mem _ g3
          · rw [hrem]
            rcases g2 with ⟨g3, g4⟩ | ⟨g3, g4, g5⟩
            · rw [g4, remaining_at addrsOf _ id rest (Nat.lt_irrefl id)]
              simp only [if_true, Option.getD_some]
              rw [hR1, ← hR, ← drop_page_stop _ _ _ g3, List.drop_drop]
            · rw [remaining_skip addrsOf _ id rest (hlt _ g4), g5]
              exact drop_page_next _ _ _ g3

theorem sorted_keys (ids : List ShardID) (hnd : ids.Nodup) :
    (ids.insertionSort (· ≤ ·)).Pairwise (· < ·) :=
  (List.sorted_insertionSort (· ≤ ·) ids).lt_of_le
    ((List.perm_insertionSort (· ≤ ·) ids).nodup_iff.2 hnd)

theorem remaining_start (addrsOf : ShardID → List Addr) :
    ∀ (sorted : List ShardID), sorted.Pairwise (· < ·) →
      remaining addrsOf sorted ⟨sorted.headD 0, none⟩ = (sorted.map addrsOf).flatten
  | [], _ => rfl
  | id :: rest, h => by
    have hlt : ∀ x ∈ rest, id < x := (List.pairwise_cons.1 h).1
    rw [List.headD_cons, remaining_at addrsOf _ id rest (Nat.lt_irrefl id),
      remaining_fresh addrsOf _ rest hlt]
    simp

theorem call_paged (ids : List ShardID) (addrsOf : ShardID → List Addr) (count : Nat)
    (hnd : ids.Nodup) (hne : ids ≠ []) (hcount : count < uint32Size)
    (oc : Option (Cursor Nat)) :
    ((remaining addrsOf (ids.insertionSort (· ≤ ·))
        (oc.getD ⟨(ids.insertionSort (· ≤ ·)).headD 0, none⟩)).take count = [] →
      (engineOfShards ids (fun id => pagedShard (addrsOf id))).ListWithCursor count oc =
        ⟨[], none, some .errEndOfListing⟩) ∧
    ((remaining addrsOf (ids.insertionSort (· ≤ ·))
        (oc.getD ⟨(ids.insertionSort (· ≤ ·)).headD 0, none⟩)).take count ≠ [] →
      ∃ c1, (engineOfShards ids (fun id => pagedShard (addrsOf id))).ListWithCursor count oc =
          ⟨(remaining addrsOf (ids.insertionSort (· ≤ ·))
            (oc.getD ⟨(ids.insertionSort (· ≤ ·)).headD 0, none⟩)).take count, some c1, none⟩ ∧
        remaining addrsOf (ids.insertionSort (· ≤ ·)) c1 =
          (remaining addrsOf (ids.insertionSort (· ≤ ·))
            (oc.getD ⟨(ids.insertionSort (· ≤ ·)).headD 0, none⟩)).drop count) := by
  have hkeys : ¬ (engineOfShards ids (fun id => pagedShard (addrsOf id))).keys.length = 0 := by
    simp [engineOfShards, hne]
  have hspec := listLoop_paged ids addrsOf count hcount (ids.insertionSort (· ≤ ·))
    (fun id hid => (List.perm_insertionSort (· ≤ ·) ids).mem_iff.1 hid) (sorted_keys ids hnd) []
    (oc.getD ⟨(ids.insertionSort (· ≤ ·)).headD 0, none⟩)
  simp only [List.length_nil, Nat.sub_zero, LoopSpec, List.nil_append] at hspec
  obtain ⟨h1, h2⟩ := hspec
  have hcol : (engineOfShards ids (fun id => pagedShard (addrsOf id))).collect count oc =
      listLoop (engineOfShards ids (fun id => pagedShard (addrsOf id))) count
        (ids.insertionSort (· ≤ ·)) [] (oc.getD ⟨(ids.insertionSort (· ≤ ·)).headD 0, none⟩) := rfl
  constructor
  · intro hnil
    unfold StorageEngine.ListWithCursor
    rw [hcol]
    simp only [hkeys, if_false, h1, hnil, List.length_nil, if_true]
  · intro hnn
    rcases h2 with ⟨h3, -⟩ | ⟨-, -, h5⟩
    · exact absurd h3 hnn
    · refine ⟨_, ?_, h5⟩
      unfold StorageEngine.ListWithCursor
      rw [hcol]
      have hlen : ¬ ((remaining addrsOf (ids.insertionSort (· ≤ ·))
          (oc.getD ⟨(ids.insertionSort (· ≤ ·)).headD 0, none⟩)).take count).length = 0 :=
        fun h0 => hnn (List.length_eq_zero.1 h0)
      simp only [hkeys, if_false, h1, hlen]

theorem listAll_paged (ids : List ShardID) (addrsOf : ShardID → List Addr) (count : Nat)
    (hnd : ids.Nodup) (hne : ids ≠ []) (hpos : 0 < count) (hcount : count < uint32Size) :
    ∀ (n : Nat) (oc : Option (Cursor Nat)) (acc : List Addr) (fuel : Nat),
      (remaining addrsOf (ids.insertionSort (· ≤ ·))
        (oc.getD ⟨(ids.insertionSort (· ≤ ·)).headD 0, none⟩)).length ≤ n → n < fuel →
      listAll (engineOfShards ids (fun id => pagedShard (addrsOf id))) count fuel oc acc =
        some (acc ++ remaining addrsOf (ids.insertionSort (· ≤ ·))
          (oc.getD ⟨(ids.insertionSort (· ≤ ·)).headD 0, none⟩)) := by
  intro n
  induction n with
  | zero =>
    intro oc acc fuel hlen hfuel
    obtain ⟨f, rfl⟩ : ∃ f, fuel = f + 1 := ⟨fuel - 1, by omega⟩
    have hr := List.length_eq_zero.1 (Nat.le_zero.1 hlen)
    have hcall := (call_paged ids addrsOf count hnd hne hcount oc).1 (by rw [hr]; simp)
    rw [listAll, hcall, hr]
    simp
  | succ n ih =>
    intro oc acc fuel hlen hfuel
    obtain ⟨f, rfl⟩ : ∃ f, fuel = f + 1 := ⟨fuel - 1, by omega⟩
    by_cases hnil : (remaining addrsOf (ids.insertionSort (· ≤ ·))
        (oc.getD ⟨(ids.insertionSort (· ≤ ·)).headD 0, none⟩)).take count = []
    · have hcall := (call_paged ids addrsOf count hnd hne hcount oc).1 hnil
      have hr : remaining addrsOf (ids.insertionSort (· ≤ ·))
          (oc.getD ⟨(ids.insertionSort (· ≤ ·)).headD 0, none⟩) = [] := by
        rcases List.take_eq_nil_iff.1 hnil with h0 | h0
        · omega
        · exact h0
      rw [listAll, hcall, hr]
      simp
    · obtain ⟨c1, hcall, hrem⟩ := (call_paged ids addrsOf count hnd hne hcount oc).2 hnil
      have hpos2 : 0 < (remaining addrsOf (ids.insertionSort (· ≤ ·))
          (oc.getD ⟨(ids.insertionSort (· ≤ ·)).headD 0, none⟩)).length := by
        rcases Nat.eq_zero_or_pos (remaining addrsOf (ids.insertionSort (· ≤ ·))
          (oc.getD ⟨(ids.insertionSort (· ≤ ·)).headD 0, none⟩)).length with h0 | h0
        · rw [List.length_eq_zero.1 h0] at hnil
          simp at hnil
        · exact h0
      rw [listAll, hcall]
      simp only []
      have hstep := ih (some c1) (acc ++ (remaining addrsOf (ids.insertionSort (· ≤ ·))
        (oc.getD ⟨(ids.insertionSort (· ≤ ·)).headD 0, none⟩)).take count) f
        (by
          rw [Option.getD_some, hrem, List.length_drop]
          omega)
        (by omega)
      rw [hstep, Option.getD_some, hrem, List.append_assoc, List.take_append_drop]

theorem listAll_total (ids : List ShardID) (addrsOf : ShardID → List Addr) (count fuel : Nat)
    (hnd : ids.Nodup) (hpos : 0 < count) (hcount : count < uint32Size)
    (hfuel : (((ids.insertionSort (· ≤ ·)).map addrsOf).flatten).length < fuel) :
    listAll (engineOfShards ids (fun id => pagedShard (addrsOf id))) count fuel none [] =
      some (((ids.insertionSort (· ≤ ·)).map addrsOf).flatten) := by
  by_cases hne : ids = []
  · subst hne
    obtain ⟨f, rfl⟩ : ∃ f, fuel = f + 1 := ⟨fuel - 1, by omega⟩
    rfl
  · have hstart := remaining_start addrsOf (ids.insertionSort (· ≤ ·)) (sorted_keys ids hnd)
    have h := listAll_paged ids addrsOf count hnd hne hpos hcount
      (((ids.insertionSort (· ≤ ·)).map addrsOf).flatten).length none [] fuel
      (by rw [Option.getD_none, hstart]) hfuel
    rw [h, Option.getD_none, hstart, List.nil_append]

theorem insertionSort_perm (ids ids2 : List ShardID) (h : ids2.Perm ids) :
    ids2.insertionSort (· ≤ ·) = ids.insertionSort (· ≤ ·) :=
  List.eq_of_perm_of_sorted
    (((List.perm_insertionSort (· ≤ ·) ids2).trans h).trans
      (List.perm_insertionSort (· ≤ ·) ids).symm)
    (List.sorted_insertionSort (· ≤ ·) ids2) (List.sorted_insertionSort (· ≤ ·) ids)

theorem listLoop_zero {κ : Type} (e : StorageEngine κ) (ids : List ShardID) (res : List Addr)
    (c : Cursor κ) : listLoop e 0 ids res c = (res, c) := by
  cases ids with
  | nil => rfl
  | cons id rest => exact listLoop_stop e 0 id rest res c (Nat.zero_le _)

end EngineList

namespace EngineList

/-! ## When the loop of `ListWithCursor` collects nothing -/

theorem listLoop_length_ge {κ : Type} (e : StorageEngine κ) (count : Nat) :
    ∀ (ids : List ShardID) (res : List Addr) (c : Cursor κ),
      res.length ≤ (listLoop e count ids res c).1.length
  | [], _, _ => Nat.le_refl _
  | id :: rest, res, c => by
    by_cases hb : res.length ≥ count
    · rw [listLoop_stop e count id rest res c hb]
    · by_cases hlt : id < c.shardID
      · rw [listLoop_skip e count id rest res c hb hlt]
        exact listLoop_length_ge e count rest res c
      · cases hsh : e.shards id with
        | none =>
          rw [listLoop]
          simp only [hb, hlt, if_false, hsh]
          exact listLoop_length_ge e count rest res c
        | some sh =>
          rw [listLoop_call e count id rest res c sh hb hlt hsh]
          cases hcall : sh.listWithCursor ((count - res.length) % uint32Size)
              (if id = c.shardID then c.shardCursor else none) with
          | none => exact listLoop_length_ge e count rest res c
          | some r =>
            refine le_trans ?_ (listLoop_length_ge e count rest (res ++ r.1) ⟨id, r.2⟩)
            rw [List.length_append]
            exact Nat.le_add_right _ _

/-- Started with nothing collected, on shard identifiers in ascending order,
the loop collects nothing exactly when no shard it reads returns an address;
it reads every present shard from the one of the cursor on, the shard of the
cursor with the shard cursor and the others from their start. -/
theorem listLoop_empty_iff {κ : Type} (e : StorageEngine κ) (count : Nat) (hpos : 0 < count)
    (hcount : count < uint32Size) :
    ∀ (ids : List ShardID), ids.Pairwise (· < ·) → ∀ (c : Cursor κ),
      ((listLoop e count ids [] c).1 = [] ↔
        ∀ id ∈ ids, ¬ id < c.shardID → ∀ sh res, e.shards id = some sh →
          sh.listWithCursor count (if id = c.shardID then c.shardCursor else none) = some res →
          res.1 = [])
  | [], _, c => by simp [listLoop]
  | id :: rest, hsorted, c => by
    have hlt : ∀ x ∈ rest, id < x := (List.pairwise_cons.1 hsorted).1
    have ih := listLoop_empty_iff e count hpos hcount rest (List.pairwise_cons.1 hsorted).2
    have hb : ¬ ([] : List Addr).length ≥ count := by
      show ¬ count ≤ 0
      omega
    have hc1 : (count - ([] : List Addr).length) % uint32Size = count := by
      show (count - 0) % uint32Size = count
      rw [Nat.sub_zero, Nat.mod_eq_of_lt hcount]
    by_cases hskip : id < c.shardID
    · rw [listLoop_skip e count id rest [] c hb hskip, ih c]
      constructor
      · intro h x hx
        rcases List.mem_cons.1 hx with hx | hx
        · subst hx
          intro hn
          exact absurd hskip hn
        · exact h x hx
      · intro h x hx
        exact h x (List.mem_cons_of_mem _ hx)
    · cases hsh : e.shards id with
      | none =>
        have hstep : listLoop e count (id :: rest) [] c = listLoop e count rest [] c := by
          rw [listLoop]
          simp only [hb, hskip, if_false, hsh]
        rw [hstep, ih c]
        constructor
        · intro h x hx
          rcases List.mem_cons.1 hx with hx | hx
          · subst hx
            intro _ sh res hsh2
            rw [hsh] at hsh2
            cases hsh2
          · exact h x hx
        · intro h x hx
          exact h x (List.mem_cons_of_mem _ hx)
      | some sh =>
        rw [listLoop_call e count id rest [] c sh hb hskip hsh, hc1]
        cases hcall : sh.listWithCursor count (if id = c.shardID then c.shardCursor else none) with
        | none =>
          show (listLoop e count rest [] c).1 = [] ↔ _
          rw [ih c]
          constructor
          · intro h x hx
            rcases List.mem_cons.1 hx with hx | hx
            · subst hx
              intro _ sh2 res hsh2 hres
              rw [hsh] at hsh2
              cases hsh2
              rw [hcall] at hres
              cases hres
            · exact h x hx
          · intro h x hx
            exact h x (List.mem_cons_of_mem _ hx)
        | some r =>
          show (listLoop e count rest ([] ++ r.1) ⟨id, r.2⟩).1 = [] ↔ _
          by_cases hr : r.1 = []
          · rw [hr, List.append_nil, ih ⟨id, r.2⟩]
            have hafter : ∀ x ∈ rest, (¬ x < id) ∧ (¬ x < c.shardID) ∧ x ≠ id ∧
                x ≠ c.shardID := by
              intro x hx
              have h1 := hlt x hx
              refine ⟨Nat.lt_asymm h1, ?_, Nat.ne_of_gt h1, ?_⟩
              · intro h2
                exact hskip (Nat.lt_trans h1 h2)
              · intro h2
                rw [h2] at h1
                exact hskip h1
            constructor
            · intro h x hx
              rcases List.mem_cons.1 hx with hx | hx
              · subst hx
                intro _ sh2 res hsh2 hres
                rw [hsh] at hsh2
                cases hsh2
                rw [hcall] at hres
                cases hres
                exact hr
              · intro _ sh2 res hsh2 hres
                obtain ⟨a1, -, a3, a4⟩ := hafter x hx
                rw [if_neg a4] at hres
                have := h x hx a1 sh2 res hsh2
                rw [if_neg a3] at this
                exact this hres
            · intro h x hx _ sh2 res hsh2 hres
              obtain ⟨-, a2, a3, a4⟩ := hafter x hx
              rw [if_neg a3] at hres
              have := h x (List.mem_cons_of_mem _ hx) a2 sh2 res hsh2
              rw [if_neg a4] at this
              exact this hres
          · constructor
            · intro h
              have hge := listLoop_length_ge e count rest ([] ++ r.1) ⟨id, r.2⟩
              rw [h, List.nil_append] at hge
              exact absurd (List.length_eq_zero.1 (Nat.le_zero.1 hge)) hr
            · intro h
              exact absurd (h id (List.mem_cons_self _ _) hskip sh r hsh hcall) hr

/-- The cursor the loop of `ListWithCursor` starts from: the given one, or for
the nil cursor the first shard in ascending order from its start. -/
theorem collect_empty_iff {κ : Type} (e : StorageEngine κ) (count : Nat)
    (cursor : Option (Cursor κ)) (hpos : 0 < count) (hcount : count < uint32Size)
    (hnd : e.keys.Nodup) :
    ((e.collect count cursor).1 = [] ↔
      ∀ id ∈ e.keys,
        ¬ id < (cursor.getD ⟨(e.keys.insertionSort (· ≤ ·)).headD 0, none⟩).shardID →
        ∀ sh res, e.shards id = some sh →
          sh.listWithCursor count
            (if id = (cursor.getD ⟨(e.keys.insertionSort (· ≤ ·)).headD 0, none⟩).shardID then
              (cursor.getD ⟨(e.keys.insertionSort (· ≤ ·)).headD 0, none⟩).shardCursor
            else none) = some res →
          res.1 = []) := by
  unfold StorageEngine.collect
  dsimp only
  rw [listLoop_empty_iff e count hpos hcount _ (sorted_keys e.keys hnd)]
  constructor
  · intro h id hid
    exact h id ((List.perm_insertionSort (· ≤ ·) e.keys).mem_iff.2 hid)
  · intro h id hid
    exact h id ((List.perm_insertionSort (· ≤ ·) e.keys).mem_iff.1 hid)

end EngineList

namespace Meta

/-! ## Ordered buckets -/

theorem Bucket.ordered_cons {β : Type} (k : Nat) (v : β) (rest : Bucket β) :
    Bucket.Ordered ((k, v) :: rest) ↔ (∀ p ∈ rest, k < p.1) ∧ Bucket.Ordered rest := by
  unfold Bucket.Ordered
  rw [List.map_cons, List.pairwise_cons]
  constructor
  · rintro ⟨h1, h2⟩
    exact ⟨fun p hp => h1 p.1 (List.mem_map_of_mem _ hp), h2⟩
  · rintro ⟨h1, h2⟩
    refine ⟨fun a ha => ?_, h2⟩
    obtain ⟨p, hp, rfl⟩ := List.mem_map.1 ha
    exact h1 p hp

theorem Bucket.get_cons {β : Type} (k k1 : Nat) (v1 : β) (rest : Bucket β) :
    Bucket.get ((k1, v1) :: rest) k = if k = k1 then some v1 else Bucket.get rest k := by
  unfold Bucket.get
  rw [List.lookup_cons]
  by_cases h : k = k1
  · simp [h]
  · have : (k == k1) = false := by simpa using h
    simp [h, this]

theorem Bucket.get_none_of_not_mem {β : Type} (k : Nat) :
    ∀ (b : Bucket β), (∀ p ∈ b, p.1 ≠ k) → Bucket.get b k = none
  | [], _ => rfl
  | (k1, v1) :: rest, h => by
    rw [Bucket.get_cons]
    have h1 : k ≠ k1 := fun he => h (k1, v1) (List.mem_cons_self _ _) he.symm
    simp only [h1, if_false]
    exact Bucket.get_none_of_not_mem k rest (fun p hp => h p (List.mem_cons_of_mem _ hp))

theorem Bucket.mem_of_get {β : Type} (k : Nat) (v : β) :
    ∀ (b : Bucket β), Bucket.get b k = some v → (k, v) ∈ b
  | [], h => by cases h
  | (k1, v1) :: rest, h => by
    rw [Bucket.get_cons] at h
    by_cases he : k = k1
    · simp only [he, if_true, Option.some.injEq] at h
      subst he h
      exact List.mem_cons_self _ _
    · simp only [he, if_false] at h
      exact List.mem_cons_of_mem _ (Bucket.mem_of_get k v rest h)

theorem Bucket.get_of_mem {β : Type} (k : Nat) (v : β) :
    ∀ (b : Bucket β), Bucket.Ordered b → (k, v) ∈ b → Bucket.get b k = some v
  | [], _, h => by cases h
  | (k1, v1) :: rest, ho, h => by
    obtain ⟨h1, h2⟩ := (Bucket.ordered_cons k1 v1 rest).1 ho
    rw [Bucket.get_cons]
    rcases List.mem_cons.1 h with he | hm
    · cases he
      simp
    · have hlt := h1 _ hm
      have hne : k ≠ k1 := Nat.ne_of_gt hlt
      simp only [hne, if_false]
      exact Bucket.get_of_mem k v rest h2 hm

theorem Bucket.mem_put {β : Type} (k : Nat) (v : β) (p : Nat × β) :
    ∀ (b : Bucket β), p ∈ Bucket.put k v b → p = (k, v) ∨ p ∈ b
  | [], h => by
    simp only [Bucket.put, List.mem_singleton] at h
    exact Or.inl h
  | (k1, v1) :: rest, h => by
    unfold Bucket.put at h
    by_cases he : k = k1
    · simp only [he, if_true, List.mem_cons] at h
      rcases h with h | h
      · exact Or.inl (by rw [h, he])
      · exact Or.inr (List.mem_cons_of_mem _ h)
    · by_cases hl : k < k1
      · simp only [he, hl, if_false, if_true, List.mem_cons] at h
        rcases h with h | h | h
        · exact Or.inl h
        · exact Or.inr (by rw [h]; exact List.mem_cons_self _ _)
        · exact Or.inr (List.mem_cons_of_mem _ h)
      · simp only [he, hl, if_false, List.mem_cons] at h
        rcases h with h | h
        · exact Or.inr (by rw [h]; exact List.mem_cons_self _ _)
        · rcases Bucket.mem_put k v p rest h with h | h
          · exact Or.inl h
          · exact Or.inr (List.mem_cons_of_mem _ h)

theorem Bucket.put_ordered {β : Type} (k : Nat) (v : β) :
    ∀ (b : Bucket β), Bucket.Ordered b → Bucket.Ordered (Bucket.put k v b)
  | [], _ => by
    simp [Bucket.put, Bucket.Ordered]
  | (k1, v1) :: rest, ho => by
    obtain ⟨h1, h2⟩ := (Bucket.ordered_cons k1 v1 rest).1 ho
    unfold Bucket.put
    by_cases he : k = k1
    · simp only [he, if_true]
      exact (Bucket.ordered_cons k1 v rest).2 ⟨h1, h2⟩
    · by_cases hl : k < k1
      · simp only [he, hl, if_false, if_true]
        refine (Bucket.ordered_cons k v _).2 ⟨fun p hp => ?_, ho⟩
        rcases List.mem_cons.1 hp with hp | hp
        · rw [hp]
          exact hl
        · exact Nat.lt_trans hl (h1 p hp)
      · simp only [he, hl, if_false]
        refine (Bucket.ordered_cons k1 v1 _).2 ⟨fun p hp => ?_, Bucket.put_ordered k v rest h2⟩
        rcases Bucket.mem_put k v p rest hp with hp | hp
        · rw [hp]
          exact Nat.lt_of_le_of_ne (Nat.le_of_not_lt hl) (fun h => he h.symm)
        · exact h1 p hp

theorem Bucket.put_get_id {β : Type} (k : Nat) (v : β) :
    ∀ (b : Bucket β), Bucket.Ordered b → Bucket.get b k = some v → Bucket.put k v b = b
  | [], _, h => by cases h
  | (k1, v1) :: rest, ho, h => by
    obtain ⟨h1, h2⟩ := (Bucket.ordered_cons k1 v1 rest).1 ho
    rw [Bucket.get_cons] at h
    unfold Bucket.put
    by_cases he : k = k1
    · simp only [he, if_true, Option.some.injEq] at h
      simp [he, h]
    · simp only [he, if_false] at h
      have hlt := h1 _ (Bucket.mem_of_get k v rest h)
      have hl : ¬ k < k1 := Nat.lt_asymm hlt
      simp only [he, hl, if_false]
      rw [Bucket.put_get_id k v rest h2 h]

theorem Bucket.mem_delete {β : Type} (k : Nat) (p : Nat × β) :
    ∀ (b : Bucket β), p ∈ Bucket.delete k b → p ∈ b
  | [], h => by cases h
  | (k1, v1) :: rest, h => by
    unfold Bucket.delete at h
    by_cases he : k = k1
    · simp only [he, if_true] at h
      exact List.mem_cons_of_mem _ h
    · simp only [he, if_false, List.mem_cons] at h
      rcases h with h | h
      · rw [h]
        exact List.mem_cons_self _ _
      · exact List.mem_cons_of_mem _ (Bucket.mem_delete k p rest h)

theorem Bucket.delete_ordered {β : Type} (k : Nat) :
    ∀ (b : Bucket β), Bucket.Ordered b → Bucket.Ordered (Bucket.delete k b)
  | [], h => h
  | (k1, v1) :: rest, ho => by
    obtain ⟨h1, h2⟩ := (Bucket.ordered_cons k1 v1 rest).1 ho
    unfold Bucket.delete
    by_cases he : k = k1
    · simp only [he, if_true]
      exact h2
    · simp only [he, if_false]
      exact (Bucket.ordered_cons k1 v1 _).2
        ⟨fun p hp => h1 p (Bucket.mem_delete k p rest hp), Bucket.delete_ordered k rest h2⟩

theorem Bucket.get_delete_self {β : Type} (k : Nat) :
    ∀ (b : Bucket β), Bucket.Ordered b → Bucket.get (Bucket.delete k b) k = none
  | [], _ => rfl
  | (k1, v1) :: rest, ho => by
    obtain ⟨h1, h2⟩ := (Bucket.ordered_cons k1 v1 rest).1 ho
    unfold Bucket.delete
    by_cases he : k = k1
    · simp only [he, if_true]
      exact Bucket.get_none_of_not_mem k1 rest (fun p hp => Nat.ne_of_gt (h1 p hp))
    · simp only [he, if_false]
      rw [Bucket.get_cons]
      simp only [he, if_false]
      exact Bucket.get_delete_self k rest h2

theorem Bucket.get_delete_ne {β : Type} (k k2 : Nat) (hne : k2 ≠ k) :
    ∀ (b : Bucket β), Bucket.get (Bucket.delete k b) k2 = Bucket.get b k2
  | [] => rfl
  | (k1, v1) :: rest => by
    unfold Bucket.delete
    by_cases he : k = k1
    · simp only [he, if_true]
      rw [Bucket.get_cons]
      have : k2 ≠ k1 := by rw [← he]; exact hne
      simp [this]
    · simp only [he, if_false]
      rw [Bucket.get_cons, Bucket.get_cons, Bucket.get_delete_ne k k2 hne rest]

/-! ## The scan of `freePotentialLocks` -/

theorem changeOf_key (c : Codec) (locker : OID) (p : Nat × Bytes) (kv : KV)
    (h : changeOf c locker p = some kv) : kv.k = p.1 := by
  unfold changeOf at h
  split at h
  · cases h
  · split at h
    · split at h
      · cases h
        rfl
      · split at h
        · cases h
        · cases h
          rfl
    · cases h

theorem keys_changes_sublist (c : Codec) (locker : OID) :
    ∀ (es : List (Nat × Bytes)),
      ((es.filterMap (changeOf c locker)).map KV.k).Sublist (es.map Prod.fst)
  | [] => List.Sublist.slnil
  | p :: rest => by
    have ih := keys_changes_sublist c locker rest
    cases h : changeOf c locker p with
    | none =>
      rw [List.filterMap_cons_none h, List.map_cons]
      exact List.Sublist.cons _ ih
    | some kv =>
      rw [List.filterMap_cons_some h, List.map_cons, List.map_cons, changeOf_key c locker p kv h]
      exact List.Sublist.cons₂ _ ih

theorem keys_unlocked_sublist (c : Codec) (idCnr : CID) (locker : OID) :
    ∀ (es : List (Nat × Bytes)),
      ((es.filterMap (unlockedOf c idCnr locker)).map Prod.snd).Sublist (es.map Prod.fst)
  | [] => List.Sublist.slnil
  | p :: rest => by
    have ih := keys_unlocked_sublist c idCnr locker rest
    cases h : unlockedOf c idCnr locker p with
    | none =>
      rw [List.filterMap_cons_none h, List.map_cons]
      exact List.Sublist.cons _ ih
    | some a =>
      have ha : a.2 = p.1 := by
        unfold unlockedOf at h
        split at h
        · cases h
        · split at h
          · split at h
            · cases h
              rfl
            · cases h
          · cases h
      rw [List.filterMap_cons_some h, List.map_cons, List.map_cons, ha]
      exact List.Sublist.cons₂ _ ih

theorem freeScan_ok (c : Codec) (decodeID : Nat → Except Nat OID)
    (hid : ∀ k, decodeID k = .ok k) (idCnr : CID) (locker : OID) :
    ∀ (es : List (Nat × Bytes)) (u : List Address) (ch : List KV) (u1 : List Address)
      (ch1 : List KV), freeScan c decodeID idCnr locker es u ch = .ok (u1, ch1) →
      u1 = u ++ es.filterMap (unlockedOf c idCnr locker) ∧
      ch1 = ch ++ es.filterMap (changeOf c locker) ∧
      ∀ p ∈ es, ∀ l, c.decodeList p.2 = .ok l → l.contains locker = true → l.length ≠ 1 →
        ∃ v1, c.encodeList (l.erase locker) = .ok v1
  | [], u, ch, u1, ch1, h => by
    simp only [freeScan, Except.ok.injEq, Prod.mk.injEq] at h
    obtain ⟨rfl, rfl⟩ := h
    simp
  | (k, v) :: rest, u, ch, u1, ch1, h => by
    unfold freeScan at h
    cases hd : c.decodeList v with
    | error code => simp [hd] at h
    | ok l =>
      simp only [hd] at h
      by_cases hc : l.contains locker = true
      · simp only [hc, if_true] at h
        have hm : locker ∈ l := by simpa using hc
        by_cases hl : l.length = 1
        · simp only [hl, if_true, hid] at h
          obtain ⟨g1, g2, g3⟩ := freeScan_ok c decodeID hid idCnr locker rest _ _ u1 ch1 h
          have e1 : unlockedOf c idCnr locker (k, v) = some (idCnr, k) := by
            simp [unlockedOf, hd, hm, hl]
          have e2 : changeOf c locker (k, v) = some ⟨k, none⟩ := by
            simp [changeOf, hd, hm, hl]
          refine ⟨?_, ?_, ?_⟩
          · rw [g1, List.filterMap_cons_some e1, List.append_assoc]
            rfl
          · rw [g2, List.filterMap_cons_some e2, List.append_assoc]
            rfl
          · intro p hp l2 hl2 hc2 hn2
            rcases List.mem_cons.1 hp with rfl | hp
            · rw [hd] at hl2
              cases hl2
              exact absurd hl hn2
            · exact g3 p hp l2 hl2 hc2 hn2
        · simp only [hl, if_false] at h
          cases he : c.encodeList (l.erase locker) with
          | error code => simp [he] at h
          | ok v1 =>
            simp only [he] at h
            obtain ⟨g1, g2, g3⟩ := freeScan_ok c decodeID hid idCnr locker rest _ _ u1 ch1 h
            have e1 : unlockedOf c idCnr locker (k, v) = none := by
              simp [unlockedOf, hd, hm, hl]
            have e2 : changeOf c locker (k, v) = some ⟨k, some v1⟩ := by
              simp [changeOf, hd, hm, hl, he]
            refine ⟨?_, ?_, ?_⟩
            · rw [g1, List.filterMap_cons_none e1]
            · rw [g2, List.filterMap_cons_some e2, List.append_assoc]
              rfl
            · intro p hp l2 hl2 hc2 hn2
              rcases List.mem_cons.1 hp with rfl | hp
              · rw [hd] at hl2
                cases hl2
                exact ⟨v1, he⟩
              · exact g3 p hp l2 hl2 hc2 hn2
      · simp only [hc, if_false] at h
        have hm : locker ∉ l := by simpa using hc
        obtain ⟨g1, g2, g3⟩ := freeScan_ok c decodeID hid idCnr locker rest _ _ u1 ch1 h
        have e1 : unlockedOf c idCnr locker (k, v) = none := by
          simp [unlockedOf, hd, hm]
        have e2 : changeOf c locker (k, v) = none := by
          simp [changeOf, hd, hm]
        refine ⟨?_, ?_, ?_⟩
        · rw [g1, List.filterMap_cons_none e1]
        · rw [g2, List.filterMap_cons_none e2]
        · intro p hp l2 hl2 hc2 hn2
          rcases List.mem_cons.1 hp with rfl | hp
          · rw [hd] at hl2
            cases hl2
            exact absurd hc2 hc
          · exact g3 p hp l2 hl2 hc2 hn2

theorem freeScan_untouched (c : Codec) (decodeID : Nat → Except Nat OID) (idCnr : CID)
    (locker : OID) :
    ∀ (es : List (Nat × Bytes)) (u : List Address) (ch : List KV),
      (∀ p ∈ es, ∃ l, c.decodeList p.2 = .ok l ∧ l.contains locker = false) →
      freeScan c decodeID idCnr locker es u ch = .ok (u, ch)
  | [], u, ch, _ => rfl
  | (k, v) :: rest, u, ch, h => by
    obtain ⟨l, hl, hc⟩ := h (k, v) (List.mem_cons_self _ _)
    unfold freeScan
    simp only [hl, hc, Bool.false_eq_true, if_false]
    exact freeScan_untouched c decodeID idCnr locker rest u ch
      (fun p hp => h p (List.mem_cons_of_mem _ hp))

theorem applyChanges_get (c : Codec) (locker : OID) :
    ∀ (es : List (Nat × Bytes)), Bucket.Ordered es → ∀ (b b1 : Bucket Bytes), Bucket.Ordered b →
      applyChanges c (es.filterMap (changeOf c locker)) b = .ok b1 →
      Bucket.Ordered b1 ∧
      ∀ k, Bucket.get b1 k =
        (match Bucket.get es k with
          | none => Bucket.get b k
          | some v =>
            match changeOf c locker (k, v) with
            | none => Bucket.get b k
            | some kv => kv.v)
  | [], _, b, b1, hb, h => by
    simp only [List.filterMap_nil, applyChanges, Except.ok.injEq] at h
    subst h
    exact ⟨hb, fun k => rfl⟩
  | (k1, v1) :: rest, ho, b, b1, hb, h => by
    obtain ⟨h1, h2⟩ := (Bucket.ordered_cons k1 v1 rest).1 ho
    have hk1 : Bucket.get rest k1 = none :=
      Bucket.get_none_of_not_mem k1 rest (fun p hp => Nat.ne_of_gt (h1 p hp))
    cases hch : changeOf c locker (k1, v1) with
    | none =>
      rw [List.filterMap_cons_none hch] at h
      obtain ⟨g1, g2⟩ := applyChanges_get c locker rest h2 b b1 hb h
      refine ⟨g1, fun k => ?_⟩
      rw [g2 k, Bucket.get_cons]
      by_cases he : k = k1
      · subst he
        simp only [hk1, if_true, hch]
      · simp only [he, if_false]
    | some kv =>
      have hkey := changeOf_key c locker (k1, v1) kv hch
      rw [List.filterMap_cons_some hch] at h
      unfold applyChanges at h
      cases hv : kv.v with
      | none =>
        simp only [hv] at h
        obtain ⟨g1, g2⟩ := applyChanges_get c locker rest h2 _ b1
          (Bucket.delete_ordered kv.k b hb) h
        refine ⟨g1, fun k => ?_⟩
        rw [g2 k, Bucket.get_cons]
        by_cases he : k = k1
        · subst he
          simp only [hk1, if_true, hch, hv]
          rw [hkey]
          exact Bucket.get_delete_self k b hb
        · simp only [he, if_false]
          rw [hkey, Bucket.get_delete_ne k1 k he b]
      | some v =>
        simp only [hv] at h
        cases hp : c.putErr v with
        | some code => simp [hp] at h
        | none =>
          simp only [hp] at h
          obtain ⟨g1, g2⟩ := applyChanges_get c locker rest h2 _ b1
            (Bucket.put_ordered kv.k v b hb) h
          refine ⟨g1, fun k => ?_⟩
          rw [g2 k, Bucket.get_cons]
          by_cases he : k = k1
          · subst he
            simp only [hk1, if_true, hch, hv]
            rw [hkey]
            exact Bucket.get_put_self k v b
          · simp only [he, if_false]
            rw [hkey, Bucket.get_put_ne k1 k v he b]

/-! ## One container bucket -/

theorem erase_nonempty (l : List OID) (x : OID) (hx : x ∈ l) (hl : l.length ≠ 1) :
    l.erase x ≠ [] := by
  intro h
  have h1 := List.length_erase_of_mem hx
  rw [h, List.length_nil] at h1
  have h2 : 0 < l.length := List.length_pos_of_mem hx
  omega

theorem singleton_of_mem (l : List OID) (x : OID) (hx : x ∈ l) (hl : l.length = 1) :
    l = [x] := by
  match l, hl with
  | [y], _ =>
    rw [List.mem_singleton] at hx
    rw [hx]

theorem changed_record (c : Codec) (hrt : c.RoundTrip) (locker : OID) (k : Nat) (v : Bytes)
    (l : List OID) (hd : c.decodeList v = .ok l) (hnd : l.Nodup)
    (henc : l.contains locker = true → l.length ≠ 1 →
      ∃ v1, c.encodeList (l.erase locker) = .ok v1) :
    (changeOf c locker (k, v) = none ∧ locker ∉ l) ∨
    (changeOf c locker (k, v) = some ⟨k, none⟩ ∧ l = [locker]) ∨
    (∃ v1, changeOf c locker (k, v) = some ⟨k, some v1⟩ ∧ locker ∈ l ∧
      c.decodeList v1 = .ok (l.erase locker) ∧ l.erase locker ≠ [] ∧ (l.erase locker).Nodup) := by
  by_cases hm : locker ∈ l
  · by_cases hl : l.length = 1
    · right
      left
      exact ⟨by simp [changeOf, hd, hm, hl], singleton_of_mem l locker hm hl⟩
    · right
      right
      obtain ⟨v1, he⟩ := henc (by simpa using hm) hl
      exact ⟨v1, by simp [changeOf, hd, hm, hl, he], hm, hrt _ _ he,
        erase_nonempty l locker hm hl, hnd.erase _⟩
  · left
    exact ⟨by simp [changeOf, hd, hm], hm⟩

theorem free_bucket (c : Codec) (hrt : c.RoundTrip) (decodeID : Nat → Except Nat OID)
    (hid : ∀ k, decodeID k = .ok k) (idCnr : CID) (locker : OID) (bkt bkt1 : Bucket Bytes)
    (u : List Address) (ch : List KV) (ho : Bucket.Ordered bkt) (hg : GoodRecords c bkt)
    (hscan : freeScan c decodeID idCnr locker bkt [] [] = .ok (u, ch))
    (happ : applyChanges c ch bkt = .ok bkt1) :
    Bucket.Ordered bkt1 ∧ GoodRecords c bkt1 ∧
    (∀ id, recordAt c bkt1 id = (recordAt c bkt id).erase locker) ∧
    (∀ a, a ∈ u ↔ a.1 = idCnr ∧ recordAt c bkt a.2 = [locker]) ∧ u.Nodup := by
  obtain ⟨hu, hch, henc⟩ := freeScan_ok c decodeID hid idCnr locker bkt [] [] u ch hscan
  rw [List.nil_append] at hu hch
  rw [hch] at happ
  obtain ⟨ho1, hget⟩ := applyChanges_get c locker bkt ho bkt bkt1 ho happ
  have hcase : ∀ k v, Bucket.get bkt k = some v → ∃ l, c.decodeList v = .ok l ∧ l ≠ [] ∧
      l.Nodup ∧
      ((changeOf c locker (k, v) = none ∧ locker ∉ l) ∨
       (changeOf c locker (k, v) = some ⟨k, none⟩ ∧ l = [locker]) ∨
       (∃ v1, changeOf c locker (k, v) = some ⟨k, some v1⟩ ∧ locker ∈ l ∧
         c.decodeList v1 = .ok (l.erase locker) ∧ l.erase locker ≠ [] ∧
         (l.erase locker).Nodup)) := by
    intro k v hk
    obtain ⟨l, hd, hne, hnd⟩ := hg k v hk
    exact ⟨l, hd, hne, hnd, changed_record c hrt locker k v l hd hnd
      (henc (k, v) (Bucket.mem_of_get k v bkt hk) l hd)⟩
  refine ⟨ho1, ?_, ?_, ?_, ?_⟩
  · intro id v1 h1
    rw [hget id] at h1
    cases hk : Bucket.get bkt id with
    | none => simp [hk] at h1
    | some v =>
      obtain ⟨l, hd, hne, hnd, hc⟩ := hcase id v hk
      simp only [hk] at h1
      rcases hc with ⟨e, -⟩ | ⟨e, -⟩ | ⟨v2, e, -, hd2, hne2, hnd2⟩
      · simp only [e] at h1
        cases h1
        exact ⟨l, hd, hne, hnd⟩
      · simp [e] at h1
      · simp only [e, Option.some.injEq] at h1
        subst h1
        exact ⟨_, hd2, hne2, hnd2⟩
  · intro id
    unfold recordAt
    rw [hget id]
    cases hk : Bucket.get bkt id with
    | none => simp
    | some v =>
      obtain ⟨l, hd, hne, hnd, hc⟩ := hcase id v hk
      rcases hc with ⟨e, hm⟩ | ⟨e, hl⟩ | ⟨v2, e, -, hd2, -, -⟩
      · simp only [e, hd]
        rw [List.erase_of_not_mem hm]
      · simp only [e, hd, hl]
        simp
      · simp only [e, hd, hd2]
  · intro a
    rw [hu, List.mem_filterMap]
    constructor
    · rintro ⟨p, hp, hpa⟩
      have hk := Bucket.get_of_mem p.1 p.2 bkt ho hp
      obtain ⟨l, hd, hne, hnd, -⟩ := hcase p.1 p.2 hk
      unfold unlockedOf at hpa
      simp only [hd] at hpa
      by_cases hm : locker ∈ l
      · by_cases hl : l.length = 1
        · have hcont : l.contains locker = true := by simpa using hm
          simp only [hcont, hl, if_true, Option.some.injEq] at hpa
          subst hpa
          refine ⟨rfl, ?_⟩
          unfold recordAt
          simp only [hk, hd]
          exact singleton_of_mem l locker hm hl
        · simp [hm, hl] at hpa
      · simp [hm] at hpa
    · rintro ⟨ha1, ha2⟩
      unfold recordAt at ha2
      cases hk : Bucket.get bkt a.2 with
      | none => simp [hk] at ha2
      | some v =>
        obtain ⟨l, hd, -⟩ := hcase a.2 v hk
        simp only [hk, hd] at ha2
        refine ⟨(a.2, v), Bucket.mem_of_get a.2 v bkt hk, ?_⟩
        unfold unlockedOf
        simp only [hd, ha2]
        simp [← ha1]
  · rw [hu]
    have hsub := keys_unlocked_sublist c idCnr locker bkt
    have hnd2 : (bkt.map Prod.fst).Nodup :=
      List.Pairwise.imp (fun h => Nat.ne_of_lt h) ho
    exact List.Nodup.of_map _ (hnd2.sublist hsub)

theorem free_bucket_untouched (c : Codec) (decodeID : Nat → Except Nat OID) (idCnr : CID)
    (locker : OID) (bkt : Bucket Bytes) (hg : GoodRecords c bkt) (ho : Bucket.Ordered bkt)
    (hno : ∀ id, locker ∉ recordAt c bkt id) :
    freeScan c decodeID idCnr locker bkt [] [] = .ok ([], []) := by
  apply freeScan_untouched
  intro p hp
  have hk := Bucket.get_of_mem p.1 p.2 bkt ho hp
  obtain ⟨l, hd, -, -⟩ := hg p.1 p.2 hk
  refine ⟨l, hd, ?_⟩
  have h := hno p.1
  unfold recordAt at h
  simp only [hk, hd] at h
  simpa using h

/-! ## One locker -/

theorem lockersAt_some (c : Codec) (root : Bucket (Bucket Bytes)) (cnr : CID) (id : OID) :
    lockersAt c (some root) cnr id =
      (match Bucket.get root cnr with
        | none => []
        | some bkt => recordAt c bkt id) := rfl

theorem free_step (c : Codec) (hrt : c.RoundTrip) (decodeID : Nat → Except Nat OID)
    (hid : ∀ k, decodeID k = .ok k) (tx tx1 : Option (Bucket (Bucket Bytes))) (cnr : CID)
    (locker : OID) (uu : List Address) (hw : WellLocked c tx)
    (h : freePotentialLocks c decodeID tx cnr locker = .ok (uu, tx1)) :
    WellLocked c tx1 ∧
    (∀ cnr2 id, lockersAt c tx1 cnr2 id =
      if cnr2 = cnr then (lockersAt c tx cnr2 id).erase locker else lockersAt c tx cnr2 id) ∧
    (∀ a, a ∈ uu ↔ a.1 = cnr ∧ lockersAt c tx a.1 a.2 = [locker]) ∧ uu.Nodup := by
  obtain ⟨root, rfl, hro, hall⟩ := hw
  unfold freePotentialLocks at h
  simp only [] at h
  cases hg : Bucket.get root cnr with
  | none =>
    simp only [hg, Except.ok.injEq, Prod.mk.injEq] at h
    obtain ⟨rfl, rfl⟩ := h
    refine ⟨⟨root, rfl, hro, hall⟩, fun cnr2 id => ?_, fun a => ?_, List.nodup_nil⟩
    · by_cases hc : cnr2 = cnr
      · subst hc
        simp [lockersAt_some, hg]
      · simp [hc]
    · constructor
      · intro ha
        cases ha
      · rintro ⟨ha1, ha2⟩
        rw [lockersAt_some, ha1, hg] at ha2
        cases ha2
  | some bkt =>
    simp only [hg] at h
    obtain ⟨hob, hgb⟩ := hall cnr bkt hg
    cases hscan : freeScan c decodeID cnr locker bkt [] [] with
    | error err => simp [hscan] at h
    | ok r =>
      obtain ⟨u, ch⟩ := r
      simp only [hscan] at h
      cases happ : applyChanges c ch bkt with
      | error err => simp [happ] at h
      | ok bkt1 =>
        simp only [happ, Except.ok.injEq, Prod.mk.injEq] at h
        obtain ⟨rfl, rfl⟩ := h
        obtain ⟨f1, f2, f3, f4, f5⟩ :=
          free_bucket c hrt decodeID hid cnr locker bkt bkt1 u ch hob hgb hscan happ
        refine ⟨⟨_, rfl, Bucket.put_ordered cnr bkt1 root hro, fun cnr2 b hb => ?_⟩,
          fun cnr2 id => ?_, fun a => ?_, f5⟩
        · by_cases hc : cnr2 = cnr
          · subst hc
            rw [Bucket.get_put_self] at hb
            cases hb
            exact ⟨f1, f2⟩
          · rw [Bucket.get_put_ne _ _ _ hc] at hb
            exact hall cnr2 b hb
        · rw [lockersAt_some, lockersAt_some]
          by_cases hc : cnr2 = cnr
          · subst hc
            simp only [Bucket.get_put_self, hg, if_true]
            exact f3 id
          · simp only [Bucket.get_put_ne _ _ _ hc, hc, if_false]
        · rw [f4 a, lockersAt_some]
          constructor
          · rintro ⟨ha1, ha2⟩
            refine ⟨ha1, ?_⟩
            rw [ha1, hg]
            exact ha2
          · rintro ⟨ha1, ha2⟩
            refine ⟨ha1, ?_⟩
            rw [ha1, hg] at ha2
            exact ha2

theorem free_step_untouched (c : Codec) (decodeID : Nat → Except Nat OID)
    (tx : Option (Bucket (Bucket Bytes))) (cnr : CID) (locker : OID) (hw : WellLocked c tx)
    (hno : ∀ id, locker ∉ lockersAt c tx cnr id) :
    freePotentialLocks c decodeID tx cnr locker = .ok ([], tx) := by
  obtain ⟨root, rfl, hro, hall⟩ := hw
  unfold freePotentialLocks
  simp only []
  cases hg : Bucket.get root cnr with
  | none => rfl
  | some bkt =>
    obtain ⟨hob, hgb⟩ := hall cnr bkt hg
    have hno2 : ∀ id, locker ∉ recordAt c bkt id := by
      intro id
      have h := hno id
      rw [lockersAt_some, hg] at h
      exact h
    simp only [free_bucket_untouched c decodeID cnr locker bkt hgb hob hno2, applyChanges,
      Bucket.put_get_id cnr bkt root hro hg]

theorem lockersAt_nodup (c : Codec) (tx : Option (Bucket (Bucket Bytes))) (hw : WellLocked c tx)
    (cnr : CID) (id : OID) : (lockersAt c tx cnr id).Nodup := by
  obtain ⟨root, rfl, -, hall⟩ := hw
  rw [lockersAt_some]
  cases hg : Bucket.get root cnr with
  | none => exact List.nodup_nil
  | some bkt =>
    simp only []
    unfold recordAt
    cases hk : Bucket.get bkt id with
    | none => exact List.nodup_nil
    | some v =>
      obtain ⟨l, hd, -, hnd⟩ := (hall cnr bkt hg).2 id v hk
      simp only [hd]
      exact hnd

theorem objectLocked_iff (c : Codec) (db : DB) (hw : WellLocked c db.lockedBucket) (cnr : CID)
    (id : OID) : objectLocked db cnr id = true ↔ lockersAt c db.lockedBucket cnr id ≠ [] := by
  obtain ⟨root, hr, -, hall⟩ := hw
  unfold objectLocked
  rw [hr, lockersAt_some]
  cases hg : Bucket.get root cnr with
  | none => simp [hg]
  | some bkt =>
    unfold recordAt
    cases hk : Bucket.get bkt id with
    | none => simp [hg, hk]
    | some v =>
      obtain ⟨l, hd, hne, -⟩ := (hall cnr bkt hg).2 id v hk
      simp [hg, hk, hd, hne]

/-! ## All the lockers -/

theorem step_filter (l : List OID) (hnd : l.Nodup) (cnr : CID) (lk : Address) :
    (if cnr = lk.1 then l.erase lk.2 else l) = l.filter (fun x => decide ((cnr, x) ≠ lk)) := by
  by_cases hc : cnr = lk.1
  · simp only [hc, if_true]
    rw [hnd.erase_eq_filter]
    apply List.filter_congr
    intro x _
    by_cases hx : x = lk.2
    · simp [hx]
    · have : ((lk.1, x) : Address) ≠ lk := fun h => hx (by rw [← h])
      simp [hx, this]
  · simp only [hc, if_false]
    symm
    rw [List.filter_eq_self]
    intro x _
    have : ((cnr, x) : Address) ≠ lk := fun h => hc (by rw [← h])
    simp [this]

theorem erase_eq_nil (l : List OID) (x : OID) (h : l.erase x = []) (hne : l ≠ []) : l = [x] := by
  match l, hne with
  | y :: t, _ =>
    by_cases hy : y = x
    · subst hy
      rw [List.erase_cons_head] at h
      rw [h]
    · rw [List.erase_cons_tail (by simpa using hy)] at h
      cases h

theorem free_loop (c : Codec) (hrt : c.RoundTrip) (decodeID : Nat → Except Nat OID)
    (hid : ∀ k, decodeID k = .ok k) :
    ∀ (lockers : List Address) (tx tx1 : Option (Bucket (Bucket Bytes))) (u0 u : List Address),
      WellLocked c tx → freeLoop c decodeID lockers tx u0 = (u, .ok tx1) →
      WellLocked c tx1 ∧
      (∀ cnr id, lockersAt c tx1 cnr id =
        (lockersAt c tx cnr id).filter (fun x => decide ((cnr, x) ∉ lockers))) ∧
      ∃ uNew, u = u0 ++ uNew ∧ uNew.Nodup ∧
        ∀ a, a ∈ uNew ↔ lockersAt c tx a.1 a.2 ≠ [] ∧ lockersAt c tx1 a.1 a.2 = []
  | [], tx, tx1, u0, u, hw, h => by
    simp only [freeLoop, Prod.mk.injEq, Except.ok.injEq] at h
    obtain ⟨rfl, rfl⟩ := h
    refine ⟨hw, fun cnr id => by simp, [], by simp, List.nodup_nil, fun a => ?_⟩
    constructor
    · intro ha
      cases ha
    · rintro ⟨h1, h2⟩
      exact absurd h2 h1
  | lk :: rest, tx, tx1, u0, u, hw, h => by
    unfold freeLoop at h
    cases hstep : freePotentialLocks c decodeID tx lk.1 lk.2 with
    | error err => simp [hstep] at h
    | ok r =>
      obtain ⟨uu, txm⟩ := r
      simp only [hstep] at h
      obtain ⟨s1, s2, s3, s4⟩ := free_step c hrt decodeID hid tx txm lk.1 lk.2 uu hw hstep
      obtain ⟨r1, r2, uR, r3, r4, r5⟩ :=
        free_loop c hrt decodeID hid rest txm tx1 (u0 ++ uu) u s1 h
      have hm : ∀ cnr id, lockersAt c txm cnr id =
          (lockersAt c tx cnr id).filter (fun x => decide ((cnr, x) ≠ lk)) := by
        intro cnr id
        rw [s2 cnr id]
        exact step_filter _ (lockersAt_nodup c tx hw cnr id) cnr lk
      refine ⟨r1, fun cnr id => ?_, uu ++ uR, by rw [r3, List.append_assoc], ?_, fun a => ?_⟩
      · rw [r2 cnr id, hm cnr id, List.filter_filter]
        apply List.filter_congr
        intro x _
        by_cases h1 : ((cnr, x) : Address) = lk
        · simp [h1]
        · by_cases h2 : ((cnr, x) : Address) ∈ rest
          · simp [h1, h2]
          · simp [h1, h2]
      · rw [List.nodup_append]
        refine ⟨s4, r4, fun a ha1 ha2 => ?_⟩
        have e1 := (s3 a).1 ha1
        have e2 := (r5 a).1 ha2
        apply e2.1
        rw [s2, e1.2]
        simp [e1.1]
      · rw [List.mem_append, s3 a, r5 a]
        constructor
        · rintro (⟨e1, e2⟩ | ⟨e1, e2⟩)
          · refine ⟨by rw [e2]; simp, ?_⟩
            have hlk : ((a.1, lk.2) : Address) = lk := by rw [e1]
            rw [r2, hm, e2]
            simp [hlk]
          · refine ⟨fun h0 => e1 (by rw [hm, h0]; rfl), e2⟩
        · rintro ⟨e1, e2⟩
          by_cases hmid : lockersAt c txm a.1 a.2 = []
          · left
            have h3 := s2 a.1 a.2
            rw [hmid] at h3
            by_cases hc : a.1 = lk.1
            · simp only [hc, if_true] at h3
              refine ⟨hc, ?_⟩
              rw [← hc] at h3
              exact erase_eq_nil _ _ h3.symm e1
            · simp only [hc, if_false] at h3
              exact absurd h3.symm e1
          · exact Or.inr ⟨hmid, e2⟩

theorem free_loop_untouched (c : Codec) (decodeID : Nat → Except Nat OID) :
    ∀ (lockers : List Address) (tx : Option (Bucket (Bucket Bytes))) (u0 : List Address),
      WellLocked c tx → (∀ cnr id x, x ∈ lockersAt c tx cnr id → (cnr, x) ∉ lockers) →
      freeLoop c decodeID lockers tx u0 = (u0, .ok tx)
  | [], _, _, _, _ => rfl
  | lk :: rest, tx, u0, hw, hno => by
    unfold freeLoop
    have hstep := free_step_untouched c decodeID tx lk.1 lk.2 hw
      (fun id hx => hno lk.1 id lk.2 hx (List.mem_cons_self _ _))
    simp only [hstep, List.append_nil]
    exact free_loop_untouched c decodeID rest tx u0 hw
      (fun cnr id x hx hm => hno cnr id x hx (List.mem_cons_of_mem _ hm))

/-! ## `Lock` builds well-formed buckets of locks -/

theorem emptyDB_well_locked (c : Codec) : WellLocked c emptyDB.lockedBucket :=
  ⟨[], rfl, List.Pairwise.nil, fun _ _ h => by cases h⟩

theorem lockLoop_good (c : Codec) (hrt : c.RoundTrip) (hdec : c.decodeList [] = .ok [])
    (locker : OID) :
    ∀ (keys : List OID) (bkt bkt1 : Bucket Bytes), Bucket.Ordered bkt → GoodRecords c bkt →
      lockLoop c locker keys bkt = .ok bkt1 → Bucket.Ordered bkt1 ∧ GoodRecords c bkt1
  | [], bkt, bkt1, ho, hg, h => by
    simp only [lockLoop, Except.ok.injEq] at h
    subst h
    exact ⟨ho, hg⟩
  | key :: rest, bkt, bkt1, ho, hg, h => by
    unfold lockLoop at h
    split at h
    · cases h
    · next exLockers hd =>
      split at h
      · exact lockLoop_good c hrt hdec locker rest bkt bkt1 ho hg h
      · next hcont =>
        split at h
        · cases h
        · next updLockers henc =>
          split at h
          · cases h
          · refine lockLoop_good c hrt hdec locker rest _ bkt1
              (Bucket.put_ordered key updLockers bkt ho) ?_ h
            have hnm : locker ∉ exLockers := by simpa using hcont
            have hex : exLockers.Nodup := by
              cases hk : Bucket.get bkt key with
              | none =>
                rw [hk, Option.getD_none, hdec] at hd
                cases hd
                exact List.nodup_nil
              | some v0 =>
                obtain ⟨l0, hl0, -, hnd0⟩ := hg key v0 hk
                rw [hk, Option.getD_some, hl0] at hd
                cases hd
                exact hnd0
            intro id v hv
            by_cases hid : id = key
            · subst hid
              rw [Bucket.get_put_self] at hv
              cases hv
              refine ⟨exLockers ++ [locker], hrt _ _ henc, by simp, ?_⟩
              rw [List.nodup_append]
              refine ⟨hex, List.nodup_singleton _, fun a ha1 ha2 => ?_⟩
              rw [List.mem_singleton] at ha2
              subst ha2
              exact hnm ha1
            · rw [Bucket.get_put_ne _ _ _ hid] at hv
              exact hg id v hv

theorem lock_keeps_well_locked (c : Codec) (hrt : c.RoundTrip) (hdec : c.decodeList [] = .ok [])
    (db : DB) (cnr : CID) (locker : OID) (locked : List OID)
    (hw : WellLocked c db.lockedBucket)
    (h : (DB.Lock c db cnr locker locked).1 = .returned none) :
    WellLocked c (DB.Lock c db cnr locker locked).2.lockedBucket := by
  obtain ⟨-, -, -, -, root, bkt, h5, h6, h7⟩ := lock_success c db cnr locker locked h
  obtain ⟨root2, hr2, hro, hall⟩ := hw
  rw [h5] at hr2
  cases hr2
  rw [h7]
  have hstart : Bucket.Ordered ((Bucket.get root cnr).getD []) ∧
      GoodRecords c ((Bucket.get root cnr).getD []) := by
    cases hg : Bucket.get root cnr with
    | none => exact ⟨List.Pairwise.nil, fun _ _ h0 => by cases h0⟩
    | some b => exact hall cnr b hg
  obtain ⟨g1, g2⟩ := lockLoop_good c hrt hdec locker locked _ bkt hstart.1 hstart.2 h6
  refine ⟨_, rfl, Bucket.put_ordered cnr bkt root hro, fun cnr2 b hb => ?_⟩
  by_cases hc : cnr2 = cnr
  · subst hc
    rw [Bucket.get_put_self] at hb
    cases hb
    exact ⟨g1, g2⟩
  · rw [Bucket.get_put_ne _ _ _ hc] at hb
    exact hall cnr2 b hb

theorem free_locked_by_ok (c : Codec) (decodeID : Nat → Except Nat OID) (db : DB)
    (lockers : List Address) (hm : db.mode.noMetabase = false) (hr : db.mode.readOnly = false)
    (h : (DB.FreeLockedBy c decodeID db lockers).1.2 = none) :
    ∃ tx1, freeLoop c decodeID lockers db.lockedBucket [] =
        ((DB.FreeLockedBy c decodeID db lockers).1.1, .ok tx1) ∧
      (DB.FreeLockedBy c decodeID db lockers).2 = { db with lockedBucket := tx1 } := by
  unfold DB.FreeLockedBy at h ⊢
  simp only [hm, hr, Bool.false_eq_true, if_false] at h ⊢
  rcases hl : freeLoop c decodeID lockers db.lockedBucket [] with ⟨u, r⟩
  cases r with
  | error err => simp [hl] at h
  | ok tx1 => exact ⟨tx1, rfl, rfl⟩

/-! ## `FreeLockedBy` succeeds when the codec does -/

theorem freeScan_succeeds (c : Codec) (ht : c.Total) (decodeID : Nat → Except Nat OID)
    (hid : ∀ k, decodeID k = .ok k) (idCnr : CID) (locker : OID) :
    ∀ (es : List (Nat × Bytes)) (u : List Address) (ch : List KV),
      (∀ p ∈ es, ∃ l, c.decodeList p.2 = .ok l) →
      ∃ r, freeScan c decodeID idCnr locker es u ch = .ok r
  | [], u, ch, _ => ⟨_, rfl⟩
  | (k, v) :: rest, u, ch, h => by
    obtain ⟨l, hl⟩ := h (k, v) (List.mem_cons_self _ _)
    have hrest : ∀ p ∈ rest, ∃ l, c.decodeList p.2 = .ok l :=
      fun p hp => h p (List.mem_cons_of_mem _ hp)
    unfold freeScan
    simp only [hl]
    by_cases hc : l.contains locker = true
    · simp only [hc, if_true]
      by_cases hlen : l.length = 1
      · simp only [hlen, if_true, hid]
        exact freeScan_succeeds c ht decodeID hid idCnr locker rest _ _ hrest
      · obtain ⟨b, hb, -⟩ := ht (l.erase locker)
        simp only [hlen, if_false, hb]
        exact freeScan_succeeds c ht decodeID hid idCnr locker rest _ _ hrest
    · simp only [hc, if_false]
      exact freeScan_succeeds c ht decodeID hid idCnr locker rest _ _ hrest

theorem changeOf_value (c : Codec) (ht : c.Total) (locker : OID) (p : Nat × Bytes) (kv : KV)
    (v : Bytes) (h : changeOf c locker p = some kv) (hv : kv.v = some v) : c.putErr v = none := by
  unfold changeOf at h
  split at h
  · cases h
  · next l hl =>
    split at h
    · split at h
      · cases h
        cases hv
      · obtain ⟨b, hb, hp⟩ := ht (l.erase locker)
        rw [hb] at h
        cases h
        cases hv
        exact hp
    · cases h

theorem applyChanges_succeeds (c : Codec) :
    ∀ (ch : List KV) (b : Bucket Bytes),
      (∀ kv ∈ ch, ∀ v, kv.v = some v → c.putErr v = none) → ∃ b1, applyChanges c ch b = .ok b1
  | [], b, _ => ⟨b, rfl⟩
  | kv :: rest, b, h => by
    have hrest : ∀ kv2 ∈ rest, ∀ v, kv2.v = some v → c.putErr v = none :=
      fun kv2 hk => h kv2 (List.mem_cons_of_mem _ hk)
    unfold applyChanges
    cases hv : kv.v with
    | none => exact applyChanges_succeeds c rest _ hrest
    | some v =>
      simp only [h kv (List.mem_cons_self _ _) v hv]
      exact applyChanges_succeeds c rest _ hrest

theorem free_step_succeeds (c : Codec) (ht : c.Total) (decodeID : Nat → Except Nat OID)
    (hid : ∀ k, decodeID k = .ok k) (tx : Option (Bucket (Bucket Bytes))) (cnr : CID)
    (locker : OID) (hw : WellLocked c tx) :
    ∃ r, freePotentialLocks c decodeID tx cnr locker = .ok r := by
  obtain ⟨root, rfl, -, hall⟩ := hw
  unfold freePotentialLocks
  simp only []
  cases hg : Bucket.get root cnr with
  | none => exact ⟨_, rfl⟩
  | some bkt =>
    obtain ⟨hob, hgb⟩ := hall cnr bkt hg
    obtain ⟨r, hscan⟩ := freeScan_succeeds c ht decodeID hid cnr locker bkt [] []
      (fun p hp => by
        obtain ⟨l, hl, -⟩ := hgb p.1 p.2 (Bucket.get_of_mem p.1 p.2 bkt hob hp)
        exact ⟨l, hl⟩)
    obtain ⟨u, ch⟩ := r
    obtain ⟨-, hch, -⟩ := freeScan_ok c decodeID hid cnr locker bkt [] [] u ch hscan
    rw [List.nil_append] at hch
    obtain ⟨b1, happ⟩ := applyChanges_succeeds c ch bkt (by
      intro kv hkv v hv
      rw [hch, List.mem_filterMap] at hkv
      obtain ⟨p, -, hp⟩ := hkv
      exact changeOf_value c ht locker p kv v hp hv)
    simp only [hscan, happ]
    exact ⟨_, rfl⟩

theorem free_loop_succeeds (c : Codec) (hrt : c.RoundTrip) (ht : c.Total)
    (decodeID : Nat → Except Nat OID) (hid : ∀ k, decodeID k = .ok k) :
    ∀ (lockers : List Address) (tx : Option (Bucket (Bucket Bytes))) (u0 : List Address),
      WellLocked c tx → ∃ u tx1, freeLoop c decodeID lockers tx u0 = (u, .ok tx1)
  | [], tx, u0, _ => ⟨u0, tx, rfl⟩
  | lk :: rest, tx, u0, hw => by
    obtain ⟨r, hstep⟩ := free_step_succeeds c ht decodeID hid tx lk.1 lk.2 hw
    obtain ⟨uu, txm⟩ := r
    have hwm := (free_step c hrt decodeID hid tx txm lk.1 lk.2 uu hw hstep).1
    unfold freeLoop
    simp only [hstep]
    exact free_loop_succeeds c hrt ht decodeID hid rest txm _ hwm

theorem free_locked_by_succeeds (c : Codec) (hrt : c.RoundTrip) (ht : c.Total)
    (decodeID : Nat → Except Nat OID) (hid : ∀ k, decodeID k = .ok k) (db : DB)
    (lockers : List Address) (hm : db.mode.noMetabase = false) (hr : db.mode.readOnly = false)
    (hw : WellLocked c db.lockedBucket) :
    (DB.FreeLockedBy c decodeID db lockers).1.2 = none := by
  obtain ⟨u, tx1, h⟩ := free_loop_succeeds c hrt ht decodeID hid lockers db.lockedBucket [] hw
  unfold DB.FreeLockedBy
  simp only [hm, hr, Bool.false_eq_true, if_false, h]

end Meta

namespace BlobStor

/-! ## The modelled `GetRange` -/

theorem getRange_ok (objects : Address → Option Payload) (addr : Address) (P : Payload)
    (off ln : Nat) (hobj : objects addr = some P) (hL : P.length < 2 ^ 63)
    (hle : off + ln ≤ P.length) :
    GetRange objects addr off ln =
      .ok (if ln = 0 then P.drop off else (P.drop off).take ln) := by
  have h1 : ¬ 2 ^ 63 ≤ ln := by omega
  have h2 : ¬ uint64Size ≤ off + ln := by unfold uint64Size; omega
  have h3 : ¬ P.length < off := by omega
  have h4 : (off + ln) % uint64Size = off + ln :=
    Nat.mod_eq_of_lt (by unfold uint64Size; omega)
  have h5 : ¬ P.length < off + ln := by omega
  unfold GetRange
  simp only [hobj, h1, h2, h3, h4, h5, if_false]
  by_cases h0 : ln = 0 <;> simp [h0]

theorem getRange_out_of_range (objects : Address → Option Payload) (addr : Address) (P : Payload)
    (off ln : Nat) (hobj : objects addr = some P)
    (h : P.length < off + ln ∨ 2 ^ 63 ≤ ln ∨ uint64Size ≤ off + ln) :
    GetRange objects addr off ln = .error .objectOutOfRange := by
  unfold GetRange
  simp only [hobj]
  by_cases h1 : 2 ^ 63 ≤ ln
  · rw [if_pos h1]
  · rw [if_neg h1]
    by_cases h2 : uint64Size ≤ off + ln
    · rw [if_pos h2]
    · rw [if_neg h2]
      have h4 : (off + ln) % uint64Size = off + ln := Nat.mod_eq_of_lt (by omega)
      have h5 : P.length < off + ln := by
        rcases h with h | h | h
        · exact h
        · exact absurd h h1
        · exact absurd h h2
      by_cases h3 : P.length < off
      · rw [if_pos h3]
      · rw [if_neg h3, h4, if_pos h5]

theorem getRange_missing (objects : Address → Option Payload) (addr : Address) (off ln : Nat)
    (hobj : objects addr = none) : GetRange objects addr off ln = .error .objectNotFound := by
  unfold GetRange
  simp only [hobj]

theorem testGetRange_passes (objects : Address → Option Payload) (first : ObjectDesc)
    (rest : List ObjectDesc)
    (hput : ∀ o ∈ first :: rest, objects o.addr = some o.payload ∧ o.payload.length < 2 ^ 63)
    (hlen : 100 ≤ first.payload.length) :
    testGetRange (GetRange objects) (first :: rest) = some true := by
  obtain ⟨hobj, hL⟩ := hput first (List.mem_cons_self _ _)
  have hmod : ∀ n, n < 2 ^ 63 + 10 → n % uint64Size = n :=
    fun n hn => Nat.mod_eq_of_lt (by unfold uint64Size; omega)
  unfold testGetRange
  simp only [Nat.not_lt.2 hlen, if_false, Option.some.injEq, Bool.and_eq_true]
  refine ⟨⟨⟨⟨⟨?_, ?_⟩, ?_⟩, ?_⟩, ?_⟩, ?_⟩
  · rw [getRange_ok objects _ _ 11 (100 - 11) hobj hL (by omega)]
    simp [returnsPayload]
  · rw [hmod _ (by omega),
      getRange_out_of_range objects _ _ _ 10 hobj (Or.inl (by omega))]
    rfl
  · rw [hmod _ (by omega),
      getRange_out_of_range objects _ _ 10 _ hobj (Or.inl (by omega))]
    rfl
  · rw [getRange_out_of_range objects _ _ 0 (2 ^ 63) hobj (Or.inr (Or.inl (Nat.le_refl _)))]
    rfl
  · rw [getRange_out_of_range objects _ _ 10 (uint64Size - 1 - 2) hobj
      (Or.inr (Or.inl (by unfold uint64Size; omega)))]
    rfl
  · rw [List.all_eq_true]
    intro o ho
    obtain ⟨hobj2, hL2⟩ := hput o ho
    rw [Bool.and_eq_true]
    constructor
    · rw [getRange_ok objects _ _ 0 0 hobj2 hL2 (by omega)]
      simp [returnsPayload]
    · by_cases hhalf : o.payload.length / 2 > 0
      · simp only [hhalf, if_true]
        rw [hmod _ (by omega),
          getRange_ok objects _ _ _ 0 hobj2 hL2 (by omega)]
        simp [returnsPayload]
      · simp only [hhalf, if_false]

/-- The modelled `GetRange` passes the conformance test `TestGetRange` of the
repository on every storage that holds the prepared objects and not the
address drawn for the missing object. -/
theorem model_passes_TestGetRange (objects : Address → Option Payload) (missing : Address)
    (first1 first2 : ObjectDesc) (rest1 rest2 : List ObjectDesc)
    (hmiss : objects missing = none)
    (hput1 : ∀ o ∈ first1 :: rest1, objects o.addr = some o.payload ∧ o.payload.length < 2 ^ 63)
    (hput2 : ∀ o ∈ first2 :: rest2, objects o.addr = some o.payload ∧ o.payload.length < 2 ^ 63)
    (hlen1 : 100 ≤ first1.payload.length) (hlen2 : 100 ≤ first2.payload.length) :
    TestGetRange (GetRange objects) missing (first1 :: rest1) (first2 :: rest2) = some true := by
  unfold TestGetRange
  rw [testGetRange_passes objects first1 rest1 hput1 hlen1,
    testGetRange_passes objects first2 rest2 hput2 hlen2, getRange_missing objects _ _ _ hmiss]
  rfl

end BlobStor

namespace PutSvc

/-! ## What the iterator does to the outside world -/

theorem startNode_world {σ : Type} (env : Env σ) (P : σ → Prop)
    (hf : ∀ w d, P w → P (env.f w d).2) (hs : ∀ w, P w → P (env.submit w).2) (k : PubKey)
    (li : Option Nat) (nr : NodeResult) (st : IterState σ) (h : P st.world) :
    P (startNode env k li nr st).1.st.world := by
  unfold startNode
  split
  · dsimp only
    rw [processNode_world]
    exact hf _ _ h
  · split
    · next e w hsub =>
      have hw : w = (env.submit st.world).2 := by rw [hsub]
      dsimp only
      rw [hw]
      exact hs _ h
    · next w hsub =>
      have hw : w = (env.submit st.world).2 := by rw [hsub]
      dsimp only
      rw [processNode_world, hw]
      exact hf _ _ (hs _ h)

theorem dispatchWave_world {σ : Type} (env : Env σ) (P : σ → Prop)
    (hf : ∀ w d, P w → P (env.f w d).2) (hs : ∀ w, P w → P (env.submit w).2) (i : Nat) :
    ∀ (pending : List PubKey) (st : IterState σ), P st.world →
      P (dispatchWave env i pending st).st.world
  | [], _, h => h
  | k :: rest, st, h => by
    have hstart := startNode_world env P hf hs k (some i)
      ((st.nodeResults.lookup k).getD NodeResult.zero) st h
    unfold dispatchWave
    dsimp only
    split
    · exact dispatchWave_world env P hf hs i rest _ hstart
    · exact hstart

theorem selectNodes_world {σ : Type} (env : Env σ) (i : Nat) (nodes : List NetmapNodeInfo) :
    ∀ (fuel : Nat) (st : IterState σ) (replRem : Nat) (next : List PubKey),
      (selectNodes env i nodes fuel st replRem next).1.st.world = st.world
  | 0, _, _, _ => rfl
  | fuel + 1, st, replRem, next => by
    unfold selectNodes
    dsimp only
    split
    · split
      · rfl
      · split
        · split
          · exact selectNodes_world env i nodes fuel _ _ _
          · exact selectNodes_world env i nodes fuel _ _ _
        · split
          · exact selectNodes_world env i nodes fuel _ _ _
          · split
            · rfl
            · exact selectNodes_world env i nodes fuel _ _ _
    · rfl

theorem waves_world {σ : Type} (env : Env σ) (P : σ → Prop)
    (hf : ∀ w d, P w → P (env.f w d).2) (hs : ∀ w, P w → P (env.submit w).2) (rc : List Nat)
    (i : Nat) (nodes : List NetmapNodeInfo) :
    ∀ (fuel : Nat) (st : IterState σ), P st.world → P (waves env rc i nodes fuel st).st.world
  | 0, _, h => h
  | fuel + 1, st, h => by
    have hsel2 : ∀ (replRem : Nat) (next : List PubKey),
        P (selectNodes env i nodes (nodes.length + 1) st replRem next).1.st.world := by
      intro replRem next
      rw [selectNodes_world]
      exact h
    unfold waves
    dsimp only
    split
    · exact h
    · split
      · exact h
      · split
        · split <;> exact h
        · split
          · exact h
          · split
            · split
              · exact waves_world env P hf hs rc i nodes fuel _
                  (dispatchWave_world env P hf hs i _ _ (hsel2 _ _))
              · exact dispatchWave_world env P hf hs i _ _ (hsel2 _ _)
            · exact hsel2 _ _

theorem mainLoop_world {σ : Type} (env : Env σ) (P : σ → Prop)
    (hf : ∀ w d, P w → P (env.f w d).2) (hs : ∀ w, P w → P (env.submit w).2) (rc : List Nat) :
    ∀ (lists : List (List NetmapNodeInfo)) (i : Nat) (st : IterState σ), P st.world →
      P (mainLoop env rc lists i st).st.world
  | [], _, _, h => h
  | nodes :: rest, i, st, h => by
    have hw := waves_world env P hf hs rc i nodes (nodes.length + 1) st h
    unfold mainLoop
    dsimp only
    split
    · exact mainLoop_world env P hf hs rc rest _ _ hw
    · exact hw

theorem broadcastList_world {σ : Type} (env : Env σ) (P : σ → Prop)
    (hf : ∀ w d, P w → P (env.f w d).2) (hs : ∀ w, P w → P (env.submit w).2) :
    ∀ (nodes : List NetmapNodeInfo) (st : IterState σ), P st.world →
      P (broadcastList env nodes st).st.world
  | [], _, h => h
  | node :: rest, st, h => by
    unfold broadcastList
    dsimp only
    split
    · exact broadcastList_world env P hf hs rest st h
    · split
      · exact broadcastList_world env P hf hs rest _ h
      · have hstart := startNode_world env P hf hs node.publicKey none (newNodeResult env node)
          { st with nodeResults := (node.publicKey, newNodeResult env node) :: st.nodeResults } h
        split
        · exact hstart
        · split
          · exact broadcastList_world env P hf hs rest _ hstart
          · exact hstart

theorem broadcastLists_world {σ : Type} (env : Env σ) (P : σ → Prop)
    (hf : ∀ w d, P w → P (env.f w d).2) (hs : ∀ w, P w → P (env.submit w).2) :
    ∀ (lists : List (List NetmapNodeInfo)) (st : IterState σ), P st.world →
      P (broadcastLists env lists st).st.world
  | [], _, h => h
  | nodes :: rest, st, h => by
    have hb := broadcastList_world env P hf hs nodes st h
    unfold broadcastLists
    dsimp only
    split
    · exact broadcastLists_world env P hf hs rest _ hb
    · exact hb

/-- A property of the outside world that the send function and the worker pool
keep holds after `iterateNodesForObject` when it held before. -/
theorem iterate_world {σ : Type} (env : Env σ) (P : σ → Prop)
    (hf : ∀ w d, P w → P (env.f w d).2) (hs : ∀ w, P w → P (env.submit w).2)
    (x : PlacementIterator) (w : σ) (h : P w) : P (iterateNodesForObject env x w).st.world := by
  unfold iterateNodesForObject
  cases hsort : x.sortForObject with
  | error err => exact h
  | ok L =>
    dsimp only
    have hm := mainLoop_world env P hf hs (effectiveLists x L).2 (effectiveLists x L).1 0
      (initState w (effectiveLists x L).1) h
    have hb := broadcastLists_world env P hf hs (effectiveLists x L).1 _ hm
    unfold finish
    split
    · exact hm
    · exact hm
    · exact hm
    · exact hm
    · split
      · exact hm
      · dsimp only
        split
        · exact hb
        · exact hb
        · exact hb

end PutSvc

namespace PutSvc

/-! ## The counters stay within their ranges -/

theorem Capped.bounded {σ : Type} {L : List (List NetmapNodeInfo)} {rc : List Nat}
    {st : IterState σ} (h : Capped L rc st) : Bounded L st :=
  ⟨h.counters_len, h.proc_le⟩

theorem getD_lt_uintSize (rc : List Nat) (hrc : ∀ c ∈ rc, c < uintSize) (i : Nat) :
    rc.getD i 0 < uintSize := by
  rw [List.getD_eq_getElem?_getD]
  cases h : rc[i]? with
  | none =>
    unfold uintSize
    simp
  | some c => exact hrc c (List.mem_iff_getElem?.2 ⟨i, h⟩)

theorem getD_of_getElem? (rc : List Nat) (i c : Nat) (h : rc[i]? = some c) :
    rc.getD i 0 = c := by
  rw [List.getD_eq_getElem?_getD, h]
  rfl

theorem processNode_stored_le {σ : Type} (env : Env σ) (k : PubKey) (li : Option Nat)
    (nr : NodeResult) (st : IterState σ) (j : Nat) :
    (counterAt (processNode env k li nr st).1.nodesCounters j).stored ≤
      (counterAt st.nodesCounters j).stored + (if li = some j then 1 else 0) := by
  rw [processNode_nodesCounters]
  cases li with
  | none => exact Nat.le_add_right _ _
  | some i =>
    dsimp only
    split
    · by_cases hji : j = i
      · subst hji
        simpa using incStored_stored_le st.nodesCounters j j
      · rw [incStored_stored_ne _ _ _ hji]
        exact Nat.le_add_right _ _
    · exact Nat.le_add_right _ _

theorem startNode_stored_le {σ : Type} (env : Env σ) (k : PubKey) (li : Option Nat)
    (nr : NodeResult) (st : IterState σ) (j : Nat) :
    (counterAt (startNode env k li nr st).1.st.nodesCounters j).stored ≤
      (counterAt st.nodesCounters j).stored + (if li = some j then 1 else 0) := by
  rcases startNode_cases env k li nr st with ⟨w, hst⟩ | ⟨w, hst⟩
  · rw [hst]
    exact Nat.le_add_right _ _
  · rw [hst]
    exact processNode_stored_le env k li nr { st with world := w } j

theorem Capped.keptByStart {σ : Type} {L : List (List NetmapNodeInfo)} {rc : List Nat}
    {st : IterState σ} (h : Capped L rc st) (env : Env σ) (k : PubKey) (li : Option Nat)
    (nr : NodeResult)
    (hroom : ∀ i, li = some i → (counterAt st.nodesCounters i).stored < rc.getD i 0) :
    Capped L rc (startNode env k li nr st).1.st where
  counters_len := (h.bounded.afterStart env k li nr).counters_len
  proc_le := (h.bounded.afterStart env k li nr).proc_le
  stored_le := by
    intro j
    have hle := startNode_stored_le env k li nr st j
    by_cases hli : li = some j
    · rw [if_pos hli] at hle
      have := hroom j hli
      omega
    · rw [if_neg hli] at hle
      have := h.stored_le j
      omega

theorem dispatchWave_capped {σ : Type} (env : Env σ) (L : List (List NetmapNodeInfo))
    (rc : List Nat) (i : Nat) :
    ∀ (pending : List PubKey) (st : IterState σ), Capped L rc st →
      (counterAt st.nodesCounters i).stored + pending.length ≤ rc.getD i 0 →
      Capped L rc (dispatchWave env i pending st).st
  | [], _, h, _ => h
  | k :: rest, st, h, hroom => by
    have hlen : (k :: rest).length = rest.length + 1 := rfl
    rw [hlen] at hroom
    have hc : Capped L rc (startNode env k (some i)
        ((st.nodeResults.lookup k).getD NodeResult.zero) st).1.st :=
      h.keptByStart env k (some i) _ (by
        intro i1 hi1
        cases hi1
        omega)
    have hle := startNode_stored_le env k (some i)
      ((st.nodeResults.lookup k).getD NodeResult.zero) st i
    rw [if_pos rfl] at hle
    unfold dispatchWave
    dsimp only
    split
    · exact dispatchWave_capped env L rc i rest _ hc (by omega)
    · exact hc

theorem Capped.keptByStep {σ : Type} {L : List (List NetmapNodeInfo)} {rc : List Nat}
    {st : IterState σ} (h : Capped L rc st) (i : Nat)
    (hguard : (counterAt st.nodesCounters i).processed < (L.getD i []).length)
    (cs : List Counters) (hcs : cs.length = st.nodesCounters.length)
    (hp : ∀ j, (counterAt cs j).processed = (counterAt st.nodesCounters j).processed)
    (hs : ∀ j, (counterAt cs j).stored ≤ rc.getD j 0)
    (m : List (PubKey × NodeResult)) :
    Capped L rc { st with nodeResults := m, nodesCounters := incProcessed cs i } where
  counters_len := (h.bounded.afterStep i hguard cs hcs hp m).counters_len
  proc_le := (h.bounded.afterStep i hguard cs hcs hp m).proc_le
  stored_le := by
    intro j
    show (counterAt (incProcessed cs i) j).stored ≤ _
    rw [incProcessed_stored]
    exact hs j

theorem selectNodes_capped {σ : Type} (env : Env σ) (L : List (List NetmapNodeInfo))
    (rc : List Nat) (hrc : ∀ c ∈ rc, c < uintSize) (i : Nat) :
    ∀ (fuel : Nat) (st : IterState σ) (replRem : Nat) (next : List PubKey), Capped L rc st →
      (counterAt st.nodesCounters i).stored + replRem ≤ rc.getD i 0 →
      next.length ≤ replRem →
      Capped L rc (selectNodes env i (L.getD i []) fuel st replRem next).1.st ∧
      (counterAt (selectNodes env i (L.getD i []) fuel st replRem next).1.st.nodesCounters
        i).stored + (selectNodes env i (L.getD i []) fuel st replRem next).2.length ≤
          rc.getD i 0
  | 0, st, replRem, next, h, hroom, hnext => ⟨h, by
      show (counterAt st.nodesCounters i).stored + next.length ≤ _
      omega⟩
  | fuel + 1, st, replRem, next, h, hroom, hnext => by
    have hR := getD_lt_uintSize rc hrc i
    have key : ∀ (cs : List Counters) (m : List (PubKey × NodeResult)) (rr : Nat)
        (nx : List PubKey), cs.length = st.nodesCounters.length →
        (∀ j, (counterAt cs j).processed = (counterAt st.nodesCounters j).processed) →
        (∀ j, (counterAt cs j).stored ≤ rc.getD j 0) →
        (counterAt cs i).stored + rr ≤ rc.getD i 0 → nx.length ≤ rr →
        (counterAt st.nodesCounters i).processed < (L.getD i []).length →
        Capped L rc (selectNodes env i (L.getD i []) fuel
          { st with nodeResults := m, nodesCounters := incProcessed cs i } rr nx).1.st ∧
        (counterAt (selectNodes env i (L.getD i []) fuel
          { st with nodeResults := m, nodesCounters := incProcessed cs i } rr
            nx).1.st.nodesCounters i).stored +
          (selectNodes env i (L.getD i []) fuel
            { st with nodeResults := m, nodesCounters := incProcessed cs i } rr nx).2.length ≤
              rc.getD i 0 := by
      intro cs m rr nx hcs hp hs hrr hnx hg
      exact selectNodes_capped env L rc hrc i fuel _ rr nx (h.keptByStep i hg cs hcs hp hs m) (by
        show (counterAt (incProcessed cs i) i).stored + rr ≤ _
        rw [incProcessed_stored]
        exact hrr) hnx
    have hsame : (counterAt st.nodesCounters i).stored + next.length ≤ rc.getD i 0 := by omega
    unfold selectNodes
    dsimp only
    split
    · next hguard =>
      have hpos : 0 < replRem := by omega
      split
      · exact ⟨h, hsame⟩
      · split
        · split
          · have hsub : usub replRem 1 = replRem - 1 :=
              usub_eq_sub (by omega) hpos
            rw [hsub]
            have hinc := incStored_stored_le st.nodesCounters i i
            refine key (incStored st.nodesCounters i) st.nodeResults _ _
              (incStored_length _ _) (fun j => incStored_processed _ _ _) (fun j => ?_)
              (by omega) (by omega) hguard.1
            by_cases hji : j = i
            · subst hji
              omega
            · rw [incStored_stored_ne _ _ _ hji]
              exact h.stored_le j
          · exact key st.nodesCounters st.nodeResults _ _ rfl (fun _ => rfl) h.stored_le hroom
              hnext hguard.1
        · split
          · refine key st.nodesCounters _ _ _ rfl (fun _ => rfl) h.stored_le hroom ?_ hguard.1
            rw [List.length_append]
            show next.length + 1 ≤ replRem
            omega
          · split
            · exact ⟨⟨h.counters_len, h.proc_le, h.stored_le⟩, hsame⟩
            · exact key st.nodesCounters _ _ _ rfl (fun _ => rfl) h.stored_le hroom hnext
                hguard.1
    · exact ⟨h, hsame⟩

theorem waves_capped {σ : Type} (env : Env σ) (L : List (List NetmapNodeInfo))
    (rc : List Nat) (hrc : ∀ c ∈ rc, c < uintSize) (i : Nat) :
    ∀ (fuel : Nat) (st : IterState σ), Capped L rc st →
      Capped L rc (waves env rc i (L.getD i []) fuel st).st
  | 0, _, h => h
  | fuel + 1, st, h => by
    unfold waves
    dsimp only
    split
    · exact h
    · next replCount hget =>
      have hR : rc.getD i 0 = replCount := getD_of_getElem? rc i replCount hget
      have hlt := getD_lt_uintSize rc hrc i
      have hst := h.stored_le i
      rw [hR] at hlt hst
      have hu : usub replCount (counterAt st.nodesCounters i).stored =
          replCount - (counterAt st.nodesCounters i).stored := usub_eq_sub hlt hst
      split
      · exact h
      · split
        · split
          · exact h
          · exact h
        · split
          · exact h
          · have hsel := selectNodes_capped env L rc hrc i ((L.getD i []).length + 1) st
              (usub replCount (counterAt st.nodesCounters i).stored) [] h (by
                rw [hu, hR]
                omega) (Nat.zero_le _)
            split
            · have hd := dispatchWave_capped env L rc i _ _ hsel.1 hsel.2
              split
              · exact waves_capped env L rc hrc i fuel _ hd
              · exact hd
            · exact hsel.1

theorem mainLoop_capped {σ : Type} (env : Env σ) (L : List (List NetmapNodeInfo))
    (rc : List Nat) (hrc : ∀ c ∈ rc, c < uintSize) :
    ∀ (lists : List (List NetmapNodeInfo)) (i : Nat) (st : IterState σ),
      L.drop i = lists → Capped L rc st → Capped L rc (mainLoop env rc lists i st).st
  | [], _, _, _, h => h
  | nodes :: rest, i, st, hdrop, h => by
    have hi : i < L.length := by
      by_contra hge
      rw [List.drop_eq_nil_of_le (Nat.le_of_not_lt hge)] at hdrop
      cases hdrop
    have hcons := List.drop_eq_getElem_cons hi
    rw [hdrop] at hcons
    have hnodes : L.getD i [] = nodes := by
      rw [List.getD_eq_getElem?_getD, List.getElem?_eq_getElem hi]
      exact (List.cons.inj hcons).1.symm
    have hrest : L.drop (i + 1) = rest := (List.cons.inj hcons).2.symm
    have hw := waves_capped env L rc hrc i (nodes.length + 1) st h
    rw [hnodes] at hw
    unfold mainLoop
    dsimp only
    split
    · exact mainLoop_capped env L rc hrc rest (i + 1) _ hrest hw
    · exact hw

theorem Capped.keptByRecord {σ : Type} {L : List (List NetmapNodeInfo)} {rc : List Nat}
    {st : IterState σ} (h : Capped L rc st) (m : List (PubKey × NodeResult)) :
    Capped L rc { st with nodeResults := m } :=
  ⟨h.counters_len, h.proc_le, h.stored_le⟩

theorem broadcastList_capped {σ : Type} (env : Env σ) (L : List (List NetmapNodeInfo))
    (rc : List Nat) :
    ∀ (nodes : List NetmapNodeInfo) (st : IterState σ), Capped L rc st →
      Capped L rc (broadcastList env nodes st).st
  | [], _, h => h
  | node :: rest, st, h => by
    have hrec := h.keptByRecord ((node.publicKey, newNodeResult env node) :: st.nodeResults)
    have hstart := hrec.keptByStart env node.publicKey none (newNodeResult env node)
      (fun _ hn => by cases hn)
    unfold broadcastList
    dsimp only
    split
    · exact broadcastList_capped env L rc rest st h
    · split
      · exact broadcastList_capped env L rc rest _ hrec
      · split
        · exact hstart
        · split
          · exact broadcastList_capped env L rc rest _ hstart
          · exact hstart

theorem broadcastLists_capped {σ : Type} (env : Env σ) (L : List (List NetmapNodeInfo))
    (rc : List Nat) :
    ∀ (lists : List (List NetmapNodeInfo)) (st : IterState σ), Capped L rc st →
      Capped L rc (broadcastLists env lists st).st
  | [], _, h => h
  | nodes :: rest, st, h => by
    have hb := broadcastList_capped env L rc nodes st h
    unfold broadcastLists
    dsimp only
    split
    · exact broadcastLists_capped env L rc rest _ hb
    · exact hb

theorem finish_capped {σ : Type} (env : Env σ) (L : List (List NetmapNodeInfo))
    (rc : List Nat) (broadcast : Bool) (lists : List (List NetmapNodeInfo)) (r : Flow σ)
    (h : Capped L rc r.st) : Capped L rc (finish env broadcast lists r).st := by
  have hb := broadcastLists_capped env L rc lists r.st h
  unfold finish
  split
  · exact h
  · exact h
  · exact h
  · exact h
  · split
    · exact h
    · dsimp only
      split
      · exact hb
      · exact hb
      · exact hb

theorem initState_capped {σ : Type} (w : σ) (L : List (List NetmapNodeInfo)) (rc : List Nat) :
    Capped L rc (initState w L) where
  counters_len := (initState_bounded w L).counters_len
  proc_le := (initState_bounded w L).proc_le
  stored_le := by
    intro j
    rw [counterAt_initState]
    exact Nat.zero_le _

/-- One turn of the wave loop from a state within the ranges either leaves the
loop, whatever the budget, or goes on from a state with more processed nodes. -/
theorem waves_turn {σ : Type} (env : Env σ) (L : List (List NetmapNodeInfo)) (rc : List Nat)
    (hrc : ∀ c ∈ rc, c < uintSize) (i : Nat) (hi : i < L.length)
    (hlen : (L.getD i []).length < uintSize) (st : IterState σ) (h : Capped L rc st) :
    ((waves env rc i (L.getD i []) 1 st).sig ≠ .outOfFuel ∧
      ∀ fuel, waves env rc i (L.getD i []) (fuel + 1) st = waves env rc i (L.getD i []) 1 st) ∨
    ∃ st1, Capped L rc st1 ∧
      (counterAt st.nodesCounters i).processed < (counterAt st1.nodesCounters i).processed ∧
      ∀ fuel, waves env rc i (L.getD i []) (fuel + 1) st = waves env rc i (L.getD i []) fuel st1 := by
  have hple := h.proc_le i
  have hu : usub (L.getD i []).length (counterAt st.nodesCounters i).processed =
      (L.getD i []).length - (counterAt st.nodesCounters i).processed :=
    usub_eq_sub hlen hple
  cases hget : rc[i]? with
  | none =>
    left
    have hall : ∀ fuel, waves env rc i (L.getD i []) (fuel + 1) st = ⟨.panic, st⟩ := by
      intro fuel
      unfold waves
      simp only [hget]
    exact ⟨by rw [hall 0]; simp, fun fuel => by rw [hall fuel, hall 0]⟩
  | some replCount =>
    have hR : rc.getD i 0 = replCount := getD_of_getElem? rc i replCount hget
    have hlt := getD_lt_uintSize rc hrc i
    have hst := h.stored_le i
    rw [hR] at hlt hst
    have hus : usub replCount (counterAt st.nodesCounters i).stored =
        replCount - (counterAt st.nodesCounters i).stored := usub_eq_sub hlt hst
    by_cases hzero : usub replCount (counterAt st.nodesCounters i).stored = 0
    · left
      have hall : ∀ fuel, waves env rc i (L.getD i []) (fuel + 1) st = ⟨.next, st⟩ := by
        intro fuel
        unfold waves
        simp only [hget, hzero, if_true]
      exact ⟨by rw [hall 0]; simp, fun fuel => by rw [hall fuel, hall 0]⟩
    · by_cases hleft : usub (L.getD i []).length (counterAt st.nodesCounters i).processed <
          usub replCount (counterAt st.nodesCounters i).stored
      · left
        have hall : ∀ fuel, waves env rc i (L.getD i []) (fuel + 1) st =
            waves env rc i (L.getD i []) (0 + 1) st := by
          intro fuel
          unfold waves
          simp only [hget, hzero, hleft, if_true, if_false]
        refine ⟨?_, fun fuel => hall fuel⟩
        show (waves env rc i (L.getD i []) (0 + 1) st).sig ≠ _
        unfold waves
        simp only [hget, hzero, hleft, if_true, if_false]
        cases st.lastRespErr <;> simp
      · by_cases hbig : 2 ^ 63 ≤ usub replCount (counterAt st.nodesCounters i).stored
        · left
          have hall : ∀ fuel, waves env rc i (L.getD i []) (fuel + 1) st = ⟨.panic, st⟩ := by
            intro fuel
            unfold waves
            simp only [hget, hzero, hleft, hbig, if_true, if_false]
          exact ⟨by rw [hall 0]; simp, fun fuel => by rw [hall fuel, hall 0]⟩
        · have hsel := selectNodes_fuel env L i hi ((L.getD i []).length + 1) st
            (usub replCount (counterAt st.nodesCounters i).stored) [] h.bounded (by omega)
          have hcap := selectNodes_capped env L rc hrc i ((L.getD i []).length + 1) st
            (usub replCount (counterAt st.nodesCounters i).stored) [] h (by
              rw [hus, hR]
              omega) (Nat.zero_le _)
          obtain ⟨hs1, hs2, hs3⟩ := hsel
          by_cases hsig : (selectNodes env i (L.getD i []) ((L.getD i []).length + 1) st
              (usub replCount (counterAt st.nodesCounters i).stored) []).1.sig = .next
          · have hd := dispatchWave_fuel env L i
              (selectNodes env i (L.getD i []) ((L.getD i []).length + 1) st
                (usub replCount (counterAt st.nodesCounters i).stored) []).2 _ hs2
            have hdc := dispatchWave_capped env L rc i _ _ hcap.1 hcap.2
            have hprog := hs3 (by rw [hu] at hleft; omega) (by
              show 0 < _
              omega) hsig
            by_cases hdsig : (dispatchWave env i
                (selectNodes env i (L.getD i []) ((L.getD i []).length + 1) st
                  (usub replCount (counterAt st.nodesCounters i).stored) []).2
                (selectNodes env i (L.getD i []) ((L.getD i []).length + 1) st
                  (usub replCount (counterAt st.nodesCounters i).stored) []).1.st).sig = .next
            · right
              refine ⟨_, hdc, ?_, fun fuel => ?_⟩
              · rw [hd.2.2]
                exact hprog
              · conv_lhs => unfold waves
                simp only [hget, hzero, hleft, hbig, hsig, hdsig, if_false]
            · left
              have hall : ∀ fuel, waves env rc i (L.getD i []) (fuel + 1) st =
                  dispatchWave env i
                    (selectNodes env i (L.getD i []) ((L.getD i []).length + 1) st
                      (usub replCount (counterAt st.nodesCounters i).stored) []).2
                    (selectNodes env i (L.getD i []) ((L.getD i []).length + 1) st
                      (usub replCount (counterAt st.nodesCounters i).stored) []).1.st := by
                intro fuel
                unfold waves
                simp only [hget, hzero, hleft, hbig, hsig, if_false]
              exact ⟨by rw [hall 0]; exact hd.1, fun fuel => by rw [hall fuel, hall 0]⟩
          · left
            have hall : ∀ fuel, waves env rc i (L.getD i []) (fuel + 1) st =
                (selectNodes env i (L.getD i []) ((L.getD i []).length + 1) st
                  (usub replCount (counterAt st.nodesCounters i).stored) []).1 := by
              intro fuel
              unfold waves
              simp only [hget, hzero, hleft, hbig, if_false]
            exact ⟨by rw [hall 0]; exact hs1, fun fuel => by rw [hall fuel, hall 0]⟩

end PutSvc

namespace PutTarget

/-! ## Length-prefixed signature records -/

theorem leUint32_putUint32 (n : Nat) (h : n < 2 ^ 32) : leUint32 (putUint32 n) = n := by
  unfold leUint32 putUint32
  simp only [List.getD_cons_zero, List.getD_cons_succ]
  omega

theorem record_length (body : Bytes) : (record body).length = 4 + body.length := by
  unfold record putUint32
  simp
  omega

theorem record_take (body rest : Bytes) :
    (record body ++ rest).take 4 = putUint32 body.length := by
  unfold record putUint32
  simp

theorem record_drop (body rest : Bytes) : (record body ++ rest).drop 4 = body ++ rest := by
  unfold record putUint32
  simp

theorem decodeSignature_record (unmarshal : Bytes → Except Nat Signature) (body rest : Bytes)
    (s : Signature) (hs : unmarshal body = .ok s) (hlen : body.length < 2 ^ 32) :
    decodeSignature unmarshal (record body ++ rest) = .ok (s, 4 + body.length) ∧
    (record body ++ rest).drop (4 + body.length) = rest := by
  have hl : leUint32 ((record body ++ rest).take 4) = body.length := by
    rw [record_take, leUint32_putUint32 _ hlen]
  have hlength : (record body ++ rest).length = 4 + body.length + rest.length := by
    rw [List.length_append, record_length]
  constructor
  · unfold decodeSignature
    have h1 : ¬ (record body ++ rest).length < 4 := by omega
    have h2 : ¬ (record body ++ rest).length < 4 + body.length := by omega
    simp only [h1, if_false, hl, h2, record_drop, List.take_left', hs]
  · rw [← List.drop_drop, record_drop, List.drop_left']
    rfl

theorem decodeSignaturesLoop_length (unmarshal : Bytes → Except Nat Signature) :
    ∀ (n i : Nat) (b : Bytes) (res sigs : List Signature),
      decodeSignaturesLoop unmarshal i n b res = .ok sigs → sigs.length = res.length + n
  | 0, i, b, res, sigs, h => by
    simp only [decodeSignaturesLoop, Except.ok.injEq] at h
    rw [← h]
    rfl
  | n + 1, i, b, res, sigs, h => by
    unfold decodeSignaturesLoop at h
    cases hd : decodeSignature unmarshal b with
    | error err => simp [hd] at h
    | ok r =>
      obtain ⟨sig, offset⟩ := r
      simp only [hd] at h
      rw [decodeSignaturesLoop_length unmarshal n _ _ _ sigs h, List.length_append,
        List.length_singleton]
      omega

theorem decodeSignaturesLoop_record (unmarshal : Bytes → Except Nat Signature) (body rest : Bytes)
    (s : Signature) (hs : unmarshal body = .ok s) (hlen : body.length < 2 ^ 32) (i n : Nat)
    (res : List Signature) :
    decodeSignaturesLoop unmarshal i (n + 1) (record body ++ rest) res =
      decodeSignaturesLoop unmarshal (i + 1) n rest (res ++ [s]) := by
  obtain ⟨h1, h2⟩ := decodeSignature_record unmarshal body rest s hs hlen
  rw [decodeSignaturesLoop]
  simp only [h1, h2]

theorem decodeSignaturesLoop_error (unmarshal : Bytes → Except Nat Signature) (b : Bytes)
    (e : SigError) (he : decodeSignature unmarshal b = .error e) (i n : Nat)
    (res : List Signature) :
    decodeSignaturesLoop unmarshal i (n + 1) b res = .error (.decoding i e) := by
  rw [decodeSignaturesLoop]
  simp only [he]

theorem decodeSignature_offset (unmarshal : Bytes → Except Nat Signature) (b : Bytes)
    (s : Signature) (offset : Nat) (h : decodeSignature unmarshal b = .ok (s, offset)) :
    offset = 4 + leUint32 (b.take 4) ∧ offset ≤ b.length := by
  unfold decodeSignature at h
  by_cases h1 : b.length < 4
  · simp [h1] at h
  · simp only [h1, if_false] at h
    by_cases h2 : b.length < 4 + leUint32 (b.take 4)
    · simp [h2] at h
    · simp only [h2, if_false] at h
      cases hu : unmarshal ((b.drop 4).take (leUint32 (b.take 4))) with
      | error code => simp [hu] at h
      | ok res =>
        simp only [hu, Except.ok.injEq, Prod.mk.injEq] at h
        exact ⟨h.2.symm, by omega⟩

/-! ## `sendObject` -/

theorem acceptSignature_some (env : Env) (t : Target) (node : PutSvc.NodeDesc) :
    ∀ (sigs : List Signature) (sig : Signature), acceptSignature env t node sigs = some sig →
      sig ∈ sigs ∧ sig.publicKeyBytes = node.info.publicKey ∧
        env.verify sig t.objSharedMeta = true
  | [], sig, h => by cases h
  | s :: rest, sig, h => by
    unfold acceptSignature at h
    by_cases h1 : s.publicKeyBytes ≠ node.info.publicKey
    · rw [if_pos h1] at h
      obtain ⟨g1, g2⟩ := acceptSignature_some env t node rest sig h
      exact ⟨List.mem_cons_of_mem _ g1, g2⟩
    · rw [if_neg h1] at h
      cases h2 : env.verify s t.objSharedMeta
      · rw [h2] at h
        have h3 : acceptSignature env t node rest = some sig := h
        obtain ⟨g1, g2⟩ := acceptSignature_some env t node rest sig h3
        exact ⟨List.mem_cons_of_mem _ g1, g2⟩
      · rw [h2] at h
        have h3 : some s = some sig := h
        cases h3
        exact ⟨List.mem_cons_self _ _, not_not.1 h1, h2⟩

theorem acceptSignature_none (env : Env) (t : Target) (node : PutSvc.NodeDesc) :
    ∀ (sigs : List Signature),
      (∀ sig ∈ sigs, ¬ (sig.publicKeyBytes = node.info.publicKey ∧
        env.verify sig t.objSharedMeta = true)) →
      acceptSignature env t node sigs = none
  | [], _ => rfl
  | s :: rest, h => by
    have ih := acceptSignature_none env t node rest
      (fun sig hs => h sig (List.mem_cons_of_mem _ hs))
    have hs := h s (List.mem_cons_self _ _)
    unfold acceptSignature
    by_cases h1 : s.publicKeyBytes ≠ node.info.publicKey
    · rw [if_pos h1, ih]
    · have h2 : env.verify s t.objSharedMeta = false := by
        cases hv : env.verify s t.objSharedMeta
        · rfl
        · exact absurd ⟨not_not.1 h1, hv⟩ hs
      rw [if_neg h1, h2, ih]
      rfl

/-! ## What `sendObject` and the placement leave of the target -/

theorem Target.SameBut.refl (t : Target) : t.SameBut t :=
  ⟨rfl, rfl, rfl, rfl, rfl, rfl, rfl, rfl⟩

theorem Target.SameBut.step {t0 t t1 : Target} (h : t0.SameBut t) (h1 : t.SameBut t1) :
    t0.SameBut t1 :=
  ⟨h1.1.trans h.1, h1.2.1.trans h.2.1, h1.2.2.1.trans h.2.2.1, h1.2.2.2.1.trans h.2.2.2.1,
    h1.2.2.2.2.1.trans h.2.2.2.2.1, h1.2.2.2.2.2.1.trans h.2.2.2.2.2.1,
    h1.2.2.2.2.2.2.1.trans h.2.2.2.2.2.2.1, h1.2.2.2.2.2.2.2.trans h.2.2.2.2.2.2.2⟩

theorem writeObjectLocally_frame (env : Env) (t : Target) :
    t.SameBut (writeObjectLocally env t).2 := by
  unfold writeObjectLocally
  split
  · exact Target.SameBut.refl t
  · split
    · split
      · exact Target.SameBut.refl t
      · exact ⟨rfl, rfl, rfl, rfl, rfl, rfl, rfl, rfl⟩
    · exact Target.SameBut.refl t

theorem sendObject_frame (env : Env) (t : Target) (node : PutSvc.NodeDesc) :
    t.SameBut (sendObject env t node).2 := by
  unfold sendObject
  split
  · have h := writeObjectLocally_frame env t
    split
    · next err t1 heq =>
      rw [heq] at h
      exact h
    · next t1 heq =>
      rw [heq] at h
      exact h
  · split
    · exact Target.SameBut.refl t
    · split
      · exact Target.SameBut.refl t
      · split
        · split
          · exact Target.SameBut.refl t
          · split
            · exact ⟨rfl, rfl, rfl, rfl, rfl, rfl, rfl, rfl⟩
            · exact Target.SameBut.refl t
        · exact Target.SameBut.refl t

theorem store_frame (env : Env) (t : Target) : t.SameBut (store env t).2 := by
  unfold store
  split
  · have h := writeObjectLocally_frame env t
    split
    · next err t1 heq =>
      rw [heq] at h
      exact h
    · next t1 heq =>
      rw [heq] at h
      exact h
  · have hw := PutSvc.iterate_world (iteratorEnv env) (fun w => t.SameBut w)
      (fun w d hw => hw.step (sendObject_frame env w d)) (fun w hw => hw) t.placementIterator t
      (Target.SameBut.refl t)
    dsimp only
    split <;> exact hw

theorem prepare_frame (env : Env) (t t1 : Target) (h : prepare env t = some (.ok t1)) :
    t1.localNodeInContainer = t.localNodeInContainer ∧
    t1.metainfoConsistencyAttr = t.metainfoConsistencyAttr ∧ t1.obj.id = t.obj.id ∧
    t1.collectedSignatures = t.collectedSignatures := by
  unfold prepare at h
  split at h
  · cases h
  · dsimp only at h
    split at h
    · cases h
    · next t2 hval =>
      have h2 : t2.localNodeInContainer = t.localNodeInContainer ∧
          t2.metainfoConsistencyAttr = t.metainfoConsistencyAttr ∧ t2.obj.id = t.obj.id ∧
          t2.collectedSignatures = t.collectedSignatures := by
        split at hval
        · split at hval
          · cases hval
          · cases hval
            exact ⟨rfl, rfl, rfl, rfl⟩
        · cases hval
          exact ⟨rfl, rfl, rfl, rfl⟩
      split at h
      · cases h
        exact h2
      · cases h
        exact h2

end PutTarget

namespace PutSvc

/-- C1, refuted as stated: with the node list `[1, 2, 1]` (key `1` twice) and
two replicas required, `f` succeeding on node `1` and failing on node `2`,
`iterateNodesForObject` returns nil although only one distinct node of the list
took the object: the second occurrence of key `1` is counted again. -/
theorem iterate_nil_duplicate_key :
    (iterateNodesForObject (envOf 0 [(2, 0)] none) (iterOf [[1, 2, 1]] [2] false) ()).outcome
      = .returned none ∧
    storedOn (iterateNodesForObject (envOf 0 [(2, 0)] none) (iterOf [[1, 2, 1]] [2] false)
      ()).st.calls [nodeOf 1, nodeOf 2, nodeOf 1] < 2 := by
  decide

/-- C1, amended: in non-linear mode (one replica number per node list, each a
`uint`), when no public key occurs twice inside one node list, a nil result of
`iterateNodesForObject` implies that for every list `i` at least `replCounts[i]`
distinct nodes of the list are nodes on which `f` was invoked and returned nil. -/
theorem iterate_nil_meets_counts {σ : Type} (env : Env σ) (x : PlacementIterator) (w : σ)
    (L : List (List NetmapNodeInfo)) (hsort : x.sortForObject = .ok L)
    (hlin : x.linearReplNum = 0) (hlen : x.primaryCounts.length = L.length)
    (huint : ∀ c ∈ x.primaryCounts, c < uintSize)
    (hnodup : ∀ nodes ∈ L, (nodes.map (fun n => n.publicKey)).Nodup)
    (hnil : (iterateNodesForObject env x w).outcome = .returned none)
    (i : Nat) (hi : i < L.length) :
    x.primaryCounts.getD i 0 ≤
      storedOn (iterateNodesForObject env x w).st.calls (L.getD i []) := by
  have heff : effectiveLists x L = (L, x.primaryCounts) := by
    unfold effectiveLists
    simp [hlin]
  have h := (iterate_inv env x w L hsort).2 hnil i
  rw [heff] at h
  have hi2 : i < x.primaryCounts.length := by rw [hlen]; exact hi
  have hget : x.primaryCounts[i]? = some (x.primaryCounts.getD i 0) := by
    rw [List.getD_eq_getElem?_getD, List.getElem?_eq_getElem hi2]
    rfl
  have hmem : L.getD i [] ∈ L := by
    rw [List.getD_eq_getElem?_getD, List.getElem?_eq_getElem hi]
    exact List.getElem_mem _
  have hR : x.primaryCounts.getD i 0 ∈ x.primaryCounts := by
    rw [List.getD_eq_getElem?_getD, List.getElem?_eq_getElem hi2]
    exact List.getElem_mem _
  rw [storedOn_eq_countP _ _ (hnodup _ hmem)]
  exact h hi _ hget (huint _ hR)

/-- C1, amended, at a concrete input: replica numbers `[2, 1]`, lists `[1, 2, 3]`
and `[4]`, node `1` fails. -/
theorem iterate_nil_meets_counts_witness :
    [2, 1].getD 0 0 ≤
      storedOn (iterateNodesForObject (envOf 0 [(1, 0)] none)
        (iterOf [[1, 2, 3], [4]] [2, 1] false) ()).st.calls
        ([[nodeOf 1, nodeOf 2, nodeOf 3], [nodeOf 4]].getD 0 []) :=
  iterate_nil_meets_counts (envOf 0 [(1, 0)] none) (iterOf [[1, 2, 3], [4]] [2, 1] false) ()
    [[nodeOf 1, nodeOf 2, nodeOf 3], [nodeOf 4]] rfl rfl rfl (by decide) (by decide)
    (by decide) 0 (by decide)

/-- C2, the code at a failing input: one replica required, list `[1, 2, 3]`,
node `2` is the local node, every assumption of the claim holds and `f` succeeds
on node `3`, so the claim promises nil.  `f` fails on the remote node `1` and on
the local node `2` with errors of two different concrete types: the second
`lastRespErr.Store` panics in the goroutine of the local node and the call does
not return. -/
theorem iterate_panics_on_mixed_error_types :
    (iterateNodesForObject (envOf 2 [(1, 1)] (some 0)) (iterOf [[1, 2, 3]] [1] false)
      ()).outcome = .panicked ∧
    ((envOf 2 [(1, 1)] (some 0)).f () (newNodeResult (envOf 2 [(1, 1)] (some 0))
      (nodeOf 3)).desc).1 = none := by
  decide

/-- C3: at the start of a wave of list `i` in state `st`, when the list still
needs `r = replCounts[i] - stored > 0` replicas and has `left = len - processed
< r` nodes left (the unsigned operations of the source; they are the natural
differences whenever `stored ≤ replCounts[i]` and `processed ≤ len`, see
`usub_eq_sub`), the wave loop returns `errIncompletePut` whose `singleErr` is
`errNotEnoughNodes{i, r, left}`, wrapped together with the last node error when
one was recorded, and the whole call returns that error in the unchanged state
`st`: `f` is invoked on no further node and the broadcast phase does not run. -/
theorem wave_not_enough_nodes {σ : Type} (env : Env σ) (replCounts : List Nat) (i : Nat)
    (nodes : List NetmapNodeInfo) (rest lists : List (List NetmapNodeInfo)) (broadcast : Bool)
    (fuel : Nat) (st : IterState σ) (R : Nat) (hR : replCounts[i]? = some R)
    (hneed : usub R (counterAt st.nodesCounters i).stored ≠ 0)
    (hleft : usub nodes.length (counterAt st.nodesCounters i).processed <
      usub R (counterAt st.nodesCounters i).stored) :
    waves env replCounts i nodes (fuel + 1) st =
      ⟨.ret (.errIncompletePut
        (match st.lastRespErr with
         | some e => .lastNodeError (.errNotEnoughNodes i
            (usub R (counterAt st.nodesCounters i).stored)
            (usub nodes.length (counterAt st.nodesCounters i).processed)) e
         | none => .errNotEnoughNodes i (usub R (counterAt st.nodesCounters i).stored)
            (usub nodes.length (counterAt st.nodesCounters i).processed))), st⟩ ∧
    finish env broadcast lists (mainLoop env replCounts (nodes :: rest) i st) =
      ⟨.returned (some (.errIncompletePut
        (match st.lastRespErr with
         | some e => .lastNodeError (.errNotEnoughNodes i
            (usub R (counterAt st.nodesCounters i).stored)
            (usub nodes.length (counterAt st.nodesCounters i).processed)) e
         | none => .errNotEnoughNodes i (usub R (counterAt st.nodesCounters i).stored)
            (usub nodes.length (counterAt st.nodesCounters i).processed)))), st⟩ := by
  have hw : ∀ fuel1, waves env replCounts i nodes (fuel1 + 1) st =
      ⟨.ret (.errIncompletePut
        (match st.lastRespErr with
         | some e => .lastNodeError (.errNotEnoughNodes i
            (usub R (counterAt st.nodesCounters i).stored)
            (usub nodes.length (counterAt st.nodesCounters i).processed)) e
         | none => .errNotEnoughNodes i (usub R (counterAt st.nodesCounters i).stored)
            (usub nodes.length (counterAt st.nodesCounters i).processed))), st⟩ := by
    intro fuel1
    unfold waves
    simp only [hR, hneed, hleft, if_true, if_false]
    cases st.lastRespErr <;> rfl
  refine ⟨hw fuel, ?_⟩
  unfold mainLoop
  simp only [hw nodes.length]
  rfl

/-- C3 at a concrete input: two replicas required from the one-node list `[1]`,
nothing stored or processed yet. -/
theorem wave_not_enough_nodes_witness :
    waves (envOf 0 [] none) [2] 0 [nodeOf 1] (0 + 1) (initState () [[nodeOf 1]]) =
      ⟨.ret (.errIncompletePut (.errNotEnoughNodes 0 2 1)), initState () [[nodeOf 1]]⟩ ∧
    finish (envOf 0 [] none) true [[nodeOf 1]]
      (mainLoop (envOf 0 [] none) [2] ([nodeOf 1] :: []) 0 (initState () [[nodeOf 1]])) =
      ⟨.returned (some (.errIncompletePut (.errNotEnoughNodes 0 2 1))),
        initState () [[nodeOf 1]]⟩ :=
  wave_not_enough_nodes (envOf 0 [] none) [2] 0 [nodeOf 1] [] [[nodeOf 1]] true 0
    (initState () [[nodeOf 1]]) 2 rfl (by decide) (by decide)

/-- C4: during a call of `iterateNodesForObject` (main phase and broadcast
phase together, linear mode or not) `f` is invoked at most once per public key:
the keys in the log of invocations are pairwise different.  A node whose key is
already recorded when the selection loop reaches it is not sent to again: the
loop goes on with the same log and the same outside world, the list's `stored`
counter incremented exactly when the recorded result says succeeded; the
broadcast loop skips a recorded node. -/
theorem send_at_most_once {σ : Type} (env : Env σ) (x : PlacementIterator) (w : σ) :
    ((iterateNodesForObject env x w).st.calls.map Prod.fst).Nodup ∧
    (∀ (i : Nat) (nodes : List NetmapNodeInfo) (fuel : Nat) (st : IterState σ)
      (replRem : Nat) (next : List PubKey) (node : NetmapNodeInfo) (nr : NodeResult),
      (counterAt st.nodesCounters i).processed < nodes.length → next.length < replRem →
      nodes[(counterAt st.nodesCounters i).processed]? = some node →
      st.nodeResults.lookup node.publicKey = some nr →
      selectNodes env i nodes (fuel + 1) st replRem next =
        selectNodes env i nodes fuel
          { st with nodesCounters :=
              incProcessed (if nr.succeeded then incStored st.nodesCounters i
                            else st.nodesCounters) i }
          (if nr.succeeded then usub replRem 1 else replRem) next) ∧
    (∀ (node : NetmapNodeInfo) (rest : List NetmapNodeInfo) (st : IterState σ)
      (nr : NodeResult), st.nodeResults.lookup node.publicKey = some nr →
      broadcastList env (node :: rest) st = broadcastList env rest st) := by
  refine ⟨?_, ?_, ?_⟩
  · cases hsort : x.sortForObject with
    | error err =>
      unfold iterateNodesForObject
      rw [hsort]
      exact List.nodup_nil
    | ok L => exact (iterate_inv env x w L hsort).1.calls_nodup
  · intro i nodes fuel st replRem next node nr hp hn hnode hrec
    rw [selectNodes]
    simp only [hp, hn, and_self, if_true]
    rw [hnode]
    simp only []
    rw [hrec]
    simp only []
    cases hs : nr.succeeded
    · simp
    · simp
  · intro node rest st nr hrec
    rw [broadcastList]
    simp only [hrec]

/-- C5, the code at a failing input: one replica required, list `[1, 2, 3]`,
node `3` is the local node.  In the main phase `f` fails on node `1` and succeeds
on node `2`.  Without broadcast the call returns nil.  With broadcast the local
node `3` is sent to in the broadcast phase, `f` fails there with an error of
another concrete type than the one of node `1`, `lastRespErr.Store` panics in
the goroutine of the local node and the call does not return. -/
theorem broadcast_failure_panics :
    (iterateNodesForObject (envOf 3 [(1, 1)] (some 0)) (iterOf [[1, 2, 3]] [1] false)
      ()).outcome = .returned none ∧
    (iterateNodesForObject (envOf 3 [(1, 1)] (some 0)) (iterOf [[1, 2, 3]] [1] true)
      ()).outcome = .panicked := by
  decide

end PutSvc

namespace Engine

theorem put_shardPut_absent (e : StorageEngine) (addr : Address) (ticks : Nat) (id : ShardID)
    (h : Event.shardPut id ∈ (e.Put addr ticks).trace) :
    ∃ sh ∈ e.sortedShards addr, sh.id = id ∧ sh.existsRes addr = .found false := by
  unfold StorageEngine.Put at h
  split at h
  · simp at h
  · dsimp only at h
    have hex := existsLoop_no_shardPut addr id (e.sortedShards addr)
    unfold StorageEngine.exists at h
    split at h
    · exact absurd h hex
    · split at h
      · rcases List.mem_append.1 h with h | h
        · exact absurd h hex
        · exact putLoop_shardPut addr id _ _ _ h
      · split at h
        · rcases List.mem_append.1 h with h | h
          · exact absurd h hex
          · exact putLoop_shardPut addr id _ _ _ h
        · next bestShard bestPool hbest =>
          rcases List.mem_append.1 h with h | h
          · rcases List.mem_append.1 h with h | h
            · exact absurd h hex
            · exact putLoop_shardPut addr id _ _ _ h
          · have hd := deadline_shardPut bestShard 0 bestPool addr id ticks 1 h
            rcases putLoop_best addr (e.sortedShards addr) 0 none _ hbest with hb | hb
            · cases hb
            · exact ⟨bestShard, hb, hd⟩

/-- C6, refuted as stated: the engine is not blocked, the address exists on the
second shard of the preference order and not on the first one, whose `Put`
succeeds.  `Put` returns nil after having invoked `Put` on the first shard: a
second copy of the object is written. -/
theorem put_duplicates_on_preferred_shard :
    (engineOf [shardOf 0 (.found false) none, shardOf 1 (.found true) none]).Put 7 0 =
      ⟨.returned none,
        [.shardExists 0, .shardExists 1, .poolSubmit 0, .shardExists 0, .shardPut 0]⟩ := by
  decide

/-- C6, amended: `StorageEngine.Put` invokes `Put` only on shards whose own
existence check reports the address as absent, never on a shard that holds the
object; and when the engine is not blocked and the first shard of the
preference order holds the address, its pool being registered and accepting the
job, `Put` returns nil and invokes `Put` on no shard. -/
theorem put_existing_on_preferred_shard (e : StorageEngine) (addr : Address) (ticks : Nat)
    (s : Shard) (rest : List Shard) (pool : Nat → Option PoolError) :
    (∀ id, Event.shardPut id ∈ (e.Put addr ticks).trace →
      ∃ sh ∈ e.sortedShards addr, sh.id = id ∧ sh.existsRes addr = .found false) ∧
    (e.blockErr = none → e.sortedShards addr = s :: rest → s.existsRes addr = .found true →
      s.pool = some pool → pool 0 = none →
      e.Put addr ticks =
        ⟨.returned none, [.shardExists s.id, .poolSubmit s.id, .shardExists s.id]⟩) := by
  refine ⟨fun id h => put_shardPut_absent e addr ticks id h, ?_⟩
  intro hblock hsh hex hpool hacc
  unfold StorageEngine.Put StorageEngine.exists
  rw [hblock, hsh]
  simp [existsLoop, putLoop, putToShard, hex, hpool, hacc]

/-- C6, amended, at a concrete input: the object is on the first of two
shards. -/
theorem put_existing_on_preferred_shard_witness :
    (engineOf [shardOf 0 (.found true) none, shardOf 1 (.found false) none]).Put 7 0 =
      ⟨.returned none, [.shardExists 0, .poolSubmit 0, .shardExists 0]⟩ :=
  (put_existing_on_preferred_shard
    (engineOf [shardOf 0 (.found true) none, shardOf 1 (.found false) none]) 7 0
    (shardOf 0 (.found true) none) [shardOf 1 (.found false) none] (fun _ => none)).2
    rfl rfl rfl rfl rfl

/-- C7: `exists` scans the shards in preference order; when the shards before
`s` report not-found or non-existence, a shard `s` that reports existence
gives `(true, nil)` and a shard `s` that reports removal gives
`(false, ObjectAlreadyRemoved)`, whatever the later shards hold, and exactly
the shards up to `s` are consulted; when no shard reports existence or removal
the result is `(false, nil)`. -/
theorem exists_decided_by_first_report (e : StorageEngine) (addr : Address)
    (pre post : List Shard) (s : Shard) (hsh : e.sortedShards addr = pre ++ s :: post)
    (hpre : ∀ p ∈ pre, p.misses addr = true) :
    (s.existsRes addr = .found true →
      e.exists addr = ⟨true, none, (pre ++ [s]).map (fun sh => Event.shardExists sh.id)⟩) ∧
    (∀ err, s.existsRes addr = .failed err → err.isRemoved = true →
      e.exists addr = ⟨false, some .objectAlreadyRemoved,
        (pre ++ [s]).map (fun sh => Event.shardExists sh.id)⟩) ∧
    ((∀ sh ∈ e.sortedShards addr, sh.existsRes addr ≠ .found true ∧
        ∀ err, sh.existsRes addr = .failed err → err.isRemoved = false) →
      (e.exists addr).res = false ∧ (e.exists addr).err = none) := by
  refine ⟨?_, ?_, ?_⟩
  · intro hex
    unfold StorageEngine.exists
    rw [hsh, existsLoop_append_misses addr _ pre hpre, existsLoop]
    simp [hex]
  · intro err hex hrem
    unfold StorageEngine.exists
    rw [hsh, existsLoop_append_misses addr _ pre hpre, existsLoop]
    simp [hex, hrem]
  · intro h
    exact existsLoop_neither addr _ h

/-- C7 at a concrete input: not-found, removed, then a shard holding the
object. -/
theorem exists_decided_by_first_report_witness :
    (engineOf [shardOf 0 (.failed ⟨false, false, false, true, 0⟩) none,
      shardOf 1 (.failed ⟨true, false, false, false, 0⟩) none,
      shardOf 2 (.found true) none]).exists 7 =
      ⟨false, some .objectAlreadyRemoved, [.shardExists 0, .shardExists 1]⟩ :=
  (exists_decided_by_first_report
    (engineOf [shardOf 0 (.failed ⟨false, false, false, true, 0⟩) none,
      shardOf 1 (.failed ⟨true, false, false, false, 0⟩) none,
      shardOf 2 (.found true) none]) 7
    [shardOf 0 (.failed ⟨false, false, false, true, 0⟩) none]
    [shardOf 2 (.found true) none]
    (shardOf 1 (.failed ⟨true, false, false, false, 0⟩) none) rfl (by
      intro p hp
      rw [List.mem_singleton.1 hp]
      rfl)).2.1 ⟨true, false, false, false, 0⟩ rfl rfl

/-- C8, refuted as stated: the first shard fails with an expired-object error,
the second one holds the object; `exists` returns `(false, nil)` without
consulting the second shard.  The same happens for a split-info error. -/
theorem exists_expired_hides_later_shard :
    (engineOf [shardOf 0 (.failed ⟨false, false, true, false, 0⟩) none,
      shardOf 1 (.found true) none]).exists 7 = ⟨false, none, [.shardExists 0]⟩ ∧
    (engineOf [shardOf 0 (.failed ⟨false, true, false, false, 0⟩) none,
      shardOf 1 (.found true) none]).exists 7 = ⟨false, none, [.shardExists 0]⟩ := by
  decide

/-- C8, amended: in `exists`, a shard whose existence check fails with an
expired-object error or a split-info error (and not a removed error) ends the
scan: when the shards before it let the scan go on, `exists` returns
`(false, nil)` and the shards after it are not consulted, the run is the one
on the shard list cut after that shard. -/
theorem exists_stops_at_expired_or_split (e : StorageEngine) (addr : Address)
    (pre post : List Shard) (s : Shard) (err : ShardError)
    (hsh : e.sortedShards addr = pre ++ s :: post)
    (hpre : ∀ p ∈ pre, p.passes addr = true)
    (hs : s.existsRes addr = .failed err) (hrem : err.isRemoved = false)
    (hes : err.isSplitInfo = true ∨ err.isExpired = true) :
    (e.exists addr).res = false ∧ (e.exists addr).err = none ∧
    e.exists addr = existsLoop addr (pre ++ [s]) := by
  have hnp : s.passes addr = false := by
    unfold Shard.passes
    rw [hs]
    rcases hes with h | h
    · simp [hrem, h]
    · simp [hrem, h]
  have hone : (existsLoop addr [s]).res = false ∧ (existsLoop addr [s]).err = none := by
    rw [existsLoop, hs]
    rcases hes with h | h
    · simp [hrem, h]
    · cases h2 : err.isSplitInfo <;> simp [hrem, h, h2]
  have hcut := existsLoop_cut addr s post hnp pre
  have hp := existsLoop_append_passes addr [s] pre hpre
  unfold StorageEngine.exists
  rw [hsh, hcut]
  exact ⟨hp.1.trans hone.1, hp.2.1.trans hone.2, rfl⟩

/-- C8, amended, at a concrete input: not-found, expired, then a shard holding
the object. -/
theorem exists_stops_at_expired_or_split_witness :
    ((engineOf [shardOf 0 (.failed ⟨false, false, false, true, 0⟩) none,
      shardOf 1 (.failed ⟨false, false, true, false, 0⟩) none,
      shardOf 2 (.found true) none]).exists 7).res = false :=
  (exists_stops_at_expired_or_split
    (engineOf [shardOf 0 (.failed ⟨false, false, false, true, 0⟩) none,
      shardOf 1 (.failed ⟨false, false, true, false, 0⟩) none,
      shardOf 2 (.found true) none]) 7
    [shardOf 0 (.failed ⟨false, false, false, true, 0⟩) none]
    [shardOf 2 (.found true) none]
    (shardOf 1 (.failed ⟨false, false, true, false, 0⟩) none)
    ⟨false, false, true, false, 0⟩ rfl (by
      intro p hp
      rw [List.mem_singleton.1 hp]
      rfl) rfl rfl (Or.inr rfl)).1

/-- C9, refuted as stated: the first shard fails with an error that is none of
not-found, expired, split-info and removed, the second one holds the object;
`exists` reports the shard error, consults the second shard and returns
`(true, nil)`, not the error. -/
theorem exists_swallows_io_error :
    (engineOf [shardOf 0 (.failed ⟨false, false, false, false, 5⟩) none,
      shardOf 1 (.found true) none]).exists 7 =
      ⟨true, none, [.shardExists 0, .reportShardError 0, .shardExists 1]⟩ := by
  decide

/-- C9, amended: in `exists`, when a shard's existence check fails with an
error that is none of not-found, expired, split-info and removed, the error is
handed to `reportShardError` and the scan continues with the next shard: when
the shards before it let the scan go on, the result of `exists` is the result
of the scan of the shards after it.  `exists` returns no error but
`ObjectAlreadyRemoved`. -/
theorem exists_continues_after_other_error (e : StorageEngine) (addr : Address)
    (pre post : List Shard) (s : Shard) (err : ShardError)
    (hsh : e.sortedShards addr = pre ++ s :: post)
    (hpre : ∀ p ∈ pre, p.passes addr = true)
    (hs : s.existsRes addr = .failed err) (hother : err.isOther = true) :
    (e.exists addr).res = (existsLoop addr post).res ∧
    (e.exists addr).err = (existsLoop addr post).err ∧
    Event.reportShardError s.id ∈ (e.exists addr).trace ∧
    ((e.exists addr).err = none ∨ (e.exists addr).err = some .objectAlreadyRemoved) := by
  unfold ShardError.isOther at hother
  simp only [Bool.and_eq_true, Bool.not_eq_true'] at hother
  obtain ⟨⟨⟨h1, h2⟩, h3⟩, h4⟩ := hother
  have hstep : existsLoop addr (s :: post) =
      { existsLoop addr post with
        trace := .shardExists s.id :: .reportShardError s.id :: (existsLoop addr post).trace } := by
    rw [existsLoop, hs]
    simp [h1, h2, h3, h4]
  obtain ⟨hp1, hp2, evs, hp3⟩ := existsLoop_append_passes addr (s :: post) pre hpre
  unfold StorageEngine.exists
  rw [hsh]
  refine ⟨?_, ?_, ?_, existsLoop_err addr _⟩
  · rw [hp1, hstep]
  · rw [hp2, hstep]
  · rw [hp3, hstep]
    simp

/-- C9, amended, at a concrete input: an I/O error on the first shard, the
object on the second. -/
theorem exists_continues_after_other_error_witness :
    ((engineOf [shardOf 0 (.failed ⟨false, false, false, false, 5⟩) none,
      shardOf 1 (.found true) none]).exists 7).res =
      (existsLoop 7 [shardOf 1 (.found true) none]).res :=
  (exists_continues_after_other_error
    (engineOf [shardOf 0 (.failed ⟨false, false, false, false, 5⟩) none,
      shardOf 1 (.found true) none]) 7 [] [shardOf 1 (.found true) none]
    (shardOf 0 (.failed ⟨false, false, false, false, 5⟩) none)
    ⟨false, false, false, false, 5⟩ rfl (by
      intro p hp
      cases hp) rfl rfl).1

end Engine

namespace Meta

/-- C10: `Lock` is idempotent.  With a list codec whose `decodeList` inverts
`encodeList`, whenever `Lock(cnr, locker, locked)` succeeds on a DB (which is
then writable, with `locked` non-empty), a second call with the same arguments
on the resulting DB returns nil and leaves the DB, in particular every stored
list of lockers, exactly as the first call left it. -/
theorem lock_idempotent (c : Codec) (hc : c.RoundTrip) (db : DB) (cnr : CID) (locker : OID)
    (locked : List OID) (h : (DB.Lock c db cnr locker locked).1 = .returned none) :
    DB.Lock c (DB.Lock c db cnr locker locked).2 cnr locker locked =
      (.returned none, (DB.Lock c db cnr locker locked).2) := by
  obtain ⟨h1, h2, h3, h4, root, bkt, h5, h6, h7⟩ := lock_success c db cnr locker locked h
  have hfix := lockLoop_fixed c locker locked bkt (lockLoop_locks c hc locker locked _ bkt h6).1
  rw [h7]
  unfold DB.Lock
  simp only [h1, h2, h3, h4, Bool.false_eq_true, if_false, Bucket.get_put_self, Option.getD_some,
    hfix, Bucket.put_put]

/-- C10 at a concrete input: locking the objects `1` and `2` of container `0`
by the locker `9` on an empty DB, twice. -/
theorem lock_idempotent_witness :
    DB.Lock plainCodec (DB.Lock plainCodec emptyDB 0 9 [1, 2]).2 0 9 [1, 2] =
      (.returned none, (DB.Lock plainCodec emptyDB 0 9 [1, 2]).2) :=
  lock_idempotent plainCodec (fun _ _ h => by cases h; rfl) emptyDB 0 9 [1, 2] (by decide)

end Meta

namespace ShardPkg

/-! ## Claims on `Shard.Get` and `Shard.fetchObjectData` -/

/-- C17: with `skipMeta = false` on a shard that is not in degraded mode, an
error of the metabase existence check is what `Get` returns, without the
`ErrMetaWithNoObject` mark, with no object, and the only storage consulted is
the metabase: neither the write-cache nor the blobstor is read. -/
theorem get_returns_meta_error (s : Shard) (addr : Address) (e : BaseError)
    (hmode : s.noMetabase = false) (hm : (s.metaExists addr).2 = some e) :
    s.Get addr false = ⟨none, some (.ext e), [.metaExists]⟩ ∧
    marked (s.Get addr false).err = false := by
  have hget : s.Get addr false = ⟨none, some (.ext e), [.metaExists]⟩ := by
    unfold Shard.Get
    simp only [hmode, Bool.or_false]
    rw [fetch_meta_error s addr _ _ none e hmode hm]
    simp
  refine ⟨hget, ?_⟩
  rw [hget]
  rfl

theorem get_returns_meta_error_witness :
    (fixedShard (false, some ⟨false, false, 3⟩) (some (.ok 1)) (.ok 1)).noMetabase = false ∧
    ((fixedShard (false, some ⟨false, false, 3⟩) (some (.ok 1)) (.ok 1)).metaExists 7).2 =
      some ⟨false, false, 3⟩ ∧
    ((fixedShard (false, some ⟨false, false, 3⟩) (some (.ok 1)) (.ok 1)).Get 7 false =
      ⟨none, some (.ext ⟨false, false, 3⟩), [.metaExists]⟩ ∧
     marked ((fixedShard (false, some ⟨false, false, 3⟩) (some (.ok 1)) (.ok 1)).Get 7 false).err =
      false) :=
  ⟨rfl, rfl, get_returns_meta_error _ 7 ⟨false, false, 3⟩ rfl rfl⟩

/-- C18, counterexample: the metabase reports that the object exists, the
write-cache fails with an out-of-range error and the blobstor holds the
object. `Get` returns the error of the write-cache marked with
`ErrMetaWithNoObject` although the blobstor was never read. -/
theorem get_marks_write_cache_out_of_range :
    (fixedShard (true, none) (some (.error ⟨true, false, 5⟩)) (.ok 1)).Get 7 false =
      ⟨none, some (.withNoObject (.ext ⟨true, false, 5⟩)), [.metaExists, .writeCacheGet]⟩ ∧
    marked ((fixedShard (true, none) (some (.error ⟨true, false, 5⟩)) (.ok 1)).Get 7 false).err =
      true ∧
    (fixedShard (true, none) (some (.error ⟨true, false, 5⟩)) (.ok 1)).blobStorError 7 = none := by
  decide

/-- C18, amended: the error returned by `Get` is marked with
`ErrMetaWithNoObject` exactly when the metabase lookup was performed (no
`skipMeta`, no degraded mode), reported without error that the object exists,
and the payload reads ended in an error: the out-of-range error of the
write-cache, or the error of the blobstor reached after the write-cache was
absent or failed otherwise. The returned error then wraps that error. -/
theorem get_marked_iff (s : Shard) (addr : Address) (skipMeta : Bool) :
    (marked (s.Get addr skipMeta).err = true ↔
      skipMeta = false ∧ s.noMetabase = false ∧ s.metaExists addr = (true, none) ∧
        (s.payloadError addr).isSome = true) ∧
    (marked (s.Get addr skipMeta).err = true →
      (s.Get addr skipMeta).err =
        (s.payloadError addr).map (fun e => .withNoObject (.ext e))) ∧
    ((skipMeta || s.noMetabase) = true → marked (s.Get addr skipMeta).err = false) := by
  have hskip := get_skip s addr skipMeta
  refine ⟨?_, ?_, hskip⟩
  · cases hsk : (skipMeta || s.noMetabase)
    · have h1 : skipMeta = false := by cases skipMeta <;> simp_all
      have h2 : s.noMetabase = false := by cases h : s.noMetabase <;> simp_all
      subst h1
      rcases hm : s.metaExists addr with ⟨ex, mErr⟩
      cases mErr with
      | some e =>
        have hm2 : (s.metaExists addr).2 = some e := by rw [hm]
        rw [get_meta_error_unmarked s addr e h2 hm2]
        simp
      | none =>
        have hw := get_with_meta s addr ex h2 hm
        cases ex
        · rw [hw.2 rfl]
          simp
        · rw [hw.1 rfl]
          cases hp : s.payloadError addr <;>
            simp [h2, marked, GetError.wrapsMetaWithNoObject]
    · rw [hskip hsk]
      constructor
      · intro h
        cases h
      · rintro ⟨h1, h2, -, -⟩
        rw [h1, h2] at hsk
        cases hsk
  · intro hmark
    cases hsk : (skipMeta || s.noMetabase)
    · have h1 : skipMeta = false := by cases skipMeta <;> simp_all
      have h2 : s.noMetabase = false := by cases h : s.noMetabase <;> simp_all
      subst h1
      rcases hm : s.metaExists addr with ⟨ex, mErr⟩
      cases mErr with
      | some e =>
        have hm2 : (s.metaExists addr).2 = some e := by rw [hm]
        rw [get_meta_error_unmarked s addr e h2 hm2] at hmark
        cases hmark
      | none =>
        have hw := get_with_meta s addr ex h2 hm
        cases ex
        · rw [hw.2 rfl] at hmark
          cases hmark
        · exact hw.1 rfl
    · rw [hskip hsk] at hmark
      cases hmark

theorem get_marked_iff_witness :
    marked ((fixedShard (true, none) none (.error ⟨false, true, 9⟩)).Get 7 false).err = true ∧
    ((fixedShard (true, none) none (.error ⟨false, true, 9⟩)).Get 7 false).err =
      some (.withNoObject (.ext ⟨false, true, 9⟩)) :=
  have h := get_marked_iff (fixedShard (true, none) none (.error ⟨false, true, 9⟩)) 7 false
  ⟨h.1.2 ⟨rfl, rfl, rfl, rfl⟩, h.2.1 (h.1.2 ⟨rfl, rfl, rfl, rfl⟩)⟩

/-- C19, counterexample: the metabase reports without error that the object
does not exist, but the write-cache holds it. `Get` reads the write-cache
before it looks at the answer of the metabase and returns the object with a
nil error instead of `ObjectNotFound`. -/
theorem get_reads_write_cache_without_meta :
    (fixedShard (false, none) (some (.ok 42)) (.ok 42)).noMetabase = false ∧
    (fixedShard (false, none) (some (.ok 42)) (.ok 42)).metaExists 7 = (false, none) ∧
    (fixedShard (false, none) (some (.ok 42)) (.ok 42)).Get 7 false =
      ⟨some 42, none, [.metaExists, .writeCacheGet]⟩ := by
  decide

/-- C19, amended: with `skipMeta = false` on a non-degraded shard whose
metabase reports without error that the object does not exist, the blobstor
is never read, and `Get` returns `ObjectNotFound` and no object when the shard
has no write-cache or the write-cache fails with an error other than
out-of-range; an object held by the write-cache is returned, and an
out-of-range error of the write-cache is returned unmarked. -/
theorem get_missing_in_meta (s : Shard) (addr : Address)
    (hmode : s.noMetabase = false) (hm : s.metaExists addr = (false, none)) :
    s.Get addr false =
      (match s.writeCache with
       | none => ⟨none, some .objectNotFound, [.metaExists]⟩
       | some cache =>
         match cache addr with
         | .ok obj => ⟨some obj, none, [.metaExists, .writeCacheGet]⟩
         | .error e =>
           if e.isOutOfRange then ⟨none, some (.ext e), [.metaExists, .writeCacheGet]⟩
           else ⟨none, some .objectNotFound, [.metaExists, .writeCacheGet]⟩) ∧
    Event.blobStorGet ∉ (s.Get addr false).trace := by
  have hget : s.Get addr false =
      (match s.writeCache with
       | none => ⟨none, some .objectNotFound, [.metaExists]⟩
       | some cache =>
         match cache addr with
         | .ok obj => ⟨some obj, none, [.metaExists, .writeCacheGet]⟩
         | .error e =>
           if e.isOutOfRange then ⟨none, some (.ext e), [.metaExists, .writeCacheGet]⟩
           else ⟨none, some .objectNotFound, [.metaExists, .writeCacheGet]⟩) := by
    unfold Shard.Get Shard.fetchObjectData
    simp only [hmode, hm, Bool.or_false]
    cases hwc : s.writeCache with
    | none => simp
    | some cache =>
      cases hc : cache addr with
      | ok obj => simp [getCallback, hc]
      | error e => cases ho : e.isOutOfRange <;> simp [getCallback, hc, ho]
  refine ⟨hget, ?_⟩
  rw [hget]
  cases hwc : s.writeCache with
  | none => simp
  | some cache =>
    cases hc : cache addr with
    | ok obj => simp [hc]
    | error e => cases ho : e.isOutOfRange <;> simp [hc, ho]

theorem get_missing_in_meta_witness :
    (fixedShard (false, none) (some (.error ⟨false, true, 2⟩)) (.ok 42)).noMetabase = false ∧
    (fixedShard (false, none) (some (.error ⟨false, true, 2⟩)) (.ok 42)).metaExists 7 =
      (false, none) ∧
    (fixedShard (false, none) (some (.error ⟨false, true, 2⟩)) (.ok 42)).Get 7 false =
      ⟨none, some .objectNotFound, [.metaExists, .writeCacheGet]⟩ ∧
    Event.blobStorGet ∉
      ((fixedShard (false, none) (some (.error ⟨false, true, 2⟩)) (.ok 42)).Get 7 false).trace :=
  ⟨rfl, rfl,
    get_missing_in_meta (fixedShard (false, none) (some (.error ⟨false, true, 2⟩)) (.ok 42)) 7
      rfl rfl⟩

/-- C20: in `fetchObjectData` on a shard with a write-cache, once the metabase
step has not returned early: a nil or out-of-range result of the write-cache
callback is what is returned, together with the metabase answer, and the
blobstor is not read.  Any other error of the write-cache, not-found included,
is dropped after the read of the write-cache and the lookup goes on to the
blobstor, subject to the metabase answer: with `skipMeta` set or a metabase
error (in a mode without metabase) the blobstor callback runs on the state the
write-cache callback left and its error is returned with `false`; with a
metabase answer "does not exist" the result is `ObjectNotFound` with `false`
and the blobstor is not read; with a metabase answer "exists" the blobstor
callback runs and its error is returned with `true`.  In all three the outcome
is the one of the same lookup on the shard without write-cache. -/
theorem fetch_write_cache_fallthrough {ρ : Type} (s : Shard) (addr : Address) (skipMeta : Bool)
    (storageFunc wc : (Address → Except BaseError Object) → ρ → Option BaseError × ρ) (r : ρ)
    (cache : Address → Except BaseError Object) (hwc : s.writeCache = some cache)
    (hreach : skipMeta = true ∨ (s.metaExists addr).2 = none ∨ s.noMetabase = true) :
    (((wc cache r).1 = none ∨ ∃ e, (wc cache r).1 = some e ∧ e.isOutOfRange = true) →
      (s.fetchObjectData addr skipMeta storageFunc wc r).err = (wc cache r).1.map .ext ∧
      (s.fetchObjectData addr skipMeta storageFunc wc r).captured = (wc cache r).2 ∧
      (s.fetchObjectData addr skipMeta storageFunc wc r).gotMeta =
        (!skipMeta && (s.metaExists addr).1) ∧
      Event.blobStorGet ∉ (s.fetchObjectData addr skipMeta storageFunc wc r).trace) ∧
    ((∃ e, (wc cache r).1 = some e ∧ e.isOutOfRange = false) →
      (s.fetchObjectData addr skipMeta storageFunc wc r).err =
        (({ s with writeCache := none } : Shard).fetchObjectData addr skipMeta storageFunc wc
          (wc cache r).2).err ∧
      (s.fetchObjectData addr skipMeta storageFunc wc r).captured =
        (({ s with writeCache := none } : Shard).fetchObjectData addr skipMeta storageFunc wc
          (wc cache r).2).captured ∧
      (s.fetchObjectData addr skipMeta storageFunc wc r).gotMeta =
        (({ s with writeCache := none } : Shard).fetchObjectData addr skipMeta storageFunc wc
          (wc cache r).2).gotMeta ∧
      (s.fetchObjectData addr skipMeta storageFunc wc r).trace.filter (· ≠ .writeCacheGet) =
        (({ s with writeCache := none } : Shard).fetchObjectData addr skipMeta storageFunc wc
          (wc cache r).2).trace ∧
      Event.writeCacheGet ∈ (s.fetchObjectData addr skipMeta storageFunc wc r).trace) ∧
    ((∃ e, (wc cache r).1 = some e ∧ e.isOutOfRange = false) →
      (skipMeta = true →
        (s.fetchObjectData addr skipMeta storageFunc wc r).err =
          (storageFunc s.blobStor (wc cache r).2).1.map .ext ∧
        (s.fetchObjectData addr skipMeta storageFunc wc r).captured =
          (storageFunc s.blobStor (wc cache r).2).2 ∧
        (s.fetchObjectData addr skipMeta storageFunc wc r).gotMeta = false ∧
        (s.fetchObjectData addr skipMeta storageFunc wc r).trace =
          [.writeCacheGet, .blobStorGet]) ∧
      (skipMeta = false → (s.metaExists addr).2.isSome = true →
        (s.fetchObjectData addr skipMeta storageFunc wc r).err =
          (storageFunc s.blobStor (wc cache r).2).1.map .ext ∧
        (s.fetchObjectData addr skipMeta storageFunc wc r).captured =
          (storageFunc s.blobStor (wc cache r).2).2 ∧
        (s.fetchObjectData addr skipMeta storageFunc wc r).gotMeta = false ∧
        (s.fetchObjectData addr skipMeta storageFunc wc r).trace =
          [.metaExists, .writeCacheGet, .blobStorGet]) ∧
      (skipMeta = false → (s.metaExists addr).2 = none → (s.metaExists addr).1 = false →
        (s.fetchObjectData addr skipMeta storageFunc wc r).err = some .objectNotFound ∧
        (s.fetchObjectData addr skipMeta storageFunc wc r).captured = (wc cache r).2 ∧
        (s.fetchObjectData addr skipMeta storageFunc wc r).gotMeta = false ∧
        (s.fetchObjectData addr skipMeta storageFunc wc r).trace =
          [.metaExists, .writeCacheGet]) ∧
      (skipMeta = false → (s.metaExists addr).2 = none → (s.metaExists addr).1 = true →
        (s.fetchObjectData addr skipMeta storageFunc wc r).err =
          (storageFunc s.blobStor (wc cache r).2).1.map .ext ∧
        (s.fetchObjectData addr skipMeta storageFunc wc r).captured =
          (storageFunc s.blobStor (wc cache r).2).2 ∧
        (s.fetchObjectData addr skipMeta storageFunc wc r).gotMeta = true ∧
        (s.fetchObjectData addr skipMeta storageFunc wc r).trace =
          [.metaExists, .writeCacheGet, .blobStorGet])) := by
  have hc : skipMeta = false →
      ¬((s.metaExists addr).2.isSome = true ∧ s.noMetabase = false) := by
    intro hs
    rcases hreach with h0 | h0 | h0
    · rw [hs] at h0
      cases h0
    · simp [h0]
    · simp [h0]
  refine ⟨?_, ?_, ?_⟩
  · intro h
    unfold Shard.fetchObjectData
    simp only [hwc]
    cases skipMeta
    · have hc := hc rfl
      rcases h with h | ⟨e, h, ho⟩
      · simp [h, hc]
      · simp [h, ho, hc]
    · rcases h with h | ⟨e, h, ho⟩
      · simp [h]
      · simp [h, ho]
  · rintro ⟨e, h, ho⟩
    unfold Shard.fetchObjectData
    simp only [hwc]
    cases skipMeta
    · have hc := hc rfl
      cases hmE : (s.metaExists addr).2 <;> cases hmX : (s.metaExists addr).1 <;>
        cases hn : s.noMetabase <;> simp [h, ho, hmE, hmX, hn, List.filter] at hc ⊢
    · simp [h, ho, List.filter]
  · rintro ⟨e, h, ho⟩
    refine ⟨fun hs => ?_, fun hs hm => ?_, fun hs hm hx => ?_, fun hs hm hx => ?_⟩
    · subst hs
      unfold Shard.fetchObjectData
      simp [hwc, h, ho]
    · subst hs
      have hc := hc rfl
      have hn : s.noMetabase = true := by
        cases hn : s.noMetabase
        · exact absurd ⟨hm, hn⟩ hc
        · rfl
      unfold Shard.fetchObjectData
      simp [hwc, h, ho, hm, hn]
    · subst hs
      unfold Shard.fetchObjectData
      simp [hwc, h, ho, hm, hx]
    · subst hs
      unfold Shard.fetchObjectData
      simp [hwc, h, ho, hm, hx]

/-- C20 at concrete inputs: a write-cache that answers not-found in front of a
blobstor holding the object `42`, with a metabase that knows the object and
with one that does not, and a write-cache holding the object `41`. -/
theorem fetch_write_cache_fallthrough_witness :
    ((fixedShard (true, none) (some (.error ⟨false, true, 2⟩)) (.ok 42)).fetchObjectData 7 false
        (getCallback 7) (getCallback 7) none).err = none ∧
    ((fixedShard (true, none) (some (.error ⟨false, true, 2⟩)) (.ok 42)).fetchObjectData 7 false
        (getCallback 7) (getCallback 7) none).captured = some 42 ∧
    ((fixedShard (true, none) (some (.error ⟨false, true, 2⟩)) (.ok 42)).fetchObjectData 7 false
        (getCallback 7) (getCallback 7) none).trace =
      [.metaExists, .writeCacheGet, .blobStorGet] ∧
    ((fixedShard (false, none) (some (.error ⟨false, true, 2⟩)) (.ok 42)).fetchObjectData 7 false
        (getCallback 7) (getCallback 7) none).err = some .objectNotFound ∧
    ((fixedShard (false, none) (some (.error ⟨false, true, 2⟩)) (.ok 42)).fetchObjectData 7 false
        (getCallback 7) (getCallback 7) none).trace = [.metaExists, .writeCacheGet] ∧
    ((fixedShard (true, none) (some (.error ⟨false, false, 3⟩)) (.error ⟨false, true, 4⟩)).fetchObjectData
        7 true (getCallback 7) (getCallback 7) none).err = some (.ext ⟨false, true, 4⟩) ∧
    ((fixedShard (true, none) (some (.ok 41)) (.ok 42)).fetchObjectData 7 false
        (getCallback 7) (getCallback 7) none).captured = some 41 :=
  have h1 := (fetch_write_cache_fallthrough
    (fixedShard (true, none) (some (.error ⟨false, true, 2⟩)) (.ok 42)) 7 false
    (getCallback 7) (getCallback 7) none (fun _ => .error ⟨false, true, 2⟩) rfl
    (Or.inr (Or.inl rfl))).2.2 ⟨⟨false, true, 2⟩, rfl, rfl⟩
  have h2 := fetch_write_cache_fallthrough
    (fixedShard (true, none) (some (.ok 41)) (.ok 42)) 7 false
    (getCallback 7) (getCallback 7) none (fun _ => .ok 41) rfl (Or.inr (Or.inl rfl))
  have h3 := (fetch_write_cache_fallthrough
    (fixedShard (false, none) (some (.error ⟨false, true, 2⟩)) (.ok 42)) 7 false
    (getCallback 7) (getCallback 7) none (fun _ => .error ⟨false, true, 2⟩) rfl
    (Or.inr (Or.inl rfl))).2.2 ⟨⟨false, true, 2⟩, rfl, rfl⟩
  have h4 := (fetch_write_cache_fallthrough
    (fixedShard (true, none) (some (.error ⟨false, false, 3⟩)) (.error ⟨false, true, 4⟩)) 7 true
    (getCallback 7) (getCallback 7) none (fun _ => .error ⟨false, false, 3⟩) rfl
    (Or.inl rfl)).2.2 ⟨⟨false, false, 3⟩, rfl, rfl⟩
  ⟨(h1.2.2.2 rfl rfl rfl).1, (h1.2.2.2 rfl rfl rfl).2.1, (h1.2.2.2 rfl rfl rfl).2.2.2,
    (h3.2.2.1 rfl rfl rfl).1, (h3.2.2.1 rfl rfl rfl).2.2.2, (h4.1 rfl).1,
    (h2.1 (Or.inl rfl)).2.1⟩

end ShardPkg

namespace Meta

/-- C11, counterexample: on a DB in read-only mode `Lock` with an empty
locked list does not panic, it returns `ErrReadOnlyMode`; in degraded mode it
returns `ErrDegradedMode`. -/
theorem lock_empty_list_returns_mode_error :
    (DB.Lock plainCodec { emptyDB with mode := ⟨false, true⟩ } 0 9 []).1 =
      .returned (some .errReadOnlyMode) ∧
    (DB.Lock plainCodec { emptyDB with mode := ⟨true, false⟩ } 0 9 []).1 =
      .returned (some .errDegradedMode) ∧
    (DB.Lock plainCodec { emptyDB with mode := ⟨false, true⟩ } 0 9 []).1 ≠ .panicked := by
  decide

/-- C11, amended: `Lock` with an empty locked list panics exactly on a
writable DB, whatever the container, the locker and the state; the mode is
checked first, so that in degraded mode it returns `ErrDegradedMode` and in
read-only mode `ErrReadOnlyMode`; the DB is left as it was in every case. -/
theorem lock_empty_list (c : Codec) (db : DB) (cnr : CID) (locker : OID) :
    DB.Lock c db cnr locker [] =
      (if db.mode.noMetabase then (.returned (some .errDegradedMode), db)
       else if db.mode.readOnly then (.returned (some .errReadOnlyMode), db)
       else (.panicked, db)) := by
  unfold DB.Lock
  cases db.mode.noMetabase <;> cases db.mode.readOnly <;> simp

/-- C12: in a writable DB `Lock` returns `LockNonRegularObject` exactly when
some id of the locked list has a recorded type other than regular; the DB is
then left as it was, so that no list of lockers changes, also not for the ids
that precede the offending one.  Ids without recorded type, or whose type
cannot be read, never cause that error. -/
theorem lock_rejects_non_regular (c : Codec) (db : DB) (cnr : CID) (locker : OID)
    (locked : List OID) (hm : db.mode.noMetabase = false) (hr : db.mode.readOnly = false) :
    ((∃ typeOf, db.metaBucket cnr = some typeOf ∧
        ∃ id ∈ locked, ∃ typ, typeOf id = .ok typ ∧ typ ≠ .regular) →
      DB.Lock c db cnr locker locked = (.returned (some .lockNonRegularObject), db)) ∧
    ((DB.Lock c db cnr locker locked).1 = .returned (some .lockNonRegularObject) →
      ∃ typeOf, db.metaBucket cnr = some typeOf ∧
        ∃ id ∈ locked, ∃ typ, typeOf id = .ok typ ∧ typ ≠ .regular) := by
  constructor
  · rintro ⟨typeOf, hb, hex⟩
    have hnr := (hasNonRegular_iff typeOf locked).2 hex
    have hlen : locked.length ≠ 0 := by
      obtain ⟨id, hid, -⟩ := hex
      cases locked with
      | nil => cases hid
      | cons a l => simp
    unfold DB.Lock
    simp [hm, hr, hlen, hb, hnr]
  · intro h
    unfold DB.Lock at h
    simp only [hm, hr, Bool.false_eq_true, if_false] at h
    by_cases hlen : locked.length = 0
    · simp [hlen] at h
    · simp only [hlen, if_false] at h
      cases hb : db.metaBucket cnr with
      | some typeOf =>
        cases hnr : hasNonRegular typeOf locked
        · simp only [hb, hnr, Bool.false_eq_true, if_false] at h
          cases hl : db.lockedBucket with
          | none => simp [hl] at h
          | some root =>
            simp only [hl] at h
            cases hloop : lockLoop c locker locked ((Bucket.get root cnr).getD []) with
            | error err =>
              simp only [hloop] at h
              have := lockLoop_error_kind c locker locked _ err hloop
              simp_all
            | ok bkt => simp [hloop] at h
        · exact ⟨typeOf, rfl, (hasNonRegular_iff typeOf locked).1 hnr⟩
      | none =>
        simp only [hb, Bool.false_eq_true, if_false] at h
        cases hl : db.lockedBucket with
        | none => simp [hl] at h
        | some root =>
          simp only [hl] at h
          cases hloop : lockLoop c locker locked ((Bucket.get root cnr).getD []) with
          | error err =>
            simp only [hloop] at h
            have := lockLoop_error_kind c locker locked _ err hloop
            simp_all
          | ok bkt => simp [hloop] at h

/-- C12 at a concrete input: container `0` records object `1` as regular,
object `2` as a tombstone and nothing for object `3`.  Locking `[1, 2]` is
rejected and leaves the DB untouched. -/
theorem lock_rejects_non_regular_witness :
    DB.Lock plainCodec
      { emptyDB with metaBucket := fun _ => some (fun id =>
          if id = 1 then .ok .regular else if id = 2 then .ok .tombstone else .notFound) }
      0 9 [1, 2] =
      (.returned (some .lockNonRegularObject),
       { emptyDB with metaBucket := fun _ => some (fun id =>
          if id = 1 then .ok .regular else if id = 2 then .ok .tombstone else .notFound) }) :=
  (lock_rejects_non_regular plainCodec
    { emptyDB with metaBucket := fun _ => some (fun id =>
        if id = 1 then .ok .regular else if id = 2 then .ok .tombstone else .notFound) }
    0 9 [1, 2] rfl rfl).1
    ⟨_, rfl, 2, by decide, .tombstone, rfl, by decide⟩

/-- C13: after a successful `Lock(cnr, locker, locked)`, with a list codec
that decodes the absent value to the empty list, `IsLocked` returns
`(true, nil)` for the address of every id in `locked`, and returns for every
other address, in `cnr` or in another container, what it returned before. -/
theorem lock_then_is_locked (c : Codec) (hdec : c.decodeList [] = .ok []) (db : DB) (cnr : CID)
    (locker : OID) (locked : List OID)
    (h : (DB.Lock c db cnr locker locked).1 = .returned none) :
    (∀ id ∈ locked, (DB.Lock c db cnr locker locked).2.IsLocked (cnr, id) = (true, none)) ∧
    (∀ cnr2 id2, ¬(cnr2 = cnr ∧ id2 ∈ locked) →
      (DB.Lock c db cnr locker locked).2.IsLocked (cnr2, id2) = db.IsLocked (cnr2, id2)) := by
  obtain ⟨h1, h2, h3, h4, root, bkt, h5, h6, h7⟩ := lock_success c db cnr locker locked h
  obtain ⟨p1, p2, p3⟩ := lockLoop_present c hdec locker locked _ bkt h6
  rw [h7]
  constructor
  · intro id hid
    simp [DB.IsLocked, objectLocked, h1, Bucket.get_put_self, p1 id hid]
  · intro cnr2 id2 hne
    simp only [DB.IsLocked, objectLocked, h1, h5, Bool.false_eq_true, if_false]
    by_cases hc : cnr2 = cnr
    · subst hc
      have hid : id2 ∉ locked := fun hm => hne ⟨rfl, hm⟩
      rw [Bucket.get_put_self]
      simp only [p3 id2 hid]
      cases hg : Bucket.get root cnr2 with
      | some b => simp
      | none => simp [Bucket.get]
    · rw [Bucket.get_put_ne _ _ _ hc]

/-- C13 at a concrete input: object `5` of container `0` is locked by `8`;
locking `[1, 2]` by `9` makes the objects `1` and `2` locked and leaves `5`
locked and object `3`, as well as object `1` of container `4`, unlocked. -/
theorem lock_then_is_locked_witness :
    (DB.Lock plainCodec (DB.Lock plainCodec emptyDB 0 8 [5]).2 0 9 [1, 2]).2.IsLocked (0, 1) =
      (true, none) ∧
    (DB.Lock plainCodec (DB.Lock plainCodec emptyDB 0 8 [5]).2 0 9 [1, 2]).2.IsLocked (0, 3) =
      (DB.Lock plainCodec emptyDB 0 8 [5]).2.IsLocked (0, 3) ∧
    (DB.Lock plainCodec (DB.Lock plainCodec emptyDB 0 8 [5]).2 0 9 [1, 2]).2.IsLocked (4, 1) =
      (DB.Lock plainCodec emptyDB 0 8 [5]).2.IsLocked (4, 1) :=
  have h := lock_then_is_locked plainCodec rfl (DB.Lock plainCodec emptyDB 0 8 [5]).2 0 9 [1, 2]
    (by decide)
  ⟨h.1 1 (by decide), h.2 0 3 (by decide), h.2 4 1 (by decide)⟩

end Meta

namespace EngineList

/-- C15, counterexample: two shards, shard `1` holding the addresses `10, 11`
and shard `2` holding `20`, each returning one address per call, which is
never more than the requested count, and failing with `ErrEndOfListing` when
exhausted: on its own shard `1` pages through `10` and `11`.  Listing the
engine with count `2` from the nil cursor ends after the addresses `10, 20`:
the first call takes `10` from shard `1`, goes on to shard `2` for the second
address and leaves the cursor there, so the address `11` is never returned. -/
theorem list_all_skips_after_short_page :
    (singlePageShard [10, 11]).listWithCursor 2 none = some ([10], some 1) ∧
    (singlePageShard [10, 11]).listWithCursor 2 (some 1) = some ([11], some 2) ∧
    (singlePageShard [10, 11]).listWithCursor 2 (some 2) = none ∧
    (engineOfShards [1, 2]
        (fun id => singlePageShard (if id = 1 then [10, 11] else [20]))).ListWithCursor 2 none =
      ⟨[10, 20], some ⟨2, some 1⟩, none⟩ ∧
    (engineOfShards [1, 2]
        (fun id => singlePageShard (if id = 1 then [10, 11] else [20]))).ListWithCursor 2
        (some ⟨2, some 1⟩) = ⟨[], none, some .errEndOfListing⟩ ∧
    listAll (engineOfShards [1, 2]
        (fun id => singlePageShard (if id = 1 then [10, 11] else [20]))) 2 5 none [] =
      some [10, 20] := by
  decide

/-- C15, amended: for a fixed set of shards, each holding a fixed finite
sequence of addresses and returning on every call exactly the requested count
of addresses, fewer only when fewer are left, and `ErrEndOfListing` when none
is left, calling `ListWithCursor` repeatedly with a fixed count `> 0` from the
nil cursor, feeding back the returned cursor, reaches `ErrEndOfListing` within
one call more than there are addresses, and the calls return the sequences of
the shards concatenated by ascending shard identifier, so every address once;
the order in which the map of shards is iterated does not matter. -/
theorem list_all_visits_in_shard_order (ids : List ShardID) (addrsOf : ShardID → List Addr)
    (count fuel : Nat) (hnd : ids.Nodup) (hpos : 0 < count) (hcount : count < uint32Size)
    (hfuel : (((ids.insertionSort (· ≤ ·)).map addrsOf).flatten).length < fuel) :
    listAll (engineOfShards ids (fun id => pagedShard (addrsOf id))) count fuel none [] =
      some (((ids.insertionSort (· ≤ ·)).map addrsOf).flatten) ∧
    ∀ ids2, ids2.Perm ids →
      listAll (engineOfShards ids2 (fun id => pagedShard (addrsOf id))) count fuel none [] =
        some (((ids.insertionSort (· ≤ ·)).map addrsOf).flatten) := by
  refine ⟨listAll_total ids addrsOf count fuel hnd hpos hcount hfuel, fun ids2 hp => ?_⟩
  have hs := insertionSort_perm ids ids2 hp
  have h2 := listAll_total ids2 addrsOf count fuel (hp.nodup_iff.2 hnd) hpos hcount
    (by rw [hs]; exact hfuel)
  rw [h2, hs]

theorem list_all_visits_in_shard_order_witness :
    listAll (engineOfShards [3, 1, 2]
        (fun id => pagedShard (if id = 1 then [10, 11] else if id = 2 then [] else [30, 31, 32])))
      2 6 none [] = some [10, 11, 30, 31, 32] ∧
    listAll (engineOfShards [2, 3, 1]
        (fun id => pagedShard (if id = 1 then [10, 11] else if id = 2 then [] else [30, 31, 32])))
      2 6 none [] = some [10, 11, 30, 31, 32] :=
  have h := list_all_visits_in_shard_order [3, 1, 2]
    (fun id => if id = 1 then [10, 11] else if id = 2 then [] else [30, 31, 32]) 2 6
    (by decide) (by decide) (by decide) (by decide)
  ⟨h.1, h.2 [2, 3, 1] (by decide)⟩

/-- C16: `ListWithCursor` returns `ErrEndOfListing`, with a nil list and a nil
cursor, exactly when the engine has no shards or its loop collected no
address, which is the case for every cursor when `count = 0`; in every other
case it returns the collected addresses, a non-empty list, with a non-nil
cursor and a nil error.  This holds whatever the shards return.  In terms of
what the shards answer, for a count `> 0` and the keys of the map of shards:
`ErrEndOfListing` is returned exactly when no present shard from the shard of
the start cursor on, read with the count and, for the shard of the cursor, the
shard cursor, returns an address; as soon as one of them returns an address the
call returns a non-empty list, a non-nil cursor and a nil error. -/
theorem list_end_of_listing_iff {κ : Type} (e : StorageEngine κ) (count : Nat)
    (cursor : Option (Cursor κ)) :
    (e.ListWithCursor count cursor = ⟨[], none, some .errEndOfListing⟩ ∨
      ((e.ListWithCursor count cursor).err = none ∧
        (e.ListWithCursor count cursor).result ≠ [] ∧
        (e.ListWithCursor count cursor).result = (e.collect count cursor).1 ∧
        (e.ListWithCursor count cursor).cursor = some (e.collect count cursor).2)) ∧
    ((e.ListWithCursor count cursor).err = some .errEndOfListing ↔
      e.keys = [] ∨ (e.collect count cursor).1 = []) ∧
    (count = 0 → e.ListWithCursor count cursor = ⟨[], none, some .errEndOfListing⟩) ∧
    (e.keys = [] → e.ListWithCursor count cursor = ⟨[], none, some .errEndOfListing⟩) ∧
    (0 < count → count < uint32Size → e.keys.Nodup →
      ((e.ListWithCursor count cursor).err = some .errEndOfListing ↔
        ∀ id ∈ e.keys, ¬ id < (e.startCursor cursor).shardID →
          ∀ sh res, e.shards id = some sh →
            sh.listWithCursor count
              (if id = (e.startCursor cursor).shardID then (e.startCursor cursor).shardCursor
               else none) = some res →
            res.1 = [])) ∧
    (0 < count → count < uint32Size → e.keys.Nodup →
      ∀ id sh res, id ∈ e.keys → ¬ id < (e.startCursor cursor).shardID →
        e.shards id = some sh →
        sh.listWithCursor count
          (if id = (e.startCursor cursor).shardID then (e.startCursor cursor).shardCursor
           else none) = some res →
        res.1 ≠ [] →
        (e.ListWithCursor count cursor).err = none ∧
        (e.ListWithCursor count cursor).result ≠ [] ∧
        (e.ListWithCursor count cursor).cursor ≠ none) := by
  have hiff : 0 < count → count < uint32Size → e.keys.Nodup →
      ((e.collect count cursor).1 = [] ↔
        ∀ id ∈ e.keys, ¬ id < (e.startCursor cursor).shardID →
          ∀ sh res, e.shards id = some sh →
            sh.listWithCursor count
              (if id = (e.startCursor cursor).shardID then (e.startCursor cursor).shardCursor
               else none) = some res →
            res.1 = []) :=
    fun hpos hcount hnd => collect_empty_iff e count cursor hpos hcount hnd
  unfold StorageEngine.ListWithCursor
  refine ⟨?_, ?_, ?_, ?_, ?_, ?_⟩
  · by_cases hk : e.keys.length = 0
    · simp [hk]
    · by_cases hc : (e.collect count cursor).1.length = 0
      · simp [hk, hc]
      · right
        have hc2 : (e.collect count cursor).1 ≠ [] := fun h => hc (by rw [h]; rfl)
        simp [hk, hc, hc2]
  · by_cases hk : e.keys.length = 0
    · simp [hk, List.length_eq_zero.1 hk]
    · by_cases hc : (e.collect count cursor).1.length = 0
      · simp [hk, hc, List.length_eq_zero.1 hc]
      · have hk2 : e.keys ≠ [] := fun h => hk (by rw [h]; rfl)
        have hc2 : (e.collect count cursor).1 ≠ [] := fun h => hc (by rw [h]; rfl)
        simp [hk, hc, hk2, hc2]
  · intro h0
    subst h0
    have hc : (e.collect 0 cursor).1 = [] := by
      unfold StorageEngine.collect
      rw [listLoop_zero]
    simp [hc]
  · intro hk
    simp [hk]
  · intro hpos hcount hnd
    rw [← hiff hpos hcount hnd]
    by_cases hk : e.keys.length = 0
    · have hc : (e.collect count cursor).1 = [] := by
        rw [hiff hpos hcount hnd, List.length_eq_zero.1 hk]
        intro id hid
        cases hid
      simp [hk, hc]
    · by_cases hc : (e.collect count cursor).1.length = 0
      · simp [hk, hc, List.length_eq_zero.1 hc]
      · have hc2 : (e.collect count cursor).1 ≠ [] := fun h => hc (by rw [h]; rfl)
        simp [hk, hc, hc2]
  · intro hpos hcount hnd id sh res hid hge hsh hcall hres
    have hc2 : (e.collect count cursor).1 ≠ [] := by
      intro h
      exact hres ((hiff hpos hcount hnd).1 h id hid hge sh res hsh hcall)
    have hc : ¬ (e.collect count cursor).1.length = 0 :=
      fun h => hc2 (List.length_eq_zero.1 h)
    have hk : ¬ e.keys.length = 0 := by
      intro h
      rw [List.length_eq_zero.1 h] at hid
      cases hid
    simp [hk, hc, hc2]

/-- C16 at concrete inputs: count `0` with a cursor, an engine without shards,
and two shards of which the first, holding `10, 11`, answers the nil cursor
with both addresses: the call returns them with the cursor on shard `1`. -/
theorem list_end_of_listing_iff_witness :
    (engineOfShards [1, 2] (fun id => pagedShard (if id = 1 then [10, 11] else [20]))).ListWithCursor
      0 (some ⟨1, some 1⟩) = ⟨[], none, some .errEndOfListing⟩ ∧
    (engineOfShards ([] : List ShardID) (fun _ => pagedShard [10])).ListWithCursor 3 none =
      ⟨[], none, some .errEndOfListing⟩ ∧
    ((engineOfShards [1, 2]
      (fun id => pagedShard (if id = 1 then [10, 11] else [20]))).ListWithCursor 2 none).err =
        none ∧
    ((engineOfShards [1, 2]
      (fun id => pagedShard (if id = 1 then [10, 11] else [20]))).ListWithCursor 2 none).result ≠
        [] ∧
    (engineOfShards [1, 2]
      (fun id => pagedShard (if id = 1 then [10, 11] else [20]))).ListWithCursor 2 none =
        ⟨[10, 11], some ⟨1, some 2⟩, none⟩ ∧
    ((engineOfShards [1, 2]
      (fun id => pagedShard (if id = 1 then [10, 11] else [20]))).ListWithCursor 2
        (some ⟨2, some 1⟩)).err = some .errEndOfListing :=
  have h := (list_end_of_listing_iff
    (engineOfShards [1, 2] (fun id => pagedShard (if id = 1 then [10, 11] else [20]))) 2
    none).2.2.2.2.2 (by decide) (by decide) (by decide) 1 (pagedShard [10, 11])
    ([10, 11], some 2) (by decide) (by decide) rfl rfl (by decide)
  have h2 := ((list_end_of_listing_iff
    (engineOfShards [1, 2] (fun id => pagedShard (if id = 1 then [10, 11] else [20]))) 2
    (some ⟨2, some 1⟩)).2.2.2.2.1 (by decide) (by decide) (by decide)).2 (by
      intro id hid hge sh res hsh hcall
      have hid2 : id = 2 := by
        simp [engineOfShards] at hid
        rcases hid with rfl | rfl
        · exact absurd (by decide) hge
        · rfl
      subst hid2
      cases hsh
      cases hcall)
  ⟨(list_end_of_listing_iff _ 0 _).2.2.1 rfl, (list_end_of_listing_iff _ 3 _).2.2.2.1 rfl,
    h.1, h.2.1, by decide, h2⟩

end EngineList

namespace Meta

/-- C14: on a writable DB whose bucket of locks is as `Lock` builds it, with a
list codec whose `decodeList` inverts `encodeList`, a successful
`FreeLockedBy(lockers)` removes every given locker from the list of lockers of
every object of the container of that locker, and returns exactly the
addresses whose list thereby became empty, each once; afterwards `IsLocked` is
false for those addresses and true for every object that still has a locker,
none of which is returned.  For lockers with no recorded locks it returns an
empty list and a nil error and leaves the DB as it was. -/
theorem free_locked_by_unlocks (c : Codec) (hrt : c.RoundTrip)
    (decodeID : Nat → Except Nat OID) (hid : ∀ k, decodeID k = .ok k) (db : DB)
    (lockers : List Address) (hm : db.mode.noMetabase = false) (hr : db.mode.readOnly = false)
    (hw : WellLocked c db.lockedBucket) :
    ((DB.FreeLockedBy c decodeID db lockers).1.2 = none →
      WellLocked c (DB.FreeLockedBy c decodeID db lockers).2.lockedBucket ∧
      (∀ cnr id, lockersAt c (DB.FreeLockedBy c decodeID db lockers).2.lockedBucket cnr id =
        (lockersAt c db.lockedBucket cnr id).filter (fun x => decide ((cnr, x) ∉ lockers))) ∧
      (∀ a, a ∈ (DB.FreeLockedBy c decodeID db lockers).1.1 ↔
        lockersAt c db.lockedBucket a.1 a.2 ≠ [] ∧
        lockersAt c (DB.FreeLockedBy c decodeID db lockers).2.lockedBucket a.1 a.2 = []) ∧
      (DB.FreeLockedBy c decodeID db lockers).1.1.Nodup ∧
      (∀ a, (DB.FreeLockedBy c decodeID db lockers).2.IsLocked a =
        (decide (lockersAt c (DB.FreeLockedBy c decodeID db lockers).2.lockedBucket a.1 a.2 ≠ []),
          none))) ∧
    ((∀ cnr id x, x ∈ lockersAt c db.lockedBucket cnr id → (cnr, x) ∉ lockers) →
      DB.FreeLockedBy c decodeID db lockers = (([], none), db)) := by
  constructor
  · intro hok
    obtain ⟨tx1, hloop, hdb⟩ := free_locked_by_ok c decodeID db lockers hm hr hok
    obtain ⟨r1, r2, uNew, r3, r4, r5⟩ :=
      free_loop c hrt decodeID hid lockers db.lockedBucket tx1 [] _ hw hloop
    rw [List.nil_append] at r3
    rw [hdb, r3]
    refine ⟨r1, r2, r5, r4, fun a => ?_⟩
    have hobj := objectLocked_iff c { db with lockedBucket := tx1 } r1 a.1 a.2
    unfold DB.IsLocked
    simp only [hm, Bool.false_eq_true, if_false, Prod.mk.injEq, and_true]
    rw [Bool.eq_iff_iff, hobj]
    simp
  · intro hno
    unfold DB.FreeLockedBy
    simp only [hm, hr, Bool.false_eq_true, if_false,
      free_loop_untouched c decodeID lockers db.lockedBucket [] hw hno]

/-- C14 at a concrete input: in container `0` the object `1` is locked by `8`
and `9`, the object `2` by `9` and the object `5` by `8`; in container `3` the
object `7` is locked by `9`.  Freeing the locks of the locker `9` of container
`0` returns the address of object `2` only. -/
theorem free_locked_by_unlocks_witness :
    (DB.FreeLockedBy plainCodec (fun k => .ok k)
      (DB.Lock plainCodec (DB.Lock plainCodec (DB.Lock plainCodec emptyDB 0 8 [5, 1]).2
        0 9 [1, 2]).2 3 9 [7]).2 [(0, 9)]).1.1.Nodup ∧
    (DB.FreeLockedBy plainCodec (fun k => .ok k)
      (DB.Lock plainCodec (DB.Lock plainCodec (DB.Lock plainCodec emptyDB 0 8 [5, 1]).2
        0 9 [1, 2]).2 3 9 [7]).2 [(0, 9)]).1.1 = [(0, 2)] ∧
    DB.FreeLockedBy plainCodec (fun k => .ok k)
      (DB.Lock plainCodec (DB.Lock plainCodec (DB.Lock plainCodec emptyDB 0 8 [5, 1]).2
        0 9 [1, 2]).2 3 9 [7]).2 [(4, 9)] =
      (([], none), (DB.Lock plainCodec (DB.Lock plainCodec (DB.Lock plainCodec emptyDB 0 8
        [5, 1]).2 0 9 [1, 2]).2 3 9 [7]).2) :=
  have hrt : plainCodec.RoundTrip := fun _ _ h => by cases h; rfl
  have hw := lock_keeps_well_locked plainCodec hrt rfl _ 3 9 [7]
    (lock_keeps_well_locked plainCodec hrt rfl _ 0 9 [1, 2]
      (lock_keeps_well_locked plainCodec hrt rfl emptyDB 0 8 [5, 1]
        (emptyDB_well_locked plainCodec) (by decide)) (by decide)) (by decide)
  have h1 := free_locked_by_unlocks plainCodec hrt (fun k => .ok k) (fun _ => rfl) _ [(0, 9)]
    (by decide) (by decide) hw
  have h2 := free_locked_by_unlocks plainCodec hrt (fun k => .ok k) (fun _ => rfl) _ [(4, 9)]
    (by decide) (by decide) hw
  ⟨(h1.1 (by decide)).2.2.2.1, by decide, h2.2 (by
    intro cnr id x hx hmem
    rw [List.mem_singleton] at hmem
    cases hmem
    have h0 : lockersAt plainCodec (DB.Lock plainCodec (DB.Lock plainCodec (DB.Lock plainCodec
        emptyDB 0 8 [5, 1]).2 0 9 [1, 2]).2 3 9 [7]).2.lockedBucket 4 id = [] := rfl
    rw [h0] at hx
    cases hx)⟩

end Meta

namespace Meta

/-- C27, the code at a failing input: a DB in read-only mode in which the
object `1` of container `0` is locked by `9`.  `Lock` returns
`ErrReadOnlyMode` there, but `FreeLockedBy` has no check of the read-only
mode: it goes on to `Update`, and what it returns is the error of the write
transaction that the store refuses, not `ErrReadOnlyMode`.  In degraded
mode it returns `ErrDegradedMode`. -/
theorem free_locked_by_read_only_skips_mode_check :
    (DB.FreeLockedBy plainCodec (fun k => .ok k)
      { (DB.Lock plainCodec emptyDB 0 9 [1]).2 with mode := ⟨false, true⟩ } [(0, 9)]).1 =
      ([], some .updateReadOnly) ∧
    (DB.Lock plainCodec
      { (DB.Lock plainCodec emptyDB 0 9 [1]).2 with mode := ⟨false, true⟩ } 0 9 [1]).1 =
      .returned (some .errReadOnlyMode) ∧
    (DB.FreeLockedBy plainCodec (fun k => .ok k)
      { (DB.Lock plainCodec emptyDB 0 9 [1]).2 with mode := ⟨true, true⟩ } [(0, 9)]).1 =
      ([], some .errDegradedMode) := by
  decide

end Meta

namespace GetSvc

/-- C30: `execCtx.remoteClient` has a value receiver, so the execution context
it is called on is the same after the call as before, in particular its
`status` and `err`.  When the construction of the client fails the method
returns `(nil, false)` and the assignments of `statusUndefined` and of the
construction error reach only the receiver copy: whenever the caller's status
was not already `statusUndefined`, or its error not already that error, the
caller does not see them. -/
theorem remote_client_keeps_status (get : NodeInfo → Except Nat GetClient) (exec : ExecCtx)
    (info : NodeInfo) :
    (exec.remoteClient get info).caller = exec ∧
    (∀ err, get info = .error err →
      (exec.remoteClient get info).ret = (none, false) ∧
      (exec.remoteClient get info).receiver.statusError = ⟨statusUndefined, some err⟩ ∧
      (exec.remoteClient get info).caller.statusError = exec.statusError ∧
      (exec.statusError ≠ ⟨statusUndefined, some err⟩ →
        (exec.remoteClient get info).caller.statusError ≠
          (exec.remoteClient get info).receiver.statusError)) ∧
    (∀ c, get info = .ok c → (exec.remoteClient get info).ret = (some c, true)) := by
  refine ⟨rfl, fun err h => ?_, fun c h => ?_⟩
  · simp [ExecCtx.remoteClient, callByValue, remoteClientBody, h]
  · simp [ExecCtx.remoteClient, callByValue, remoteClientBody, h]

/-- C30 at a concrete input: a context with `statusOK` and no error, the
client cache failing with error `5`. -/
theorem remote_client_keeps_status_witness :
    ((execOf statusOK none).remoteClient (fun _ => .error 5) 3).ret =
      (none, false) ∧
    ((execOf statusOK none).remoteClient (fun _ => .error 5) 3).caller.statusError =
      ⟨statusOK, none⟩ ∧
    ((execOf statusOK none).remoteClient (fun _ => .error 5)
      3).receiver.statusError = ⟨statusUndefined, some 5⟩ :=
  have h := (remote_client_keeps_status (fun _ => .error 5) (execOf statusOK none) 3).2.1
    5 rfl
  ⟨h.1, h.2.2.1, h.2.1⟩

end GetSvc

namespace CliAccounting

/-- C25, the code at a failing input: the flag `--owner` carries an address
that `DecodeString` accepts.  The branch for a non-empty flag is a bare
`return fmt.Errorf(..., idUser.DecodeString(balanceOwner))`, so the command
returns the error "can't decode owner ID wallet address" built around the nil
result of the decoding, requests no balance and prints nothing; without the
flag the balance of the key's own account is requested and printed. -/
theorem balance_with_valid_owner_fails :
    (envOf "NbUgTSFvPmsRxmGeWpuuGeJUoRoi6PErcM").decodeString
      "NbUgTSFvPmsRxmGeWpuuGeJUoRoi6PErcM" = .ok 7 ∧
    RunE (envOf "NbUgTSFvPmsRxmGeWpuuGeJUoRoi6PErcM") = ⟨some (.decodeOwner none), [], []⟩ ∧
    RunE (envOf "") = ⟨none, [1], [100]⟩ :=
  ⟨rfl, by decide, by decide⟩

end CliAccounting

namespace BlobStor

/-- C24: for a blob storage that holds at address `A` a payload `P` of length
`L` (a Go slice length), and offsets and lengths `off` and `len`: `GetRange(A, off,
len)` returns `P[off:off+len]` when `len > 0` and `off + len ≤ L`, returns
`P[off:]` when `len = 0` and `off ≤ L`, fails with `ObjectOutOfRange` when
`off > L`, when `off + len > L`, when `len ≥ 2^63` and when `off + len`
overflows `uint64`; whatever it returns is exactly the requested range, never
a shorter or wrapped one; and it fails with `ObjectNotFound` for an address at
which nothing is stored. -/
theorem get_range_contract (objects : Address → Option Payload) (A : Address) (P : Payload)
    (off len : Nat) (hobj : objects A = some P) (hL : P.length < 2 ^ 63) :
    (0 < len → off + len ≤ P.length →
      GetRange objects A off len = .ok ((P.drop off).take len)) ∧
    (len = 0 → off ≤ P.length → GetRange objects A off len = .ok (P.drop off)) ∧
    (P.length < off → GetRange objects A off len = .error .objectOutOfRange) ∧
    (P.length < off + len → GetRange objects A off len = .error .objectOutOfRange) ∧
    (2 ^ 63 ≤ len → GetRange objects A off len = .error .objectOutOfRange) ∧
    (uint64Size ≤ off + len → GetRange objects A off len = .error .objectOutOfRange) ∧
    (∀ res, GetRange objects A off len = .ok res →
      off + len ≤ P.length ∧ res = (if len = 0 then P.drop off else (P.drop off).take len) ∧
      res.length = (if len = 0 then P.length - off else len)) ∧
    (∀ B, objects B = none → GetRange objects B off len = .error .objectNotFound) := by
  refine ⟨fun h1 h2 => ?_, fun h1 h2 => ?_, fun h => ?_, fun h => ?_, fun h => ?_, fun h => ?_,
    fun res h => ?_, fun B hB => getRange_missing objects B off len hB⟩
  · rw [getRange_ok objects A P off len hobj hL h2]
    simp [Nat.pos_iff_ne_zero.1 h1]
  · rw [getRange_ok objects A P off len hobj hL (by omega)]
    simp [h1]
  · exact getRange_out_of_range objects A P off len hobj (Or.inl (by omega))
  · exact getRange_out_of_range objects A P off len hobj (Or.inl h)
  · exact getRange_out_of_range objects A P off len hobj (Or.inr (Or.inl h))
  · exact getRange_out_of_range objects A P off len hobj (Or.inr (Or.inr h))
  · by_cases hle : off + len ≤ P.length
    · rw [getRange_ok objects A P off len hobj hL hle] at h
      cases h
      refine ⟨hle, rfl, ?_⟩
      by_cases h0 : len = 0
      · simp [h0]
      · simp only [h0, if_false, List.length_take, List.length_drop]
        omega
    · rw [getRange_out_of_range objects A P off len hobj (Or.inl (by omega))] at h
      cases h

/-- C24 at a concrete input: the payload `[0, 1, ..., 119]` at address `1`,
the range of length `5` at offset `3`. -/
theorem get_range_contract_witness :
    GetRange (rampStorage 120) 1 3 5 = .ok [3, 4, 5, 6, 7] ∧
    GetRange (rampStorage 120) 1 10 (2 ^ 64 - 3) = .error .objectOutOfRange ∧
    GetRange (rampStorage 120) 2 3 5 = .error .objectNotFound :=
  have h := get_range_contract (rampStorage 120) 1 (List.range 120) 3 5 rfl (by decide)
  have h2 := get_range_contract (rampStorage 120) 1 (List.range 120) 10 (2 ^ 64 - 3) rfl
    (by decide)
  ⟨(h.1 (by decide) (by decide)).trans rfl, h2.2.2.2.2.2.1 (by decide),
    h.2.2.2.2.2.2.2 2 rfl⟩

end BlobStor

namespace PutTarget

/-- C23: `decodeSignatures` undoes the length-prefixed encoding.  For three
signatures `s1, s2, s3` that `Unmarshal` recovers from their `Marshal`, each
marshalled to fewer than `2^32` bytes so that its length fits the four-byte
prefix, `decodeSignatures` applied to the concatenation of the three records
returns `[s1, s2, s3]` in that order with a nil error, and each call of
`decodeSignature` reports the offset `4` plus the declared length. -/
theorem decode_signatures_round_trip (marshal : Signature → Bytes)
    (unmarshal : Bytes → Except Nat Signature) (hinv : ∀ s, unmarshal (marshal s) = .ok s)
    (s1 s2 s3 : Signature) (h1 : (marshal s1).length < 2 ^ 32)
    (h2 : (marshal s2).length < 2 ^ 32) (h3 : (marshal s3).length < 2 ^ 32) :
    decodeSignatures unmarshal
      (record (marshal s1) ++ (record (marshal s2) ++ record (marshal s3))) =
      .ok [s1, s2, s3] ∧
    decodeSignature unmarshal
      (record (marshal s1) ++ (record (marshal s2) ++ record (marshal s3))) =
      .ok (s1, 4 + leUint32 (putUint32 (marshal s1).length)) ∧
    decodeSignature unmarshal (record (marshal s2) ++ record (marshal s3)) =
      .ok (s2, 4 + leUint32 (putUint32 (marshal s2).length)) ∧
    decodeSignature unmarshal (record (marshal s3)) =
      .ok (s3, 4 + leUint32 (putUint32 (marshal s3).length)) := by
  have e3 : record (marshal s3) = record (marshal s3) ++ [] := (List.append_nil _).symm
  refine ⟨?_, ?_, ?_, ?_⟩
  · unfold decodeSignatures
    rw [decodeSignaturesLoop_record unmarshal _ _ s1 (hinv s1) h1,
      decodeSignaturesLoop_record unmarshal _ _ s2 (hinv s2) h2, e3,
      decodeSignaturesLoop_record unmarshal _ _ s3 (hinv s3) h3]
    rfl
  · rw [leUint32_putUint32 _ h1]
    exact (decodeSignature_record unmarshal _ _ s1 (hinv s1) h1).1
  · rw [leUint32_putUint32 _ h2]
    exact (decodeSignature_record unmarshal _ _ s2 (hinv s2) h2).1
  · rw [leUint32_putUint32 _ h3, e3]
    exact (decodeSignature_record unmarshal _ _ s3 (hinv s3) h3).1

/-- C23 at a concrete input: signatures marshalled as scheme, key, value. -/
theorem decode_signatures_round_trip_witness :
    decodeSignatures plainUnmarshal
      (record (plainMarshal ⟨0, 2, [8]⟩) ++
        (record (plainMarshal ⟨1, 3, [8, 9]⟩) ++ record (plainMarshal ⟨0, 4, []⟩))) =
      .ok [⟨0, 2, [8]⟩, ⟨1, 3, [8, 9]⟩, ⟨0, 4, []⟩] :=
  (decode_signatures_round_trip plainMarshal plainUnmarshal (fun _ => rfl)
    ⟨0, 2, [8]⟩ ⟨1, 3, [8, 9]⟩ ⟨0, 4, []⟩ (by decide) (by decide) (by decide)).1

/-- C29: `decodeSignatures` returns an error or exactly three signatures.  An
input shorter than four bytes, the empty one included, is rejected at the
first record; an input whose first record, or first two records, are followed
by bytes that `decodeSignature` rejects, in particular by nothing, is rejected
at the second, or third, record.  A record whose declared length exceeds the
bytes that remain is rejected; every slice expression of the two functions is
evaluated within the bounds of its input, after the length checks.  Bytes that
follow the third record are ignored. -/
theorem decode_signatures_three_or_error (unmarshal : Bytes → Except Nat Signature) (b : Bytes) :
    (∀ sigs, decodeSignatures unmarshal b = .ok sigs → sigs.length = 3) ∧
    (b.length < 4 → decodeSignatures unmarshal b = .error (.decoding 0 (.format b.length))) ∧
    (∀ e, decodeSignature unmarshal b = .error e →
      decodeSignatures unmarshal b = .error (.decoding 0 e) ∧
      (∀ body1 s1, unmarshal body1 = .ok s1 → body1.length < 2 ^ 32 →
        decodeSignatures unmarshal (record body1 ++ b) = .error (.decoding 1 e) ∧
        ∀ body0 s0, unmarshal body0 = .ok s0 → body0.length < 2 ^ 32 →
          decodeSignatures unmarshal (record body0 ++ (record body1 ++ b)) =
            .error (.decoding 2 e))) ∧
    (4 ≤ b.length → b.length < 4 + leUint32 (b.take 4) →
      decodeSignature unmarshal b =
        .error (.formatClaimed b.length (leUint32 (b.take 4)))) ∧
    (¬ b.length < 4 → InBounds b 0 4) ∧
    (¬ b.length < 4 → ¬ b.length < 4 + leUint32 (b.take 4) →
      InBounds b 4 (4 + leUint32 (b.take 4))) ∧
    (∀ s offset, decodeSignature unmarshal b = .ok (s, offset) → InBounds b offset b.length) ∧
    (∀ body1 body2 body3 s1 s2 s3, unmarshal body1 = .ok s1 → unmarshal body2 = .ok s2 →
      unmarshal body3 = .ok s3 → body1.length < 2 ^ 32 → body2.length < 2 ^ 32 →
      body3.length < 2 ^ 32 →
      decodeSignatures unmarshal (record body1 ++ (record body2 ++ (record body3 ++ b))) =
        .ok [s1, s2, s3]) := by
  refine ⟨fun sigs h => ?_, fun h => ?_, fun e he => ⟨?_, fun body1 s1 hs1 hl1 => ⟨?_,
    fun body0 s0 hs0 hl0 => ?_⟩⟩, fun h1 h2 => ?_, fun h => ⟨Nat.zero_le _, by omega⟩,
    fun h1 h2 => ⟨by omega, by omega⟩, fun s offset h => ?_,
    fun body1 body2 body3 s1 s2 s3 hs1 hs2 hs3 hl1 hl2 hl3 => ?_⟩
  · exact decodeSignaturesLoop_length unmarshal 3 0 b [] sigs h
  · unfold decodeSignatures
    apply decodeSignaturesLoop_error
    unfold decodeSignature
    simp only [h, if_true]
  · exact decodeSignaturesLoop_error unmarshal b e he 0 2 []
  · unfold decodeSignatures
    rw [decodeSignaturesLoop_record unmarshal _ _ s1 hs1 hl1]
    exact decodeSignaturesLoop_error unmarshal b e he 1 1 _
  · unfold decodeSignatures
    rw [decodeSignaturesLoop_record unmarshal _ _ s0 hs0 hl0,
      decodeSignaturesLoop_record unmarshal _ _ s1 hs1 hl1]
    exact decodeSignaturesLoop_error unmarshal b e he 2 0 _
  · unfold decodeSignature
    have h0 : ¬ b.length < 4 := by omega
    simp only [h0, if_false, h2, if_true]
  · exact ⟨(decodeSignature_offset unmarshal b s offset h).2, Nat.le_refl _⟩
  · unfold decodeSignatures
    rw [decodeSignaturesLoop_record unmarshal _ _ s1 hs1 hl1,
      decodeSignaturesLoop_record unmarshal _ _ s2 hs2 hl2,
      decodeSignaturesLoop_record unmarshal _ _ s3 hs3 hl3]
    rfl

/-- C29 at concrete inputs: the empty input, one record alone, two records
alone, a record that declares `200` bytes and holds one, and three records
followed by two more bytes. -/
theorem decode_signatures_three_or_error_witness :
    decodeSignatures plainUnmarshal [] = .error (.decoding 0 (.format 0)) ∧
    decodeSignatures plainUnmarshal (record [0, 2, 8] ++ []) =
      .error (.decoding 1 (.format 0)) ∧
    decodeSignatures plainUnmarshal (record [0, 2, 8] ++ (record [0, 3, 8] ++ [])) =
      .error (.decoding 2 (.format 0)) ∧
    decodeSignature plainUnmarshal [200, 0, 0, 0, 5] = .error (.formatClaimed 5 200) ∧
    decodeSignatures plainUnmarshal
      (record [0, 2, 8] ++ (record [0, 3, 8] ++ (record [0, 4] ++ [6, 6]))) =
      .ok [⟨0, 2, [8]⟩, ⟨0, 3, [8]⟩, ⟨0, 4, []⟩] :=
  have h0 := decode_signatures_three_or_error plainUnmarshal []
  have h1 := decode_signatures_three_or_error plainUnmarshal [200, 0, 0, 0, 5]
  have h2 := decode_signatures_three_or_error plainUnmarshal [6, 6]
  ⟨h0.2.1 (by decide), ((h0.2.2.1 (.format 0) rfl).2 [0, 2, 8] ⟨0, 2, [8]⟩ rfl (by decide)).1,
    ((h0.2.2.1 (.format 0) rfl).2 [0, 3, 8] ⟨0, 3, [8]⟩ rfl (by decide)).2 [0, 2, 8]
      ⟨0, 2, [8]⟩ rfl (by decide),
    h1.2.2.2.1 (by decide) (by decide),
    h2.2.2.2.2.2.2.2 [0, 2, 8] [0, 3, 8] [0, 4] ⟨0, 2, [8]⟩ ⟨0, 3, [8]⟩ ⟨0, 4, []⟩ rfl rfl rfl
      (by decide) (by decide) (by decide)⟩

/-- C22, counterexample: a relay function is set and returns nil.  For the
remote node `2`, whose answer would carry three signatures of the key `3`,
none of them of the node, `sendObject` returns nil without sending, decoding
or checking anything: the node counts as stored and no signature is
collected.  Without the relay the same send fails with "signatures were not
found". -/
theorem send_object_relay_skips_signatures :
    sendObject
      { envOf (record [0, 3, 6] ++ (record [0, 3, 8] ++ record [0, 3, 9])) none with
        relay := some (fun _ => none) }
      (targetOf "strict" [[1, 2]] [2]) ⟨false, ⟨[2], 2⟩⟩ =
      (none, targetOf "strict" [[1, 2]] [2]) ∧
    decodeSignatures plainUnmarshal (record [0, 3, 6] ++ (record [0, 3, 8] ++ record [0, 3, 9])) =
      .ok [⟨0, 3, [6]⟩, ⟨0, 3, [8]⟩, ⟨0, 3, [9]⟩] ∧
    sendObject (envOf (record [0, 3, 6] ++ (record [0, 3, 8] ++ record [0, 3, 9])) none)
      (targetOf "strict" [[1, 2]] [2]) ⟨false, ⟨[2], 2⟩⟩ =
      (some .signaturesNotFound, targetOf "strict" [[1, 2]] [2]) :=
  ⟨rfl, rfl, rfl⟩

/-- C22, amended: `sendObject` for a remote node, on a target of a node that
belongs to the container and has a non-empty metadata-consistency attribute.
With a relay function set, `sendObject` returns what the relay returns and
leaves the target as it was: nothing is decoded, checked or collected.
Without one, a successful send appends exactly one value to
`collectedSignatures`: the value of a signature decoded from the answer of
that node whose public key bytes equal the public key of the node and which
verifies against `objSharedMeta`; if the node's answer decodes and none of
the decoded signatures satisfies both conditions, `sendObject` returns the
error "signatures were not found" and appends nothing.  A failed send leaves
the target, the collected signatures included, as it was. -/
theorem send_object_accepts_valid_signature (env : Env) (t : Target) (node : PutSvc.NodeDesc)
    (hremote : node.isLocal = false) (hin : t.localNodeInContainer = true)
    (hattr : t.metainfoConsistencyAttr ≠ "") :
    ((sendObject env t node).1 = none →
      ((sendObject env t node).2 = t ∧ env.relay.isSome = true) ∨
      ∃ sig sigsRaw sigs, transmit env t node = .ok sigsRaw ∧
        decodeSignatures env.unmarshal sigsRaw = .ok sigs ∧ sig ∈ sigs ∧
        sig.publicKeyBytes = node.info.publicKey ∧ env.verify sig t.objSharedMeta = true ∧
        (sendObject env t node).2 =
          { t with collectedSignatures := t.collectedSignatures ++ [sig.value] }) ∧
    ((sendObject env t node).1 ≠ none → (sendObject env t node).2 = t) ∧
    (env.relay = none → ∀ sigsRaw sigs, transmit env t node = .ok sigsRaw →
      decodeSignatures env.unmarshal sigsRaw = .ok sigs →
      (∀ sig ∈ sigs, ¬ (sig.publicKeyBytes = node.info.publicKey ∧
        env.verify sig t.objSharedMeta = true)) →
      sendObject env t node = (some .signaturesNotFound, t)) ∧
    (∀ relay, env.relay = some relay →
      sendObject env t node = ((relay node).map (fun e => .relay e.1 e.2), t)) := by
  have hcond : (t.localNodeInContainer && t.metainfoConsistencyAttr != "") = true := by
    simp [hin, hattr]
  unfold sendObject
  simp only [hremote, Bool.false_eq_true, if_false, hcond, if_true]
  cases hrelay : env.relay with
  | some relay =>
    refine ⟨fun _ => Or.inl ⟨rfl, rfl⟩, fun _ => rfl, fun h => (by cases h), fun r hr => ?_⟩
    cases hr
    rfl
  | none =>
    simp only []
    cases htr : transmit env t node with
    | error err =>
      refine ⟨fun h => (by cases h), fun _ => rfl, fun _ sigsRaw sigs h => (by cases h),
        fun r hr => (by cases hr)⟩
    | ok sigsRaw =>
      simp only []
      cases hdec : decodeSignatures env.unmarshal sigsRaw with
      | error err =>
        refine ⟨fun h => (by cases h), fun _ => rfl, fun _ sigsRaw2 sigs h1 h2 => ?_,
          fun r hr => (by cases hr)⟩
        cases h1
        rw [hdec] at h2
        cases h2
      | ok sigs =>
        simp only []
        cases hacc : acceptSignature env t node sigs with
        | none =>
          refine ⟨fun h => (by cases h), fun _ => rfl, fun _ _ _ _ _ _ => rfl,
            fun r hr => (by cases hr)⟩
        | some sig =>
          obtain ⟨g1, g2, g3⟩ := acceptSignature_some env t node sigs sig hacc
          refine ⟨fun _ => Or.inr ⟨sig, sigsRaw, sigs, rfl, hdec, g1, g2, g3, rfl⟩,
            fun h => absurd rfl h, fun _ sigsRaw2 sigs2 h1 h2 h3 => ?_, fun r hr => (by cases hr)⟩
          cases h1
          rw [hdec] at h2
          cases h2
          exact absurd ⟨g2, g3⟩ (h3 sig g1)

/-- C22, amended, at a concrete input: the remote node `2` answers with three
signatures, the first of another key. -/
theorem send_object_accepts_valid_signature_witness :
    (sendObject (envOf (record [0, 3, 6] ++ (record [0, 2, 8] ++ record [0, 2, 9])) none)
      (targetOf "strict" [[1, 2]] [2]) ⟨false, ⟨[2], 2⟩⟩).2.collectedSignatures = [[8]] ∧
    sendObject (envOf (record [0, 3, 6] ++ (record [0, 3, 8] ++ record [0, 3, 9])) none)
      (targetOf "strict" [[1, 2]] [2]) ⟨false, ⟨[2], 2⟩⟩ =
      (some .signaturesNotFound, targetOf "strict" [[1, 2]] [2]) :=
  have h := send_object_accepts_valid_signature
    (envOf (record [0, 3, 6] ++ (record [0, 3, 8] ++ record [0, 3, 9])) none)
    (targetOf "strict" [[1, 2]] [2]) ⟨false, ⟨[2], 2⟩⟩ rfl rfl (by decide)
  ⟨rfl, h.2.2.1 rfl _ [⟨0, 3, [6]⟩, ⟨0, 3, [8]⟩, ⟨0, 3, [9]⟩] rfl rfl (by decide)⟩

/-- C21, counterexample: a node of the container puts a regular object with
the attribute "optimistic".  The placement, one list with the local node, or
the local node and the remote node `2`, succeeds and the signatures are
collected, then `SubmitObjectPut` fails with error `9`: `Close` returns the
zero id and the error "failed to submit ... object meta information", not
the id `5` of the object.  When the submission succeeds it returns `5`. -/
theorem close_optimistic_submit_failure :
    (Close (envOf [] (some 9)) (targetOf "optimistic" [[1]] [1])).outcome =
      .returned 0 (some (.submit 9)) ∧
    (Close (envOf [] (some 9)) (targetOf "optimistic" [[1]] [1])).events =
      [.submitObjectPut [42] [[7]]] ∧
    (Close (envOf (record [0, 2, 8] ++ (record [0, 2, 8] ++ record [0, 2, 8])) (some 9))
      (targetOf "optimistic" [[1, 2]] [2])).outcome = .returned 0 (some (.submit 9)) ∧
    (Close (envOf (record [0, 2, 8] ++ (record [0, 2, 8] ++ record [0, 2, 8])) (some 9))
      (targetOf "optimistic" [[1, 2]] [2])).events = [.submitObjectPut [42] [[7], [8]]] ∧
    (Close (envOf [] none) (targetOf "optimistic" [[1]] [1])).outcome = .returned 5 none := by
  decide

/-- C21, amended: in `Close` with the local node in the container and the
metadata-consistency attribute "optimistic", once the object is stored (the
local write or the placement returned nil) and signatures were collected,
`Close` submits them without subscribing to or awaiting the acceptance: it
returns the id of the object with a nil error when `SubmitObjectPut` returns
nil, and the zero id with the error "failed to submit ... object meta
information" when `SubmitObjectPut` returns an error. -/
theorem close_optimistic_follows_submit (env : Env) (t t1 : Target)
    (hin : t.localNodeInContainer = true) (hattr : t.metainfoConsistencyAttr = "optimistic")
    (hprep : prepare env t = some (.ok t1)) (hstore : (store env t1).1 = some none)
    (hsigs : (store env t1).2.collectedSignatures ≠ []) :
    (Close env t).outcome =
      (match env.submitObjectPut t1.objSharedMeta (store env t1).2.collectedSignatures with
        | some code => .returned 0 (some (.submit code))
        | none => .returned t.obj.id none) ∧
    (Close env t).events =
      [.submitObjectPut t1.objSharedMeta (store env t1).2.collectedSignatures] := by
  obtain ⟨p1, p2, p3, -⟩ := prepare_frame env t t1 hprep
  obtain ⟨-, f2, -, f4, f5, f6, -, -⟩ := store_frame env t1
  have hlen : ¬ (store env t1).2.collectedSignatures.length = 0 :=
    fun h => hsigs (List.length_eq_zero.1 h)
  have hsub : submitMeta env (store env t1).2 =
      (match env.submitObjectPut t1.objSharedMeta (store env t1).2.collectedSignatures with
        | some code =>
          (.returned 0 (some (.submit code)),
            [.submitObjectPut t1.objSharedMeta (store env t1).2.collectedSignatures])
        | none =>
          (.returned t.obj.id none,
            [.submitObjectPut t1.objSharedMeta (store env t1).2.collectedSignatures])) := by
    unfold submitMeta
    rw [f6, p1, hin, f4, p2, hattr, f5, f2, p3]
    simp only [hlen, if_false]
    cases env.submitObjectPut t1.objSharedMeta (store env t1).2.collectedSignatures <;> simp
  unfold Close
  rw [hprep]
  rcases hst : store env t1 with ⟨r, t2⟩
  rw [hst] at hstore hsub
  dsimp only at hstore hsub ⊢
  subst hstore
  simp only [hst, hsub]
  cases env.submitObjectPut t1.objSharedMeta t2.collectedSignatures <;> exact ⟨rfl, rfl⟩

/-- C21, amended, at a concrete input: the placement of the counterexample
with a chain client that accepts, and one that fails. -/
theorem close_optimistic_follows_submit_witness :
    (Close (envOf [] none) (targetOf "optimistic" [[1]] [1])).outcome = .returned 5 none ∧
    (Close (envOf [] (some 9)) (targetOf "optimistic" [[1]] [1])).events =
      [.submitObjectPut [42] [[7]]] :=
  ⟨(close_optimistic_follows_submit (envOf [] none) (targetOf "optimistic" [[1]] [1])
      { targetOf "optimistic" [[1]] [1] with obj := ⟨5, .regular, [], [9]⟩, objSharedMeta := [42] }
      rfl rfl rfl (by decide) (by decide)).1,
    (close_optimistic_follows_submit (envOf [] (some 9)) (targetOf "optimistic" [[1]] [1])
      { targetOf "optimistic" [[1]] [1] with obj := ⟨5, .regular, [], [9]⟩, objSharedMeta := [42] }
      rfl rfl rfl (by decide) (by decide)).2⟩

end PutTarget

namespace PutSvc

/-! ## Claims on giving up a list and on the ranges of the counters -/

/-- C26, the code at a failing input: two replicas required, one list
`[1, 2, 3]`, no node is local, `f` succeeds on every node, and the endpoints of
node `2` do not decode.  The first wave selects node `1`, then meets node `2`:
the check of the conversion-error branch compares the one node behind node `2`
with the two replicas required, ignoring node `1` that is selected and not yet
sent to, and the call returns `errIncompletePut` carrying `errNotEnoughNodes`
for list `0` with 2 required and 1 remaining.  At that point nothing is stored,
`f` was not invoked at all, and two nodes of the list with decodable endpoints
were not attempted: the requirement of 2 is not greater than the 2 nodes left.
The same nodes in the order `[2, 1, 3]` get the object on nodes `1` and `3`
and the call returns nil. -/
theorem iterate_gives_up_with_selected_nodes :
    (iterateNodesForObject (envUndecodable [2]) (iterOf [[1, 2, 3]] [2] false) ()).outcome =
      .returned (some (.errIncompletePut
        (.decodeAddresses (.errNotEnoughNodes 0 2 1) (.ext 9 0)))) ∧
    (iterateNodesForObject (envUndecodable [2]) (iterOf [[1, 2, 3]] [2] false) ()).st.calls =
      [] ∧
    (counterAt (iterateNodesForObject (envUndecodable [2]) (iterOf [[1, 2, 3]] [2] false)
      ()).st.nodesCounters 0).stored = 0 ∧
    (selectNodes (envUndecodable [2]) 0 [nodeOf 1, nodeOf 2, nodeOf 3] 4
      (initState () [[nodeOf 1, nodeOf 2, nodeOf 3]]) 2 []).2 = [1] ∧
    (([nodeOf 1, nodeOf 2, nodeOf 3].filter (fun n =>
      (newNodeResult (envUndecodable [2]) n).convertErr.isNone &&
      !((iterateNodesForObject (envUndecodable [2]) (iterOf [[1, 2, 3]] [2] false)
        ()).st.calls.map Prod.fst).contains n.publicKey)).map (fun n => n.publicKey)) =
      [1, 3] ∧
    ((envUndecodable [2]).f () (newNodeResult (envUndecodable [2]) (nodeOf 1)).desc).1 = none ∧
    ((envUndecodable [2]).f () (newNodeResult (envUndecodable [2]) (nodeOf 3)).desc).1 = none ∧
    (iterateNodesForObject (envUndecodable [2]) (iterOf [[2, 1, 3]] [2] false) ()).outcome =
      .returned none ∧
    (iterateNodesForObject (envUndecodable [2]) (iterOf [[2, 1, 3]] [2] false) ()).st.calls =
      [(1, none), (3, none)] := by
  decide

/-- C28: in `iterateNodesForObject` on the node lists `L` with the replica
numbers `rc` (replica numbers are `uint`s, list lengths are slice lengths), the
counters stay within their ranges: for every list `j` the `stored` counter is at
most `rc[j]` and the `processed` counter is at most the length of the list.
This holds at the entry of the main loop and is kept by every piece of the
loops started in such a state, whatever the number of turns taken: the wave
loop, the selection loop of a wave, the sends of a wave, the loop over the
lists, and so to the end of the call.  The selection loop of a wave leaves at
most as many selected keys as replicas are still needed.  In such a state the
unsigned subtractions `replCounts[i] - stored`, `listLen - processed` and, under
the guard `processed < listLen`, `listLen - processed - 1` are the exact
differences.  One turn of the wave loop either leaves the loop or goes on from
a state of the same kind with more processed nodes, and the call never exhausts
the step budget of the model: the loops terminate. -/
theorem counters_stay_capped {σ : Type} (env : Env σ) (x : PlacementIterator) (w : σ)
    (L0 L : List (List NetmapNodeInfo)) (rc : List Nat)
    (hsort : x.sortForObject = .ok L0) (heff : effectiveLists x L0 = (L, rc))
    (hrc : ∀ c ∈ rc, c < uintSize) (hlens : ∀ l ∈ L, l.length < uintSize) :
    Capped L rc (initState w L) ∧
    (∀ (st : IterState σ), Capped L rc st → ∀ i, i < L.length →
      (∀ fuel, Capped L rc (waves env rc i (L.getD i []) fuel st).st) ∧
      (∀ fuel,
        Capped L rc (selectNodes env i (L.getD i []) fuel st
          (usub (rc.getD i 0) (counterAt st.nodesCounters i).stored) []).1.st ∧
        (counterAt (selectNodes env i (L.getD i []) fuel st
          (usub (rc.getD i 0) (counterAt st.nodesCounters i).stored) []).1.st.nodesCounters
            i).stored +
          (selectNodes env i (L.getD i []) fuel st
            (usub (rc.getD i 0) (counterAt st.nodesCounters i).stored) []).2.length ≤
              rc.getD i 0) ∧
      (∀ pending, (counterAt st.nodesCounters i).stored + pending.length ≤ rc.getD i 0 →
        Capped L rc (dispatchWave env i pending st).st) ∧
      usub (rc.getD i 0) (counterAt st.nodesCounters i).stored =
        rc.getD i 0 - (counterAt st.nodesCounters i).stored ∧
      usub (L.getD i []).length (counterAt st.nodesCounters i).processed =
        (L.getD i []).length - (counterAt st.nodesCounters i).processed ∧
      ((counterAt st.nodesCounters i).processed < (L.getD i []).length →
        usub (usub (L.getD i []).length (counterAt st.nodesCounters i).processed) 1 =
          (L.getD i []).length - (counterAt st.nodesCounters i).processed - 1) ∧
      (((waves env rc i (L.getD i []) 1 st).sig ≠ .outOfFuel ∧
          ∀ fuel, waves env rc i (L.getD i []) (fuel + 1) st =
            waves env rc i (L.getD i []) 1 st) ∨
        ∃ st1, Capped L rc st1 ∧
          (counterAt st.nodesCounters i).processed <
            (counterAt st1.nodesCounters i).processed ∧
          ∀ fuel, waves env rc i (L.getD i []) (fuel + 1) st =
            waves env rc i (L.getD i []) fuel st1)) ∧
    (∀ (st : IterState σ), Capped L rc st → ∀ i,
      Capped L rc (mainLoop env rc (L.drop i) i st).st) ∧
    (iterateNodesForObject env x w).outcome ≠ .outOfFuel ∧
    Capped L rc (iterateNodesForObject env x w).st := by
  have hgetD : ∀ i, i < L.length → (L.getD i []).length < uintSize := by
    intro i hi
    apply hlens
    rw [List.getD_eq_getElem?_getD, List.getElem?_eq_getElem hi]
    exact List.getElem_mem _
  refine ⟨initState_capped w L rc, ?_, ?_, ?_, ?_⟩
  · intro st h i hi
    have hR := getD_lt_uintSize rc hrc i
    have hst := h.stored_le i
    have hp := h.proc_le i
    have hlen := hgetD i hi
    have hus : usub (rc.getD i 0) (counterAt st.nodesCounters i).stored =
        rc.getD i 0 - (counterAt st.nodesCounters i).stored := usub_eq_sub hR hst
    have hul : usub (L.getD i []).length (counterAt st.nodesCounters i).processed =
        (L.getD i []).length - (counterAt st.nodesCounters i).processed :=
      usub_eq_sub hlen hp
    refine ⟨fun fuel => waves_capped env L rc hrc i fuel st h, fun fuel => ?_,
      fun pending hroom => dispatchWave_capped env L rc i pending st h hroom, hus, hul,
      fun hlt => ?_, waves_turn env L rc hrc i hi hlen st h⟩
    · exact selectNodes_capped env L rc hrc i fuel st _ [] h (by rw [hus]; omega)
        (Nat.zero_le _)
    · rw [hul]
      exact usub_eq_sub (by omega) (by omega)
  · intro st h i
    exact mainLoop_capped env L rc hrc (L.drop i) i st rfl h
  · apply iterate_terminates
    intro L1 hL1
    rw [hsort] at hL1
    cases hL1
    rw [heff]
    exact hlens
  · have hrun : iterateNodesForObject env x w =
        finish env x.broadcast L (mainLoop env rc L 0 (initState w L)) := by
      unfold iterateNodesForObject
      rw [hsort]
      dsimp only
      rw [heff]
    rw [hrun]
    exact finish_capped env L rc x.broadcast L _
      (mainLoop_capped env L rc hrc L 0 _ rfl (initState_capped w L rc))

/-- C28 at a concrete input: two lists sharing node `3`, two replicas and one
replica required, node `1` is local, `f` fails on node `2`, broadcast. -/
theorem counters_stay_capped_witness :
    (iterateNodesForObject (envOf 1 [(2, 5)] none) (iterOf [[1, 2, 3], [3, 4]] [2, 1] true)
      ()).outcome ≠ .outOfFuel ∧
    Capped [[nodeOf 1, nodeOf 2, nodeOf 3], [nodeOf 3, nodeOf 4]] [2, 1]
      (iterateNodesForObject (envOf 1 [(2, 5)] none) (iterOf [[1, 2, 3], [3, 4]] [2, 1] true)
        ()).st :=
  (counters_stay_capped (envOf 1 [(2, 5)] none) (iterOf [[1, 2, 3], [3, 4]] [2, 1] true) ()
    [[nodeOf 1, nodeOf 2, nodeOf 3], [nodeOf 3, nodeOf 4]]
    [[nodeOf 1, nodeOf 2, nodeOf 3], [nodeOf 3, nodeOf 4]] [2, 1] rfl rfl (by decide)
    (by decide)).2.2.2

end PutSvc
